import Mathlib

/-!
# VRF registry and forwarding-graph wiring (vswitch/vrf.go)

A shallow embedding of the control-plane code of `vswitch/vrf.go`.

* Go pointers to `VRF` objects are addresses into a heap (`World.vrfs`); an
  address is the position of the object in the heap, and `&VRF{...}` appends.
* Go maps are association lists with unique keys (`mapGet`, `mapSet`,
  `mapDelete`).
* The fixed array `byIndex [MaxVRF]*VRF` is a list of optional addresses;
  `len(vm.byIndex)` is the length of that list.
* A Go run-time panic (array index out of range, nil dereference) is the
  result `none`.
* The `int` cursor `nextIndex` and the loop variables of `findSlot` are
  natural numbers: the code only ever stores `(i + 1) % len(vm.byIndex)` in
  the cursor, and no arithmetic on them can overflow. Route distinguishers
  (`uint64`) and indices are natural numbers too; the code compares and stores
  them and never computes with them.
* An `error` value is represented by the step it comes from (`Err`).
* The forwarding modules, the VIFs, the global VIF-index space and the
  notification bus are collaborators that are not part of the repository
  sources; they are modelled from their interface description and every
  fallible call of theirs takes its outcome from an explicit argument.
-/

namespace Vsw

/-! ## Go maps -/

section GoMap

variable {κ : Type} {β : Type} [DecidableEq κ]

/-- Lookup `m[k]`. -/
def mapGet : List (κ × β) → κ → Option β
  | [], _ => none
  | e :: m, k => if e.1 = k then some e.2 else mapGet m k

/-- The builtin `delete(m, k)`. -/
def mapDelete : List (κ × β) → κ → List (κ × β)
  | [], _ => []
  | e :: m, k => if e.1 = k then mapDelete m k else e :: mapDelete m k

/-- Assignment `m[k] = v`. -/
def mapSet (m : List (κ × β)) (k : κ) (v : β) : List (κ × β) :=
  (k, v) :: mapDelete m k

/-- The comma-ok test `_, exists := m[k]`. -/
def mapHas (m : List (κ × β)) (k : κ) : Bool :=
  (mapGet m k).isSome

end GoMap

/-- Update of the object stored at position `i`. -/
def updAt {α : Type} : List α → Nat → (α → α) → List α
  | [], _, _ => []
  | a :: l, 0, f => f a :: l
  | a :: l, i + 1, f => a :: updAt l i f

/-! ## Data model -/

abbrev VRFIndex := Nat
abbrev VIFIndex := Nat
/-- Address of a `VRF` object. -/
abbrev VRFPtr := Nat
/-- Address of a `VIF` object. -/
abbrev VIFPtr := Nat
/-- Address of a module instance (`*BaseInstance`, `*router`). -/
abbrev InstPtr := Nat

/-- The interface type `OutputDevice`: a `*VIF` or a `*VRF`. -/
inductive OutputDevice where
  | vif (p : VIFPtr)
  | vrf (p : VRFPtr)
  deriving DecidableEq, Repr

/-- Match kinds used by `vrf.go`. -/
inductive VswMatch where
  | MatchIPv4DstSelf
  | MatchOutVIF
  | MatchEthDstSelf
  | MatchEthDstBC
  | MatchEthDstMC
  | MatchIPv4Dst
  | Match5Tuple
  | MatchVxLAN
  deriving DecidableEq, Repr

/-- Port range of a five-tuple. -/
structure PortRange where
  Start : Nat
  End : Nat
  deriving DecidableEq, Repr

/-- Five-tuple match parameter. -/
structure FiveTuple where
  SrcIP : Option Nat
  DstIP : Option Nat
  SrcPort : Option PortRange
  DstPort : Option PortRange
  Proto : Option Nat
  deriving DecidableEq, Repr

/-- VxLAN match parameter. -/
structure VxLAN where
  Src : Nat
  Dst : Nat
  DstPort : Nat
  VNI : Nat
  deriving DecidableEq, Repr

/-- The untyped match parameter of `connect` and `disconnect`. -/
inductive Param where
  | nil
  | vif (p : VIFPtr)
  | addr (a : Nat)
  | fiveTuple (ft : FiveTuple)
  | vxlan (x : VxLAN)
  deriving DecidableEq, Repr

/-- Ring handles passed to `connect`. -/
inductive Ring where
  | instInput (i : InstPtr)
  | vifOutbound (p : VIFPtr)
  | vifInbound (p : VIFPtr)
  | ifInbound (p : Nat)
  deriving DecidableEq, Repr

/-- One connection of a module or of a VIF. -/
structure Rule where
  kind : VswMatch
  param : Param
  ring : Ring
  deriving DecidableEq, Repr

/-- The struct `VRF`. The embedded tables are recorded by their presence. -/
structure VRF where
  name : String
  devs : List (VIFIndex × OutputDevice)
  router : Option InstPtr
  tap : Option InstPtr
  enabled : Bool
  index : VRFIndex
  vifIndex : VIFIndex
  rd : Nat
  routingTable : Bool
  pbr : Bool
  deriving DecidableEq, Repr

/-- The struct `vrfManager` (the mutex and the compiled pattern are left out). -/
structure vrfManager where
  byName : List (String × VRFPtr)
  byIndex : List (Option VRFPtr)
  nextIndex : Nat
  rds : List (Nat × Unit)
  deriving DecidableEq, Repr

/-- Modelled from the spec: a forwarding module instance (tap or router) with
its connections, the VIFs routed into it, the output devices added to it and
the VIFs with NAPT enabled; `freed` is set by `free()`. -/
structure Instance where
  module : String
  name : String
  owner : String
  rules : List Rule
  vifs : List VIFPtr
  outDevs : List OutputDevice
  napt : List VIFPtr
  enabled : Bool
  freed : Bool
  deriving DecidableEq, Repr

/-- Modelled from the spec: the security mode of a tunnel. -/
inductive Security where
  | SecurityNone
  | SecurityIPSec
  deriving DecidableEq, Repr

/-- Modelled from the spec: the encapsulation method of a tunnel; `other`
stands for every method that is neither GRE nor VxLAN. -/
inductive EncapsMethod where
  | EncapsMethodGRE
  | EncapsMethodVxLAN
  | other (n : Nat)
  deriving DecidableEq, Repr

/-- Modelled from the spec: a tunnel attribute, with the values returned by
`LocalAddress`, `RemoteAddresses`, `Security`, `EncapsMethod`, `IPProto`,
`VxLANPort` and `VNI`. -/
structure Tunnel where
  local_ : Nat
  remotes : List Nat
  security : Security
  encaps : EncapsMethod
  ipProto : Nat
  vxlanPort : Nat
  vni : Nat
  deriving DecidableEq, Repr

/-- Modelled from the spec: a VIF with its index, the VRF it is bound to, its
connections, its tunnel attribute and its NAPT flag. -/
structure VIF where
  index : VIFIndex
  vrf : Option VRFPtr
  rules : List Rule
  tunnel : Option Tunnel
  napt : Bool
  deriving DecidableEq, Repr

/-- Kind of a notification. -/
inductive NotiKind where
  | Add
  | Delete
  deriving DecidableEq, Repr

/-- Modelled from the spec: a next-hop of a route or PBR entry; `Dev` may be nil. -/
structure Nexthop where
  Dev : Option OutputDevice
  deriving DecidableEq, Repr

/-- Modelled from the spec: a route entry with its next-hops and its own
device; `id` stands for the fields that `vrf.go` does not read. -/
structure Route where
  id : Nat
  Dev : Option OutputDevice
  Nexthops : List Nexthop
  deriving DecidableEq, Repr

/-- Modelled from the spec: a PBR entry with its next-hops. -/
structure PBREntry where
  id : Nat
  NextHops : List Nexthop
  deriving DecidableEq, Repr

/-- Detail of a notification. -/
inductive NotiDetail where
  | nil
  | vif (p : VIFPtr)
  | route (entry : Route)
  | pbr (entry : PBREntry)
  deriving DecidableEq, Repr

/-- One call of `noti.Notify`. -/
structure Notification where
  kind : NotiKind
  subject : VRFPtr
  detail : NotiDetail
  deriving DecidableEq, Repr

/-- The whole state the package works on. -/
structure World where
  vrfMgr : vrfManager
  vrfs : List VRF
  vifIdxMgr : List (VIFIndex × OutputDevice)
  insts : List Instance
  vifs : List VIF
  noti : List Notification
  deriving DecidableEq, Repr

/-- Value of `vrfMgr` at package initialisation, for an array of `MaxVRF` slots. -/
def vrfMgrInit (MaxVRF : Nat) : vrfManager :=
  { byName := [], byIndex := List.replicate MaxVRF none, nextIndex := 0, rds := [] }

/-- State in which no VRF was ever created; the VIFs of the system are given. -/
def World.empty (MaxVRF : Nat) (vifs : List VIF) : World :=
  { vrfMgr := vrfMgrInit MaxVRF, vrfs := [], vifIdxMgr := [], insts := [], vifs := vifs,
    noti := [] }

/-! ## Index allocation -/

/-- The three assignments of `findSlot` once slot `i` is found empty. The
conversion `VRFIndex(i)` keeps the value: `VRFIndex` holds every index of the
array. -/
def takeSlot (w : World) (vrf : VRFPtr) (i : Nat) : World :=
  { w with
    vrfs := updAt w.vrfs vrf (fun o => { o with index := i })
    vrfMgr := { w.vrfMgr with
                byIndex := w.vrfMgr.byIndex.set i (some vrf)
                nextIndex := (i + 1) % w.vrfMgr.byIndex.length } }

/-- Loop of `findSlot`: `n` iterations are left and `i` is the loop variable. -/
def findSlotLoop (w : World) (vrf : VRFPtr) : Nat → Nat → Option (World × Bool)
  | 0, _ => some (w, false)
  | n + 1, i =>
    match w.vrfMgr.byIndex[i]? with
    | none => none
    | some (some _) => findSlotLoop w vrf n (i + 1)
    | some none =>
      match w.vrfs[vrf]? with
      | none => none
      | some _ => some (takeSlot w vrf i, true)

/-- The method `vrfManager.findSlot`. -/
def findSlot (w : World) (vrf : VRFPtr) (frm upto : Nat) : Option (World × Bool) :=
  findSlotLoop w vrf (upto - frm) frm

/-- The method `vrfManager.assignIndex`. -/
def assignIndex (w : World) (vrf : VRFPtr) : Option (World × Bool) :=
  match findSlot w vrf w.vrfMgr.nextIndex w.vrfMgr.byIndex.length with
  | none => none
  | some (w1, true) => some (w1, true)
  | some (w1, false) => findSlot w1 vrf 0 w1.vrfMgr.nextIndex

/-- The method `vrfManager.releaseIndex`. -/
def releaseIndex (w : World) (vrf : VRFPtr) : Option World :=
  match w.vrfs[vrf]? with
  | none => none
  | some o =>
    if o.index < w.vrfMgr.byIndex.length then
      some { w with vrfMgr := { w.vrfMgr with byIndex := w.vrfMgr.byIndex.set o.index none } }
    else none

/-! ## Collaborators -/

/-- Origin of an error value returned by one of the operations. -/
inductive Err where
  | invalidName
  | alreadyExists
  | noSpace
  | vifIndex
  | tapCreate
  | routerCreate
  | routerConnect
  | rdExists
  | setVRF
  | addVIF
  | tapConnect
  | dstSelf
  | dstBC
  | dstMC
  | enableNAPT
  | notFound
  | notVRF
  | addOutputDevice
  | notTunnel
  | noRemote
  | tunnelOutbound
  | tunnelInbound
  | tunnelNAT
  | unsupportedEncaps
  | listen
  deriving DecidableEq, Repr

/-- The call `noti.Notify(kind, v, detail)`. -/
def notify (w : World) (kind : NotiKind) (v : VRFPtr) (detail : NotiDetail) : World :=
  { w with noti := w.noti ++ [{ kind := kind, subject := v, detail := detail }] }

/-- Modelled from the spec: `allocate(owner) -> index, error` of the global
VIF-index space. `pick` is the index the allocator settles on, `none` when it
has none left; an index that is in use is never handed out. -/
def allocVIFIndex (w : World) (owner : OutputDevice) (pick : Option VIFIndex) :
    World × Option VIFIndex :=
  match pick with
  | none => (w, none)
  | some i =>
    if mapHas w.vifIdxMgr i then (w, none)
    else ({ w with vifIdxMgr := mapSet w.vifIdxMgr i owner }, some i)

/-- Modelled from the spec: `release(index) -> error` of the global VIF-index
space; releasing an index that is not in use is the error. -/
def freeVIFIndex (w : World) (i : VIFIndex) : World × Bool :=
  if mapHas w.vifIdxMgr i then ({ w with vifIdxMgr := mapDelete w.vifIdxMgr i }, true)
  else (w, false)

/-- Modelled from the spec: creation of a module instance (`newInstance`,
`newRouter`); `ok` is the outcome of the call. -/
def newInstance (w : World) (module name owner : String) (ok : Bool) : World × Option InstPtr :=
  if ok then
    ({ w with insts := w.insts ++ [Instance.mk module name owner [] [] [] [] false false] },
     some w.insts.length)
  else (w, none)

/-- Modelled from the spec: `free()` of a module instance. -/
def instFree (w : World) (i : InstPtr) : World :=
  { w with insts := updAt w.insts i (fun m => { m with freed := true }) }

/-- Modelled from the spec: `connect(ring, matchKind, matchParam) -> error` of a
module; a failed call makes no connection. -/
def instConnect (w : World) (i : InstPtr) (ring : Ring) (kind : VswMatch) (param : Param)
    (ok : Bool) : World × Bool :=
  if ok then
    ({ w with insts := updAt w.insts i (fun m =>
        { m with rules := m.rules ++ [{ kind := kind, param := param, ring := ring }] }) }, true)
  else (w, false)

/-- Modelled from the spec: `disconnect(matchKind, matchParam)` of a module. -/
def instDisconnect (w : World) (i : InstPtr) (kind : VswMatch) (param : Param) : World :=
  { w with insts := updAt w.insts i (fun m =>
      { m with rules := m.rules.filter (fun r => !(r.kind = kind ∧ r.param = param)) }) }

/-- Modelled from the spec: `addVIF(vif) -> error` of the router. -/
def routerAddVIF (w : World) (r : InstPtr) (vif : VIFPtr) (ok : Bool) : World × Bool :=
  if ok then ({ w with insts := updAt w.insts r (fun m => { m with vifs := m.vifs ++ [vif] }) }, true)
  else (w, false)

/-- Modelled from the spec: `deleteVIF(vif)` of the router; the error it may
return is dropped by every caller. -/
def routerDeleteVIF (w : World) (r : InstPtr) (vif : VIFPtr) : World :=
  { w with insts := updAt w.insts r (fun m => { m with vifs := m.vifs.filter (fun p => p ≠ vif) }) }

/-- Modelled from the spec: `enableNAPT(vif) -> error` of the router. -/
def routerEnableNAPT (w : World) (r : InstPtr) (vif : VIFPtr) (ok : Bool) : World × Bool :=
  if ok then ({ w with insts := updAt w.insts r (fun m => { m with napt := m.napt ++ [vif] }) }, true)
  else (w, false)

/-- Modelled from the spec: `setVRF(vrf-or-none) -> error` of a VIF. A VIF is
attachable to exactly one VRF, so binding a bound VIF is an error; unbinding
always takes effect. -/
def vifSetVRF (w : World) (vif : VIFPtr) (vrf : Option VRFPtr) (ok : Bool) : World × Bool :=
  match vrf with
  | none => ({ w with vifs := updAt w.vifs vif (fun f => { f with vrf := none }) }, true)
  | some v =>
    match w.vifs[vif]? with
    | some f =>
      if ok && f.vrf.isNone then
        ({ w with vifs := updAt w.vifs vif (fun g => { g with vrf := some v }) }, true)
      else (w, false)
    | none => (w, false)

/-- Modelled from the spec: `connect` of a VIF. -/
def vifConnect (w : World) (vif : VIFPtr) (ring : Ring) (kind : VswMatch) (param : Param)
    (ok : Bool) : World × Bool :=
  if ok then
    ({ w with vifs := updAt w.vifs vif (fun f =>
        { f with rules := f.rules ++ [{ kind := kind, param := param, ring := ring }] }) }, true)
  else (w, false)

/-- Modelled from the spec: `disconnect` of a VIF. -/
def vifDisconnect (w : World) (vif : VIFPtr) (kind : VswMatch) (param : Param) : World :=
  { w with vifs := updAt w.vifs vif (fun f =>
      { f with rules := f.rules.filter (fun r => !(r.kind = kind ∧ r.param = param)) }) }

/-- The pattern of `vrfMgr.re`, matched by `MatchString` against the whole of
`name`: the letters v, r, f and then one or more of the digits 0 to 9. -/
def reMatchString (name : String) : Bool :=
  match name.toList with
  | 'v' :: 'r' :: 'f' :: d :: ds => (d :: ds).all Char.isDigit
  | _ => false

/-! ## Operations of `vrf.go` -/

/-- Result of `NewVRF`: the new VRF or an error. -/
inductive Result where
  | ok (v : VRFPtr)
  | error (e : Err)
  deriving DecidableEq, Repr

/-- Outcomes of the collaborator calls made by `NewVRF`. -/
structure NewVRFExt where
  vifIndex : Option VIFIndex
  tap : Bool
  router : Bool
  connect : Bool
  deriving DecidableEq, Repr

/-- Label `error1` of `NewVRF`. -/
def newVRFError1 (w : World) (vrf : VRFPtr) (e : Err) : Option (World × Result) :=
  match releaseIndex w vrf with
  | none => none
  | some w1 => some (w1, Result.error e)

/-- Label `error2` of `NewVRF`, falling through to `error1`. -/
def newVRFError2 (w : World) (vrf : VRFPtr) (tap : InstPtr) (e : Err) : Option (World × Result) :=
  newVRFError1 (instFree w tap) vrf e

/-- Label `error3` of `NewVRF`, falling through to `error2`. -/
def newVRFError3 (w : World) (vrf : VRFPtr) (tap router : InstPtr) (e : Err) :
    Option (World × Result) :=
  newVRFError2 (instFree w router) vrf tap e

/-- The object built by the composite literal in `NewVRF`. -/
def VRF.new (name : String) : VRF :=
  { name := name, devs := [], router := none, tap := none, enabled := false, index := 0,
    vifIndex := 0, rd := 0, routingTable := false, pbr := false }

/-- The part of `NewVRF` after the VRF index is assigned: the VIF index, the
two modules, their connection and the registration. -/
def newVRFBuild (w : World) (vrf : VRFPtr) (name : String) (x : NewVRFExt) :
    Option (World × Result) :=
  match allocVIFIndex w (OutputDevice.vrf vrf) x.vifIndex with
  | (w2, none) =>
    match releaseIndex w2 vrf with
    | none => none
    | some w3 => some (w3, Result.error Err.vifIndex)
  | (w2, some vifIndex) =>
    let w3 : World := { w2 with vrfs := updAt w2.vrfs vrf (fun o => { o with vifIndex := vifIndex }) }
    match newInstance w3 "tap" (name ++ "-tap") name x.tap with
    | (w4, none) => newVRFError1 w4 vrf Err.tapCreate
    | (w4, some tap) =>
      let w5 : World := { w4 with vrfs := updAt w4.vrfs vrf (fun o => { o with tap := some tap }) }
      match newInstance w5 "router" name name x.router with
      | (w6, none) => newVRFError2 w6 vrf tap Err.routerCreate
      | (w6, some router) =>
        let w7 : World :=
          { w6 with vrfs := updAt w6.vrfs vrf (fun o => { o with router := some router }) }
        match instConnect w7 router (Ring.instInput tap) VswMatch.MatchIPv4DstSelf Param.nil
            x.connect with
        | (w8, false) => newVRFError3 w8 vrf tap router Err.routerConnect
        | (w8, true) =>
          let w9 : World :=
            { w8 with
              vrfs := updAt w8.vrfs vrf
                (fun o => { o with routingTable := true, devs := [], pbr := true })
              vrfMgr := { w8.vrfMgr with byName := mapSet w8.vrfMgr.byName name vrf } }
          some (notify w9 NotiKind.Add vrf NotiDetail.nil, Result.ok vrf)

/-- The function `NewVRF`. -/
def NewVRF (w : World) (name : String) (x : NewVRFExt) : Option (World × Result) :=
  if !reMatchString name then some (w, Result.error Err.invalidName)
  else if mapHas w.vrfMgr.byName name then some (w, Result.error Err.alreadyExists)
  else
    let vrf : VRFPtr := w.vrfs.length
    let w0 : World := { w with vrfs := w.vrfs ++ [VRF.new name] }
    match assignIndex w0 vrf with
    | none => none
    | some (w1, false) => some (w1, Result.error Err.noSpace)
    | some (w1, true) => newVRFBuild w1 vrf name x

/-- Outcomes of the collaborator calls made by `AddVIF`. -/
structure AddVIFExt where
  setVRF : Bool
  addVIF : Bool
  tapConnect : Bool
  dstSelf : Bool
  dstBC : Bool
  dstMC : Bool
  enableNAPT : Bool
  deriving DecidableEq, Repr

/-- Label `error1` of `AddVIF`. -/
def addVIFError1 (w : World) (vif : VIFPtr) : World :=
  (vifSetVRF w vif none true).1

/-- Label `error2` of `AddVIF`, falling through to `error1`. -/
def addVIFError2 (w : World) (router : InstPtr) (vif : VIFPtr) : World :=
  addVIFError1 (routerDeleteVIF w router vif) vif

/-- Label `error3` of `AddVIF`, falling through to `error2`. -/
def addVIFError3 (w : World) (tap router : InstPtr) (vif : VIFPtr) : World :=
  addVIFError2 (instDisconnect w tap VswMatch.MatchOutVIF (Param.vif vif)) router vif

/-- Label `error4` of `AddVIF`, falling through to `error3`. -/
def addVIFError4 (w : World) (tap router : InstPtr) (vif : VIFPtr) : World :=
  addVIFError3 (vifDisconnect w vif VswMatch.MatchEthDstSelf Param.nil) tap router vif

/-- Label `error5` of `AddVIF`, falling through to `error4`. -/
def addVIFError5 (w : World) (tap router : InstPtr) (vif : VIFPtr) : World :=
  addVIFError4 (vifDisconnect w vif VswMatch.MatchEthDstBC Param.nil) tap router vif

/-- Label `error6` of `AddVIF`, falling through to `error5`. -/
def addVIFError6 (w : World) (tap router : InstPtr) (vif : VIFPtr) : World :=
  addVIFError5 (vifDisconnect w vif VswMatch.MatchEthDstMC Param.nil) tap router vif

/-- The part of `AddVIF` from the three VIF connects on; `tap` is `v.tap`,
read where the code first dereferences it. -/
def addVIFConnects (w : World) (v : VRFPtr) (o : VRF) (router : InstPtr) (vif : VIFPtr) (f : VIF)
    (x : AddVIFExt) : Option (World × Option Err) :=
  match vifConnect w vif (Ring.instInput router) VswMatch.MatchEthDstSelf Param.nil x.dstSelf with
  | (w1, false) =>
    match o.tap with
    | none => none
    | some tap => some (addVIFError3 w1 tap router vif, some Err.dstSelf)
  | (w1, true) =>
    match vifConnect w1 vif (Ring.instInput router) VswMatch.MatchEthDstBC Param.nil x.dstBC with
    | (w2, false) =>
      match o.tap with
      | none => none
      | some tap => some (addVIFError4 w2 tap router vif, some Err.dstBC)
    | (w2, true) =>
      match vifConnect w2 vif (Ring.instInput router) VswMatch.MatchEthDstMC Param.nil x.dstMC with
      | (w3, false) =>
        match o.tap with
        | none => none
        | some tap => some (addVIFError5 w3 tap router vif, some Err.dstMC)
      | (w3, true) =>
        match (if f.napt then routerEnableNAPT w3 router vif x.enableNAPT else (w3, true)) with
        | (w4, false) =>
          match o.tap with
          | none => none
          | some tap => some (addVIFError6 w4 tap router vif, some Err.enableNAPT)
        | (w4, true) =>
          let w5 : World :=
            { w4 with vrfs := updAt w4.vrfs v (fun o1 =>
                { o1 with devs := mapSet o1.devs f.index (OutputDevice.vif vif) }) }
          some (notify w5 NotiKind.Add v (NotiDetail.vif vif), none)

/-- The method `VRF.AddVIF`. -/
def AddVIF (w : World) (v : VRFPtr) (vif : VIFPtr) (x : AddVIFExt) : Option (World × Option Err) :=
  match w.vrfs[v]?, w.vifs[vif]? with
  | some o, some f =>
    if mapHas o.devs f.index then some (w, none)
    else
      match vifSetVRF w vif (some v) x.setVRF with
      | (w1, false) => some (w1, some Err.setVRF)
      | (w1, true) =>
        match o.router with
        | none => none
        | some router =>
          match routerAddVIF w1 router vif x.addVIF with
          | (w2, false) => some (addVIFError1 w2 vif, some Err.addVIF)
          | (w2, true) =>
            if f.tunnel.isNone then
              match o.tap with
              | none => none
              | some tap =>
                match instConnect w2 tap (Ring.vifOutbound vif) VswMatch.MatchOutVIF (Param.vif vif)
                    x.tapConnect with
                | (w3, false) => some (addVIFError2 w3 router vif, some Err.tapConnect)
                | (w3, true) => addVIFConnects w3 v o router vif f x
            else addVIFConnects w2 v o router vif f x
  | _, _ => none

/-- The method `VRF.DeleteVIF`. -/
def DeleteVIF (w : World) (v : VRFPtr) (vif : VIFPtr) : Option (World × Option Err) :=
  match w.vrfs[v]?, w.vifs[vif]? with
  | some o, some f =>
    if !mapHas o.devs f.index then some (w, some Err.notFound)
    else
      match o.tap, o.router with
      | some tap, some router =>
        let w1 := instDisconnect w tap VswMatch.MatchOutVIF (Param.vif vif)
        let w2 := vifDisconnect w1 vif VswMatch.MatchEthDstSelf Param.nil
        let w3 := vifDisconnect w2 vif VswMatch.MatchEthDstBC Param.nil
        let w4 := vifDisconnect w3 vif VswMatch.MatchEthDstMC Param.nil
        let w5 := (vifSetVRF w4 vif none true).1
        let w6 := routerDeleteVIF w5 router vif
        let w7 : World :=
          { w6 with vrfs := updAt w6.vrfs v (fun o1 => { o1 with devs := mapDelete o1.devs f.index }) }
        some (notify w7 NotiKind.Delete v (NotiDetail.vif vif), none)
      | _, _ => none
  | _, _ => none

/-- Body of the range loop of `Free` for the entry `k`, `dev`: an entry that
was deleted before it is reached is not visited, a VIF is detached, any other
device is skipped. -/
def freeDev (w : World) (v : VRFPtr) (k : VIFIndex) (dev : OutputDevice) : Option World :=
  match w.vrfs[v]? with
  | none => none
  | some o =>
    if mapHas o.devs k then
      match dev with
      | OutputDevice.vif vif =>
        match DeleteVIF w v vif with
        | none => none
        | some (w1, _) => some w1
      | OutputDevice.vrf _ => some w
    else some w

/-- The range loop of `Free` over `v.devs`; the entries are visited in the
order of the given list. -/
def freeDevs (w : World) (v : VRFPtr) : List (VIFIndex × OutputDevice) → Option World
  | [] => some w
  | e :: rest =>
    match freeDev w v e.1 e.2 with
    | none => none
    | some w1 => freeDevs w1 v rest

/-- The tail of `Free` after the modules are gone: both registry collections,
the indices, the route distinguisher and the notification. -/
def freeRegistry (w : World) (v : VRFPtr) : Option World :=
  match w.vrfs[v]? with
  | none => none
  | some o =>
    let w1 : World := { w with vrfMgr := { w.vrfMgr with byName := mapDelete w.vrfMgr.byName o.name } }
    match releaseIndex w1 v with
    | none => none
    | some w2 =>
      let w3 := (freeVIFIndex w2 o.vifIndex).1
      let w4 : World :=
        if o.rd ≠ 0 then { w3 with vrfMgr := { w3.vrfMgr with rds := mapDelete w3.vrfMgr.rds o.rd } }
        else w3
      some (notify w4 NotiKind.Delete v NotiDetail.nil)

/-- The method `VRF.Free`. The range loop over the map `v.devs` visits the
entries in an order that Go leaves open; `order` is the order of this call, an
arrangement of the entries that `v.devs` has when the loop starts. -/
def Free (w : World) (v : VRFPtr) (order : List (VIFIndex × OutputDevice)) : Option World :=
  match w.vrfs[v]? with
  | none => none
  | some o =>
    match freeDevs w v order with
    | none => none
    | some w1 =>
      match o.router, o.tap with
      | some router, some tap =>
        freeRegistry
          (instFree (instFree (instDisconnect w1 router VswMatch.MatchIPv4DstSelf Param.nil) tap)
            router) v
      | _, _ => none

/-- The list `order` is an arrangement of the entries of `v.devs`, that is, an
order in which a range loop over the map can visit them. -/
def rangeOrder (w : World) (v : VRFPtr) (order : List (VIFIndex × OutputDevice)) : Bool :=
  match w.vrfs[v]? with
  | some o => order.isPerm o.devs
  | none => false

/-- The method `VRF.SetRD`. -/
def SetRD (w : World) (v : VRFPtr) (rd : Nat) : Option (World × Option Err) :=
  match w.vrfs[v]? with
  | none => none
  | some o =>
    let oldrd := o.rd
    if mapHas w.vrfMgr.rds rd then some (w, some Err.rdExists)
    else
      let w1 : World :=
        { w with
          vrfs := updAt w.vrfs v (fun o1 => { o1 with rd := rd })
          vrfMgr := { w.vrfMgr with rds := mapSet w.vrfMgr.rds rd () } }
      let w2 : World :=
        if oldrd ≠ 0 then { w1 with vrfMgr := { w1.vrfMgr with rds := mapDelete w1.vrfMgr.rds oldrd } }
        else w1
      some (w2, none)

/-- The function `GetVRFByName`. -/
def GetVRFByName (w : World) (name : String) : Option VRFPtr :=
  mapGet w.vrfMgr.byName name

/-- The function `GetVRFByIndex`; an index outside the array is a panic. -/
def GetVRFByIndex (w : World) (index : VRFIndex) : Option (Option VRFPtr) :=
  w.vrfMgr.byIndex[index]?

/-! ## Device registration -/

/-- Modelled from the spec: `addOutputDevice(dev) -> error` of the router. -/
def routerAddOutputDevice (w : World) (r : InstPtr) (dev : OutputDevice) (ok : Bool) :
    World × Bool :=
  if ok then
    ({ w with insts := updAt w.insts r (fun m => { m with outDevs := m.outDevs ++ [dev] }) }, true)
  else (w, false)

/-- The method `VIFIndex()` of an `OutputDevice`: the index of a VIF, the
`vifIndex` of a VRF; `none` is the nil dereference. -/
def OutputDevice.VIFIndex (w : World) : OutputDevice → Option VIFIndex
  | OutputDevice.vif p => (w.vifs[p]?).map VIF.index
  | OutputDevice.vrf q => (w.vrfs[q]?).map VRF.vifIndex

/-- The method `VRF.registerOutputDevice`; `ok` is the outcome of
`router.addOutputDevice` should it be called. -/
def registerOutputDevice (w : World) (v : VRFPtr) (dev : OutputDevice) (ok : Bool) :
    Option (World × Option Err) :=
  match w.vrfs[v]?, dev.VIFIndex w with
  | some o, some idx =>
    if mapHas o.devs idx then some (w, none)
    else
      match dev with
      | OutputDevice.vif _ => some (w, some Err.notVRF)
      | OutputDevice.vrf _ =>
        match o.router with
        | none => none
        | some r =>
          match routerAddOutputDevice w r dev ok with
          | (w1, false) => some (w1, some Err.addOutputDevice)
          | (w1, true) =>
            some ({ w1 with vrfs := updAt w1.vrfs v (fun o1 =>
                    { o1 with devs := mapSet o1.devs idx dev }) }, none)
  | _, _ => none

/-- The loop of `routeEntryAdded` over the next-hops; the k-th outcome in `oks`
belongs to the k-th next-hop. The result carries the error that ended the
loop, if any. -/
def registerNexthops (w : World) (v : VRFPtr) : List Nexthop → List Bool →
    Option (World × Option Err)
  | [], _ => some (w, none)
  | nh :: nhs, oks =>
    match nh.Dev with
    | none => none
    | some dev =>
      match registerOutputDevice w v dev (oks.headD true) with
      | none => none
      | some (w1, some e) => some (w1, some e)
      | some (w1, none) => registerNexthops w1 v nhs oks.tail

/-- The method `VRF.routeEntryAdded` (the log line of a failed registration is
not part of the state). -/
def routeEntryAdded (w : World) (v : VRFPtr) (entry : Route) (oks : List Bool) : Option World :=
  if entry.Nexthops.length = 0 then
    match entry.Dev with
    | none => none
    | some dev =>
      match registerOutputDevice w v dev (oks.headD true) with
      | none => none
      | some (w1, some _) => some w1
      | some (w1, none) => some (notify w1 NotiKind.Add v (NotiDetail.route entry))
  else
    match registerNexthops w v entry.Nexthops oks with
    | none => none
    | some (w1, some _) => some w1
    | some (w1, none) => some (notify w1 NotiKind.Add v (NotiDetail.route entry))

/-- The method `VRF.routeEntryDeleted`. -/
def routeEntryDeleted (w : World) (v : VRFPtr) (entry : Route) : World :=
  notify w NotiKind.Delete v (NotiDetail.route entry)

/-- The loop of `pbrEntryAdded`: a next-hop without device is skipped; the k-th
outcome in `oks` belongs to the k-th next-hop that has a device. -/
def registerPBRNexthops (w : World) (v : VRFPtr) : List Nexthop → List Bool →
    Option (World × Option Err)
  | [], _ => some (w, none)
  | nh :: nhs, oks =>
    match nh.Dev with
    | none => registerPBRNexthops w v nhs oks
    | some dev =>
      match registerOutputDevice w v dev (oks.headD true) with
      | none => none
      | some (w1, some e) => some (w1, some e)
      | some (w1, none) => registerPBRNexthops w1 v nhs oks.tail

/-- The method `VRF.pbrEntryAdded`. -/
def pbrEntryAdded (w : World) (v : VRFPtr) (entry : PBREntry) (oks : List Bool) : Option World :=
  match registerPBRNexthops w v entry.NextHops oks with
  | none => none
  | some (w1, some _) => some w1
  | some (w1, none) => some (notify w1 NotiKind.Add v (NotiDetail.pbr entry))

/-- The method `VRF.pbrEntryDeleted`. -/
def pbrEntryDeleted (w : World) (v : VRFPtr) (entry : PBREntry) : World :=
  notify w NotiKind.Delete v (NotiDetail.pbr entry)

/-! ## Tunnels -/

/-- Modelled from the spec: the IP protocol number `IPP_UDP`. -/
def IPP_UDP : Nat := 17

/-- Modelled from the spec: the IP protocol number `IPP_GRE`. -/
def IPP_GRE : Nat := 47

/-- Modelled from the spec: the value of `NewFiveTuple()`, in which nothing is set. -/
def NewFiveTuple : FiveTuple :=
  { SrcIP := none, DstIP := none, SrcPort := none, DstPort := none, Proto := none }

/-- The five-tuple `ft` that `addL3Tunnel` builds for a remote address
(`CreateIPAddr` keeps the address). -/
def l3FiveTuple (t : Tunnel) (remote : Nat) : FiveTuple :=
  { NewFiveTuple with DstIP := some t.local_, SrcIP := some remote, Proto := some t.ipProto }

/-- The five-tuple `nat` that `addL3Tunnel` builds from `ft` for NAT traversal. -/
def l3NatTuple (ft : FiveTuple) : FiveTuple :=
  { NewFiveTuple with SrcIP := ft.SrcIP, DstIP := ft.DstIP,
                      DstPort := some { Start := 4500, End := 0 }, Proto := some IPP_UDP }

/-- Outcomes of the connects made by `addL3Tunnel`: the VIF rule, and for the
k-th remote address the five-tuple rule and the NAT-traversal rule. -/
structure L3Ext where
  outbound : Bool
  inbound : List Bool
  nat : List Bool
  deriving DecidableEq, Repr

/-- The loop of `addL3Tunnel` over the remote addresses. -/
def addL3TunnelLoop (w : World) (r : InstPtr) (vif : VIFPtr) (t : Tunnel) :
    List Nat → List Bool → List Bool → World × Option Err
  | [], _, _ => (w, none)
  | remote :: rest, ins, nats =>
    match instConnect w r (Ring.vifInbound vif) VswMatch.Match5Tuple
        (Param.fiveTuple (l3FiveTuple t remote)) (ins.headD true) with
    | (w1, false) =>
      (vifDisconnect w1 vif VswMatch.MatchIPv4Dst (Param.addr remote), some Err.tunnelInbound)
    | (w1, true) =>
      if t.security = Security.SecurityIPSec then
        match instConnect w1 r (Ring.vifInbound vif) VswMatch.Match5Tuple
            (Param.fiveTuple (l3NatTuple (l3FiveTuple t remote))) (nats.headD true) with
        | (w2, false) =>
          (instDisconnect (vifDisconnect w2 vif VswMatch.MatchIPv4Dst (Param.addr remote)) r
            VswMatch.Match5Tuple (Param.fiveTuple (l3FiveTuple t remote)), some Err.tunnelNAT)
        | (w2, true) => addL3TunnelLoop w2 r vif t rest ins.tail nats.tail
      else addL3TunnelLoop w1 r vif t rest ins.tail nats.tail

/-- The method `VRF.addL3Tunnel`. -/
def addL3Tunnel (w : World) (v : VRFPtr) (vif : VIFPtr) (x : L3Ext) :
    Option (World × Option Err) :=
  match w.vifs[vif]? with
  | none => none
  | some f =>
    match f.tunnel with
    | none => some (w, some Err.notTunnel)
    | some t =>
      match t.remotes with
      | [] => some (w, some Err.noRemote)
      | ra0 :: _ =>
        match w.vrfs[v]? with
        | none => none
        | some o =>
          match o.router with
          | none => none
          | some r =>
            match vifConnect w vif (Ring.instInput r) VswMatch.MatchIPv4Dst (Param.addr ra0)
                x.outbound with
            | (w1, false) => some (w1, some Err.tunnelOutbound)
            | (w1, true) => some (addL3TunnelLoop w1 r vif t t.remotes x.inbound x.nat)

/-- Modelled from the spec: an interface that is not a VIF, with its
connections and its tunnel attribute. -/
structure Interface where
  rules : List Rule
  tunnel : Option Tunnel
  deriving DecidableEq, Repr

/-- Modelled from the spec: `connect` of an interface. -/
def ifConnect (i : Interface) (ring : Ring) (kind : VswMatch) (param : Param) (ok : Bool) :
    Interface × Bool :=
  if ok then ({ i with rules := i.rules ++ [{ kind := kind, param := param, ring := ring }] }, true)
  else (i, false)

/-- Outcomes of the connects made by `addL2Tunnel`: the interface rule, and
the router rule for the k-th remote address. -/
structure L2Ext where
  outbound : Bool
  inbound : List Bool
  deriving DecidableEq, Repr

/-- The GRE loop of `addL2Tunnel`; a failed connect ends the process
(`logger.Fatalf`), which is the result `none`. -/
def addL2TunnelGRE (w : World) (r : InstPtr) (ifp : Nat) (t : Tunnel) :
    List Nat → List Bool → Option World
  | [], _ => some w
  | remote :: rest, oks =>
    match instConnect w r (Ring.ifInbound ifp) VswMatch.Match5Tuple
        (Param.fiveTuple { NewFiveTuple with SrcIP := some remote, DstIP := some t.local_,
                                             Proto := some IPP_GRE }) (oks.headD true) with
    | (_, false) => none
    | (w1, true) => addL2TunnelGRE w1 r ifp t rest oks.tail

/-- The VxLAN loop of `addL2Tunnel`; a failed connect ends the process. -/
def addL2TunnelVxLAN (w : World) (r : InstPtr) (ifp : Nat) (t : Tunnel) :
    List Nat → List Bool → Option World
  | [], _ => some w
  | remote :: rest, oks =>
    match instConnect w r (Ring.ifInbound ifp) VswMatch.MatchVxLAN
        (Param.vxlan { Src := remote, Dst := t.local_, DstPort := t.vxlanPort, VNI := t.vni })
        (oks.headD true) with
    | (_, false) => none
    | (w1, true) => addL2TunnelVxLAN w1 r ifp t rest oks.tail

/-- The method `VRF.addL2Tunnel` on the interface with identity `ifp` and
state `i`; the state of the interface after the call is part of the result. -/
def addL2Tunnel (w : World) (v : VRFPtr) (ifp : Nat) (i : Interface) (x : L2Ext) :
    Option (World × Interface × Option Err) :=
  match i.tunnel with
  | none => some (w, i, some Err.notTunnel)
  | some t =>
    match t.remotes with
    | [] => some (w, i, some Err.noRemote)
    | ra0 :: _ =>
      match w.vrfs[v]? with
      | none => none
      | some o =>
        match o.router with
        | none => none
        | some r =>
          match ifConnect i (Ring.instInput r) VswMatch.MatchIPv4Dst (Param.addr ra0)
              x.outbound with
          | (i1, false) => some (w, i1, some Err.tunnelOutbound)
          | (i1, true) =>
            match t.encaps with
            | EncapsMethod.EncapsMethodGRE =>
              match addL2TunnelGRE w r ifp t t.remotes x.inbound with
              | none => none
              | some w1 => some (w1, i1, none)
            | EncapsMethod.EncapsMethodVxLAN =>
              match addL2TunnelVxLAN w r ifp t t.remotes x.inbound with
              | none => none
              | some w1 => some (w1, i1, none)
            | EncapsMethod.other _ => some (w, i1, some Err.unsupportedEncaps)

/-! ## The PFKey handler (`handlers/pfkey/handler.go`) -/

/-- The struct `Handler`: `vrfName` is the value of `h.vrf.Name()`, `listener`
the bound listener (nil before the first `Start`), `wg` the counter of the wait
group, `conns` the number of tracked connections. -/
structure Handler where
  name : String
  vrfName : String
  sock : String
  listener : Option Nat
  conns : Nat
  wg : Nat
  running : Bool
  deriving DecidableEq, Repr

/-- Modelled from the spec: the local socket transport as far as the handler
sees it: the socket files that exist and the paths of the listeners that are
open, by listener identity. -/
structure Sockets where
  files : List String
  listeners : List (Option String)
  deriving DecidableEq, Repr

/-- The function `NewHandler` for a VRF of the given name. -/
def NewHandler (vrfName : String) : Handler :=
  { name := vrfName, vrfName := vrfName, sock := "", listener := none, conns := 0, wg := 0,
    running := false }

/-- The constant `SockFile` with the VRF name filled in. -/
def SockFile (vrfName : String) : String :=
  "/var/tmp" ++ "/lagopus-" ++ vrfName ++ ".sock"

/-- The method `Handler.clean`: `os.Remove(h.sock)`, whose error is dropped. -/
def Handler.clean (h : Handler) (s : Sockets) : Sockets :=
  { s with files := s.files.filter (fun p => p ≠ h.sock) }

/-- Modelled from the spec: `net.ListenUnix` on a path; a successful bind
creates the socket file and a listener, a failed bind creates nothing. -/
def listenUnix (s : Sockets) (path : String) (ok : Bool) : Sockets × Option Nat :=
  if ok then
    ({ files := s.files ++ [path], listeners := s.listeners ++ [some path] },
     some s.listeners.length)
  else (s, none)

/-- Modelled from the spec: `Close` of a listener, which also removes the
socket file it was bound to; closing nil changes nothing. -/
def listenerClose (s : Sockets) (l : Option Nat) : Sockets :=
  match l with
  | none => s
  | some i =>
    match s.listeners[i]? with
    | some (some path) =>
      { files := s.files.filter (fun p => p ≠ path), listeners := s.listeners.set i none }
    | _ => s

/-- The method `Handler.Start`; `bind` is the outcome of `net.ListenUnix`. The
accept loop started at the end is counted in `wg`. -/
def Handler.Start (h : Handler) (s : Sockets) (bind : Bool) : Handler × Sockets × Option Err :=
  if h.running then (h, s, none)
  else
    let h1 : Handler := { h with sock := SockFile h.vrfName }
    let s1 := h1.clean s
    match listenUnix s1 h1.sock bind with
    | (s2, none) => ({ h1 with listener := none }, s2, some Err.listen)
    | (s2, some l) =>
      ({ h1 with listener := some l, running := true, wg := h1.wg + 1 }, s2, none)

/-- A connection accepted by the accept loop of a running handler: the task
that handles it is counted in `wg` and the connection is tracked. -/
def Handler.accept (h : Handler) : Handler :=
  if h.running then { h with wg := h.wg + 1, conns := h.conns + 1 } else h

/-- The method `Handler.Stop`. The call `h.wg.Wait()` returns when the counter
of the wait group is zero, every task having closed and dropped its
connection; the deferred `clean` runs last. -/
def Handler.Stop (h : Handler) (s : Sockets) : Handler × Sockets :=
  if !h.running then (h, s)
  else
    let h1 : Handler := { h with running := false }
    let s1 := listenerClose s h1.listener
    let h2 : Handler := { h1 with wg := 0, conns := 0 }
    (h2, h2.clean s1)

/-! ## Definitions used to state the properties -/

/-- Slots in the order in which `assignIndex` scans them. -/
def scanOrder (len next : Nat) : List Nat :=
  List.range' next (len - next) ++ List.range' 0 next

/-- Slot `i` of `byIndex` holds the nil pointer. -/
def slotFree (w : World) (i : Nat) : Bool :=
  decide (w.vrfMgr.byIndex[i]? = some none)

/-- The VRF in slot 0 of `fullWorld`. -/
def fullWorldVRF0 : VRF :=
  { VRF.new "vrf0" with index := 0, router := some 1, tap := some 0 }

/-- A registry of two slots, both taken, with the cursor on slot 1, and a
third VRF object that is not registered. -/
def fullWorld : World :=
  { vrfMgr := { byName := [("vrf0", 0), ("vrf1", 1)], byIndex := [some 0, some 1], nextIndex := 1,
                rds := [] }
    vrfs := [fullWorldVRF0,
             { VRF.new "vrf1" with index := 1, router := some 3, tap := some 2 },
             VRF.new "vrf2"]
    vifIdxMgr := [(10, OutputDevice.vrf 0), (11, OutputDevice.vrf 1)]
    insts := [Instance.mk "tap" "vrf0-tap" "vrf0" [] [] [] [] false false,
              Instance.mk "router" "vrf0" "vrf0" [] [] [] [] false false,
              Instance.mk "tap" "vrf1-tap" "vrf1" [] [] [] [] false false,
              Instance.mk "router" "vrf1" "vrf1" [] [] [] [] false false]
    vifs := []
    noti := [] }

/-- A registry of three slots of which slot 0 is free and the cursor is on
slot 1, so that the scan wraps around. -/
def wrapWorld : World :=
  { vrfMgr := { byName := [("vrf1", 0), ("vrf2", 1)], byIndex := [none, some 0, some 1],
                nextIndex := 1, rds := [] }
    vrfs := [{ VRF.new "vrf1" with index := 1 }, { VRF.new "vrf2" with index := 2 },
             VRF.new "vrf3"]
    vifIdxMgr := []
    insts := []
    vifs := []
    noti := [] }

/-- The naming rule of the specification: `vrf` followed by one or more
decimal digits, and nothing else. -/
def ValidName (name : String) : Prop :=
  ∃ ds : List Char, ds ≠ [] ∧ (∀ c ∈ ds, '0' ≤ c ∧ c ≤ '9') ∧ name = "vrf" ++ String.mk ds

/-- Name, index and route distinguisher of a VRF object. -/
def VRF.key (o : VRF) : String × VRFIndex × Nat :=
  (o.name, o.index, o.rd)

/-- Name, index and route distinguisher of every VRF object, by address. -/
def World.keys (w : World) : List (String × VRFIndex × Nat) :=
  w.vrfs.map VRF.key

/-- A VRF is live when the name map holds it under its name. -/
def isLive (w : World) (v : VRFPtr) : Bool :=
  match w.vrfs[v]? with
  | some o => decide (mapGet w.vrfMgr.byName o.name = some v)
  | none => false

/-- Calls of the package: `NewVRF` with any name and any outcome of its
collaborator calls, and the methods of a live VRF that write the registry,
`devs` or the notifications: `Free`, `SetRD`, `AddVIF`, `DeleteVIF`,
`registerOutputDevice` and the four handlers of route and PBR entries, each
with any arguments and any outcome of its collaborator calls. -/
inductive Op where
  | newVRF (name : String) (x : NewVRFExt)
  | free (v : VRFPtr) (order : List (VIFIndex × OutputDevice))
  | setRD (v : VRFPtr) (rd : Nat)
  | addVIF (v : VRFPtr) (vif : VIFPtr) (x : AddVIFExt)
  | deleteVIF (v : VRFPtr) (vif : VIFPtr)
  | registerOutputDevice (v : VRFPtr) (dev : OutputDevice) (ok : Bool)
  | routeEntryAdded (v : VRFPtr) (entry : Route) (oks : List Bool)
  | routeEntryDeleted (v : VRFPtr) (entry : Route)
  | pbrEntryAdded (v : VRFPtr) (entry : PBREntry) (oks : List Bool)
  | pbrEntryDeleted (v : VRFPtr) (entry : PBREntry)
  deriving DecidableEq, Repr

/-- State after one call; `none` when the receiver is not live, the call
panics, or the order given for the range loop of `Free` is not an arrangement
of the entries of `devs`. -/
def step (w : World) : Op → Option World
  | Op.newVRF name x => (NewVRF w name x).map Prod.fst
  | Op.free v order =>
    if isLive w v then (if rangeOrder w v order then Free w v order else none) else none
  | Op.setRD v rd => if isLive w v then (SetRD w v rd).map Prod.fst else none
  | Op.addVIF v vif x => if isLive w v then (AddVIF w v vif x).map Prod.fst else none
  | Op.deleteVIF v vif => if isLive w v then (DeleteVIF w v vif).map Prod.fst else none
  | Op.registerOutputDevice v dev ok =>
    if isLive w v then (registerOutputDevice w v dev ok).map Prod.fst else none
  | Op.routeEntryAdded v entry oks => if isLive w v then routeEntryAdded w v entry oks else none
  | Op.routeEntryDeleted v entry => if isLive w v then some (routeEntryDeleted w v entry) else none
  | Op.pbrEntryAdded v entry oks => if isLive w v then pbrEntryAdded w v entry oks else none
  | Op.pbrEntryDeleted v entry => if isLive w v then some (pbrEntryDeleted w v entry) else none

/-- State after a sequence of calls. -/
def run (w : World) : List Op → Option World
  | [] => some w
  | op :: ops =>
    match step w op with
    | none => none
    | some w1 => run w1 ops

/-- States reached from the empty registry of `MaxVRF` slots. -/
def Reachable (MaxVRF : Nat) (vifs : List VIF) (w : World) : Prop :=
  ∃ ops, run (World.empty MaxVRF vifs) ops = some w

/-- Consistency of the registry: the array has `MaxVRF` slots, the cursor is
inside it, the name map and the index array point at each other through the
VRF objects, and a non-zero route distinguisher of a live VRF is in `rds` and
is held by that VRF alone. -/
structure RegInv (MaxVRF : Nat) (w : World) : Prop where
  len : w.vrfMgr.byIndex.length = MaxVRF
  next : w.vrfMgr.nextIndex ≤ MaxVRF
  byName_sound : ∀ n p, mapGet w.vrfMgr.byName n = some p →
    ∃ i r, w.keys[p]? = some (n, i, r) ∧ w.vrfMgr.byIndex[i]? = some (some p)
  byIndex_sound : ∀ i p, w.vrfMgr.byIndex[i]? = some (some p) →
    ∃ n r, w.keys[p]? = some (n, i, r) ∧ mapGet w.vrfMgr.byName n = some p
  rd_mem : ∀ n p i r, mapGet w.vrfMgr.byName n = some p → w.keys[p]? = some (n, i, r) →
    r ≠ 0 → mapHas w.vrfMgr.rds r = true
  rd_unique : ∀ n p i r m q j, mapGet w.vrfMgr.byName n = some p →
    w.keys[p]? = some (n, i, r) → mapGet w.vrfMgr.byName m = some q →
    w.keys[q]? = some (m, j, r) → r ≠ 0 → p = q

/-- The collaborator calls of `NewVRF` all succeed in `w`. -/
def NewVRFExt.allOk (x : NewVRFExt) (w : World) : Prop :=
  (∃ vi, x.vifIndex = some vi ∧ mapHas w.vifIdxMgr vi = false) ∧
    x.tap = true ∧ x.router = true ∧ x.connect = true

/-- The registry, the name, index and route distinguisher of every VRF object
and the VIF-index space are the same in both states. -/
def SameRegistry (w w1 : World) : Prop :=
  w1.vrfMgr = w.vrfMgr ∧ w1.keys = w.keys ∧ w1.vifIdxMgr = w.vifIdxMgr

/-- A run on a registry of two slots and two VIFs: three creations, of which the
third finds no slot, a route distinguisher, an attached VIF, a destruction and
a creation that reuses the freed slot. -/
def demoOps : List Op :=
  [Op.newVRF "vrf0" ⟨some 100, true, true, true⟩,
   Op.newVRF "vrf1" ⟨some 101, true, true, true⟩,
   Op.newVRF "vrf2" ⟨some 102, true, true, true⟩,
   Op.setRD 0 7,
   Op.addVIF 0 0 ⟨true, true, true, true, true, true, true⟩,
   Op.free 0 [(7, OutputDevice.vif 0)],
   Op.newVRF "vrf3" ⟨some 100, true, false, true⟩,
   Op.newVRF "vrf4" ⟨some 103, true, true, true⟩]

/-- The two VIFs of the demonstration runs, the second with NAPT. -/
def demoVIFs : List VIF :=
  [⟨7, none, [], none, false⟩, ⟨8, none, [], none, true⟩]

/-- State at the end of `demoOps`. -/
def demoWorld : World :=
  (run (World.empty 2 demoVIFs) demoOps).getD (World.empty 2 demoVIFs)

/-- Outcome of `NewVRF` calls made one after the other. -/
def createAll (w : World) : List (String × NewVRFExt) → Option (World × List Result)
  | [] => some (w, [])
  | c :: cs =>
    match NewVRF w c.1 c.2 with
    | none => none
    | some (w1, r) =>
      match createAll w1 cs with
      | none => none
      | some (w2, rs) => some (w2, r :: rs)

/-- Calls of `NewVRF` with the given names in which every collaborator call
succeeds and the VIF-index space hands out the given indices. -/
def okCalls (names : List String) (picks : List VIFIndex) : List (String × NewVRFExt) :=
  List.zipWith (fun n vi => (n, ({ vifIndex := some vi, tap := true, router := true,
                                   connect := true } : NewVRFExt))) names picks

/-- State of the registry after the first `k` of the calls `okCalls names picks`
on the empty registry of `M` slots. -/
structure Created (M : Nat) (names : List String) (picks : List VIFIndex) (k : Nat)
    (w : World) : Prop where
  keysLen : w.keys.length = k
  keys : ∀ j n, j < k → names[j]? = some n → w.keys[j]? = some (n, j, 0)
  byName : ∀ j n, j < k → names[j]? = some n → mapGet w.vrfMgr.byName n = some j
  fresh : ∀ n, (∀ j, j < k → names[j]? ≠ some n) → mapGet w.vrfMgr.byName n = none
  byNameLen : w.vrfMgr.byName.length = k
  len : w.vrfMgr.byIndex.length = M
  taken : ∀ i, i < k → w.vrfMgr.byIndex[i]? = some (some i)
  free : ∀ i, k ≤ i → i < M → w.vrfMgr.byIndex[i]? = some none
  next : w.vrfMgr.nextIndex = k % M
  vifIdx : ∀ vi, mapHas w.vifIdxMgr vi = true → ∃ j, j < k ∧ picks[j]? = some vi

/-- The VRF object at `v` exists and holds the router `r` and the tap `t`. -/
def Handles (w : World) (v : VRFPtr) (r t : InstPtr) : Prop :=
  ∃ o, w.vrfs[v]? = some o ∧ o.router = some r ∧ o.tap = some t

/-- Two VRFs on a registry of two slots. -/
def pairOps : List Op :=
  [Op.newVRF "vrf0" ⟨some 100, true, true, true⟩, Op.newVRF "vrf1" ⟨some 101, true, true, true⟩]

/-- State after `pairOps`. -/
def pairWorld : World :=
  (run (World.empty 2 demoVIFs) pairOps).getD (World.empty 2 demoVIFs)

/-- State after `SetRD(7)` on the first VRF of `pairWorld`. -/
def pairWorldRD : World :=
  ((SetRD pairWorld 0 7).map Prod.fst).getD pairWorld

/-- Later calls on the second VRF of `pairWorldRD`. -/
def laterOps : List Op :=
  [Op.addVIF 1 0 ⟨true, true, true, true, true, true, true⟩, Op.setRD 1 9]

/-- State after `laterOps`. -/
def pairWorldLater : World :=
  (run pairWorldRD laterOps).getD pairWorldRD

/-- The first of the three VIF connects and `enableNAPT` (made only for a VIF
with NAPT) that fails, in the order of the calls. -/
def addVIFConnectsFailure (f : VIF) (x : AddVIFExt) : Option Err :=
  if !x.dstSelf then some Err.dstSelf
  else if !x.dstBC then some Err.dstBC
  else if !x.dstMC then some Err.dstMC
  else if f.napt && !x.enableNAPT then some Err.enableNAPT
  else none

/-- The first step of `AddVIF` after the bind that fails, in the order of the
calls: `router.addVIF`, the tap connect (made only for a VIF without tunnel),
the three VIF connects, `enableNAPT`. -/
def addVIFFirstFailure (f : VIF) (x : AddVIFExt) : Option Err :=
  if !x.addVIF then some Err.addVIF
  else if f.tunnel.isNone && !x.tapConnect then some Err.tapConnect
  else addVIFConnectsFailure f x

/-- Nothing that `AddVIF` is about to add for `vif` is present yet: the router
`r` does not route the VIF, the tap `t` has no outbound rule for it, and the
VIF has no rule for destination-is-self, broadcast or multicast. -/
def AddVIFFresh (w : World) (r t : InstPtr) (vif : VIFPtr) (f : VIF) : Prop :=
  (∀ m, w.insts[r]? = some m → vif ∉ m.vifs) ∧
  (∀ m, w.insts[t]? = some m → ∀ rule, rule ∈ m.rules →
    ¬ (rule.kind = VswMatch.MatchOutVIF ∧ rule.param = Param.vif vif)) ∧
  (∀ rule, rule ∈ f.rules → rule.param = Param.nil →
    rule.kind ≠ VswMatch.MatchEthDstSelf ∧ rule.kind ≠ VswMatch.MatchEthDstBC ∧
    rule.kind ≠ VswMatch.MatchEthDstMC)

/-- The second VIF of `demoVIFs`: index 8, unbound, no rule, no tunnel, NAPT. -/
def naptVIF : VIF :=
  ⟨8, none, [], none, true⟩

/-- Route distinguishers in use: the non-zero `rd` of the live VRFs. -/
def rdsInUse (w : World) : List Nat :=
  ((List.range w.vrfs.length).filter (fun v => isLive w v)).filterMap
    (fun v => (w.vrfs[v]?).bind (fun o => if o.rd ≠ 0 then some o.rd else none))

/-- One VRF on a registry of two slots, then `SetRD(0)` on it. -/
def zeroRDOps : List Op :=
  [Op.newVRF "vrf0" ⟨some 100, true, true, true⟩, Op.setRD 0 0]

/-- State after `zeroRDOps`. -/
def zeroRDWorld : World :=
  (run (World.empty 2 demoVIFs) zeroRDOps).getD (World.empty 2 demoVIFs)

/-- A tunnel with one remote address whose encapsulation is neither GRE nor VxLAN. -/
def otherTunnel : Tunnel :=
  { local_ := 10, remotes := [20], security := Security.SecurityNone,
    encaps := EncapsMethod.other 0, ipProto := 4, vxlanPort := 4789, vni := 1 }

/-- An interface without rules that carries `otherTunnel`. -/
def otherInterface : Interface :=
  { rules := [], tunnel := some otherTunnel }

/-- State of `pairWorld` after the second VRF is registered as output device of
the first. -/
def pairRegistered : World :=
  ((registerOutputDevice pairWorld 0 (OutputDevice.vrf 1) true).map Prod.fst).getD pairWorld

/-- The devices that `routeEntryAdded` must have registered: the device of
each next-hop, or the device of the entry when it has no next-hop. -/
def Route.devices (entry : Route) : List (Option OutputDevice) :=
  if entry.Nexthops.length = 0 then [entry.Dev] else entry.Nexthops.map Nexthop.Dev

/-- The devices that `pbrEntryAdded` must have registered: the device of each
next-hop that has one. -/
def PBREntry.devices (entry : PBREntry) : List OutputDevice :=
  entry.NextHops.filterMap Nexthop.Dev

/-- Registration succeeds for every device of the list: the devices are
registered one after the other from state `w`, the k-th with the k-th outcome
of `oks`, each on the state left by the one before, every one returns success,
and the last leaves `w1`. -/
inductive Registered (v : VRFPtr) : List Bool → World → List OutputDevice → World → Prop where
  | nil (oks : List Bool) (w : World) : Registered v oks w [] w
  | cons (oks : List Bool) (w w1 w2 : World) (d : OutputDevice) (ds : List OutputDevice)
      (h1 : registerOutputDevice w v d (oks.headD true) = some (w1, none))
      (h2 : Registered v oks.tail w1 ds w2) : Registered v oks w (d :: ds) w2

/-- Registration fails at some device of the list: it succeeds for the devices
`pre` before it, fails for the device `d`, and `w1` is the state that the
failed registration leaves; the devices `post` after it are not touched. -/
def FailedAt (v : VRFPtr) (oks : List Bool) (w : World) (ds : List OutputDevice) (w1 : World) :
    Prop :=
  ∃ (pre : List OutputDevice) (d : OutputDevice) (post : List OutputDevice) (w2 : World) (e : Err),
    ds = pre ++ d :: post ∧ Registered v oks w pre w2 ∧
    registerOutputDevice w2 v d ((oks.drop pre.length).headD true) = some (w1, some e)

/-- The VRF object at `v` exists and has its router, and every device of the
list exists. -/
def RegReady (w : World) (v : VRFPtr) (ds : List OutputDevice) : Prop :=
  (∃ o r, w.vrfs[v]? = some o ∧ o.router = some r) ∧ ∀ d, d ∈ ds → (d.VIFIndex w).isSome = true

/-- A route entry with two next-hops: the second VRF, and the first VIF, which
is attached to no VRF. -/
def demoRoute : Route :=
  { id := 1, Dev := none,
    Nexthops := [⟨some (OutputDevice.vrf 1)⟩, ⟨some (OutputDevice.vif 0)⟩] }

/-- A PBR entry with two next-hops: one without device, and the second VRF. -/
def demoPBR : PBREntry :=
  { id := 2, NextHops := [⟨none⟩, ⟨some (OutputDevice.vrf 1)⟩] }

/-- The inbound router rules for one remote address of a tunnel VIF: the
5-tuple rule with destination the local address, source the remote address
and the tunnel's IP protocol, and, if and only if the security mode is IPsec,
the rule with the same addresses, protocol UDP and destination port 4500;
both lead to the inbound path of the VIF. -/
def l3Rules (vif : VIFPtr) (t : Tunnel) (remote : Nat) : List Rule :=
  { kind := VswMatch.Match5Tuple,
    param := Param.fiveTuple { SrcIP := some remote, DstIP := some t.local_, SrcPort := none,
                               DstPort := none, Proto := some t.ipProto },
    ring := Ring.vifInbound vif } ::
  (if t.security = Security.SecurityIPSec then
    [{ kind := VswMatch.Match5Tuple,
       param := Param.fiveTuple { SrcIP := some remote, DstIP := some t.local_, SrcPort := none,
                                  DstPort := some { Start := 4500, End := 0 },
                                  Proto := some IPP_UDP },
       ring := Ring.vifInbound vif }]
   else [])

/-- The state in which the module `r` has the further rules `rs`, in this order. -/
def connected (w : World) (r : InstPtr) (rs : List Rule) : World :=
  { w with insts := updAt w.insts r (fun m => { m with rules := m.rules ++ rs }) }

/-- The k-th outcome of a list of outcomes; a call without listed outcome succeeds. -/
def okAt (oks : List Bool) (k : Nat) : Bool :=
  (oks[k]?).getD true

/-- An IPsec tunnel with local address 10 and the remote addresses 20, 21, 22. -/
def ipsecTunnel : Tunnel :=
  { local_ := 10, remotes := [20, 21, 22], security := Security.SecurityIPSec,
    encaps := EncapsMethod.EncapsMethodGRE, ipProto := 50, vxlanPort := 0, vni := 0 }

/-- One VIF, with index 9, that carries `ipsecTunnel`. -/
def tunnelVIFs : List VIF :=
  [⟨9, none, [], some ipsecTunnel, false⟩]

/-- One VRF on a registry of two slots, with the VIF of `tunnelVIFs`. -/
def tunnelWorld : World :=
  (run (World.empty 2 tunnelVIFs) [Op.newVRF "vrf0" ⟨some 100, true, true, true⟩]).getD
    (World.empty 2 tunnelVIFs)

/-- The router of the VRF of `tunnelWorld`. -/
def tunnelRouter : Instance :=
  Instance.mk "router" "vrf0" "vrf0"
    [Rule.mk VswMatch.MatchIPv4DstSelf Param.nil (Ring.instInput 0)] [] [] [] false false

/-- What a module routes: the VIFs routed into it (`addVIF` succeeded for them
and `deleteVIF` was not called for them since) and the output devices added to
it by a successful `addOutputDevice`. -/
def Instance.routes (m : Instance) : List VIFPtr × List OutputDevice :=
  (m.vifs, m.outDevs)

/-- What every module routes, by address of the module. -/
def World.routing (w : World) : List (List VIFPtr × List OutputDevice) :=
  w.insts.map Instance.routes

/-- The device is routed into a module with the routes `p`: a VIF is among the
routed VIFs, a VRF is among the added output devices. -/
def InRouter (p : List VIFPtr × List OutputDevice) : OutputDevice → Prop
  | OutputDevice.vif q => q ∈ p.1
  | OutputDevice.vrf u => OutputDevice.vrf u ∈ p.2

/-- The routes after `deleteVIF(vif)`. -/
def dropVIF (vif : VIFPtr) (p : List VIFPtr × List OutputDevice) :
    List VIFPtr × List OutputDevice :=
  (p.1.filter (fun q => q ≠ vif), p.2)

/-- The routes after a successful `addVIF(vif)`. -/
def takeVIF (vif : VIFPtr) (p : List VIFPtr × List OutputDevice) :
    List VIFPtr × List OutputDevice :=
  (p.1 ++ [vif], p.2)

/-- The routes after a successful `addOutputDevice(dev)`. -/
def takeDev (dev : OutputDevice) (p : List VIFPtr × List OutputDevice) :
    List VIFPtr × List OutputDevice :=
  (p.1, p.2 ++ [dev])

/-- From `w` to `w1` the VRF objects, the registry and the index of every VIF
are kept, and the routes change at the module `r` only, by `h`. -/
structure Rerouted (r : InstPtr)
    (h : List VIFPtr × List OutputDevice → List VIFPtr × List OutputDevice) (w w1 : World) :
    Prop where
  vrfs : w1.vrfs = w.vrfs
  vrfMgr : w1.vrfMgr = w.vrfMgr
  index : w1.vifs.map VIF.index = w.vifs.map VIF.index
  routing : w1.routing = updAt w.routing r h

/-- From `w` to `w1` the VRF objects, the registry, the index of every VIF and
the routes of every module are kept. -/
structure Quiet (w w1 : World) : Prop where
  vrfs : w1.vrfs = w.vrfs
  vrfMgr : w1.vrfMgr = w.vrfMgr
  index : w1.vifs.map VIF.index = w.vifs.map VIF.index
  routing : w1.routing = w.routing

/-- From `w` to `w1` the device `dev` enters `v.devs` under the key `k`, the
routes change at the module `r` only, by `h`, and the other VRF objects, the
registry and the index of every VIF are kept. -/
structure Attached (v : VRFPtr) (k : VIFIndex) (dev : OutputDevice) (r : InstPtr)
    (h : List VIFPtr × List OutputDevice → List VIFPtr × List OutputDevice) (w w1 : World) :
    Prop where
  vrfs : w1.vrfs = updAt w.vrfs v (fun o1 => { o1 with devs := mapSet o1.devs k dev })
  vrfMgr : w1.vrfMgr = w.vrfMgr
  index : w1.vifs.map VIF.index = w.vifs.map VIF.index
  routing : w1.routing = updAt w.routing r h

/-- From `w` to `w1` the key `k` leaves `v.devs`, the routes change at the
module `r` only, by `h`, and the other VRF objects, the registry and the index
of every VIF are kept. -/
structure Detached (v : VRFPtr) (k : VIFIndex) (r : InstPtr)
    (h : List VIFPtr × List OutputDevice → List VIFPtr × List OutputDevice) (w w1 : World) :
    Prop where
  vrfs : w1.vrfs = updAt w.vrfs v (fun o1 => { o1 with devs := mapDelete o1.devs k })
  vrfMgr : w1.vrfMgr = w.vrfMgr
  index : w1.vifs.map VIF.index = w.vifs.map VIF.index
  routing : w1.routing = updAt w.routing r h

/-- Consistency of `devs` with the routers: a VRF in the name map has its
router and its tap; a VIF in `devs` of a VRF object is there under its own
index; every device in `devs` of a VRF object is routed into the router of that
object (a VIF by `addVIF`, a VRF by `addOutputDevice`); and the router of a VRF
object is a module that exists and is the router of no other VRF object. -/
structure DevInv (w : World) : Prop where
  handles : ∀ (n : String) (v : VRFPtr), mapGet w.vrfMgr.byName n = some v →
    ∃ (o : VRF) (r t : InstPtr), w.vrfs[v]? = some o ∧ o.router = some r ∧ o.tap = some t
  keyed : ∀ (v : VRFPtr) (o : VRF) (k : VIFIndex) (q : VIFPtr), w.vrfs[v]? = some o →
    (k, OutputDevice.vif q) ∈ o.devs → ∃ f, w.vifs[q]? = some f ∧ f.index = k
  routed : ∀ (v : VRFPtr) (o : VRF) (k : VIFIndex) (d : OutputDevice), w.vrfs[v]? = some o →
    (k, d) ∈ o.devs → ∃ r p, o.router = some r ∧ w.routing[r]? = some p ∧ InRouter p d
  valid : ∀ (v : VRFPtr) (o : VRF) (r : InstPtr), w.vrfs[v]? = some o → o.router = some r →
    r < w.routing.length
  own : ∀ (u v : VRFPtr) (ou ov : VRF) (r : InstPtr), w.vrfs[u]? = some ou →
    w.vrfs[v]? = some ov → ou.router = some r → ov.router = some r → u = v
  nodup : ∀ (v : VRFPtr) (o : VRF), w.vrfs[v]? = some o → (o.devs.map Prod.fst).Nodup

/-- The part of a VRF object that the routers see: `devs`, the router and the tap. -/
def VRF.wiring (o : VRF) : List (VIFIndex × OutputDevice) × Option InstPtr × Option InstPtr :=
  (o.devs, o.router, o.tap)

/-- From `w` to `w1` at most one VRF object was appended, with empty `devs`
and, if it has a router, a router that is a new module; the VRF objects of `w`,
the VIFs and the routes of the modules of `w` are kept; and the name map holds
nothing new except, possibly, the appended object with its router and tap. -/
structure Grown (w w1 : World) : Prop where
  vifs : w1.vifs = w.vifs
  old : ∀ u : Nat, u < w.vrfs.length → w1.vrfs[u]? = w.vrfs[u]?
  fresh : ∀ (u : Nat) (o1 : VRF), w.vrfs.length ≤ u → w1.vrfs[u]? = some o1 →
    u = w.vrfs.length ∧ o1.devs = [] ∧
      ∀ r, o1.router = some r → w.routing.length ≤ r ∧ r < w1.routing.length
  routing : ∃ ext, w1.routing = w.routing ++ ext
  byName : ∀ (n : String) (p : VRFPtr), mapGet w1.vrfMgr.byName n = some p →
    mapGet w.vrfMgr.byName n = some p ∨
      ∃ (o1 : VRF) (r t : InstPtr), w1.vrfs[p]? = some o1 ∧ o1.router = some r ∧ o1.tap = some t

/-- The notifications of the `DeleteVIF` calls for the VIF entries of `devs`,
in the order in which the range loop visits the entries (the order of the
list). -/
def detachNotes (v : VRFPtr) (devs : List (VIFIndex × OutputDevice)) : List Notification :=
  devs.filterMap (fun e =>
    match e.2 with
    | OutputDevice.vif q => some ⟨NotiKind.Delete, v, NotiDetail.vif q⟩
    | OutputDevice.vrf _ => none)

/-- A call of one of the three methods that write `devs`, on any VRF object
and with any outcome of the collaborator calls it makes. -/
inductive DevOp where
  | AddVIF (v : VRFPtr) (vif : VIFPtr) (x : AddVIFExt)
  | DeleteVIF (v : VRFPtr) (vif : VIFPtr)
  | registerOutputDevice (v : VRFPtr) (dev : OutputDevice) (ok : Bool)
  deriving DecidableEq, Repr

/-- State after one such call, whether it returns an error or not; `none` when
the call panics. -/
def devStep (w : World) : DevOp → Option World
  | DevOp.AddVIF v vif x => (AddVIF w v vif x).map Prod.fst
  | DevOp.DeleteVIF v vif => (DeleteVIF w v vif).map Prod.fst
  | DevOp.registerOutputDevice v dev ok => (registerOutputDevice w v dev ok).map Prod.fst

/-- State after a sequence of such calls. -/
def devRun (w : World) : List DevOp → Option World
  | [] => some w
  | c :: cs =>
    match devStep w c with
    | none => none
    | some w1 => devRun w1 cs

/-- Calls on the first VRF of `pairWorld`: the first VIF is attached; the
second VRF is registered as output device; attaching the second VIF fails at
the broadcast connect, after `router.addVIF` succeeded; a registration of the
second VRF is repeated with a failing router; the second VIF is detached
although it is not attached. -/
def devCalls : List DevOp :=
  [DevOp.AddVIF 0 0 ⟨true, true, true, true, true, true, true⟩,
   DevOp.registerOutputDevice 0 (OutputDevice.vrf 1) true,
   DevOp.AddVIF 0 1 ⟨true, true, true, true, false, true, true⟩,
   DevOp.registerOutputDevice 0 (OutputDevice.vrf 1) false,
   DevOp.DeleteVIF 0 1]

/-- State after `devCalls` on `pairWorld`. -/
def devWorld : World :=
  (devRun pairWorld devCalls).getD pairWorld

/-- Two VRFs on a registry of two slots; the second one gets both VIFs, the
first VRF as output device (through a route entry) and a route distinguisher. -/
def freeOps : List Op :=
  pairOps ++ [Op.setRD 0 7,
    Op.addVIF 1 0 ⟨true, true, true, true, true, true, true⟩,
    Op.addVIF 1 1 ⟨true, true, true, true, true, true, true⟩,
    Op.routeEntryAdded 1 ⟨3, some (OutputDevice.vrf 0), []⟩ [true],
    Op.setRD 1 9]

/-- State after `freeOps`. -/
def freeWorld : World :=
  (run (World.empty 2 demoVIFs) freeOps).getD (World.empty 2 demoVIFs)

/-- An IPsec tunnel with local address 10 in which the remote address 20 is
listed twice. -/
def twinTunnel : Tunnel :=
  { local_ := 10, remotes := [20, 20], security := Security.SecurityIPSec,
    encaps := EncapsMethod.EncapsMethodGRE, ipProto := 50, vxlanPort := 0, vni := 0 }

/-- One VIF, with index 9, that carries `twinTunnel`. -/
def twinVIFs : List VIF :=
  [⟨9, none, [], some twinTunnel, false⟩]

/-- One VRF on a registry of two slots, with the VIF of `twinVIFs`. -/
def twinWorld : World :=
  (run (World.empty 2 twinVIFs) [Op.newVRF "vrf0" ⟨some 100, true, true, true⟩]).getD
    (World.empty 2 twinVIFs)

/-- What the consistency of the connections reads of a module: the VIFs routed
into it and its rules for a specific output VIF. -/
def Instance.wires (m : Instance) : List VIFPtr × List Rule :=
  (m.vifs, m.rules.filter (fun r => r.kind = VswMatch.MatchOutVIF))

/-- The wires of every module, by address of the module. -/
def World.wires (w : World) : List (List VIFPtr × List Rule) :=
  w.insts.map Instance.wires

/-- The VIFs of the system as they are before the first call of the package:
their indices are pairwise different, and a VIF that is bound to no VRF has no
rule for destination-is-self, broadcast or multicast. -/
def CleanVIFs (vifs : List VIF) : Prop :=
  (vifs.map VIF.index).Nodup ∧
  ∀ f, f ∈ vifs → f.vrf = none → ∀ rule, rule ∈ f.rules → rule.param = Param.nil →
    rule.kind ≠ VswMatch.MatchEthDstSelf ∧ rule.kind ≠ VswMatch.MatchEthDstBC ∧
    rule.kind ≠ VswMatch.MatchEthDstMC

/-- Consistency of the connections with `devs`: a VIF routed into the router
of a VRF object is in `devs` of that object, under its index; a rule of the
tap of a VRF object for an output VIF is for a VIF in `devs` of that object; a
VIF that is bound to no VRF has no rule for destination-is-self, broadcast or
multicast; the tap of a VRF object is a module that exists and is the tap of
no other VRF object; and the VIFs have pairwise different indices. -/
structure WireInv (w : World) : Prop where
  routedIn : ∀ (u : VRFPtr) (o : VRF) (r : InstPtr) (p : List VIFPtr × List Rule) (q : VIFPtr),
    w.vrfs[u]? = some o → o.router = some r → w.wires[r]? = some p → q ∈ p.1 →
    ∃ f, w.vifs[q]? = some f ∧ (f.index, OutputDevice.vif q) ∈ o.devs
  tapped : ∀ (u : VRFPtr) (o : VRF) (t : InstPtr) (p : List VIFPtr × List Rule) (rule : Rule)
    (q : VIFPtr), w.vrfs[u]? = some o → o.tap = some t → w.wires[t]? = some p → rule ∈ p.2 →
    rule.param = Param.vif q → ∃ f, w.vifs[q]? = some f ∧ (f.index, OutputDevice.vif q) ∈ o.devs
  unbound : ∀ (q : VIFPtr) (f : VIF), w.vifs[q]? = some f → f.vrf = none →
    ∀ rule, rule ∈ f.rules → rule.param = Param.nil →
      rule.kind ≠ VswMatch.MatchEthDstSelf ∧ rule.kind ≠ VswMatch.MatchEthDstBC ∧
      rule.kind ≠ VswMatch.MatchEthDstMC
  tapOwn : ∀ (u v : VRFPtr) (ou ov : VRF) (t : InstPtr), w.vrfs[u]? = some ou →
    w.vrfs[v]? = some ov → ou.tap = some t → ov.tap = some t → u = v
  tapValid : ∀ (v : VRFPtr) (o : VRF) (t : InstPtr), w.vrfs[v]? = some o → o.tap = some t →
    t < w.wires.length
  distinct : ∀ (p q : VIFPtr) (f g : VIF), w.vifs[p]? = some f → w.vifs[q]? = some g →
    f.index = g.index → p = q

/-- The rules of a VIF after the three disconnects of `DeleteVIF`. -/
def dropEth (rules : List Rule) : List Rule :=
  List.filter (fun x => !(x.kind = VswMatch.MatchEthDstMC ∧ x.param = Param.nil))
    (List.filter (fun x => !(x.kind = VswMatch.MatchEthDstBC ∧ x.param = Param.nil))
      (List.filter (fun x => !(x.kind = VswMatch.MatchEthDstSelf ∧ x.param = Param.nil)) rules))

/-- After the first VIF is attached to the first VRF of `pairWorld`, the second
VIF (the one with NAPT) is attached to it and detached again. -/
def roundTripOps : List Op :=
  [Op.addVIF 0 0 ⟨true, true, true, true, true, true, true⟩,
   Op.addVIF 0 1 ⟨true, true, true, true, true, true, true⟩,
   Op.deleteVIF 0 1]

/-- State after `roundTripOps` on `pairWorld`. -/
def roundTripWorld : World :=
  (run pairWorld roundTripOps).getD pairWorld

/-! ## Lists and maps -/

theorem length_updAt {α : Type} (l : List α) (i : Nat) (f : α → α) :
    (updAt l i f).length = l.length := by
  induction l generalizing i with
  | nil => rfl
  | cons a l ih => cases i <;> simp [updAt, ih]

theorem getElem?_updAt {α : Type} (l : List α) (i j : Nat) (f : α → α) :
    (updAt l i f)[j]? = if i = j then (l[j]?).map f else l[j]? := by
  induction l generalizing i j with
  | nil => simp [updAt]
  | cons a l ih =>
    cases i with
    | zero => cases j <;> simp [updAt]
    | succ i => cases j <;> simp [updAt, ih]

theorem findSlotLoop_eq (w : World) (vrf : VRFPtr) (hv : vrf < w.vrfs.length) :
    ∀ (n i : Nat), i + n ≤ w.vrfMgr.byIndex.length →
      findSlotLoop w vrf n i =
        match (List.range' i n).find? (slotFree w) with
        | none => some (w, false)
        | some k => some (takeSlot w vrf k, true) := by
  intro n
  induction n with
  | zero => intro i _; simp [findSlotLoop]
  | succ n ih =>
    intro i hi
    have hlt : i < w.vrfMgr.byIndex.length := by omega
    have hvs : w.vrfs[vrf]? = some (w.vrfs[vrf]) := List.getElem?_eq_getElem hv
    have hbs : w.vrfMgr.byIndex[i]? = some (w.vrfMgr.byIndex[i]) := List.getElem?_eq_getElem hlt
    rw [List.range'_succ, List.find?_cons]
    unfold findSlotLoop
    cases hb : w.vrfMgr.byIndex[i] with
    | none =>
      have : slotFree w i = true := by simp [slotFree, hbs, hb]
      simp [hbs, hb, this, hvs]
    | some p =>
      have : slotFree w i = false := by simp [slotFree, hbs, hb]
      simp [hbs, hb, this]
      exact ih (i + 1) (by omega)


theorem assignIndex_eq (w : World) (vrf : VRFPtr) (hv : vrf < w.vrfs.length)
    (hnext : w.vrfMgr.nextIndex ≤ w.vrfMgr.byIndex.length) :
    assignIndex w vrf =
      match (scanOrder w.vrfMgr.byIndex.length w.vrfMgr.nextIndex).find? (slotFree w) with
      | none => some (w, false)
      | some k => some (takeSlot w vrf k, true) := by
  unfold assignIndex findSlot scanOrder
  rw [findSlotLoop_eq w vrf hv _ _ (by omega), List.find?_append]
  cases h1 : (List.range' w.vrfMgr.nextIndex
      (w.vrfMgr.byIndex.length - w.vrfMgr.nextIndex)).find? (slotFree w) with
  | some k => simp
  | none =>
    simp only [Option.none_or, Nat.sub_zero]
    rw [findSlotLoop_eq w vrf hv _ _ (by omega)]

theorem scanOrder_mem (len next : Nat) (hnext : next ≤ len) (j : Nat) :
    j ∈ scanOrder len next ↔ j < len := by
  simp only [scanOrder, List.mem_append, List.mem_range'_1]
  omega

theorem takeSlot_byIndex (w : World) (vrf : VRFPtr) (i : Nat) :
    (takeSlot w vrf i).vrfMgr.byIndex = w.vrfMgr.byIndex.set i (some vrf) := rfl

theorem takeSlot_nextIndex (w : World) (vrf : VRFPtr) (i : Nat) :
    (takeSlot w vrf i).vrfMgr.nextIndex = (i + 1) % w.vrfMgr.byIndex.length := rfl

theorem takeSlot_vrfs (w : World) (vrf : VRFPtr) (i : Nat) :
    (takeSlot w vrf i).vrfs = updAt w.vrfs vrf (fun o => { o with index := i }) := rfl

/-- C1: with the cursor inside the array, `assignIndex` returns false exactly
when every one of the `MaxVRF` slots is occupied, and a false return leaves
`byIndex`, `nextIndex` and the index of the VRF as they were. -/
theorem assignIndex_false_iff_full (MaxVRF : Nat) (w : World) (v : VRFPtr)
    (hlen : w.vrfMgr.byIndex.length = MaxVRF) (hnext : w.vrfMgr.nextIndex < MaxVRF)
    (hv : v < w.vrfs.length) :
    ∃ w1 b, assignIndex w v = some (w1, b) ∧
      (b = false ↔ ∀ i, i < MaxVRF → ∃ p, w.vrfMgr.byIndex[i]? = some (some p)) ∧
      (b = false → w1.vrfMgr.byIndex = w.vrfMgr.byIndex ∧
        w1.vrfMgr.nextIndex = w.vrfMgr.nextIndex ∧
        (w1.vrfs[v]?).map VRF.index = (w.vrfs[v]?).map VRF.index) := by
  rw [assignIndex_eq w v hv (by omega)]
  cases h : (scanOrder w.vrfMgr.byIndex.length w.vrfMgr.nextIndex).find? (slotFree w) with
  | none =>
    refine ⟨w, false, rfl, ?_, fun _ => ⟨rfl, rfl, rfl⟩⟩
    simp only [true_iff]
    intro i hi
    rw [List.find?_eq_none] at h
    have hm := h i ((scanOrder_mem _ _ (by omega) i).2 (by omega))
    have hbs : w.vrfMgr.byIndex[i]? = some (w.vrfMgr.byIndex[i]) :=
      List.getElem?_eq_getElem (by omega)
    cases hb : w.vrfMgr.byIndex[i] with
    | none => simp [slotFree, hbs, hb] at hm
    | some p => exact ⟨p, by rw [hbs, hb]⟩
  | some k =>
    refine ⟨takeSlot w v k, true, rfl, ?_, fun h0 => by simp at h0⟩
    have hk := List.find?_some h
    simp only [slotFree, decide_eq_true_eq] at hk
    have hmem := (scanOrder_mem _ _ (by omega) k).1 (List.mem_of_find?_eq_some h)
    constructor
    · intro h0; simp at h0
    · intro hall
      obtain ⟨p, hp⟩ := hall k (by omega)
      rw [hk] at hp
      simp at hp

/-- C2: with the cursor inside the array and a free slot, `assignIndex`
returns true, fills the first free slot `i` of the scan order `nextIndex`, ...,
`MaxVRF - 1`, `0`, ..., `nextIndex - 1`, sets the index of the VRF to `i` and
`byIndex[i]` to the VRF, leaves the other slots alone and moves the cursor to
`(i + 1) % MaxVRF`. -/
theorem assignIndex_fills_first_free (MaxVRF : Nat) (w : World) (v : VRFPtr)
    (hlen : w.vrfMgr.byIndex.length = MaxVRF) (hnext : w.vrfMgr.nextIndex < MaxVRF)
    (hv : v < w.vrfs.length)
    (hfree : ∃ j, j < MaxVRF ∧ w.vrfMgr.byIndex[j]? = some none) :
    ∃ w1 i, assignIndex w v = some (w1, true) ∧
      (scanOrder MaxVRF w.vrfMgr.nextIndex).find? (slotFree w) = some i ∧
      i < MaxVRF ∧
      (w1.vrfs[v]?).map VRF.index = some i ∧
      w1.vrfMgr.byIndex[i]? = some (some v) ∧
      (∀ j, j ≠ i → w1.vrfMgr.byIndex[j]? = w.vrfMgr.byIndex[j]?) ∧
      w1.vrfMgr.nextIndex = (i + 1) % MaxVRF := by
  rw [assignIndex_eq w v hv (by omega), hlen]
  cases h : (scanOrder MaxVRF w.vrfMgr.nextIndex).find? (slotFree w) with
  | none =>
    exfalso
    obtain ⟨j, hj, hjf⟩ := hfree
    rw [List.find?_eq_none] at h
    have hm := h j ((scanOrder_mem _ _ (by omega) j).2 hj)
    simp [slotFree, hjf] at hm
  | some k =>
    have hmem := (scanOrder_mem _ _ (by omega) k).1 (List.mem_of_find?_eq_some h)
    refine ⟨takeSlot w v k, k, rfl, rfl, hmem, ?_, ?_, ?_, ?_⟩
    · rw [takeSlot_vrfs, getElem?_updAt, if_pos rfl, List.getElem?_eq_getElem hv]
      rfl
    · rw [takeSlot_byIndex, List.getElem?_set_self (by omega)]
    · intro j hj
      rw [takeSlot_byIndex, List.getElem?_set_ne (Ne.symm hj)]
    · rw [takeSlot_nextIndex, hlen]

/-- The full registry of `fullWorld` refuses a third VRF. -/
theorem assignIndex_false_iff_full_witness :
    (fullWorld.vrfMgr.byIndex.length = 2 ∧ fullWorld.vrfMgr.nextIndex < 2 ∧
      2 < fullWorld.vrfs.length) ∧
    ∃ w1 b, assignIndex fullWorld 2 = some (w1, b) ∧
      (b = false ↔ ∀ i, i < 2 → ∃ p, fullWorld.vrfMgr.byIndex[i]? = some (some p)) ∧
      (b = false → w1.vrfMgr.byIndex = fullWorld.vrfMgr.byIndex ∧
        w1.vrfMgr.nextIndex = fullWorld.vrfMgr.nextIndex ∧
        (w1.vrfs[2]?).map VRF.index = (fullWorld.vrfs[2]?).map VRF.index) :=
  ⟨by decide, assignIndex_false_iff_full 2 fullWorld 2 (by decide) (by decide) (by decide)⟩

/-- In `wrapWorld` the scan starts at slot 1, wraps and fills slot 0. -/
theorem assignIndex_fills_first_free_witness :
    (wrapWorld.vrfMgr.byIndex.length = 3 ∧ wrapWorld.vrfMgr.nextIndex < 3 ∧
      2 < wrapWorld.vrfs.length ∧ ∃ j, j < 3 ∧ wrapWorld.vrfMgr.byIndex[j]? = some none) ∧
    ∃ w1 i, assignIndex wrapWorld 2 = some (w1, true) ∧
      (scanOrder 3 wrapWorld.vrfMgr.nextIndex).find? (slotFree wrapWorld) = some i ∧
      i < 3 ∧
      (w1.vrfs[2]?).map VRF.index = some i ∧
      w1.vrfMgr.byIndex[i]? = some (some 2) ∧
      (∀ j, j ≠ i → w1.vrfMgr.byIndex[j]? = wrapWorld.vrfMgr.byIndex[j]?) ∧
      w1.vrfMgr.nextIndex = (i + 1) % 3 :=
  ⟨⟨by decide, by decide, by decide, 0, by decide, by decide⟩,
    assignIndex_fills_first_free 3 wrapWorld 2 (by decide) (by decide) (by decide)
      ⟨0, by decide, by decide⟩⟩

theorem isDigit_iff (c : Char) : c.isDigit = true ↔ '0' ≤ c ∧ c ≤ '9' := by
  simp only [Char.isDigit, Bool.and_eq_true, decide_eq_true_eq, Char.le_def]
  exact Iff.rfl

theorem reMatchString_iff (name : String) : reMatchString name = true ↔ ValidName name := by
  constructor
  · intro h
    unfold reMatchString at h
    split at h
    · rename_i d ds hl
      refine ⟨d :: ds, by simp, ?_, ?_⟩
      · intro c hc
        exact (isDigit_iff c).1 (List.all_eq_true.1 h c hc)
      · apply String.ext
        rw [String.data_append]
        exact hl
    · simp at h
  · rintro ⟨ds, hne, hd, rfl⟩
    cases ds with
    | nil => exact absurd rfl hne
    | cons d ds =>
      have : ("vrf" ++ String.mk (d :: ds)).toList = 'v' :: 'r' :: 'f' :: d :: ds := by
        show ("vrf" ++ String.mk (d :: ds)).data = _
        rw [String.data_append]; rfl
      unfold reMatchString
      rw [this]
      simp only
      rw [List.all_eq_true]
      intro c hc
      exact (isDigit_iff c).2 (hd c hc)

/-- C4: for a name that is not `vrf` followed by one or more decimal digits,
or that is already a key of `byName`, `NewVRF` returns an error and leaves
`byName`, `byIndex`, `nextIndex` and `rds` as they were. -/
theorem NewVRF_rejects_bad_or_known_name (w : World) (name : String) (x : NewVRFExt)
    (h : ¬ ValidName name ∨ ∃ p, mapGet w.vrfMgr.byName name = some p) :
    ∃ w1 e, NewVRF w name x = some (w1, Result.error e) ∧
      w1.vrfMgr.byName = w.vrfMgr.byName ∧ w1.vrfMgr.byIndex = w.vrfMgr.byIndex ∧
      w1.vrfMgr.nextIndex = w.vrfMgr.nextIndex ∧ w1.vrfMgr.rds = w.vrfMgr.rds := by
  unfold NewVRF
  by_cases hre : reMatchString name = true
  · rcases h with h | ⟨p, hp⟩
    · exact absurd ((reMatchString_iff name).1 hre) h
    · have : mapHas w.vrfMgr.byName name = true := by simp [mapHas, hp]
      exact ⟨w, Err.alreadyExists, by simp [hre, this], rfl, rfl, rfl, rfl⟩
  · exact ⟨w, Err.invalidName, by simp [hre], rfl, rfl, rfl, rfl⟩


/-- The name `vrf1a` is refused by the two-slot registry `fullWorld`. -/
theorem NewVRF_rejects_bad_or_known_name_witness :
    (¬ ValidName "vrf1a" ∨ ∃ p, mapGet fullWorld.vrfMgr.byName "vrf1a" = some p) ∧
    ∃ w1 e, NewVRF fullWorld "vrf1a" ⟨some 12, true, true, true⟩ = some (w1, Result.error e) ∧
      w1.vrfMgr.byName = fullWorld.vrfMgr.byName ∧ w1.vrfMgr.byIndex = fullWorld.vrfMgr.byIndex ∧
      w1.vrfMgr.nextIndex = fullWorld.vrfMgr.nextIndex ∧ w1.vrfMgr.rds = fullWorld.vrfMgr.rds :=
  have h : ¬ ValidName "vrf1a" := fun hv =>
    absurd ((reMatchString_iff "vrf1a").2 hv) (by decide)
  ⟨Or.inl h, NewVRF_rejects_bad_or_known_name fullWorld "vrf1a" ⟨some 12, true, true, true⟩ (Or.inl h)⟩

section GoMapLemmas

variable {κ : Type} {β : Type} [DecidableEq κ]

theorem mapGet_mapDelete (m : List (κ × β)) (k k1 : κ) :
    mapGet (mapDelete m k) k1 = if k = k1 then none else mapGet m k1 := by
  induction m with
  | nil => simp [mapDelete, mapGet]
  | cons e m ih =>
    by_cases h1 : e.1 = k
    · simp only [mapDelete, if_pos h1, ih, mapGet]
      by_cases h2 : k = k1
      · simp [h2]
      · have h3 : ¬ e.1 = k1 := by rw [h1]; exact h2
        simp [h2, h3]
    · simp only [mapDelete, if_neg h1, mapGet, ih]
      by_cases h2 : k = k1
      · have h3 : ¬ e.1 = k1 := by rw [← h2]; exact h1
        simp [h2, h3]
      · simp [h2]

theorem mapGet_mapSet (m : List (κ × β)) (k k1 : κ) (v : β) :
    mapGet (mapSet m k v) k1 = if k = k1 then some v else mapGet m k1 := by
  by_cases h : k = k1
  · simp [mapSet, mapGet, h]
  · simp [mapSet, mapGet, h, mapGet_mapDelete]

theorem mapHas_eq_false (m : List (κ × β)) (k : κ) :
    mapHas m k = false ↔ mapGet m k = none := by
  simp [mapHas]

end GoMapLemmas

theorem map_updAt_of_eq {α γ : Type} (g : α → γ) (f : α → α) (hf : ∀ a, g (f a) = g a)
    (l : List α) (i : Nat) : (updAt l i f).map g = l.map g := by
  induction l generalizing i with
  | nil => rfl
  | cons a l ih => cases i <;> simp [updAt, hf, ih]

theorem set_set_none {α : Type} (l : List (Option α)) (i : Nat) (a : α)
    (h : l[i]? = some none) : (l.set i (some a)).set i none = l := by
  apply List.ext_getElem?
  intro j
  by_cases hj : i = j
  · subst hj
    have hlt : i < l.length := by
      by_contra hc
      rw [List.getElem?_eq_none (by omega)] at h
      exact absurd h (by simp)
    rw [List.getElem?_set_self (by simpa using hlt), h]
  · rw [List.getElem?_set_ne hj, List.getElem?_set_ne hj]

theorem keys_getElem? (w : World) (p : VRFPtr) :
    w.keys[p]? = (w.vrfs[p]?).map VRF.key := by
  simp [World.keys]

theorem releaseIndex_eq (w : World) (vrf : VRFPtr) (n : String) (k r : Nat)
    (hk : w.keys[vrf]? = some (n, k, r)) (hlt : k < w.vrfMgr.byIndex.length) :
    releaseIndex w vrf =
      some { w with vrfMgr := { w.vrfMgr with byIndex := w.vrfMgr.byIndex.set k none } } := by
  rw [keys_getElem?] at hk
  unfold releaseIndex
  cases h : w.vrfs[vrf]? with
  | none => simp [h] at hk
  | some o =>
    simp only [h, Option.map_some', Option.some.injEq, VRF.key, Prod.mk.injEq] at hk
    simp [hk.2.1, hlt]

theorem newVRFError1_eq (w : World) (vrf : VRFPtr) (e : Err) (n : String) (k r : Nat)
    (hk : w.keys[vrf]? = some (n, k, r)) (hlt : k < w.vrfMgr.byIndex.length) :
    newVRFError1 w vrf e =
      some ({ w with vrfMgr := { w.vrfMgr with byIndex := w.vrfMgr.byIndex.set k none } },
        Result.error e) := by
  unfold newVRFError1
  rw [releaseIndex_eq w vrf n k r hk hlt]

@[simp] theorem VRF.key_vifIndex (o : VRF) (a : VIFIndex) : ({ o with vifIndex := a } : VRF).key = o.key := rfl

@[simp] theorem VRF.key_tap (o : VRF) (a : Option InstPtr) : ({ o with tap := a } : VRF).key = o.key := rfl

@[simp] theorem VRF.key_router (o : VRF) (a : Option InstPtr) :
    ({ o with router := a } : VRF).key = o.key := rfl

@[simp] theorem VRF.key_devs (o : VRF) (a : List (VIFIndex × OutputDevice)) :
    ({ o with devs := a } : VRF).key = o.key := rfl

@[simp] theorem VRF.key_tables (o : VRF) (a : List (VIFIndex × OutputDevice)) (b c : Bool) :
    ({ o with routingTable := b, devs := a, pbr := c } : VRF).key = o.key := rfl

/-- What `newVRFBuild` leaves behind, as far as the registry is concerned. -/
theorem newVRFBuild_registry (w : World) (vrf : VRFPtr) (name : String) (x : NewVRFExt)
    (n : String) (k r : Nat)
    (hk : w.keys[vrf]? = some (n, k, r)) (hlt : k < w.vrfMgr.byIndex.length) :
    ∃ w1 res, newVRFBuild w vrf name x = some (w1, res) ∧ w1.keys = w.keys ∧
      ((res = Result.ok vrf ∧
          w1.vrfMgr = { w.vrfMgr with byName := mapSet w.vrfMgr.byName name vrf } ∧
          (∃ vi, x.vifIndex = some vi ∧ mapHas w.vifIdxMgr vi = false) ∧
          x.tap = true ∧ x.router = true ∧ x.connect = true) ∨
        ((∃ e, res = Result.error e) ∧
          w1.vrfMgr = { w.vrfMgr with byIndex := w.vrfMgr.byIndex.set k none } ∧
          ¬ ((∃ vi, x.vifIndex = some vi ∧ mapHas w.vifIdxMgr vi = false) ∧
            x.tap = true ∧ x.router = true ∧ x.connect = true))) := by
  obtain ⟨xv, xt, xr, xc⟩ := x
  unfold newVRFBuild
  cases xv with
  | none =>
    simp only [allocVIFIndex]
    rw [releaseIndex_eq w vrf n k r hk hlt]
    exact ⟨_, _, rfl, rfl, Or.inr ⟨⟨_, rfl⟩, rfl, by simp⟩⟩
  | some vi =>
    by_cases hvi : mapHas w.vifIdxMgr vi = true
    · simp only [allocVIFIndex, hvi, if_true]
      rw [releaseIndex_eq w vrf n k r hk hlt]
      exact ⟨_, _, rfl, rfl, Or.inr ⟨⟨_, rfl⟩, rfl, by simp [hvi]⟩⟩
    · have hvi2 : mapHas w.vifIdxMgr vi = false := by simpa using hvi
      simp only [allocVIFIndex, hvi2]
      cases xt with
      | false =>
        simp only [newInstance]
        refine ⟨_, _, newVRFError1_eq _ vrf _ n k r ?_ ?_, ?_, Or.inr ⟨⟨_, rfl⟩, ?_, by simp⟩⟩
        · simpa [World.keys, map_updAt_of_eq] using hk
        · simpa using hlt
        · simp [World.keys, map_updAt_of_eq]
        · rfl
      | true =>
        cases xr with
        | false =>
          simp only [newInstance, newVRFError2]
          refine ⟨_, _, newVRFError1_eq _ vrf _ n k r ?_ ?_, ?_, Or.inr ⟨⟨_, rfl⟩, ?_, by simp⟩⟩
          · simpa [World.keys, map_updAt_of_eq, instFree] using hk
          · simpa [instFree] using hlt
          · simp [World.keys, map_updAt_of_eq, instFree]
          · rfl
        | true =>
          cases xc with
          | false =>
            simp only [newInstance, newVRFError2, newVRFError3, instConnect]
            refine ⟨_, _, newVRFError1_eq _ vrf _ n k r ?_ ?_, ?_, Or.inr ⟨⟨_, rfl⟩, ?_, by simp⟩⟩
            · simpa [World.keys, map_updAt_of_eq, instFree] using hk
            · simpa [instFree] using hlt
            · simp [World.keys, map_updAt_of_eq, instFree]
            · rfl
          | true =>
            simp only [newInstance, instConnect]
            refine ⟨_, _, rfl, ?_, Or.inl ⟨rfl, ?_, ⟨vi, by simp, hvi2⟩, by simp⟩⟩
            · simp [World.keys, map_updAt_of_eq, notify]
            · rfl

theorem slotFree_append (w : World) (o : VRF) :
    slotFree { w with vrfs := w.vrfs ++ [o] } = slotFree w := rfl

theorem NewVRF_noSpace (w : World) (name : String) (x : NewVRFExt)
    (hnext : w.vrfMgr.nextIndex ≤ w.vrfMgr.byIndex.length)
    (hre : reMatchString name = true) (hfresh : mapHas w.vrfMgr.byName name = false)
    (hfull : (scanOrder w.vrfMgr.byIndex.length w.vrfMgr.nextIndex).find? (slotFree w) = none) :
    ∃ w1, NewVRF w name x = some (w1, Result.error Err.noSpace) ∧ w1.vrfMgr = w.vrfMgr ∧
      w1.keys = w.keys ++ [(name, 0, 0)] := by
  unfold NewVRF
  simp only [hre, hfresh, Bool.not_true, Bool.false_eq_true, if_false]
  rw [assignIndex_eq _ _ (by simp) (by simpa using hnext)]
  simp only [slotFree_append, hfull]
  exact ⟨_, rfl, rfl, by simp [World.keys, VRF.key, VRF.new]⟩

theorem NewVRF_slot (w : World) (name : String) (x : NewVRFExt) (k : Nat)
    (hnext : w.vrfMgr.nextIndex ≤ w.vrfMgr.byIndex.length)
    (hre : reMatchString name = true) (hfresh : mapHas w.vrfMgr.byName name = false)
    (hk : (scanOrder w.vrfMgr.byIndex.length w.vrfMgr.nextIndex).find? (slotFree w) = some k) :
    ∃ w1 res, NewVRF w name x = some (w1, res) ∧ w1.keys = w.keys ++ [(name, k, 0)] ∧
      ((res = Result.ok w.vrfs.length ∧
          w1.vrfMgr = { w.vrfMgr with
                        byName := mapSet w.vrfMgr.byName name w.vrfs.length
                        byIndex := w.vrfMgr.byIndex.set k (some w.vrfs.length)
                        nextIndex := (k + 1) % w.vrfMgr.byIndex.length } ∧
          x.allOk w) ∨
        ((∃ e, res = Result.error e) ∧
          w1.vrfMgr = { w.vrfMgr with nextIndex := (k + 1) % w.vrfMgr.byIndex.length } ∧
          ¬ x.allOk w)) := by
  have hkfree : w.vrfMgr.byIndex[k]? = some none := by
    have := List.find?_some hk
    simpa [slotFree] using this
  have hklt : k < w.vrfMgr.byIndex.length :=
    (scanOrder_mem _ _ hnext k).1 (List.mem_of_find?_eq_some hk)
  unfold NewVRF
  simp only [hre, hfresh, Bool.not_true, Bool.false_eq_true, if_false]
  rw [assignIndex_eq _ _ (by simp) (by simpa using hnext)]
  simp only [slotFree_append, hk]
  have hkeys : (takeSlot { w with vrfs := w.vrfs ++ [VRF.new name] } w.vrfs.length k).keys =
      w.keys ++ [(name, k, 0)] := by
    apply List.ext_getElem?
    intro j
    simp only [World.keys, takeSlot_vrfs, List.getElem?_map, getElem?_updAt]
    by_cases hj : w.vrfs.length = j
    · subst hj
      simp [VRF.key, VRF.new]
    · simp only [if_neg hj]
      rcases Nat.lt_or_gt_of_ne hj with h | h
      · rw [List.getElem?_eq_none (by simp; omega), List.getElem?_eq_none (by simp; omega)]
        rfl
      · rw [List.getElem?_append_left h, ← List.getElem?_map,
          List.getElem?_append_left (by simpa using h)]
  have hkey : (takeSlot { w with vrfs := w.vrfs ++ [VRF.new name] } w.vrfs.length k).keys[
      w.vrfs.length]? = some (name, k, 0) := by
    rw [hkeys]
    simp [World.keys]
  obtain ⟨w1, res, h1, h2, h3⟩ := newVRFBuild_registry
    (takeSlot { w with vrfs := w.vrfs ++ [VRF.new name] } w.vrfs.length k) w.vrfs.length name x
    name k 0 hkey (by simpa [takeSlot_byIndex] using hklt)
  refine ⟨w1, res, h1, by rw [h2, hkeys], ?_⟩
  rcases h3 with ⟨hr, hm, hx⟩ | ⟨hr, hm, hx⟩
  · exact Or.inl ⟨hr, by rw [hm]; rfl, hx⟩
  · refine Or.inr ⟨hr, ?_, hx⟩
    rw [hm]
    simp only [takeSlot_byIndex, takeSlot_nextIndex]
    show ({ byName := _, byIndex := _, nextIndex := _, rds := _ } : vrfManager) = _
    rw [set_set_none _ _ _ hkfree]
    rfl

theorem SameRegistry.refl (w : World) : SameRegistry w w := ⟨rfl, rfl, rfl⟩

theorem SameRegistry.trans {w w1 w2 : World} (h1 : SameRegistry w w1) (h2 : SameRegistry w1 w2) :
    SameRegistry w w2 :=
  ⟨h2.1.trans h1.1, h2.2.1.trans h1.2.1, h2.2.2.trans h1.2.2⟩

theorem addVIFConnects_frame (w : World) (v : VRFPtr) (o : VRF) (router : InstPtr) (vif : VIFPtr)
    (f : VIF) (x : AddVIFExt) (w1 : World) (r : Option Err)
    (h : addVIFConnects w v o router vif f x = some (w1, r)) : SameRegistry w w1 := by
  obtain ⟨x1, x2, x3, x4, x5, x6, x7⟩ := x
  unfold addVIFConnects at h
  cases x4 <;> cases x5 <;> cases x6 <;> cases x7 <;> cases hn : f.napt <;> cases ht : o.tap <;>
    simp [vifConnect, routerEnableNAPT, hn, ht, addVIFError3, addVIFError4, addVIFError5,
      addVIFError6, addVIFError2, addVIFError1, vifSetVRF, routerDeleteVIF, instDisconnect,
      vifDisconnect, notify] at h <;>
    (obtain ⟨rfl, _⟩ := h; simp [SameRegistry, World.keys, map_updAt_of_eq, VRF.key])

theorem AddVIF_frame (w : World) (v : VRFPtr) (vif : VIFPtr) (x : AddVIFExt) (w1 : World)
    (r : Option Err) (h : AddVIF w v vif x = some (w1, r)) : SameRegistry w w1 := by
  unfold AddVIF at h
  split at h
  · rename_i o f ho hf
    split at h
    · simp only [Option.some.injEq, Prod.mk.injEq] at h
      rw [← h.1]
      exact SameRegistry.refl w
    · have hs : ∀ ok, SameRegistry w (vifSetVRF w vif (some v) ok).1 := by
        intro ok
        simp only [vifSetVRF, hf]
        split <;> exact ⟨rfl, rfl, rfl⟩
      split at h
      · rename_i w2 hw2
        simp only [Option.some.injEq, Prod.mk.injEq] at h
        rw [← h.1]
        have := hs x.setVRF
        rw [hw2] at this
        exact this
      · rename_i w2 hw2
        have h2 : SameRegistry w w2 := by
          have := hs x.setVRF
          rw [hw2] at this
          exact this
        split at h
        · simp at h
        · rename_i router hr
          have ha : ∀ ok, SameRegistry w2 (routerAddVIF w2 router vif ok).1 := by
            intro ok
            cases ok <;> exact ⟨rfl, rfl, rfl⟩
          split at h
          · rename_i w3 hw3
            simp only [Option.some.injEq, Prod.mk.injEq] at h
            rw [← h.1]
            have := ha x.addVIF
            rw [hw3] at this
            exact h2.trans (this.trans ⟨rfl, rfl, rfl⟩)
          · rename_i w3 hw3
            have h3 : SameRegistry w w3 := by
              have := ha x.addVIF
              rw [hw3] at this
              exact h2.trans this
            split at h
            · split at h
              · simp at h
              · rename_i tap htap
                have hc : ∀ ok, SameRegistry w3 (instConnect w3 tap (Ring.vifOutbound vif)
                    VswMatch.MatchOutVIF (Param.vif vif) ok).1 := by
                  intro ok
                  cases ok <;> exact ⟨rfl, rfl, rfl⟩
                split at h
                · rename_i w4 hw4
                  simp only [Option.some.injEq, Prod.mk.injEq] at h
                  rw [← h.1]
                  have := hc x.tapConnect
                  rw [hw4] at this
                  exact h3.trans (this.trans ⟨rfl, rfl, rfl⟩)
                · rename_i w4 hw4
                  have := hc x.tapConnect
                  rw [hw4] at this
                  exact (h3.trans this).trans (addVIFConnects_frame _ _ _ _ _ _ _ _ _ h)
            · exact h3.trans (addVIFConnects_frame _ _ _ _ _ _ _ _ _ h)
  · simp at h

theorem DeleteVIF_frame (w : World) (v : VRFPtr) (vif : VIFPtr) (w1 : World)
    (r : Option Err) (h : DeleteVIF w v vif = some (w1, r)) : SameRegistry w w1 := by
  unfold DeleteVIF at h
  split at h
  · split at h
    · simp only [Option.some.injEq, Prod.mk.injEq] at h
      rw [← h.1]
      exact SameRegistry.refl w
    · split at h
      · simp only [Option.some.injEq, Prod.mk.injEq] at h
        rw [← h.1]
        simp [SameRegistry, World.keys, map_updAt_of_eq, VRF.key, notify, routerDeleteVIF,
          vifSetVRF, vifDisconnect, instDisconnect]
      · simp at h
  · simp at h

theorem freeDev_frame (w : World) (v : VRFPtr) (k : VIFIndex) (dev : OutputDevice) (w1 : World)
    (h : freeDev w v k dev = some w1) : SameRegistry w w1 := by
  unfold freeDev at h
  split at h
  · simp at h
  · split at h
    · split at h
      · split at h
        · simp at h
        · rename_i w2 r hd
          simp only [Option.some.injEq] at h
          rw [← h]
          exact DeleteVIF_frame _ _ _ _ _ hd
      · simp only [Option.some.injEq] at h
        rw [← h]
        exact SameRegistry.refl w
    · simp only [Option.some.injEq] at h
      rw [← h]
      exact SameRegistry.refl w

theorem freeDevs_frame (v : VRFPtr) (devs : List (VIFIndex × OutputDevice)) :
    ∀ (w w1 : World), freeDevs w v devs = some w1 → SameRegistry w w1 := by
  induction devs with
  | nil =>
    intro w w1 h
    simp only [freeDevs, Option.some.injEq] at h
    rw [← h]
    exact SameRegistry.refl w
  | cons e devs ih =>
    intro w w1 h
    simp only [freeDevs] at h
    split at h
    · simp at h
    · rename_i w2 hd
      exact (freeDev_frame _ _ _ _ _ hd).trans (ih _ _ h)

theorem freeVIFIndex_vrfMgr (w : World) (i : VIFIndex) :
    (freeVIFIndex w i).1.vrfMgr = w.vrfMgr := by
  unfold freeVIFIndex
  split <;> rfl

theorem freeVIFIndex_vrfs (w : World) (i : VIFIndex) :
    (freeVIFIndex w i).1.vrfs = w.vrfs := by
  unfold freeVIFIndex
  split <;> rfl

theorem freeRegistry_registry (w : World) (v : VRFPtr) (w1 : World)
    (h : freeRegistry w v = some w1) :
    ∃ n i r, w.keys[v]? = some (n, i, r) ∧ i < w.vrfMgr.byIndex.length ∧ w1.keys = w.keys ∧
      w1.vrfMgr = { byName := mapDelete w.vrfMgr.byName n
                    byIndex := w.vrfMgr.byIndex.set i none
                    nextIndex := w.vrfMgr.nextIndex
                    rds := if r ≠ 0 then mapDelete w.vrfMgr.rds r else w.vrfMgr.rds } := by
  unfold freeRegistry at h
  split at h
  · simp at h
  · rename_i o ho
    refine ⟨o.name, o.index, o.rd, by rw [keys_getElem?, ho]; rfl, ?_⟩
    simp only [releaseIndex, ho] at h
    by_cases hlt : o.index < w.vrfMgr.byIndex.length
    · simp only [hlt, if_true, Option.some.injEq] at h
      rw [← h]
      refine ⟨hlt, ?_, ?_⟩
      · by_cases hr : o.rd = 0 <;>
          simp [hr, notify, World.keys, freeVIFIndex_vrfs]
      · by_cases hr : o.rd = 0 <;>
          simp [hr, notify, freeVIFIndex_vrfMgr]
    · simp [hlt] at h

theorem Free_registry (w : World) (v : VRFPtr) (w1 : World)
    {order : List (VIFIndex × OutputDevice)} (h : Free w v order = some w1) :
    ∃ n i r, w.keys[v]? = some (n, i, r) ∧ i < w.vrfMgr.byIndex.length ∧ w1.keys = w.keys ∧
      w1.vrfMgr = { byName := mapDelete w.vrfMgr.byName n
                    byIndex := w.vrfMgr.byIndex.set i none
                    nextIndex := w.vrfMgr.nextIndex
                    rds := if r ≠ 0 then mapDelete w.vrfMgr.rds r else w.vrfMgr.rds } := by
  unfold Free at h
  split at h
  · simp at h
  · split at h
    · simp at h
    · rename_i w2 hd
      have hs := freeDevs_frame _ _ _ _ hd
      split at h
      · obtain ⟨n, i, r, h1, h2, h3, h4⟩ := freeRegistry_registry _ _ _ h
        have e1 : ∀ (a b : InstPtr) (k : VswMatch) (p : Param),
            (instFree (instFree (instDisconnect w2 a k p) b) a).keys = w2.keys := fun _ _ _ _ => rfl
        have e2 : ∀ (a b : InstPtr) (k : VswMatch) (p : Param),
            (instFree (instFree (instDisconnect w2 a k p) b) a).vrfMgr = w2.vrfMgr :=
          fun _ _ _ _ => rfl
        rw [e1, hs.2.1] at h1 h3
        rw [e2, hs.1] at h2 h4
        exact ⟨n, i, r, h1, h2, h3, h4⟩
      · simp at h

theorem SetRD_registry (w : World) (v : VRFPtr) (rd : Nat) (w1 : World) (e : Option Err)
    (h : SetRD w v rd = some (w1, e)) :
    ∃ n i old, w.keys[v]? = some (n, i, old) ∧
      ((e = some Err.rdExists ∧ w1 = w ∧ mapHas w.vrfMgr.rds rd = true) ∨
        (e = none ∧ mapHas w.vrfMgr.rds rd = false ∧
          w1.vrfMgr = { w.vrfMgr with
                        rds := if old ≠ 0 then mapDelete (mapSet w.vrfMgr.rds rd ()) old
                               else mapSet w.vrfMgr.rds rd () } ∧
          (∀ p, w1.keys[p]? = if v = p then some (n, i, rd) else w.keys[p]?) ∧
          w1.vifIdxMgr = w.vifIdxMgr)) := by
  unfold SetRD at h
  split at h
  · simp at h
  · rename_i o ho
    refine ⟨o.name, o.index, o.rd, by rw [keys_getElem?, ho]; rfl, ?_⟩
    by_cases hm : mapHas w.vrfMgr.rds rd = true
    · simp only [hm, if_true, Option.some.injEq, Prod.mk.injEq] at h
      exact Or.inl ⟨h.2.symm, h.1.symm, hm⟩
    · simp only [hm, Bool.false_eq_true, if_false, Option.some.injEq, Prod.mk.injEq] at h
      refine Or.inr ⟨h.2.symm, by simpa using hm, ?_⟩
      rw [← h.1]
      refine ⟨?_, ?_, ?_⟩
      · by_cases hr : o.rd = 0 <;> simp [hr]
      · intro p
        have : ∀ W : World, W.vrfs = updAt w.vrfs v (fun o1 => { o1 with rd := rd }) →
            W.keys[p]? = if v = p then some (o.name, o.index, rd) else w.keys[p]? := by
          intro W hW
          rw [keys_getElem?, hW, getElem?_updAt, keys_getElem?]
          by_cases hp : v = p
          · subst hp
            simp [ho, VRF.key]
          · simp [hp]
        by_cases hr : o.rd = 0 <;> simp only [hr, ne_eq, not_true_eq_false, not_false_eq_true,
          if_true, if_false] <;> exact this _ rfl
      · by_cases hr : o.rd = 0 <;> simp [hr]

theorem keys_length (w : World) : w.keys.length = w.vrfs.length := by
  simp [World.keys]

theorem RegInv.of_same {M : Nat} {w w1 : World} (inv : RegInv M w) (h : SameRegistry w w1) :
    RegInv M w1 := by
  obtain ⟨hm, hk, _⟩ := h
  constructor
  · rw [hm]; exact inv.len
  · rw [hm]; exact inv.next
  · rw [hm, hk]; exact inv.byName_sound
  · rw [hm, hk]; exact inv.byIndex_sound
  · rw [hm, hk]; exact inv.rd_mem
  · rw [hm, hk]; exact inv.rd_unique

theorem RegInv.at_empty (M : Nat) (vifs : List VIF) : RegInv M (World.empty M vifs) := by
  constructor
  · simp [World.empty, vrfMgrInit]
  · simp [World.empty, vrfMgrInit]
  · intro n p h
    simp [World.empty, vrfMgrInit, mapGet] at h
  · intro i p h
    simp only [World.empty, vrfMgrInit] at h
    by_cases hi : i < M
    · rw [List.getElem?_eq_getElem (by simpa using hi)] at h
      simp at h
    · rw [List.getElem?_eq_none (by simpa using hi)] at h
      simp at h
  · intro n p i r h
    simp [World.empty, vrfMgrInit, mapGet] at h
  · intro n p i r m q j h
    simp [World.empty, vrfMgrInit, mapGet] at h

/-- A new, unregistered VRF object and a move of the cursor keep the registry consistent. -/
theorem RegInv.append {M : Nat} {w w1 : World} (inv : RegInv M w)
    (e : String × VRFIndex × Nat) (nx : Nat) (hnx : nx ≤ M)
    (hkeys : w1.keys = w.keys ++ [e])
    (hm : w1.vrfMgr = { w.vrfMgr with nextIndex := nx }) : RegInv M w1 := by
  have hA : ∀ (q : Nat) (a : String × VRFIndex × Nat), w.keys[q]? = some a →
      w1.keys[q]? = some a := by
    intro q a h
    have hq : q < w.keys.length := by
      by_contra hc
      rw [List.getElem?_eq_none (by omega)] at h
      simp at h
    rw [hkeys, List.getElem?_append_left hq, h]
  have hn : ∀ (n : String) (p : VRFPtr), mapGet w1.vrfMgr.byName n = some p →
      mapGet w.vrfMgr.byName n = some p := by
    intro n p h
    rw [hm] at h
    exact h
  have hold : ∀ (n : String) (p : VRFPtr) (i r : Nat), mapGet w1.vrfMgr.byName n = some p →
      w1.keys[p]? = some (n, i, r) →
      w.keys[p]? = some (n, i, r) := by
    intro n p i r h1 h2
    obtain ⟨i1, r1, h3, _⟩ := inv.byName_sound n p (hn n p h1)
    have := hA _ _ h3
    rw [this] at h2
    rw [h3, h2]
  constructor
  · rw [hm]; exact inv.len
  · rw [hm]; exact hnx
  · intro n p h
    obtain ⟨i, r, h1, h2⟩ := inv.byName_sound n p (hn n p h)
    exact ⟨i, r, hA _ _ h1, by rw [hm]; exact h2⟩
  · intro i p h
    rw [hm] at h
    obtain ⟨n, r, h1, h2⟩ := inv.byIndex_sound i p h
    exact ⟨n, r, hA _ _ h1, by rw [hm]; exact h2⟩
  · intro n p i r h1 h2 hr
    have := inv.rd_mem n p i r (hn n p h1) (hold n p i r h1 h2) hr
    rw [hm]
    exact this
  · intro n p i r m q j h1 h2 h3 h4 hr
    exact inv.rd_unique n p i r m q j (hn n p h1) (hold n p i r h1 h2) (hn m q h3)
      (hold m q j r h3 h4) hr

theorem getElem?_some_lt {α : Type} {l : List α} {i : Nat} {a : α} (h : l[i]? = some a) :
    i < l.length := by
  by_contra hc
  rw [List.getElem?_eq_none (by omega)] at h
  simp at h

/-- Registering a new VRF object under a fresh name in a free slot keeps the
registry consistent. -/
theorem RegInv.register {M : Nat} {w w1 : World} (inv : RegInv M w) (name : String) (k : Nat)
    (hfresh : mapGet w.vrfMgr.byName name = none)
    (hk : w.vrfMgr.byIndex[k]? = some none)
    (hkeys : w1.keys = w.keys ++ [(name, k, 0)])
    (hm : w1.vrfMgr = { w.vrfMgr with
                        byName := mapSet w.vrfMgr.byName name w.vrfs.length
                        byIndex := w.vrfMgr.byIndex.set k (some w.vrfs.length)
                        nextIndex := (k + 1) % w.vrfMgr.byIndex.length }) : RegInv M w1 := by
  have hklt : k < w.vrfMgr.byIndex.length := getElem?_some_lt hk
  have hA : ∀ (q : Nat) (a : String × VRFIndex × Nat), w.keys[q]? = some a →
      w1.keys[q]? = some a := by
    intro q a h
    rw [hkeys, List.getElem?_append_left (getElem?_some_lt h), h]
  have hB : w1.keys[w.vrfs.length]? = some (name, k, 0) := by
    rw [hkeys, ← keys_length]
    simp
  have hnone : w.keys[w.vrfs.length]? = none :=
    List.getElem?_eq_none (by rw [keys_length])
  have hbn : ∀ (n : String) (p : VRFPtr), mapGet w1.vrfMgr.byName n = some p →
      (n = name ∧ p = w.vrfs.length) ∨ (n ≠ name ∧ mapGet w.vrfMgr.byName n = some p) := by
    intro n p h
    rw [hm] at h
    simp only [mapGet_mapSet] at h
    by_cases hn : name = n
    · rw [if_pos hn] at h
      exact Or.inl ⟨hn.symm, (Option.some.inj h).symm⟩
    · rw [if_neg hn] at h
      exact Or.inr ⟨fun hc => hn hc.symm, h⟩
  have hold : ∀ (n : String) (p : VRFPtr) (i r : Nat), mapGet w1.vrfMgr.byName n = some p →
      w1.keys[p]? = some (n, i, r) → r ≠ 0 →
      mapGet w.vrfMgr.byName n = some p ∧ w.keys[p]? = some (n, i, r) := by
    intro n p i r h1 h2 hr
    rcases hbn n p h1 with ⟨_, hp⟩ | ⟨_, h3⟩
    · rw [hp, hB] at h2
      simp only [Option.some.injEq, Prod.mk.injEq] at h2
      exact absurd h2.2.2.symm hr
    · obtain ⟨i1, r1, h4, _⟩ := inv.byName_sound n p h3
      have := hA _ _ h4
      rw [this] at h2
      exact ⟨h3, by rw [h4, h2]⟩
  constructor
  · rw [hm]; simpa using inv.len
  · rw [hm]
    have := Nat.mod_lt (k + 1) (Nat.lt_of_le_of_lt (Nat.zero_le k) hklt)
    have := inv.len
    simp only
    omega
  · intro n p h
    rcases hbn n p h with ⟨hn, hp⟩ | ⟨hn, h3⟩
    · subst hn hp
      refine ⟨k, 0, hB, ?_⟩
      rw [hm]
      exact List.getElem?_set_self hklt
    · obtain ⟨i, r, h4, h5⟩ := inv.byName_sound n p h3
      refine ⟨i, r, hA _ _ h4, ?_⟩
      rw [hm]
      have hik : k ≠ i := by
        intro hc
        rw [← hc, hk] at h5
        simp at h5
      show (w.vrfMgr.byIndex.set k (some w.vrfs.length))[i]? = _
      rw [List.getElem?_set_ne hik]
      exact h5
  · intro i p h
    rw [hm] at h
    change (w.vrfMgr.byIndex.set k (some w.vrfs.length))[i]? = _ at h
    by_cases hik : k = i
    · subst hik
      rw [List.getElem?_set_self hklt] at h
      simp only [Option.some.injEq] at h
      subst h
      refine ⟨name, 0, hB, ?_⟩
      rw [hm]
      simp [mapGet_mapSet]
    · rw [List.getElem?_set_ne hik] at h
      obtain ⟨n, r, h4, h5⟩ := inv.byIndex_sound i p h
      refine ⟨n, r, hA _ _ h4, ?_⟩
      rw [hm]
      have hn : name ≠ n := by
        intro hc
        rw [← hc, hfresh] at h5
        simp at h5
      simp only [mapGet_mapSet, if_neg hn]
      exact h5
  · intro n p i r h1 h2 hr
    obtain ⟨h3, h4⟩ := hold n p i r h1 h2 hr
    rw [hm]
    exact inv.rd_mem n p i r h3 h4 hr
  · intro n p i r m q j h1 h2 h3 h4 hr
    obtain ⟨h5, h6⟩ := hold n p i r h1 h2 hr
    obtain ⟨h7, h8⟩ := hold m q j r h3 h4 hr
    exact inv.rd_unique n p i r m q j h5 h6 h7 h8 hr

theorem mapHas_mapDelete_ne {β : Type} (m : List (Nat × β)) (k k1 : Nat) (h : k ≠ k1) :
    mapHas (mapDelete m k) k1 = mapHas m k1 := by
  simp [mapHas, mapGet_mapDelete, h]

/-- Taking a live VRF out of both collections, and its route distinguisher out
of `rds`, keeps the registry consistent. -/
theorem RegInv.unregister {M : Nat} {w w1 : World} (inv : RegInv M w) (v : VRFPtr)
    (n : String) (i r : Nat)
    (hlive : mapGet w.vrfMgr.byName n = some v) (hkey : w.keys[v]? = some (n, i, r))
    (hkeys : w1.keys = w.keys)
    (hm : w1.vrfMgr = { byName := mapDelete w.vrfMgr.byName n
                        byIndex := w.vrfMgr.byIndex.set i none
                        nextIndex := w.vrfMgr.nextIndex
                        rds := if r ≠ 0 then mapDelete w.vrfMgr.rds r else w.vrfMgr.rds }) :
    RegInv M w1 := by
  have hslot : w.vrfMgr.byIndex[i]? = some (some v) := by
    obtain ⟨i1, r1, h1, h2⟩ := inv.byName_sound n v hlive
    rw [hkey] at h1
    simp only [Option.some.injEq, Prod.mk.injEq] at h1
    rw [h1.2.1]
    exact h2
  have hilt : i < w.vrfMgr.byIndex.length := getElem?_some_lt hslot
  have hbn : ∀ (m : String) (q : VRFPtr), mapGet w1.vrfMgr.byName m = some q →
      n ≠ m ∧ mapGet w.vrfMgr.byName m = some q := by
    intro m q h
    rw [hm] at h
    simp only [mapGet_mapDelete] at h
    by_cases hn : n = m
    · rw [if_pos hn] at h
      simp at h
    · rw [if_neg hn] at h
      exact ⟨hn, h⟩
  constructor
  · rw [hm]; simpa using inv.len
  · rw [hm]; exact inv.next
  · intro m q h
    obtain ⟨hn, h1⟩ := hbn m q h
    obtain ⟨j, r2, h2, h3⟩ := inv.byName_sound m q h1
    refine ⟨j, r2, by rw [hkeys]; exact h2, ?_⟩
    rw [hm]
    have hij : i ≠ j := by
      intro hc
      rw [← hc, hslot] at h3
      simp only [Option.some.injEq] at h3
      rw [← h3, hkey] at h2
      simp only [Option.some.injEq, Prod.mk.injEq] at h2
      exact hn h2.1
    show (w.vrfMgr.byIndex.set i none)[j]? = _
    rw [List.getElem?_set_ne hij]
    exact h3
  · intro j q h
    rw [hm] at h
    change (w.vrfMgr.byIndex.set i none)[j]? = _ at h
    by_cases hij : i = j
    · subst hij
      rw [List.getElem?_set_self hilt] at h
      simp at h
    · rw [List.getElem?_set_ne hij] at h
      obtain ⟨m, r2, h2, h3⟩ := inv.byIndex_sound j q h
      refine ⟨m, r2, by rw [hkeys]; exact h2, ?_⟩
      rw [hm]
      have hn : n ≠ m := by
        intro hc
        rw [← hc, hlive] at h3
        simp only [Option.some.injEq] at h3
        rw [← h3, hkey] at h2
        simp only [Option.some.injEq, Prod.mk.injEq] at h2
        exact hij h2.2.1
      simp only [mapGet_mapDelete, if_neg hn]
      exact h3
  · intro m q j r2 h1 h2 hr
    obtain ⟨hn, h3⟩ := hbn m q h1
    rw [hkeys] at h2
    have h4 := inv.rd_mem m q j r2 h3 h2 hr
    rw [hm]
    by_cases hr0 : r = 0
    · simp only [hr0, ne_eq, not_true_eq_false, if_false]
      exact h4
    · simp only [ne_eq, hr0, not_false_eq_true, if_true]
      have hne : r ≠ r2 := by
        intro hc
        subst hc
        have := inv.rd_unique n v i r m q j hlive hkey h3 h2 hr
        subst this
        rw [hkey] at h2
        simp only [Option.some.injEq, Prod.mk.injEq] at h2
        exact hn h2.1
      rw [mapHas_mapDelete_ne _ _ _ hne]
      exact h4
  · intro m p j r2 m2 q j2 h1 h2 h3 h4 hr
    rw [hkeys] at h2 h4
    exact inv.rd_unique m p j r2 m2 q j2 (hbn m p h1).2 h2 (hbn m2 q h3).2 h4 hr

/-- A successful `SetRD` on a live VRF keeps the registry consistent. -/
theorem RegInv.after_setRD {M : Nat} {w w1 : World} (inv : RegInv M w) (v : VRFPtr)
    (n : String) (i old rd : Nat)
    (hlive : mapGet w.vrfMgr.byName n = some v) (hkey : w.keys[v]? = some (n, i, old))
    (hnot : mapHas w.vrfMgr.rds rd = false)
    (hm : w1.vrfMgr = { w.vrfMgr with
                        rds := if old ≠ 0 then mapDelete (mapSet w.vrfMgr.rds rd ()) old
                               else mapSet w.vrfMgr.rds rd () })
    (hkeys : ∀ p, w1.keys[p]? = if v = p then some (n, i, rd) else w.keys[p]?) :
    RegInv M w1 := by
  have hset : ∀ k, mapHas w.vrfMgr.rds k = true → mapHas (mapSet w.vrfMgr.rds rd ()) k = true := by
    intro k hk
    simp only [mapHas, mapGet_mapSet] at hk ⊢
    by_cases hc : rd = k
    · simp [hc]
    · simpa [hc] using hk
  have hself : mapHas (mapSet w.vrfMgr.rds rd ()) rd = true := by
    simp [mapHas, mapGet_mapSet]
  have hold : ∀ (m : String) (q : VRFPtr) (j r2 : Nat), v ≠ q →
      w1.keys[q]? = some (m, j, r2) → w.keys[q]? = some (m, j, r2) := by
    intro m q j r2 hq h
    rw [hkeys, if_neg hq] at h
    exact h
  constructor
  · rw [hm]; exact inv.len
  · rw [hm]; exact inv.next
  · intro m q h
    rw [hm] at h
    change mapGet w.vrfMgr.byName m = some q at h
    obtain ⟨j, r2, h2, h3⟩ := inv.byName_sound m q h
    rw [hm]
    by_cases hq : v = q
    · subst hq
      rw [hkey] at h2
      simp only [Option.some.injEq, Prod.mk.injEq] at h2
      refine ⟨j, rd, ?_, h3⟩
      rw [hkeys, if_pos rfl, h2.1, h2.2.1]
    · exact ⟨j, r2, by rw [hkeys, if_neg hq]; exact h2, h3⟩
  · intro j q h
    rw [hm] at h
    change w.vrfMgr.byIndex[j]? = some (some q) at h
    obtain ⟨m, r2, h2, h3⟩ := inv.byIndex_sound j q h
    rw [hm]
    by_cases hq : v = q
    · subst hq
      rw [hkey] at h2
      simp only [Option.some.injEq, Prod.mk.injEq] at h2
      refine ⟨m, rd, ?_, h3⟩
      rw [hkeys, if_pos rfl, h2.1, h2.2.1]
    · exact ⟨m, r2, by rw [hkeys, if_neg hq]; exact h2, h3⟩
  · intro m q j r2 h1 h2 hr
    rw [hm] at h1 ⊢
    change mapGet w.vrfMgr.byName m = some q at h1
    show mapHas (if old ≠ 0 then mapDelete (mapSet w.vrfMgr.rds rd ()) old
      else mapSet w.vrfMgr.rds rd ()) r2 = true
    by_cases hq : v = q
    · subst hq
      rw [hkeys, if_pos rfl] at h2
      simp only [Option.some.injEq, Prod.mk.injEq] at h2
      rw [← h2.2.2]
      by_cases ho : old = 0
      · simp only [ho, ne_eq, not_true_eq_false, if_false]
        exact hself
      · simp only [ne_eq, ho, not_false_eq_true, if_true]
        have hne : old ≠ rd := by
          intro hc
          have := inv.rd_mem n v i old hlive hkey ho
          rw [hc, hnot] at this
          simp at this
        rw [mapHas_mapDelete_ne _ _ _ hne]
        exact hself
    · have h3 := hold m q j r2 hq h2
      have h4 := hset _ (inv.rd_mem m q j r2 h1 h3 hr)
      by_cases ho : old = 0
      · simp only [ho, ne_eq, not_true_eq_false, if_false]
        exact h4
      · simp only [ne_eq, ho, not_false_eq_true, if_true]
        have hne : old ≠ r2 := by
          intro hc
          subst hc
          exact hq (inv.rd_unique n v i old m q j hlive hkey h1 h3 ho)
        rw [mapHas_mapDelete_ne _ _ _ hne]
        exact h4
  · intro m p j r2 m2 q j2 h1 h2 h3 h4 hr
    rw [hm] at h1 h3
    change mapGet w.vrfMgr.byName m = some p at h1
    change mapGet w.vrfMgr.byName m2 = some q at h3
    by_cases hp : v = p
    · by_cases hq : v = q
      · rw [← hp, ← hq]
      · exfalso
        subst hp
        rw [hkeys, if_pos rfl] at h2
        simp only [Option.some.injEq, Prod.mk.injEq] at h2
        have h5 := hold m2 q j2 r2 hq h4
        have := inv.rd_mem m2 q j2 r2 h3 h5 hr
        rw [← h2.2.2, hnot] at this
        simp at this
    · by_cases hq : v = q
      · exfalso
        subst hq
        rw [hkeys, if_pos rfl] at h4
        simp only [Option.some.injEq, Prod.mk.injEq] at h4
        have h5 := hold m p j r2 hp h2
        have := inv.rd_mem m p j r2 h1 h5 hr
        rw [← h4.2.2, hnot] at this
        simp at this
      · exact inv.rd_unique m p j r2 m2 q j2 h1 (hold m p j r2 hp h2) h3 (hold m2 q j2 r2 hq h4) hr

theorem isLive_iff (w : World) (v : VRFPtr) :
    isLive w v = true ↔
      ∃ n i r, w.keys[v]? = some (n, i, r) ∧ mapGet w.vrfMgr.byName n = some v := by
  unfold isLive
  rw [keys_getElem?]
  cases h : w.vrfs[v]? with
  | none => simp
  | some o =>
    simp only [decide_eq_true_eq, Option.map_some', Option.some.injEq, VRF.key, Prod.mk.injEq]
    constructor
    · intro hl
      exact ⟨o.name, o.index, o.rd, ⟨rfl, rfl, rfl⟩, hl⟩
    · rintro ⟨n, i, r, ⟨h1, _, _⟩, h2⟩
      rw [h1]
      exact h2

theorem RegInv.after_newVRF {M : Nat} {w w1 : World} (inv : RegInv M w) (name : String)
    (x : NewVRFExt) (res : Result) (h : NewVRF w name x = some (w1, res)) : RegInv M w1 := by
  have hnext : w.vrfMgr.nextIndex ≤ w.vrfMgr.byIndex.length := by
    rw [inv.len]; exact inv.next
  by_cases hre : reMatchString name = true
  · by_cases hfresh : mapHas w.vrfMgr.byName name = true
    · simp only [NewVRF, hre, hfresh, Bool.not_true, Bool.false_eq_true, if_false, if_true,
        Option.some.injEq, Prod.mk.injEq] at h
      rw [← h.1]
      exact inv
    · have hfresh2 : mapHas w.vrfMgr.byName name = false := by simpa using hfresh
      cases hk : (scanOrder w.vrfMgr.byIndex.length w.vrfMgr.nextIndex).find? (slotFree w) with
      | none =>
        obtain ⟨w2, h1, h2, h3⟩ := NewVRF_noSpace w name x hnext hre hfresh2 hk
        rw [h1] at h
        simp only [Option.some.injEq, Prod.mk.injEq] at h
        rw [← h.1]
        exact inv.append _ w.vrfMgr.nextIndex inv.next h3 (by rw [h2])
      | some k =>
        have hkfree : w.vrfMgr.byIndex[k]? = some none := by
          have := List.find?_some hk
          simpa [slotFree] using this
        have hklt : k < w.vrfMgr.byIndex.length := getElem?_some_lt hkfree
        obtain ⟨w2, res2, h1, h2, h3⟩ := NewVRF_slot w name x k hnext hre hfresh2 hk
        rw [h1] at h
        simp only [Option.some.injEq, Prod.mk.injEq] at h
        rw [← h.1]
        rcases h3 with ⟨_, hm, _⟩ | ⟨_, hm, _⟩
        · exact inv.register name k ((mapHas_eq_false _ _).1 hfresh2) hkfree h2 hm
        · refine inv.append _ ((k + 1) % w.vrfMgr.byIndex.length) ?_ h2 hm
          have := Nat.mod_lt (k + 1) (Nat.lt_of_le_of_lt (Nat.zero_le k) hklt)
          have := inv.len
          omega
  · simp only [NewVRF, hre, Bool.not_false, if_true, Option.some.injEq, Prod.mk.injEq] at h
    rw [← h.1]
    exact inv

theorem registerOutputDevice_cases (w : World) (v : VRFPtr) (d : OutputDevice) (ok : Bool)
    (w1 : World) (e : Option Err) (h : registerOutputDevice w v d ok = some (w1, e)) :
    w1 = w ∨ ∃ (I : List Instance)
        (g : List (VIFIndex × OutputDevice) → List (VIFIndex × OutputDevice)), w1 =
      { w with insts := I, vrfs := (updAt w.vrfs v (fun o1 => { o1 with devs := g o1.devs })) } := by
  unfold registerOutputDevice at h
  cases ho : w.vrfs[v]? with
  | none => simp [ho] at h
  | some o =>
    cases hi : d.VIFIndex w with
    | none => simp [ho, hi] at h
    | some idx =>
      simp only [ho, hi] at h
      split at h
      · simp only [Option.some.injEq, Prod.mk.injEq] at h
        exact Or.inl h.1.symm
      · cases d with
        | vif p =>
          simp only [Option.some.injEq, Prod.mk.injEq] at h
          exact Or.inl h.1.symm
        | vrf q =>
          simp only at h
          cases hr : o.router with
          | none => simp [hr] at h
          | some r =>
            simp only [hr] at h
            cases ok with
            | false =>
              simp only [routerAddOutputDevice, Bool.false_eq_true, if_false, Option.some.injEq,
                Prod.mk.injEq] at h
              exact Or.inl h.1.symm
            | true =>
              simp only [routerAddOutputDevice, if_true, Option.some.injEq, Prod.mk.injEq] at h
              exact Or.inr ⟨updAt w.insts r (fun m =>
                { m with outDevs := m.outDevs ++ [OutputDevice.vrf q] }),
                fun l => mapSet l idx (OutputDevice.vrf q), h.1.symm⟩

theorem registerOutputDevice_frame (w : World) (v : VRFPtr) (d : OutputDevice) (ok : Bool)
    (w1 : World) (e : Option Err) (h : registerOutputDevice w v d ok = some (w1, e)) :
    SameRegistry w w1 := by
  rcases registerOutputDevice_cases w v d ok w1 e h with h1 | ⟨I, g, h1⟩
  · rw [h1]
    exact SameRegistry.refl w
  · rw [h1]
    simp [SameRegistry, World.keys, map_updAt_of_eq, VRF.key]

theorem notify_frame (w : World) (kind : NotiKind) (v : VRFPtr) (detail : NotiDetail) :
    SameRegistry w (notify w kind v detail) := ⟨rfl, rfl, rfl⟩

theorem registerNexthops_frame (v : VRFPtr) (nhs : List Nexthop) :
    ∀ (w : World) (oks : List Bool) (w1 : World) (e : Option Err),
      registerNexthops w v nhs oks = some (w1, e) → SameRegistry w w1 := by
  induction nhs with
  | nil =>
    intro w oks w1 e h
    simp only [registerNexthops, Option.some.injEq, Prod.mk.injEq] at h
    rw [← h.1]
    exact SameRegistry.refl w
  | cons nh nhs ih =>
    intro w oks w1 e h
    simp only [registerNexthops] at h
    cases hd : nh.Dev with
    | none => simp [hd] at h
    | some dev =>
      simp only [hd] at h
      cases hr : registerOutputDevice w v dev (oks.headD true) with
      | none => rw [hr] at h; simp at h
      | some res =>
        obtain ⟨w2, e2⟩ := res
        have hf := registerOutputDevice_frame w v dev _ w2 e2 hr
        cases e2 with
        | some e3 =>
          simp only [hr, Option.some.injEq, Prod.mk.injEq] at h
          rw [← h.1]
          exact hf
        | none =>
          simp only [hr] at h
          exact hf.trans (ih w2 _ w1 e h)

theorem registerPBRNexthops_frame (v : VRFPtr) (nhs : List Nexthop) :
    ∀ (w : World) (oks : List Bool) (w1 : World) (e : Option Err),
      registerPBRNexthops w v nhs oks = some (w1, e) → SameRegistry w w1 := by
  induction nhs with
  | nil =>
    intro w oks w1 e h
    simp only [registerPBRNexthops, Option.some.injEq, Prod.mk.injEq] at h
    rw [← h.1]
    exact SameRegistry.refl w
  | cons nh nhs ih =>
    intro w oks w1 e h
    simp only [registerPBRNexthops] at h
    cases hd : nh.Dev with
    | none =>
      simp only [hd] at h
      exact ih w oks w1 e h
    | some dev =>
      simp only [hd] at h
      cases hr : registerOutputDevice w v dev (oks.headD true) with
      | none => rw [hr] at h; simp at h
      | some res =>
        obtain ⟨w2, e2⟩ := res
        have hf := registerOutputDevice_frame w v dev _ w2 e2 hr
        cases e2 with
        | some e3 =>
          simp only [hr, Option.some.injEq, Prod.mk.injEq] at h
          rw [← h.1]
          exact hf
        | none =>
          simp only [hr] at h
          exact hf.trans (ih w2 _ w1 e h)

theorem routeEntryAdded_frame (w : World) (v : VRFPtr) (entry : Route) (oks : List Bool)
    (w1 : World) (h : routeEntryAdded w v entry oks = some w1) : SameRegistry w w1 := by
  unfold routeEntryAdded at h
  split at h
  · cases hd : entry.Dev with
    | none => simp [hd] at h
    | some dev =>
      simp only [hd] at h
      cases hr : registerOutputDevice w v dev (oks.headD true) with
      | none => rw [hr] at h; simp at h
      | some res =>
        obtain ⟨w2, e2⟩ := res
        have hf := registerOutputDevice_frame w v dev _ w2 e2 hr
        cases e2 with
        | some e3 =>
          simp only [hr, Option.some.injEq] at h
          rw [← h]
          exact hf
        | none =>
          simp only [hr, Option.some.injEq] at h
          rw [← h]
          exact hf.trans (notify_frame _ _ _ _)
  · cases hr : registerNexthops w v entry.Nexthops oks with
    | none => rw [hr] at h; simp at h
    | some res =>
      obtain ⟨w2, e2⟩ := res
      have hf := registerNexthops_frame v _ w oks w2 e2 hr
      cases e2 with
      | some e3 =>
        simp only [hr, Option.some.injEq] at h
        rw [← h]
        exact hf
      | none =>
        simp only [hr, Option.some.injEq] at h
        rw [← h]
        exact hf.trans (notify_frame _ _ _ _)

theorem pbrEntryAdded_frame (w : World) (v : VRFPtr) (entry : PBREntry) (oks : List Bool)
    (w1 : World) (h : pbrEntryAdded w v entry oks = some w1) : SameRegistry w w1 := by
  unfold pbrEntryAdded at h
  cases hr : registerPBRNexthops w v entry.NextHops oks with
  | none => rw [hr] at h; simp at h
  | some res =>
    obtain ⟨w2, e2⟩ := res
    have hf := registerPBRNexthops_frame v _ w oks w2 e2 hr
    cases e2 with
    | some e3 =>
      simp only [hr, Option.some.injEq] at h
      rw [← h]
      exact hf
    | none =>
      simp only [hr, Option.some.injEq] at h
      rw [← h]
      exact hf.trans (notify_frame _ _ _ _)

theorem RegInv.after_step {M : Nat} {w w1 : World} (inv : RegInv M w) (op : Op)
    (h : step w op = some w1) : RegInv M w1 := by
  cases op with
  | newVRF name x =>
    simp only [Vsw.step, Option.map_eq_some'] at h
    obtain ⟨⟨w2, res⟩, h1, h2⟩ := h
    simp only at h2
    subst h2
    exact inv.after_newVRF name x res h1
  | free v order =>
    simp only [Vsw.step] at h
    split at h
    · rename_i hl
      split at h
      · obtain ⟨n, i, r, hk, hn⟩ := (isLive_iff w v).1 hl
        obtain ⟨n2, i2, r2, h1, _, h3, h4⟩ := Free_registry w v w1 h
        rw [hk] at h1
        simp only [Option.some.injEq, Prod.mk.injEq] at h1
        obtain ⟨rfl, rfl, rfl⟩ := h1
        exact inv.unregister v n i r hn hk h3 h4
      · simp at h
    · simp at h
  | setRD v rd =>
    simp only [Vsw.step] at h
    split at h
    · rename_i hl
      simp only [Option.map_eq_some'] at h
      obtain ⟨⟨w2, e⟩, h1, h2⟩ := h
      simp only at h2
      subst h2
      obtain ⟨n, i, r, hk, hn⟩ := (isLive_iff w v).1 hl
      obtain ⟨n2, i2, old, h3, h4⟩ := SetRD_registry w v rd w2 e h1
      rw [hk] at h3
      simp only [Option.some.injEq, Prod.mk.injEq] at h3
      obtain ⟨rfl, rfl, rfl⟩ := h3
      rcases h4 with ⟨_, hw, _⟩ | ⟨_, hnot, hm, hkeys, _⟩
      · rw [hw]; exact inv
      · exact inv.after_setRD v n i r rd hn hk hnot hm hkeys
    · simp at h
  | addVIF v vif x =>
    simp only [Vsw.step] at h
    split at h
    · simp only [Option.map_eq_some'] at h
      obtain ⟨⟨w2, e⟩, h1, h2⟩ := h
      simp only at h2
      subst h2
      exact inv.of_same (AddVIF_frame _ _ _ _ _ _ h1)
    · simp at h
  | deleteVIF v vif =>
    simp only [Vsw.step] at h
    split at h
    · simp only [Option.map_eq_some'] at h
      obtain ⟨⟨w2, e⟩, h1, h2⟩ := h
      simp only at h2
      subst h2
      exact inv.of_same (DeleteVIF_frame _ _ _ _ _ h1)
    · simp at h
  | registerOutputDevice v dev ok =>
    simp only [Vsw.step] at h
    split at h
    · simp only [Option.map_eq_some'] at h
      obtain ⟨⟨w2, e⟩, h1, h2⟩ := h
      simp only at h2
      subst h2
      exact inv.of_same (registerOutputDevice_frame _ _ _ _ _ _ h1)
    · simp at h
  | routeEntryAdded v entry oks =>
    simp only [Vsw.step] at h
    split at h
    · exact inv.of_same (routeEntryAdded_frame _ _ _ _ _ h)
    · simp at h
  | routeEntryDeleted v entry =>
    simp only [Vsw.step] at h
    split at h
    · simp only [Option.some.injEq] at h
      rw [← h]
      exact inv.of_same (notify_frame _ _ _ _)
    · simp at h
  | pbrEntryAdded v entry oks =>
    simp only [Vsw.step] at h
    split at h
    · exact inv.of_same (pbrEntryAdded_frame _ _ _ _ _ h)
    · simp at h
  | pbrEntryDeleted v entry =>
    simp only [Vsw.step] at h
    split at h
    · simp only [Option.some.injEq] at h
      rw [← h]
      exact inv.of_same (notify_frame _ _ _ _)
    · simp at h

theorem RegInv.after_run {M : Nat} (ops : List Op) :
    ∀ {w w1 : World}, RegInv M w → run w ops = some w1 → RegInv M w1 := by
  induction ops with
  | nil =>
    intro w w1 inv h
    simp only [Vsw.run, Option.some.injEq] at h
    rw [← h]
    exact inv
  | cons op ops ih =>
    intro w w1 inv h
    simp only [Vsw.run] at h
    split at h
    · simp at h
    · rename_i w2 hs
      exact ih (inv.after_step op hs) h

theorem RegInv.of_reachable {M : Nat} {vifs : List VIF} {w : World}
    (h : Reachable M vifs w) : RegInv M w := by
  obtain ⟨ops, hr⟩ := h
  exact RegInv.after_run ops (RegInv.at_empty M vifs) hr

/-- C3: in every state reached from the empty registry by calls of `NewVRF`
(with any outcome) and calls on live VRFs, a live VRF has its index inside
the array, two live VRFs never share an index, and the name map and the index
array hold the same VRFs: a VRF object is in `byName` under its name exactly
when `byIndex` holds it at its index, and neither collection holds anything
else. -/
theorem reachable_registry_consistent (MaxVRF : Nat) (vifs : List VIF) (w : World)
    (h : Reachable MaxVRF vifs w) :
    (∀ (p : VRFPtr) (o : VRF), w.vrfs[p]? = some o → isLive w p = true → o.index < MaxVRF) ∧
    (∀ (p q : VRFPtr) (o1 o2 : VRF), w.vrfs[p]? = some o1 → w.vrfs[q]? = some o2 →
      isLive w p = true →
      isLive w q = true → o1.index = o2.index → p = q) ∧
    (∀ (p : VRFPtr) (o : VRF), w.vrfs[p]? = some o →
      (mapGet w.vrfMgr.byName o.name = some p ↔ w.vrfMgr.byIndex[o.index]? = some (some p))) ∧
    (∀ (n : String) (p : VRFPtr), mapGet w.vrfMgr.byName n = some p →
      ∃ o, w.vrfs[p]? = some o ∧ o.name = n) ∧
    (∀ (i : Nat) (p : VRFPtr), w.vrfMgr.byIndex[i]? = some (some p) →
      ∃ o, w.vrfs[p]? = some o ∧ o.index = i) := by
  have inv := RegInv.of_reachable h
  have hkey : ∀ (p : VRFPtr) (o : VRF), w.vrfs[p]? = some o →
      w.keys[p]? = some (o.name, o.index, o.rd) := by
    intro p o ho
    rw [keys_getElem?, ho]
    rfl
  have hobj : ∀ (p : VRFPtr) (n : String) (i r : Nat), w.keys[p]? = some (n, i, r) →
      ∃ o, w.vrfs[p]? = some o ∧ o.name = n ∧ o.index = i := by
    intro p n i r hk
    rw [keys_getElem?] at hk
    cases ho : w.vrfs[p]? with
    | none => simp [ho] at hk
    | some o =>
      simp only [ho, Option.map_some', Option.some.injEq, VRF.key, Prod.mk.injEq] at hk
      exact ⟨o, rfl, hk.1, hk.2.1⟩
  have hslot : ∀ (p : VRFPtr) (o : VRF), w.vrfs[p]? = some o →
      mapGet w.vrfMgr.byName o.name = some p →
      w.vrfMgr.byIndex[o.index]? = some (some p) := by
    intro p o ho hl
    obtain ⟨i, r, h1, h2⟩ := inv.byName_sound _ _ hl
    rw [hkey p o ho] at h1
    simp only [Option.some.injEq, Prod.mk.injEq] at h1
    rw [h1.2.1]
    exact h2
  have hlive : ∀ (p : VRFPtr) (o : VRF), w.vrfs[p]? = some o → isLive w p = true →
      mapGet w.vrfMgr.byName o.name = some p := by
    intro p o ho hl
    simpa [isLive, ho] using hl
  refine ⟨?_, ?_, ?_, ?_, ?_⟩
  · intro p o ho hl
    have := getElem?_some_lt (hslot p o ho (hlive p o ho hl))
    rw [inv.len] at this
    exact this
  · intro p q o1 o2 h1 h2 hl1 hl2 he
    have s1 := hslot p o1 h1 (hlive p o1 h1 hl1)
    have s2 := hslot q o2 h2 (hlive q o2 h2 hl2)
    rw [he, s2] at s1
    simpa using s1.symm
  · intro p o ho
    constructor
    · exact hslot p o ho
    · intro hs
      obtain ⟨n, r, h1, h2⟩ := inv.byIndex_sound _ _ hs
      rw [hkey p o ho] at h1
      simp only [Option.some.injEq, Prod.mk.injEq] at h1
      rw [h1.1]
      exact h2
  · intro n p hn
    obtain ⟨i, r, h1, _⟩ := inv.byName_sound n p hn
    obtain ⟨o, h2, h3, _⟩ := hobj p n i r h1
    exact ⟨o, h2, h3⟩
  · intro i p hi
    obtain ⟨n, r, h1, _⟩ := inv.byIndex_sound i p hi
    obtain ⟨o, h2, _, h3⟩ := hobj p n i r h1
    exact ⟨o, h2, h3⟩

/-- The state at the end of `demoOps` is reached from the empty registry of two
slots, and the registry is consistent in it. -/
theorem reachable_registry_consistent_witness :
    Reachable 2 demoVIFs demoWorld ∧
    ((∀ (p : VRFPtr) (o : VRF), demoWorld.vrfs[p]? = some o → isLive demoWorld p = true →
        o.index < 2) ∧
    (∀ (p q : VRFPtr) (o1 o2 : VRF), demoWorld.vrfs[p]? = some o1 →
      demoWorld.vrfs[q]? = some o2 → isLive demoWorld p = true →
      isLive demoWorld q = true → o1.index = o2.index → p = q) ∧
    (∀ (p : VRFPtr) (o : VRF), demoWorld.vrfs[p]? = some o →
      (mapGet demoWorld.vrfMgr.byName o.name = some p ↔
        demoWorld.vrfMgr.byIndex[o.index]? = some (some p))) ∧
    (∀ (n : String) (p : VRFPtr), mapGet demoWorld.vrfMgr.byName n = some p →
      ∃ o, demoWorld.vrfs[p]? = some o ∧ o.name = n) ∧
    (∀ (i : Nat) (p : VRFPtr), demoWorld.vrfMgr.byIndex[i]? = some (some p) →
      ∃ o, demoWorld.vrfs[p]? = some o ∧ o.index = i)) :=
  have h : Reachable 2 demoVIFs demoWorld := ⟨demoOps, by rfl⟩
  ⟨h, reachable_registry_consistent 2 demoVIFs demoWorld h⟩

theorem createAll_append (l1 l2 : List (String × NewVRFExt)) :
    ∀ (w : World), createAll w (l1 ++ l2) =
      match createAll w l1 with
      | none => none
      | some (w1, r1) =>
        match createAll w1 l2 with
        | none => none
        | some (w2, r2) => some (w2, r1 ++ r2) := by
  induction l1 with
  | nil =>
    intro w
    simp only [List.nil_append, createAll]
    cases createAll w l2 with
    | none => rfl
    | some p => rfl
  | cons c l1 ih =>
    intro w
    show createAll w (c :: (l1 ++ l2)) = _
    simp only [createAll]
    cases h : NewVRF w c.1 c.2 with
    | none => rfl
    | some p =>
      obtain ⟨w1, r⟩ := p
      simp only [ih w1]
      cases h1 : createAll w1 l1 with
      | none => rfl
      | some p1 =>
        obtain ⟨w2, r1⟩ := p1
        simp only
        cases h2 : createAll w2 l2 with
        | none => rfl
        | some p2 => rfl

theorem releaseIndex_some (w : World) (vrf : VRFPtr) (w1 : World)
    (h : releaseIndex w vrf = some w1) :
    ∃ o, w.vrfs[vrf]? = some o ∧ o.index < w.vrfMgr.byIndex.length ∧
      w1 = { w with vrfMgr := { w.vrfMgr with byIndex := w.vrfMgr.byIndex.set o.index none } } := by
  unfold releaseIndex at h
  split at h
  · simp at h
  · rename_i o ho
    split at h
    · rename_i hlt
      simp only [Option.some.injEq] at h
      exact ⟨o, ho, hlt, h.symm⟩
    · simp at h

theorem newVRFError1_some (w : World) (vrf : VRFPtr) (e : Err) (w1 : World) (res : Result)
    (h : newVRFError1 w vrf e = some (w1, res)) :
    res = Result.error e ∧ releaseIndex w vrf = some w1 := by
  unfold newVRFError1 at h
  split at h
  · simp at h
  · rename_i w2 hw2
    simp only [Option.some.injEq, Prod.mk.injEq] at h
    rw [hw2, ← h.1, ← h.2]
    exact ⟨rfl, rfl⟩

theorem newVRFBuild_vifIdxMgr (w : World) (vrf : VRFPtr) (name : String) (x : NewVRFExt)
    (w1 : World) (res : Result) (h : newVRFBuild w vrf name x = some (w1, res)) :
    w1.vifIdxMgr = (allocVIFIndex w (OutputDevice.vrf vrf) x.vifIndex).1.vifIdxMgr := by
  obtain ⟨xv, xt, xr, xc⟩ := x
  unfold newVRFBuild at h
  have hrel : ∀ (W W1 : World) (e : Err), newVRFError1 W vrf e = some (W1, res) →
      W1.vifIdxMgr = W.vifIdxMgr := by
    intro W W1 e he
    obtain ⟨o, _, _, h3⟩ := releaseIndex_some _ _ _ (newVRFError1_some _ _ _ _ _ he).2
    rw [h3]
  cases hal : allocVIFIndex w (OutputDevice.vrf vrf) xv with
  | mk w2 ov =>
    simp only [hal] at h ⊢
    cases ov with
    | none =>
      simp only at h
      have h5 := hrel w2 w1 Err.vifIndex (by unfold newVRFError1; exact h)
      exact h5
    | some vi =>
      simp only at h
      cases xt <;> cases xr <;> cases xc <;>
        simp only [newInstance, instConnect, newVRFError2, newVRFError3, if_true, if_false,
          Bool.false_eq_true] at h
      all_goals first
        | (have h5 := hrel _ _ _ h; exact h5)
        | (simp only [Option.some.injEq, Prod.mk.injEq] at h; rw [← h.1]; rfl)

theorem Created.at_zero (M : Nat) (vifs : List VIF) (names : List String) (picks : List VIFIndex) :
    Created M names picks 0 (World.empty M vifs) := by
  constructor
  · rfl
  · intro j n hj; omega
  · intro j n hj; omega
  · intro n _; rfl
  · rfl
  · simp [World.empty, vrfMgrInit]
  · intro i hi; omega
  · intro i _ hi
    simp only [World.empty, vrfMgrInit]
    rw [List.getElem?_eq_getElem (by simpa using hi)]
    simp
  · simp [World.empty, vrfMgrInit]
  · intro vi h
    simp [World.empty, mapHas, mapGet] at h

theorem mapDelete_of_none {κ β : Type} [DecidableEq κ] (m : List (κ × β)) (k : κ)
    (h : mapGet m k = none) : mapDelete m k = m := by
  induction m with
  | nil => rfl
  | cons e m ih =>
    simp only [mapGet] at h
    by_cases he : e.1 = k
    · simp [he] at h
    · simp only [he, if_false] at h
      simp [mapDelete, he, ih h]

theorem NewVRF_slot_vifIdxMgr (w : World) (name : String) (x : NewVRFExt) (k : Nat)
    (hnext : w.vrfMgr.nextIndex ≤ w.vrfMgr.byIndex.length)
    (hre : reMatchString name = true) (hfresh : mapHas w.vrfMgr.byName name = false)
    (hk : (scanOrder w.vrfMgr.byIndex.length w.vrfMgr.nextIndex).find? (slotFree w) = some k)
    (w1 : World) (res : Result) (h : NewVRF w name x = some (w1, res)) :
    w1.vifIdxMgr =
      (allocVIFIndex w (OutputDevice.vrf w.vrfs.length) x.vifIndex).1.vifIdxMgr := by
  unfold NewVRF at h
  simp only [hre, hfresh, Bool.not_true, Bool.false_eq_true, if_false] at h
  rw [assignIndex_eq _ _ (by simp) (by simpa using hnext)] at h
  simp only [slotFree_append, hk] at h
  rw [newVRFBuild_vifIdxMgr _ _ _ _ _ _ h]
  unfold allocVIFIndex
  cases x.vifIndex with
  | none => rfl
  | some vi =>
    simp only [takeSlot]
    split <;> rfl

theorem scanOrder_find_first (w : World) (M k : Nat) (hk : k < M)
    (hfree : w.vrfMgr.byIndex[k]? = some none) :
    (scanOrder M k).find? (slotFree w) = some k := by
  unfold scanOrder
  have : M - k = (M - k - 1) + 1 := by omega
  rw [this, List.range'_succ, List.cons_append, List.find?_cons]
  simp [slotFree, hfree]

theorem Created.next_call {M : Nat} {names : List String} {picks : List VIFIndex} {k : Nat}
    {w : World} (c : Created M names picks k w) (hk : k < M) (name : String) (pick : VIFIndex)
    (hn : names[k]? = some name) (hp : picks[k]? = some pick)
    (hnd : names.Nodup) (hpnd : picks.Nodup) (hvalid : ValidName name) :
    ∃ w1, NewVRF w name { vifIndex := some pick, tap := true, router := true, connect := true } =
        some (w1, Result.ok k) ∧ Created M names picks (k + 1) w1 := by
  have hlen : w.vrfs.length = k := by rw [← keys_length]; exact c.keysLen
  have hmod : k % M = k := Nat.mod_eq_of_lt hk
  have hnext : w.vrfMgr.nextIndex ≤ w.vrfMgr.byIndex.length := by
    rw [c.next, c.len, hmod]; omega
  have hre : reMatchString name = true := (reMatchString_iff name).2 hvalid
  have hnk : ∀ j, j < k → names[j]? ≠ some name := by
    intro j hj
    rw [← hn]
    exact List.nodup_iff_getElem?_ne_getElem?.1 hnd j k hj (getElem?_some_lt hn)
  have hpk : ∀ j, j < k → picks[j]? ≠ some pick := by
    intro j hj
    rw [← hp]
    exact List.nodup_iff_getElem?_ne_getElem?.1 hpnd j k hj (getElem?_some_lt hp)
  have hfresh : mapGet w.vrfMgr.byName name = none := c.fresh name hnk
  have hfree : w.vrfMgr.byIndex[k]? = some none := c.free k (Nat.le_refl k) hk
  have hfind : (scanOrder w.vrfMgr.byIndex.length w.vrfMgr.nextIndex).find? (slotFree w) =
      some k := by
    rw [c.next, c.len, hmod]
    exact scanOrder_find_first w M k hk hfree
  have hunused : mapHas w.vifIdxMgr pick = false := by
    by_contra hc
    obtain ⟨j, hj, hjp⟩ := c.vifIdx pick (by simpa using hc)
    exact hpk j hj hjp
  obtain ⟨w1, res, h1, h2, h3⟩ := NewVRF_slot w name
    { vifIndex := some pick, tap := true, router := true, connect := true } k hnext hre
    ((mapHas_eq_false _ _).2 hfresh) hfind
  have hvif := NewVRF_slot_vifIdxMgr w name
    { vifIndex := some pick, tap := true, router := true, connect := true } k hnext hre
    ((mapHas_eq_false _ _).2 hfresh) hfind w1 res h1
  rcases h3 with ⟨hr, hm, _⟩ | ⟨_, _, hx⟩
  · rw [hr, hlen] at h1
    rw [hlen] at hm
    refine ⟨w1, h1, ?_⟩
    have hklt : k < w.vrfMgr.byIndex.length := by rw [c.len]; exact hk
    constructor
    · rw [h2, List.length_append, c.keysLen]; rfl
    · intro j n hj hjn
      rw [h2]
      by_cases hjk : j = k
      · subst hjk
        rw [hn] at hjn
        simp only [Option.some.injEq] at hjn
        subst hjn
        rw [List.getElem?_append_right (by rw [c.keysLen]), c.keysLen]
        simp
      · rw [List.getElem?_append_left (by rw [c.keysLen]; omega)]
        exact c.keys j n (by omega) hjn
    · intro j n hj hjn
      rw [hm]
      simp only [mapGet_mapSet]
      by_cases hjk : j = k
      · subst hjk
        rw [hn] at hjn
        simp only [Option.some.injEq] at hjn
        simp [hjn]
      · have hne : name ≠ n := by
          intro hc
          subst hc
          exact hnk j (by omega) hjn
        rw [if_neg hne]
        exact c.byName j n (by omega) hjn
    · intro n hall
      rw [hm]
      simp only [mapGet_mapSet]
      have hne : name ≠ n := by
        intro hc
        subst hc
        exact hall k (by omega) hn
      rw [if_neg hne]
      exact c.fresh n (fun j hj => hall j (by omega))
    · rw [hm]
      simp only [mapSet, List.length_cons, mapDelete_of_none _ _ hfresh, c.byNameLen]
    · rw [hm]
      simpa using c.len
    · intro i hi
      rw [hm]
      show (w.vrfMgr.byIndex.set k (some k))[i]? = _
      by_cases hik : k = i
      · subst hik
        exact List.getElem?_set_self hklt
      · rw [List.getElem?_set_ne hik]
        exact c.taken i (by omega)
    · intro i hi hiM
      rw [hm]
      show (w.vrfMgr.byIndex.set k (some k))[i]? = _
      rw [List.getElem?_set_ne (by omega)]
      exact c.free i (by omega) hiM
    · rw [hm]
      show (k + 1) % w.vrfMgr.byIndex.length = _
      rw [c.len]
    · intro vi hvi
      have hal : (allocVIFIndex w (OutputDevice.vrf w.vrfs.length) (some pick)).1.vifIdxMgr =
          mapSet w.vifIdxMgr pick (OutputDevice.vrf w.vrfs.length) := by
        simp [allocVIFIndex, hunused]
      rw [hvif, hal] at hvi
      simp only [mapHas, mapGet_mapSet] at hvi
      by_cases hpv : pick = vi
      · exact ⟨k, by omega, by rw [hp, hpv]⟩
      · rw [if_neg hpv] at hvi
        obtain ⟨j, hj, hjp⟩ := c.vifIdx vi hvi
        exact ⟨j, by omega, hjp⟩
  · exact absurd ⟨⟨pick, rfl, hunused⟩, rfl, rfl, rfl⟩ hx

theorem okCalls_getElem? (names : List String) (picks : List VIFIndex) (k : Nat) (name : String)
    (pick : VIFIndex) (hn : names[k]? = some name) (hp : picks[k]? = some pick) :
    (okCalls names picks)[k]? =
      some (name, { vifIndex := some pick, tap := true, router := true, connect := true }) := by
  unfold okCalls
  rw [List.getElem?_zipWith, hn, hp]

theorem createAll_single (w : World) (c : String × NewVRFExt) (w1 : World) (r : Result)
    (h : NewVRF w c.1 c.2 = some (w1, r)) : createAll w [c] = some (w1, [r]) := by
  simp [createAll, h]

theorem create_prefix (M : Nat) (vifs : List VIF) (names : List String) (picks : List VIFIndex)
    (hlen : names.length = M + 1) (hplen : picks.length = M + 1)
    (hnd : names.Nodup) (hpnd : picks.Nodup) (hvalid : ∀ n, n ∈ names → ValidName n) :
    ∀ k, k ≤ M → ∃ w, createAll (World.empty M vifs) ((okCalls names picks).take k) =
        some (w, (List.range k).map Result.ok) ∧ Created M names picks k w := by
  intro k
  induction k with
  | zero =>
    intro _
    exact ⟨World.empty M vifs, rfl, Created.at_zero M vifs names picks⟩
  | succ k ih =>
    intro hk
    obtain ⟨w, hw, c⟩ := ih (by omega)
    have hkn : k < names.length := by omega
    have hkp : k < picks.length := by omega
    have hn : names[k]? = some names[k] := List.getElem?_eq_getElem hkn
    have hp : picks[k]? = some picks[k] := List.getElem?_eq_getElem hkp
    obtain ⟨w1, h1, c1⟩ := c.next_call (by omega) names[k] picks[k] hn hp hnd hpnd
      (hvalid _ (List.getElem_mem hkn))
    refine ⟨w1, ?_, c1⟩
    rw [List.take_succ, okCalls_getElem? names picks k _ _ hn hp, createAll_append, hw]
    simp only [Option.toList]
    rw [createAll_single w _ w1 (Result.ok k) h1, List.range_succ, List.map_append]
    rfl

/-- C5: on the empty registry of `MaxVRF` slots, `MaxVRF + 1` calls of `NewVRF`
with pairwise distinct valid names, in which every collaborator call succeeds
(the VIF-index space hands out pairwise distinct indices), give `MaxVRF`
successes with pairwise distinct indices and then the error of a full registry,
and afterwards exactly the `MaxVRF` VRFs created are live. -/
theorem create_MaxVRF_plus_one (MaxVRF : Nat) (vifs : List VIF) (names : List String)
    (picks : List VIFIndex)
    (hlen : names.length = MaxVRF + 1) (hplen : picks.length = MaxVRF + 1)
    (hnd : names.Nodup) (hpnd : picks.Nodup) (hvalid : ∀ n, n ∈ names → ValidName n) :
    ∃ (w : World) (ps : List VRFPtr),
      createAll (World.empty MaxVRF vifs) (okCalls names picks) =
        some (w, ps.map Result.ok ++ [Result.error Err.noSpace]) ∧
      ps.length = MaxVRF ∧ ps.Nodup ∧
      (∀ (j1 j2 : Nat) (p1 p2 : VRFPtr) (o1 o2 : VRF), j1 ≠ j2 → ps[j1]? = some p1 →
        ps[j2]? = some p2 → w.vrfs[p1]? = some o1 → w.vrfs[p2]? = some o2 →
        o1.index ≠ o2.index) ∧
      (∀ j, j < MaxVRF → ∃ (p : VRFPtr) (o : VRF), ps[j]? = some p ∧ w.vrfs[p]? = some o ∧
        o.index = j ∧
        names[j]? = some o.name) ∧
      (∀ p, isLive w p = true ↔ p ∈ ps) ∧
      w.vrfMgr.byName.length = MaxVRF := by
  obtain ⟨w, hw, c⟩ := create_prefix MaxVRF vifs names picks hlen hplen hnd hpnd hvalid MaxVRF
    (Nat.le_refl _)
  have hMn : MaxVRF < names.length := by omega
  have hMp : MaxVRF < picks.length := by omega
  have hn : names[MaxVRF]? = some names[MaxVRF] := List.getElem?_eq_getElem hMn
  have hp : picks[MaxVRF]? = some picks[MaxVRF] := List.getElem?_eq_getElem hMp
  have hnk : ∀ j, j < MaxVRF → names[j]? ≠ some names[MaxVRF] := by
    intro j hj
    rw [← hn]
    exact List.nodup_iff_getElem?_ne_getElem?.1 hnd j MaxVRF hj hMn
  have hfresh : mapGet w.vrfMgr.byName names[MaxVRF] = none := c.fresh _ hnk
  have hnext : w.vrfMgr.nextIndex ≤ w.vrfMgr.byIndex.length := by
    rw [c.next, c.len, Nat.mod_self]; omega
  have hfull : (scanOrder w.vrfMgr.byIndex.length w.vrfMgr.nextIndex).find? (slotFree w) =
      none := by
    rw [List.find?_eq_none]
    intro j hj
    have hjlt := (scanOrder_mem _ _ hnext j).1 hj
    rw [c.len] at hjlt
    simp [slotFree, c.taken j hjlt]
  obtain ⟨w1, h1, h2, h3⟩ := NewVRF_noSpace w names[MaxVRF]
    { vifIndex := some picks[MaxVRF], tap := true, router := true, connect := true } hnext
    ((reMatchString_iff _).2 (hvalid _ (List.getElem_mem hMn)))
    ((mapHas_eq_false _ _).2 hfresh) hfull
  have hall : okCalls names picks = (okCalls names picks).take MaxVRF ++
      [(names[MaxVRF], { vifIndex := some picks[MaxVRF], tap := true, router := true,
                         connect := true })] := by
    have hl : (okCalls names picks).length = MaxVRF + 1 := by
      simp [okCalls, hlen, hplen]
    have := @List.take_succ _ (okCalls names picks) MaxVRF
    rw [okCalls_getElem? names picks MaxVRF _ _ hn hp, ← hl, List.take_length] at this
    exact this
  have hkeys : ∀ (j : Nat), j < MaxVRF → w1.keys[j]? = some (names[j]?.getD "", j, 0) := by
    intro j hj
    have hjn : j < names.length := by omega
    rw [h3, List.getElem?_append_left (by rw [c.keysLen]; exact hj),
      c.keys j names[j] hj (List.getElem?_eq_getElem hjn), List.getElem?_eq_getElem hjn]
    rfl
  have hobj : ∀ (j : Nat), j < MaxVRF → ∃ o, w1.vrfs[j]? = some o ∧ o.index = j ∧
      names[j]? = some o.name := by
    intro j hj
    have hjn : j < names.length := by omega
    have := hkeys j hj
    rw [keys_getElem?] at this
    cases ho : w1.vrfs[j]? with
    | none => simp [ho] at this
    | some o =>
      simp only [ho, Option.map_some', Option.some.injEq, VRF.key, Prod.mk.injEq] at this
      exact ⟨o, rfl, this.2.1, by rw [this.1, List.getElem?_eq_getElem hjn]; rfl⟩
  refine ⟨w1, List.range MaxVRF, ?_, List.length_range _, List.nodup_range _, ?_, ?_, ?_, ?_⟩
  · rw [hall, createAll_append, hw]
    simp only
    rw [createAll_single w _ w1 _ h1]
  · intro j1 j2 p1 p2 o1 o2 hne hp1 hp2 ho1 ho2
    have hj1 := getElem?_some_lt hp1
    have hj2 := getElem?_some_lt hp2
    rw [List.length_range] at hj1 hj2
    rw [List.getElem?_range hj1] at hp1
    rw [List.getElem?_range hj2] at hp2
    simp only [Option.some.injEq] at hp1 hp2
    subst hp1 hp2
    obtain ⟨o3, h4, h5, _⟩ := hobj j1 hj1
    obtain ⟨o4, h6, h7, _⟩ := hobj j2 hj2
    rw [ho1] at h4
    rw [ho2] at h6
    simp only [Option.some.injEq] at h4 h6
    subst h4 h6
    rw [h5, h7]
    exact hne
  · intro j hj
    obtain ⟨o, h4, h5, h6⟩ := hobj j hj
    exact ⟨j, o, List.getElem?_range hj, h4, h5, h6⟩
  · intro (p : Nat)
    rw [isLive_iff, List.mem_range, h2]
    constructor
    · rintro ⟨n, i, r, hk, hb⟩
      by_contra hpM
      have hlt : p < w1.keys.length := getElem?_some_lt hk
      rw [h3, List.length_append, c.keysLen] at hlt
      simp only [List.length_singleton] at hlt
      have hpe : p = MaxVRF := by omega
      subst hpe
      rw [h3, List.getElem?_append_right (by rw [c.keysLen]), c.keysLen] at hk
      simp only [Nat.sub_self, List.getElem?_cons_zero, Option.some.injEq, Prod.mk.injEq] at hk
      rw [← hk.1, hfresh] at hb
      simp at hb
    · intro hpM
      have hjn : p < names.length := by omega
      exact ⟨_, _, _, hkeys p hpM, by
        rw [List.getElem?_eq_getElem hjn]
        exact c.byName p names[p] hpM (List.getElem?_eq_getElem hjn)⟩
  · rw [h2]
    exact c.byNameLen

/-- Three creations on a registry of two slots. -/
theorem create_MaxVRF_plus_one_witness :
    (["vrf0", "vrf1", "vrf2"].length = 2 + 1 ∧ [100, 101, 102].length = 2 + 1 ∧
      ["vrf0", "vrf1", "vrf2"].Nodup ∧ [100, 101, 102].Nodup ∧
      ∀ n, n ∈ ["vrf0", "vrf1", "vrf2"] → ValidName n) ∧
    ∃ (w : World) (ps : List VRFPtr),
      createAll (World.empty 2 []) (okCalls ["vrf0", "vrf1", "vrf2"] [100, 101, 102]) =
        some (w, ps.map Result.ok ++ [Result.error Err.noSpace]) ∧
      ps.length = 2 ∧ ps.Nodup ∧
      (∀ (j1 j2 : Nat) (p1 p2 : VRFPtr) (o1 o2 : VRF), j1 ≠ j2 → ps[j1]? = some p1 →
        ps[j2]? = some p2 → w.vrfs[p1]? = some o1 → w.vrfs[p2]? = some o2 →
        o1.index ≠ o2.index) ∧
      (∀ j, j < 2 → ∃ (p : VRFPtr) (o : VRF), ps[j]? = some p ∧ w.vrfs[p]? = some o ∧
        o.index = j ∧ ["vrf0", "vrf1", "vrf2"][j]? = some o.name) ∧
      (∀ p, isLive w p = true ↔ p ∈ ps) ∧
      w.vrfMgr.byName.length = 2 :=
  have hv : ∀ n, n ∈ ["vrf0", "vrf1", "vrf2"] → ValidName n := fun n hn =>
    (reMatchString_iff n).1 ((by decide : ∀ m, m ∈ ["vrf0", "vrf1", "vrf2"] →
      reMatchString m = true) n hn)
  ⟨⟨rfl, rfl, by decide, by decide, hv⟩,
    create_MaxVRF_plus_one 2 [] ["vrf0", "vrf1", "vrf2"] [100, 101, 102] rfl rfl (by decide)
      (by decide) hv⟩

theorem DeleteVIF_total (w : World) (v : VRFPtr) (vif : VIFPtr) (r t : InstPtr)
    (hh : Handles w v r t) (hvif : vif < w.vifs.length) :
    ∃ w1 e, DeleteVIF w v vif = some (w1, e) ∧ Handles w1 v r t ∧
      w1.vifs.length = w.vifs.length := by
  obtain ⟨o, ho, hr, ht⟩ := hh
  unfold DeleteVIF
  rw [ho, List.getElem?_eq_getElem hvif]
  simp only [hr, ht]
  split
  · exact ⟨w, _, rfl, ⟨o, ho, hr, ht⟩, rfl⟩
  · refine ⟨_, _, rfl, ?_, ?_⟩
    · refine ⟨{ o with devs := mapDelete o.devs w.vifs[vif].index }, ?_, hr, ht⟩
      simp [notify, routerDeleteVIF, vifSetVRF, vifDisconnect, instDisconnect, getElem?_updAt, ho]
    · simp [notify, routerDeleteVIF, vifSetVRF, vifDisconnect, instDisconnect, length_updAt]

theorem freeDev_total (w : World) (v : VRFPtr) (k : VIFIndex) (dev : OutputDevice)
    (r t : InstPtr) (hh : Handles w v r t)
    (hdev : ∀ p, dev = OutputDevice.vif p → p < w.vifs.length) :
    ∃ w1, freeDev w v k dev = some w1 ∧ Handles w1 v r t ∧ w1.vifs.length = w.vifs.length := by
  obtain ⟨o, ho, hr, ht⟩ := hh
  unfold freeDev
  rw [ho]
  simp only
  split
  · cases dev with
    | vif p =>
      obtain ⟨w1, e, h1, h2, h3⟩ := DeleteVIF_total w v p r t ⟨o, ho, hr, ht⟩ (hdev p rfl)
      simp only [h1]
      exact ⟨w1, rfl, h2, h3⟩
    | vrf p => exact ⟨w, rfl, ⟨o, ho, hr, ht⟩, rfl⟩
  · exact ⟨w, rfl, ⟨o, ho, hr, ht⟩, rfl⟩

theorem freeDevs_total (v : VRFPtr) (r t : InstPtr) (devs : List (VIFIndex × OutputDevice)) :
    ∀ (w : World), Handles w v r t →
      (∀ k p, (k, OutputDevice.vif p) ∈ devs → p < w.vifs.length) →
      ∃ w1, freeDevs w v devs = some w1 ∧ Handles w1 v r t := by
  induction devs with
  | nil =>
    intro w hh _
    exact ⟨w, rfl, hh⟩
  | cons e devs ih =>
    intro w hh hd
    obtain ⟨w1, h1, h2, h3⟩ := freeDev_total w v e.1 e.2 r t hh (by
      intro p hp
      exact hd e.1 p (by rw [← hp]; exact List.mem_cons_self _ _))
    obtain ⟨w2, h4, h5⟩ := ih w1 h2 (by
      intro k p hkp
      rw [h3]
      exact hd k p (List.mem_cons_of_mem _ hkp))
    refine ⟨w2, ?_, h5⟩
    simp only [freeDevs, h1]
    exact h4

theorem Free_total (w : World) (v : VRFPtr) (o : VRF) (r t : InstPtr)
    (ho : w.vrfs[v]? = some o) (hr : o.router = some r) (ht : o.tap = some t)
    (hidx : o.index < w.vrfMgr.byIndex.length) (order : List (VIFIndex × OutputDevice))
    (hdevs : ∀ k p, (k, OutputDevice.vif p) ∈ order → p < w.vifs.length) :
    ∃ w1, Free w v order = some w1 := by
  obtain ⟨w1, h1, h2⟩ := freeDevs_total v r t order w ⟨o, ho, hr, ht⟩ hdevs
  have hs := freeDevs_frame _ _ _ _ h1
  unfold Free
  rw [ho]
  simp only [h1, hr, ht]
  have hk : w.keys[v]? = some (o.name, o.index, o.rd) := by
    rw [keys_getElem?, ho]; rfl
  rw [← hs.2.1, keys_getElem?] at hk
  unfold freeRegistry
  simp only [instFree, instDisconnect]
  cases ho1 : w1.vrfs[v]? with
  | none => simp [ho1] at hk
  | some o1 =>
    simp only [ho1, Option.map_some', Option.some.injEq, VRF.key, Prod.mk.injEq] at hk
    simp only [releaseIndex, ho1, hk.2.1, hs.1, hidx, if_true]
    exact ⟨_, rfl⟩

theorem find?_only_free (w : World) (i : Nat)
    (hnext : w.vrfMgr.nextIndex ≤ w.vrfMgr.byIndex.length)
    (hfree : w.vrfMgr.byIndex[i]? = some none)
    (hothers : ∀ j : Nat, j ≠ i → w.vrfMgr.byIndex[j]? ≠ some none) :
    (scanOrder w.vrfMgr.byIndex.length w.vrfMgr.nextIndex).find? (slotFree w) = some i := by
  cases h : (scanOrder w.vrfMgr.byIndex.length w.vrfMgr.nextIndex).find? (slotFree w) with
  | none =>
    rw [List.find?_eq_none] at h
    have := h i ((scanOrder_mem _ _ hnext i).2 (getElem?_some_lt hfree))
    simp [slotFree, hfree] at this
  | some k =>
    have hk := List.find?_some h
    simp only [slotFree, decide_eq_true_eq] at hk
    by_cases hki : k = i
    · rw [hki]
    · exact absurd hk (hothers k hki)

theorem find?_first_of_split {α : Type} (p : α → Bool) (pre post : List α) (i : α)
    (hpre : ∀ j, j ∈ pre → p j = false) (hi : p i = true) :
    (pre ++ i :: post).find? p = some i := by
  induction pre with
  | nil => simp [List.find?_cons, hi]
  | cons a pre ih =>
    have ha := hpre a (List.mem_cons_self _ _)
    simp only [List.cons_append, List.find?_cons, ha]
    exact ih (fun j hj => hpre j (List.mem_cons_of_mem _ hj))

/-- A scan over an array with an empty slot finds an empty slot: the first one
in scan order, which is the slot `i` when every slot scanned before `i` is
occupied. -/
theorem scan_finds_free (w : World) (i : Nat)
    (hnext : w.vrfMgr.nextIndex ≤ w.vrfMgr.byIndex.length)
    (hfree : w.vrfMgr.byIndex[i]? = some none) :
    ∃ k, (scanOrder w.vrfMgr.byIndex.length w.vrfMgr.nextIndex).find? (slotFree w) = some k ∧
      ∀ pre post, scanOrder w.vrfMgr.byIndex.length w.vrfMgr.nextIndex = pre ++ i :: post →
        (∀ j, j ∈ pre → slotFree w j = false) → k = i := by
  have hi : slotFree w i = true := by simp [slotFree, hfree]
  cases h : (scanOrder w.vrfMgr.byIndex.length w.vrfMgr.nextIndex).find? (slotFree w) with
  | none =>
    rw [List.find?_eq_none] at h
    have := h i ((scanOrder_mem _ _ hnext i).2 (getElem?_some_lt hfree))
    rw [hi] at this
    exact absurd rfl this
  | some k =>
    refine ⟨k, rfl, ?_⟩
    intro pre post hsplit hpre
    rw [hsplit, find?_first_of_split (slotFree w) pre post i hpre hi] at h
    simpa using h.symm

/-- C6: let `v` be a VRF object whose index `i` is a slot of the index array,
in any registry with the cursor inside the array. `releaseIndex(v)` empties
slot `i`, and the next `assignIndex`, for any VRF object, returns true and
takes the first empty slot in scan order: this is slot `i` whenever the scan
reaches it, that is, whenever every slot scanned before `i` is occupied. When
`v` has its router and tap and its attached VIFs exist, `Free` of `v` returns,
whatever the order of its range loop, and leaves slot `i` empty; a `NewVRF`
call that follows, with a valid name that is not in use and every collaborator
call succeeding, succeeds, and the new VRF gets the first empty slot that the
scan of `assignIndex` meets: this is slot `i` whenever every slot scanned
before `i` is occupied, and so whenever all slots were occupied before
`Free`. -/
theorem free_then_new_reuses_index (w : World) (v : VRFPtr) (o : VRF)
    (hnext : w.vrfMgr.nextIndex ≤ w.vrfMgr.byIndex.length)
    (ho : w.vrfs[v]? = some o) (hidx : o.index < w.vrfMgr.byIndex.length) :
    (∃ w1, releaseIndex w v = some w1 ∧ w1.vrfMgr.byIndex[o.index]? = some none ∧
      ∀ (p : VRFPtr), p < w1.vrfs.length →
        ∃ k, assignIndex w1 p = some (takeSlot w1 p k, true) ∧
          (scanOrder w1.vrfMgr.byIndex.length w1.vrfMgr.nextIndex).find? (slotFree w1) =
            some k ∧
          (∀ pre post, scanOrder w1.vrfMgr.byIndex.length w1.vrfMgr.nextIndex =
              pre ++ o.index :: post → (∀ j, j ∈ pre → slotFree w1 j = false) →
            k = o.index)) ∧
    (∀ (r t : InstPtr) (order : List (VIFIndex × OutputDevice)),
      o.router = some r → o.tap = some t →
      (∀ k p, (k, OutputDevice.vif p) ∈ o.devs → p < w.vifs.length) → order.Perm o.devs →
      ∃ w1, Free w v order = some w1 ∧ w1.vrfMgr.byIndex[o.index]? = some none ∧
      ∀ (name : String) (x : NewVRFExt), ValidName name →
        mapGet w1.vrfMgr.byName name = none → x.allOk w1 →
        ∃ (w2 : World) (p : VRFPtr) (o2 : VRF),
          NewVRF w1 name x = some (w2, Result.ok p) ∧ w2.vrfs[p]? = some o2 ∧
          w2.vrfMgr.byIndex[o2.index]? = some (some p) ∧
          (scanOrder w1.vrfMgr.byIndex.length w1.vrfMgr.nextIndex).find? (slotFree w1) =
            some o2.index ∧
          (∀ pre post, scanOrder w1.vrfMgr.byIndex.length w1.vrfMgr.nextIndex =
              pre ++ o.index :: post → (∀ j, j ∈ pre → slotFree w1 j = false) →
            o2.index = o.index) ∧
          ((∀ j, j < w.vrfMgr.byIndex.length → ∃ q, w.vrfMgr.byIndex[j]? = some (some q)) →
            o2.index = o.index)) := by
  constructor
  · have hrel : releaseIndex w v = some { w with vrfMgr :=
        { w.vrfMgr with byIndex := w.vrfMgr.byIndex.set o.index none } } := by
      unfold releaseIndex
      rw [ho]
      simp only [hidx, if_true]
    refine ⟨_, hrel, List.getElem?_set_self hidx, ?_⟩
    intro p hp
    have hnext1 : ({ w with vrfMgr := { w.vrfMgr with
        byIndex := w.vrfMgr.byIndex.set o.index none } } : World).vrfMgr.nextIndex ≤
        ({ w with vrfMgr := { w.vrfMgr with
          byIndex := w.vrfMgr.byIndex.set o.index none } } : World).vrfMgr.byIndex.length := by
      simpa using hnext
    obtain ⟨k, hk, hsplit⟩ := scan_finds_free _ o.index hnext1 (List.getElem?_set_self hidx)
    refine ⟨k, ?_, hk, hsplit⟩
    rw [assignIndex_eq _ p hp hnext1, hk]
  · intro r t order hr ht hdevs hord
    obtain ⟨w1, hF⟩ := Free_total w v o r t ho hr ht hidx order
      (fun k p hkp => hdevs k p (hord.mem_iff.1 hkp))
    obtain ⟨n, i, rd, h1, h2, h3, h4⟩ := Free_registry w v w1 hF
    have hi : i = o.index := by
      rw [keys_getElem?, ho] at h1
      simp only [Option.map_some', Option.some.injEq, VRF.key, Prod.mk.injEq] at h1
      exact h1.2.1.symm
    subst hi
    have hlen1 : w1.vrfMgr.byIndex.length = w.vrfMgr.byIndex.length := by
      rw [h4]; simp
    have hfree1 : w1.vrfMgr.byIndex[o.index]? = some none := by
      rw [h4]
      exact List.getElem?_set_self hidx
    have hnext1 : w1.vrfMgr.nextIndex ≤ w1.vrfMgr.byIndex.length := by
      rw [hlen1, h4]
      exact hnext
    refine ⟨w1, hF, hfree1, ?_⟩
    intro name x hvalid hfresh hx
    obtain ⟨k, hk, hsplit⟩ := scan_finds_free w1 o.index hnext1 hfree1
    obtain ⟨w2, res, h5, h6, h7⟩ := NewVRF_slot w1 name x k hnext1
      ((reMatchString_iff name).2 hvalid) ((mapHas_eq_false _ _).2 hfresh) hk
    have hklt : k < w1.vrfMgr.byIndex.length :=
      (scanOrder_mem _ _ hnext1 k).1 (List.mem_of_find?_eq_some hk)
    rcases h7 with ⟨hres, hm, _⟩ | ⟨_, _, hnx⟩
    · have hkey : w2.keys[w1.vrfs.length]? = some (name, k, 0) := by
        rw [h6, ← keys_length]
        simp
      rw [keys_getElem?] at hkey
      cases ho2 : w2.vrfs[w1.vrfs.length]? with
      | none => simp [ho2] at hkey
      | some o2 =>
        simp only [ho2, Option.map_some', Option.some.injEq, VRF.key, Prod.mk.injEq] at hkey
        have hk2 : o2.index = k := hkey.2.1
        refine ⟨w2, w1.vrfs.length, o2, by rw [h5, hres], ho2, ?_, by rw [hk2]; exact hk,
          ?_, ?_⟩
        · rw [hm, hk2]
          exact List.getElem?_set_self hklt
        · intro pre post hs hpre
          rw [hk2]
          exact hsplit pre post hs hpre
        · intro hfull
          have hothers : ∀ j : Nat, j ≠ o.index → w1.vrfMgr.byIndex[j]? ≠ some none := by
            intro j hj
            rw [h4]
            show (w.vrfMgr.byIndex.set o.index none)[j]? ≠ _
            rw [List.getElem?_set_ne (Ne.symm hj)]
            by_cases hjl : j < w.vrfMgr.byIndex.length
            · obtain ⟨p, hp⟩ := hfull j hjl
              rw [hp]
              simp
            · rw [List.getElem?_eq_none (by omega)]
              simp
          have := find?_only_free w1 o.index hnext1 hfree1 hothers
          rw [hk] at this
          simp only [Option.some.injEq] at this
          rw [hk2]
          exact this
    · exact absurd hx hnx

/-- In the full two-slot registry `fullWorld` the VRF in slot 0 has its router
and tap and no VIF: `releaseIndex` makes slot 0 available to the next
`assignIndex`, and destroying the VRF makes it available to the next
creation. -/
theorem free_then_new_reuses_index_witness :
    (fullWorld.vrfMgr.nextIndex ≤ fullWorld.vrfMgr.byIndex.length ∧
      fullWorld.vrfs[0]? = some fullWorldVRF0 ∧
      fullWorldVRF0.index < fullWorld.vrfMgr.byIndex.length ∧
      fullWorld.vrfMgr.byIndex[fullWorldVRF0.index]? = some (some 0) ∧
      fullWorldVRF0.router = some 1 ∧ fullWorldVRF0.tap = some 0 ∧
      fullWorldVRF0.devs = [] ∧
      ∀ j, j < fullWorld.vrfMgr.byIndex.length →
        ∃ p, fullWorld.vrfMgr.byIndex[j]? = some (some p)) ∧
    (∃ w1, releaseIndex fullWorld 0 = some w1 ∧
      w1.vrfMgr.byIndex[fullWorldVRF0.index]? = some none ∧
      ∀ (p : VRFPtr), p < w1.vrfs.length →
        ∃ k, assignIndex w1 p = some (takeSlot w1 p k, true) ∧
          (scanOrder w1.vrfMgr.byIndex.length w1.vrfMgr.nextIndex).find? (slotFree w1) =
            some k ∧
          (∀ pre post, scanOrder w1.vrfMgr.byIndex.length w1.vrfMgr.nextIndex =
              pre ++ fullWorldVRF0.index :: post → (∀ j, j ∈ pre → slotFree w1 j = false) →
            k = fullWorldVRF0.index)) ∧
    (∀ (r t : InstPtr) (order : List (VIFIndex × OutputDevice)),
      fullWorldVRF0.router = some r → fullWorldVRF0.tap = some t →
      (∀ k p, (k, OutputDevice.vif p) ∈ fullWorldVRF0.devs → p < fullWorld.vifs.length) →
      order.Perm fullWorldVRF0.devs →
      ∃ w1, Free fullWorld 0 order = some w1 ∧
      w1.vrfMgr.byIndex[fullWorldVRF0.index]? = some none ∧
      ∀ (name : String) (x : NewVRFExt), ValidName name →
        mapGet w1.vrfMgr.byName name = none → x.allOk w1 →
        ∃ (w2 : World) (p : VRFPtr) (o2 : VRF),
          NewVRF w1 name x = some (w2, Result.ok p) ∧ w2.vrfs[p]? = some o2 ∧
          w2.vrfMgr.byIndex[o2.index]? = some (some p) ∧
          (scanOrder w1.vrfMgr.byIndex.length w1.vrfMgr.nextIndex).find? (slotFree w1) =
            some o2.index ∧
          (∀ pre post, scanOrder w1.vrfMgr.byIndex.length w1.vrfMgr.nextIndex =
              pre ++ fullWorldVRF0.index :: post → (∀ j, j ∈ pre → slotFree w1 j = false) →
            o2.index = fullWorldVRF0.index) ∧
          ((∀ j, j < fullWorld.vrfMgr.byIndex.length →
              ∃ q, fullWorld.vrfMgr.byIndex[j]? = some (some q)) →
            o2.index = fullWorldVRF0.index)) :=
  have hfull : ∀ j, j < fullWorld.vrfMgr.byIndex.length →
      ∃ p, fullWorld.vrfMgr.byIndex[j]? = some (some p) := by
    intro j hj
    have h2 : j < 2 := hj
    interval_cases j
    · exact ⟨0, rfl⟩
    · exact ⟨1, rfl⟩
  ⟨⟨by decide, rfl, by decide, rfl, rfl, rfl, rfl, hfull⟩,
    free_then_new_reuses_index fullWorld 0 fullWorldVRF0 (by decide) rfl (by decide)⟩

/-- C7, the code at the failing input: on the empty registry, `NewVRF("vrf0")`
is given VIF index 5 and then fails to create the tap module (first part), the
router (second part) or the connection (third part). Each time it returns the
error and empties slot 0 again, and every module it created is freed, but VIF
index 5 stays allocated to the discarded VRF: no exit path calls
`freeVIFIndex`. -/
theorem NewVRF_failure_keeps_vifIndex :
    (∃ w1, NewVRF (World.empty 2 []) "vrf0"
        { vifIndex := some 5, tap := false, router := true, connect := true } =
          some (w1, Result.error Err.tapCreate) ∧
        w1.vrfMgr.byIndex[0]? = some none ∧ w1.insts = [] ∧
        mapGet w1.vifIdxMgr 5 = some (OutputDevice.vrf 0)) ∧
    (∃ w1, NewVRF (World.empty 2 []) "vrf0"
        { vifIndex := some 5, tap := true, router := false, connect := true } =
          some (w1, Result.error Err.routerCreate) ∧
        w1.vrfMgr.byIndex[0]? = some none ∧ w1.insts.map Instance.freed = [true] ∧
        mapGet w1.vifIdxMgr 5 = some (OutputDevice.vrf 0)) ∧
    (∃ w1, NewVRF (World.empty 2 []) "vrf0"
        { vifIndex := some 5, tap := true, router := true, connect := false } =
          some (w1, Result.error Err.routerConnect) ∧
        w1.vrfMgr.byIndex[0]? = some none ∧ w1.insts.map Instance.freed = [true, true] ∧
        mapGet w1.vifIdxMgr 5 = some (OutputDevice.vrf 0)) :=
  ⟨⟨_, rfl, rfl, rfl, rfl⟩, ⟨_, rfl, rfl, rfl, rfl⟩, ⟨_, rfl, rfl, rfl, rfl⟩⟩

theorem run_append (ops1 ops2 : List Op) :
    ∀ (w : World), run w (ops1 ++ ops2) =
      match run w ops1 with
      | none => none
      | some w1 => run w1 ops2 := by
  induction ops1 with
  | nil => intro w; rfl
  | cons op ops1 ih =>
    intro w
    show run w (op :: (ops1 ++ ops2)) = _
    simp only [run]
    cases step w op with
    | none => rfl
    | some w1 => exact ih w1

theorem Reachable.then_step {M : Nat} {vifs : List VIF} {w w1 : World} (h : Reachable M vifs w)
    (op : Op) (hs : step w op = some w1) : Reachable M vifs w1 := by
  obtain ⟨ops, hr⟩ := h
  refine ⟨ops ++ [op], ?_⟩
  rw [run_append, hr]
  simp [run, hs]

theorem Reachable.then_run {M : Nat} {vifs : List VIF} {w w1 : World} (h : Reachable M vifs w)
    (ops : List Op) (hs : run w ops = some w1) : Reachable M vifs w1 := by
  obtain ⟨ops0, hr⟩ := h
  refine ⟨ops0 ++ ops, ?_⟩
  rw [run_append, hr]
  exact hs

theorem NewVRF_rds {M : Nat} {w w1 : World} (inv : RegInv M w) (name : String) (x : NewVRFExt)
    (res : Result) (h : NewVRF w name x = some (w1, res)) :
    w1.vrfMgr.rds = w.vrfMgr.rds := by
  have hnext : w.vrfMgr.nextIndex ≤ w.vrfMgr.byIndex.length := by
    rw [inv.len]; exact inv.next
  by_cases hre : reMatchString name = true
  · by_cases hfresh : mapHas w.vrfMgr.byName name = true
    · simp only [NewVRF, hre, hfresh, Bool.not_true, Bool.false_eq_true, if_false, if_true,
        Option.some.injEq, Prod.mk.injEq] at h
      rw [← h.1]
    · have hfresh2 : mapHas w.vrfMgr.byName name = false := by simpa using hfresh
      cases hk : (scanOrder w.vrfMgr.byIndex.length w.vrfMgr.nextIndex).find? (slotFree w) with
      | none =>
        obtain ⟨w2, h1, h2, _⟩ := NewVRF_noSpace w name x hnext hre hfresh2 hk
        rw [h1] at h
        simp only [Option.some.injEq, Prod.mk.injEq] at h
        rw [← h.1, h2]
      | some k =>
        obtain ⟨w2, res2, h1, _, h3⟩ := NewVRF_slot w name x k hnext hre hfresh2 hk
        rw [h1] at h
        simp only [Option.some.injEq, Prod.mk.injEq] at h
        rw [← h.1]
        rcases h3 with ⟨_, hm, _⟩ | ⟨_, hm, _⟩ <;> rw [hm]
  · simp only [NewVRF, hre, Bool.not_false, if_true, Option.some.injEq, Prod.mk.injEq] at h
    rw [← h.1]

theorem mapHas_mapSet_of_mem {β : Type} (m : List (Nat × β)) (k k1 : Nat) (v : β)
    (h : mapHas m k1 = true) : mapHas (mapSet m k v) k1 = true := by
  simp only [mapHas, mapGet_mapSet] at h ⊢
  by_cases hc : k = k1
  · simp [hc]
  · simpa [hc] using h

theorem mapHas_mapSet_self {β : Type} (m : List (Nat × β)) (k : Nat) (v : β) :
    mapHas (mapSet m k v) k = true := by
  simp [mapHas, mapGet_mapSet]

theorem mapHas_mapDelete_self {β : Type} (m : List (Nat × β)) (k : Nat) :
    mapHas (mapDelete m k) k = false := by
  simp [mapHas, mapGet_mapDelete]

/-- Once `SetRD(0)` has put 0 into `rds`, no call takes it out again. -/
theorem rds_zero_step {M : Nat} {w w1 : World} (inv : RegInv M w)
    (h0 : mapHas w.vrfMgr.rds 0 = true) (op : Op) (hs : step w op = some w1) :
    mapHas w1.vrfMgr.rds 0 = true := by
  cases op with
  | newVRF name x =>
    simp only [Vsw.step, Option.map_eq_some'] at hs
    obtain ⟨⟨w2, res⟩, h1, h2⟩ := hs
    simp only at h2
    subst h2
    rw [NewVRF_rds inv name x res h1]
    exact h0
  | free v order =>
    simp only [Vsw.step] at hs
    split at hs
    · split at hs
      · obtain ⟨n, i, r, _, _, _, h4⟩ := Free_registry w v w1 hs
        rw [h4]
        by_cases hr : r = 0
        · simp only [hr, ne_eq, not_true_eq_false, if_false]
          exact h0
        · simp only [ne_eq, hr, not_false_eq_true, if_true]
          rw [mapHas_mapDelete_ne _ _ _ hr]
          exact h0
      · simp at hs
    · simp at hs
  | setRD v rd =>
    simp only [Vsw.step] at hs
    split at hs
    · simp only [Option.map_eq_some'] at hs
      obtain ⟨⟨w2, e⟩, h1, h2⟩ := hs
      simp only at h2
      subst h2
      obtain ⟨n, i, old, _, h4⟩ := SetRD_registry w v rd w2 e h1
      rcases h4 with ⟨_, hw, _⟩ | ⟨_, _, hm, _, _⟩
      · rw [hw]; exact h0
      · rw [hm]
        by_cases ho : old = 0
        · simp only [ho, ne_eq, not_true_eq_false, if_false]
          exact mapHas_mapSet_of_mem _ _ _ _ h0
        · simp only [ne_eq, ho, not_false_eq_true, if_true]
          rw [mapHas_mapDelete_ne _ _ _ ho]
          exact mapHas_mapSet_of_mem _ _ _ _ h0
    · simp at hs
  | addVIF v vif x =>
    simp only [Vsw.step] at hs
    split at hs
    · simp only [Option.map_eq_some'] at hs
      obtain ⟨⟨w2, e⟩, h1, h2⟩ := hs
      simp only at h2
      subst h2
      rw [(AddVIF_frame _ _ _ _ _ _ h1).1]
      exact h0
    · simp at hs
  | deleteVIF v vif =>
    simp only [Vsw.step] at hs
    split at hs
    · simp only [Option.map_eq_some'] at hs
      obtain ⟨⟨w2, e⟩, h1, h2⟩ := hs
      simp only at h2
      subst h2
      rw [(DeleteVIF_frame _ _ _ _ _ h1).1]
      exact h0
    · simp at hs
  | registerOutputDevice v dev ok =>
    simp only [Vsw.step] at hs
    split at hs
    · simp only [Option.map_eq_some'] at hs
      obtain ⟨⟨w2, e⟩, h1, h2⟩ := hs
      simp only at h2
      subst h2
      rw [(registerOutputDevice_frame _ _ _ _ _ _ h1).1]; exact h0
    · simp at hs
  | routeEntryAdded v entry oks =>
    simp only [Vsw.step] at hs
    split at hs
    · rw [(routeEntryAdded_frame _ _ _ _ _ hs).1]; exact h0
    · simp at hs
  | routeEntryDeleted v entry =>
    simp only [Vsw.step] at hs
    split at hs
    · simp only [Option.some.injEq] at hs
      rw [← hs]
      exact h0
    · simp at hs
  | pbrEntryAdded v entry oks =>
    simp only [Vsw.step] at hs
    split at hs
    · rw [(pbrEntryAdded_frame _ _ _ _ _ hs).1]; exact h0
    · simp at hs
  | pbrEntryDeleted v entry =>
    simp only [Vsw.step] at hs
    split at hs
    · simp only [Option.some.injEq] at hs
      rw [← hs]
      exact h0
    · simp at hs

theorem rds_zero_run {M : Nat} (ops : List Op) :
    ∀ {w w1 : World}, RegInv M w → mapHas w.vrfMgr.rds 0 = true → run w ops = some w1 →
      mapHas w1.vrfMgr.rds 0 = true := by
  induction ops with
  | nil =>
    intro w w1 _ h0 h
    simp only [Vsw.run, Option.some.injEq] at h
    rw [← h]
    exact h0
  | cons op ops ih =>
    intro w w1 inv h0 h
    simp only [Vsw.run] at h
    split at h
    · simp at h
    · rename_i w2 hs
      exact ih (inv.after_step op hs) (rds_zero_step inv h0 op hs) h

theorem SetRD_of_mem (w : World) (u : VRFPtr) (rd : Nat) (hu : u < w.vrfs.length)
    (hmem : mapHas w.vrfMgr.rds rd = true) :
    SetRD w u rd = some (w, some Err.rdExists) := by
  unfold SetRD
  rw [List.getElem?_eq_getElem hu]
  simp [hmem]

/-- C8: first part, in a run from the empty registry: once `v.SetRD(rd)` has
succeeded and for as long as the live VRF `v` holds `rd`, `u.SetRD(rd)` on any
other live VRF `u` returns an error and changes nothing, so the route
distinguishers of `u` and `v` and the set `rds` are as before. Second part: in
every reachable state two live VRFs with the same non-zero route distinguisher
are the same VRF. -/
theorem SetRD_held_rd_rejected (MaxVRF : Nat) (vifs : List VIF) :
    (∀ (s0 s1 s2 : World) (v u : VRFPtr) (rd : Nat) (ops : List Op),
      Reachable MaxVRF vifs s0 → isLive s0 v = true → SetRD s0 v rd = some (s1, none) →
      run s1 ops = some s2 → isLive s2 v = true → (s2.vrfs[v]?).map VRF.rd = some rd →
      isLive s2 u = true → u ≠ v →
      ∃ s3 e, SetRD s2 u rd = some (s3, some e) ∧ s3 = s2 ∧
        s3.vrfMgr.rds = s2.vrfMgr.rds ∧
        (s3.vrfs[u]?).map VRF.rd = (s2.vrfs[u]?).map VRF.rd ∧
        (s3.vrfs[v]?).map VRF.rd = some rd) ∧
    (∀ (s : World) (p q : VRFPtr) (o1 o2 : VRF), Reachable MaxVRF vifs s →
      isLive s p = true → isLive s q = true → s.vrfs[p]? = some o1 → s.vrfs[q]? = some o2 →
      o1.rd ≠ 0 → o1.rd = o2.rd → p = q) := by
  constructor
  · intro s0 s1 s2 v u rd ops h0 hv0 hset hrun hv2 hrd hu2 _
    have hstep : step s0 (Op.setRD v rd) = some s1 := by
      simp [Vsw.step, hv0, hset]
    have hr1 : Reachable MaxVRF vifs s1 := h0.then_step _ hstep
    have hr2 : Reachable MaxVRF vifs s2 := hr1.then_run ops hrun
    have inv1 := RegInv.of_reachable hr1
    have inv2 := RegInv.of_reachable hr2
    obtain ⟨nu, iu, ru, hku, _⟩ := (isLive_iff s2 u).1 hu2
    have hult : u < s2.vrfs.length := by
      rw [← keys_length]
      exact getElem?_some_lt hku
    have hmem : mapHas s2.vrfMgr.rds rd = true := by
      by_cases hz : rd = 0
      · subst hz
        apply rds_zero_run ops inv1 _ hrun
        obtain ⟨n, i, old, _, h4⟩ := SetRD_registry s0 v 0 s1 none hset
        rcases h4 with ⟨he, _, _⟩ | ⟨_, _, hm, _, _⟩
        · simp at he
        · rw [hm]
          by_cases ho : old = 0
          · simp only [ho, ne_eq, not_true_eq_false, if_false]
            exact mapHas_mapSet_self _ _ _
          · simp only [ne_eq, ho, not_false_eq_true, if_true]
            rw [mapHas_mapDelete_ne _ _ _ ho]
            exact mapHas_mapSet_self _ _ _
      · obtain ⟨n, i, r, hk, hn⟩ := (isLive_iff s2 v).1 hv2
        have hrr : r = rd := by
          rw [keys_getElem?] at hk
          cases ho : s2.vrfs[v]? with
          | none => simp [ho] at hk
          | some o =>
            simp only [ho, Option.map_some', Option.some.injEq, VRF.key, Prod.mk.injEq] at hk hrd
            rw [← hk.2.2, hrd]
        subst hrr
        exact inv2.rd_mem n v i r hn hk hz
    exact ⟨s2, Err.rdExists, SetRD_of_mem s2 u rd hult hmem, rfl, rfl, rfl, hrd⟩
  · intro s p q o1 o2 hr hp hq h1 h2 hz he
    have inv := RegInv.of_reachable hr
    have hk1 : s.keys[p]? = some (o1.name, o1.index, o1.rd) := by
      rw [keys_getElem?, h1]; rfl
    have hk2 : s.keys[q]? = some (o2.name, o2.index, o1.rd) := by
      rw [keys_getElem?, h2, he]; rfl
    have hl1 : mapGet s.vrfMgr.byName o1.name = some p := by
      simpa [isLive, h1] using hp
    have hl2 : mapGet s.vrfMgr.byName o2.name = some q := by
      simpa [isLive, h2] using hq
    exact inv.rd_unique _ p _ _ _ q _ hl1 hk1 hl2 hk2 hz

/-- The first VRF of `pairWorldLater` still holds 7, and the second one is refused it. -/
theorem SetRD_held_rd_rejected_witness :
    (Reachable 2 demoVIFs pairWorld ∧ isLive pairWorld 0 = true ∧
      SetRD pairWorld 0 7 = some (pairWorldRD, none) ∧
      run pairWorldRD laterOps = some pairWorldLater ∧ isLive pairWorldLater 0 = true ∧
      (pairWorldLater.vrfs[0]?).map VRF.rd = some 7 ∧ isLive pairWorldLater 1 = true ∧
      (1 : VRFPtr) ≠ 0) ∧
    ∃ s3 e, SetRD pairWorldLater 1 7 = some (s3, some e) ∧ s3 = pairWorldLater ∧
      s3.vrfMgr.rds = pairWorldLater.vrfMgr.rds ∧
      (s3.vrfs[1]?).map VRF.rd = (pairWorldLater.vrfs[1]?).map VRF.rd ∧
      (s3.vrfs[0]?).map VRF.rd = some 7 :=
  have hR : Reachable 2 demoVIFs pairWorld := ⟨pairOps, by rfl⟩
  ⟨⟨hR, by rfl, by rfl, by rfl, by rfl, by rfl, by rfl, by decide⟩,
    (SetRD_held_rd_rejected 2 demoVIFs).1 pairWorld pairWorldRD pairWorldLater 0 1 7 laterOps hR
      (by rfl) (by rfl) (by rfl) (by rfl) (by rfl) (by rfl) (by decide)⟩

theorem SetRD_of_not_mem (w : World) (u : VRFPtr) (rd : Nat) (ou : VRF)
    (hou : w.vrfs[u]? = some ou) (hn : mapHas w.vrfMgr.rds rd = false) :
    ∃ w1, SetRD w u rd = some (w1, none) ∧ (w1.vrfs[u]?).map VRF.rd = some rd ∧
      w1.vrfMgr.rds = (if ou.rd ≠ 0 then mapDelete (mapSet w.vrfMgr.rds rd ()) ou.rd
        else mapSet w.vrfMgr.rds rd ()) := by
  unfold SetRD
  rw [hou]
  simp only [hn, Bool.false_eq_true, if_false]
  refine ⟨_, rfl, ?_, ?_⟩
  · by_cases hr : ou.rd = 0 <;> simp [hr, getElem?_updAt, hou]
  · by_cases hr : ou.rd = 0 <;> simp [hr]

/-- C9: for a live VRF `v` whose route distinguisher is a non-zero `a` and a
value `b` that is not in `rds`, `v.SetRD(b)` succeeds, sets the route
distinguisher of `v` to `b` and takes `a` out of `rds`, and then `u.SetRD(a)`
succeeds on every other live VRF `u`. -/
theorem SetRD_frees_old_rd (w : World) (v : VRFPtr) (o : VRF) (a b : Nat)
    (_hv : isLive w v = true) (ho : w.vrfs[v]? = some o) (ha : o.rd = a) (ha0 : a ≠ 0)
    (hb : mapHas w.vrfMgr.rds b = false) :
    ∃ w1, SetRD w v b = some (w1, none) ∧ (w1.vrfs[v]?).map VRF.rd = some b ∧
      mapHas w1.vrfMgr.rds a = false ∧
      ∀ u, u ≠ v → isLive w1 u = true →
        ∃ w2, SetRD w1 u a = some (w2, none) ∧ (w2.vrfs[u]?).map VRF.rd = some a := by
  obtain ⟨w1, h1, h2, h3⟩ := SetRD_of_not_mem w v b o ho hb
  have hmem : mapHas w1.vrfMgr.rds a = false := by
    rw [h3, ha]
    simp only [ne_eq, ha0, not_false_eq_true, if_true]
    exact mapHas_mapDelete_self _ _
  refine ⟨w1, h1, h2, hmem, ?_⟩
  intro u _ hu
  obtain ⟨n, i, r, hk, _⟩ := (isLive_iff w1 u).1 hu
  rw [keys_getElem?] at hk
  cases hou : w1.vrfs[u]? with
  | none => simp [hou] at hk
  | some ou =>
    obtain ⟨w2, h4, h5, _⟩ := SetRD_of_not_mem w1 u a ou hou hmem
    exact ⟨w2, h4, h5⟩

/-- In `pairWorldRD` the first VRF moves from 7 to 8, and 7 is free for the second. -/
theorem SetRD_frees_old_rd_witness :
    (isLive pairWorldRD 0 = true ∧ (pairWorldRD.vrfs[0]?).map VRF.rd = some 7 ∧ (7 : Nat) ≠ 0 ∧
      mapHas pairWorldRD.vrfMgr.rds 8 = false) ∧
    ∃ w1, SetRD pairWorldRD 0 8 = some (w1, none) ∧ (w1.vrfs[0]?).map VRF.rd = some 8 ∧
      mapHas w1.vrfMgr.rds 7 = false ∧
      ∀ u, u ≠ 0 → isLive w1 u = true →
        ∃ w2, SetRD w1 u 7 = some (w2, none) ∧ (w2.vrfs[u]?).map VRF.rd = some 7 :=
  ⟨⟨by rfl, by rfl, by decide, by rfl⟩,
    SetRD_frees_old_rd pairWorldRD 0 (pairWorldRD.vrfs.getD 0 (VRF.new "")) 7 8 (by rfl) (by rfl)
      (by rfl) (by decide) (by rfl)⟩

theorem updAt_updAt {α : Type} (l : List α) (i : Nat) (f g : α → α) :
    updAt (updAt l i f) i g = updAt l i (fun a => g (f a)) := by
  induction l generalizing i with
  | nil => rfl
  | cons a l ih => cases i <;> simp [updAt, ih]

theorem updAt_eq_self {α : Type} (l : List α) (i : Nat) (f : α → α)
    (h : ∀ a, l[i]? = some a → f a = a) : updAt l i f = l := by
  induction l generalizing i with
  | nil => rfl
  | cons a l ih =>
    cases i with
    | zero => simp [updAt, h a (by simp)]
    | succ i =>
      simp only [updAt, List.cons.injEq, true_and]
      exact ih i (fun b hb => h b (by simpa using hb))

theorem filter_vifs_append (l : List VIFPtr) (vif : VIFPtr) (h : vif ∉ l) :
    (l ++ [vif]).filter (fun p => decide (p ≠ vif)) = l := by
  rw [List.filter_append]
  simp only [List.filter_cons, List.filter_nil, ne_eq, not_true_eq_false, decide_False,
    Bool.false_eq_true, if_false, List.append_nil]
  rw [List.filter_eq_self]
  intro a ha
  simp only [decide_not, Bool.not_eq_true', decide_eq_false_iff_not]
  intro hc
  exact h (hc ▸ ha)

theorem filter_rules_self (l : List Rule) (k : VswMatch) (p : Param)
    (h : ∀ rule, rule ∈ l → ¬ (rule.kind = k ∧ rule.param = p)) :
    l.filter (fun r => !decide (r.kind = k ∧ r.param = p)) = l := by
  rw [List.filter_eq_self]
  intro a ha
  simp only [Bool.not_eq_true', decide_eq_false_iff_not]
  exact h a ha

theorem filter_rules_append (l : List Rule) (k : VswMatch) (p : Param) (ring : Ring)
    (h : ∀ rule, rule ∈ l → ¬ (rule.kind = k ∧ rule.param = p)) :
    (l ++ [Rule.mk k p ring]).filter
      (fun r => !decide (r.kind = k ∧ r.param = p)) = l := by
  rw [List.filter_append, filter_rules_self l k p h]
  simp

theorem world_eq (w : World) (I : List Instance) (V : List VIF) (hI : I = w.insts)
    (hV : V = w.vifs) : ({ w with insts := I, vifs := V } : World) = w := by
  subst hI hV
  cases w
  rfl

theorem insts_restore_a (l : List Instance) (r : InstPtr) (vif : VIFPtr)
    (hr : ∀ m, l[r]? = some m → vif ∉ m.vifs) :
    updAt (updAt l r (fun m => { m with vifs := m.vifs ++ [vif] })) r
      (fun m => { m with vifs := m.vifs.filter (fun p => p ≠ vif) }) = l := by
  rw [updAt_updAt]
  apply updAt_eq_self
  intro m hm
  cases m
  simp only [Instance.mk.injEq, true_and, and_true]
  exact filter_vifs_append _ _ (hr _ hm)

theorem insts_restore_b (l : List Instance) (r t : InstPtr) (vif : VIFPtr) (ring : Ring)
    (hr : ∀ m, l[r]? = some m → vif ∉ m.vifs)
    (ht : ∀ m, l[t]? = some m → ∀ rule, rule ∈ m.rules →
      ¬ (rule.kind = VswMatch.MatchOutVIF ∧ rule.param = Param.vif vif)) :
    updAt (updAt (updAt (updAt l r (fun m => { m with vifs := m.vifs ++ [vif] })) t
      (fun m => { m with rules := m.rules ++ [Rule.mk VswMatch.MatchOutVIF (Param.vif vif) ring] }))
      t (fun m => { m with rules := (m.rules.filter
        (fun x => !(x.kind = VswMatch.MatchOutVIF ∧ x.param = Param.vif vif))) }))
      r (fun m => { m with vifs := m.vifs.filter (fun p => p ≠ vif) }) = l := by
  apply List.ext_getElem?
  intro j
  simp only [getElem?_updAt]
  cases hj : l[j]? with
  | none => by_cases h1 : r = j <;> by_cases h2 : t = j <;> simp [h1, h2]
  | some m =>
    have e1 : r = j → (m.vifs ++ [vif]).filter (fun p => decide (p ≠ vif)) = m.vifs :=
      fun h => filter_vifs_append _ _ (hr m (h ▸ hj))
    have e2 : t = j → (m.rules ++ [Rule.mk VswMatch.MatchOutVIF (Param.vif vif) ring]).filter
        (fun x => !decide (x.kind = VswMatch.MatchOutVIF ∧ x.param = Param.vif vif)) = m.rules :=
      fun h => filter_rules_append _ _ _ _ (ht m (h ▸ hj))
    cases m
    by_cases h1 : r = j <;> by_cases h2 : t = j <;>
      simp only [h1, h2, if_true, if_false, Option.map_some', Option.some.injEq,
        Instance.mk.injEq, true_and, and_true] <;>
      simp_all

theorem insts_restore_c (l : List Instance) (r t : InstPtr) (vif : VIFPtr)
    (hr : ∀ m, l[r]? = some m → vif ∉ m.vifs)
    (ht : ∀ m, l[t]? = some m → ∀ rule, rule ∈ m.rules →
      ¬ (rule.kind = VswMatch.MatchOutVIF ∧ rule.param = Param.vif vif)) :
    updAt (updAt (updAt l r (fun m => { m with vifs := m.vifs ++ [vif] }))
      t (fun m => { m with rules := (m.rules.filter
        (fun x => !(x.kind = VswMatch.MatchOutVIF ∧ x.param = Param.vif vif))) }))
      r (fun m => { m with vifs := m.vifs.filter (fun p => p ≠ vif) }) = l := by
  apply List.ext_getElem?
  intro j
  simp only [getElem?_updAt]
  cases hj : l[j]? with
  | none => by_cases h1 : r = j <;> by_cases h2 : t = j <;> simp [h1, h2]
  | some m =>
    have e1 : r = j → (m.vifs ++ [vif]).filter (fun p => decide (p ≠ vif)) = m.vifs :=
      fun h => filter_vifs_append _ _ (hr m (h ▸ hj))
    have e2 : t = j → m.rules.filter
        (fun x => !decide (x.kind = VswMatch.MatchOutVIF ∧ x.param = Param.vif vif)) = m.rules :=
      fun h => filter_rules_self _ _ _ (ht m (h ▸ hj))
    cases m
    by_cases h1 : r = j <;> by_cases h2 : t = j <;>
      simp only [h1, h2, if_true, if_false, Option.map_some', Option.some.injEq,
        Instance.mk.injEq, true_and, and_true] <;>
      simp_all

theorem vifs_restore (l : List VIF) (vif : VIFPtr) (f : VIF) (G : VIF → VIF)
    (hf : l[vif]? = some f) (hG : G f = f) : updAt l vif G = l := by
  apply updAt_eq_self
  intro a ha
  rw [hf] at ha
  simp only [Option.some.injEq] at ha
  rw [← ha]
  exact hG

theorem rules_restore (rules : List Rule) (ring : Ring)
    (hfresh : ∀ rule, rule ∈ rules → rule.param = Param.nil →
      rule.kind ≠ VswMatch.MatchEthDstSelf ∧ rule.kind ≠ VswMatch.MatchEthDstBC ∧
      rule.kind ≠ VswMatch.MatchEthDstMC) :
    (rules ++ [Rule.mk VswMatch.MatchEthDstSelf Param.nil ring]).filter
        (fun x => !(x.kind = VswMatch.MatchEthDstSelf ∧ x.param = Param.nil)) = rules ∧
    ((rules ++ [Rule.mk VswMatch.MatchEthDstSelf Param.nil ring]) ++
        [Rule.mk VswMatch.MatchEthDstBC Param.nil ring]).filter
        (fun x => !(x.kind = VswMatch.MatchEthDstBC ∧ x.param = Param.nil)) =
      rules ++ [Rule.mk VswMatch.MatchEthDstSelf Param.nil ring] ∧
    (((rules ++ [Rule.mk VswMatch.MatchEthDstSelf Param.nil ring]) ++
        [Rule.mk VswMatch.MatchEthDstBC Param.nil ring]) ++
        [Rule.mk VswMatch.MatchEthDstMC Param.nil ring]).filter
        (fun x => !(x.kind = VswMatch.MatchEthDstMC ∧ x.param = Param.nil)) =
      (rules ++ [Rule.mk VswMatch.MatchEthDstSelf Param.nil ring]) ++
        [Rule.mk VswMatch.MatchEthDstBC Param.nil ring] := by
  have hS := filter_rules_self rules VswMatch.MatchEthDstSelf Param.nil
    (fun rule h1 h2 => (hfresh rule h1 h2.2).1 h2.1)
  have hB := filter_rules_self rules VswMatch.MatchEthDstBC Param.nil
    (fun rule h1 h2 => (hfresh rule h1 h2.2).2.1 h2.1)
  have hM := filter_rules_self rules VswMatch.MatchEthDstMC Param.nil
    (fun rule h1 h2 => (hfresh rule h1 h2.2).2.2 h2.1)
  refine ⟨?_, ?_, ?_⟩
  · rw [List.filter_append, hS]; simp
  · rw [List.filter_append, List.filter_append, hB]; simp
  · rw [List.filter_append, List.filter_append, List.filter_append, hM]; simp

theorem addVIFConnects_failure (w : World) (I : List Instance) (v : VRFPtr) (o : VRF)
    (r t : InstPtr) (vif : VIFPtr) (f : VIF) (x : AddVIFExt) (e : Err)
    (hf : w.vifs[vif]? = some f) (hunbound : f.vrf = none) (ht : o.tap = some t)
    (hfail : addVIFConnectsFailure f x = some e) :
    ∃ w1, addVIFConnects
        { w with insts := I, vifs := updAt w.vifs vif (fun g => { g with vrf := some v }) }
        v o r vif f x = some (w1, some e) ∧
      w1.vrfMgr = w.vrfMgr ∧ w1.vrfs = w.vrfs ∧ w1.vifIdxMgr = w.vifIdxMgr ∧ w1.noti = w.noti ∧
      (w1.vifs[vif]?).map VIF.vrf = some none ∧
      w1.insts = updAt (updAt I t (fun m => { m with rules := (m.rules.filter
        (fun x => !(x.kind = VswMatch.MatchOutVIF ∧ x.param = Param.vif vif))) }))
        r (fun m => { m with vifs := m.vifs.filter (fun p => p ≠ vif) }) ∧
      ((∀ rule, rule ∈ f.rules → rule.param = Param.nil →
        rule.kind ≠ VswMatch.MatchEthDstSelf ∧ rule.kind ≠ VswMatch.MatchEthDstBC ∧
        rule.kind ≠ VswMatch.MatchEthDstMC) → w1.vifs = w.vifs) := by
  obtain ⟨x1, x2, x3, x4, x5, x6, x7⟩ := x
  obtain ⟨fi, fv, fr, ft, fn⟩ := f
  simp only at hunbound
  subst hunbound
  unfold addVIFConnects
  simp only [ht]
  cases x4 with
  | false =>
    simp only [addVIFConnectsFailure, Bool.not_false, if_true, Option.some.injEq] at hfail
    subst hfail
    refine ⟨_, rfl, rfl, rfl, rfl, rfl, ?_, rfl, ?_⟩
    · simp [vifConnect, addVIFError3, addVIFError2, addVIFError1, vifSetVRF, routerDeleteVIF,
        instDisconnect, getElem?_updAt, hf]
    · intro _
      simp only [vifConnect, addVIFError3, addVIFError2, addVIFError1, vifSetVRF,
        routerDeleteVIF, instDisconnect, Bool.false_eq_true, if_false, updAt_updAt]
      exact vifs_restore _ _ _ _ hf rfl
  | true =>
    cases x5 with
    | false =>
      simp only [addVIFConnectsFailure, Bool.not_false, Bool.not_true, Bool.false_eq_true,
        if_true, if_false, Option.some.injEq] at hfail
      subst hfail
      refine ⟨_, rfl, rfl, rfl, rfl, rfl, ?_, rfl, ?_⟩
      · simp [vifConnect, addVIFError4, addVIFError3, addVIFError2, addVIFError1, vifSetVRF,
          routerDeleteVIF, instDisconnect, vifDisconnect, getElem?_updAt, hf]
      · intro hfr
        simp only [vifConnect, addVIFError4, addVIFError3, addVIFError2, addVIFError1,
          vifSetVRF, routerDeleteVIF, instDisconnect, vifDisconnect, Bool.false_eq_true,
          if_false, if_true, updAt_updAt]
        apply vifs_restore _ _ _ _ hf
        simp only [VIF.mk.injEq, true_and, and_true]
        exact (rules_restore fr (Ring.instInput r) hfr).1
    | true =>
      cases x6 with
      | false =>
        simp only [addVIFConnectsFailure, Bool.not_false, Bool.not_true, Bool.false_eq_true,
          if_true, if_false, Option.some.injEq] at hfail
        subst hfail
        refine ⟨_, rfl, rfl, rfl, rfl, rfl, ?_, rfl, ?_⟩
        · simp [vifConnect, addVIFError5, addVIFError4, addVIFError3, addVIFError2,
            addVIFError1, vifSetVRF, routerDeleteVIF, instDisconnect, vifDisconnect,
            getElem?_updAt, hf]
        · intro hfr
          simp only [vifConnect, addVIFError5, addVIFError4, addVIFError3, addVIFError2,
            addVIFError1, vifSetVRF, routerDeleteVIF, instDisconnect, vifDisconnect,
            Bool.false_eq_true, if_false, if_true, updAt_updAt]
          apply vifs_restore _ _ _ _ hf
          simp only [VIF.mk.injEq, true_and, and_true]
          rw [(rules_restore fr (Ring.instInput r) hfr).2.1]
          exact (rules_restore fr (Ring.instInput r) hfr).1
      | true =>
        cases fn with
        | false =>
          simp [addVIFConnectsFailure] at hfail
        | true =>
          cases x7 with
          | true => simp [addVIFConnectsFailure] at hfail
          | false =>
            simp only [addVIFConnectsFailure, Bool.not_false, Bool.not_true,
              Bool.false_eq_true, Bool.and_self, if_true, if_false, Option.some.injEq] at hfail
            subst hfail
            refine ⟨_, rfl, rfl, rfl, rfl, rfl, ?_, rfl, ?_⟩
            · simp [vifConnect, routerEnableNAPT, addVIFError6, addVIFError5, addVIFError4,
                addVIFError3, addVIFError2, addVIFError1, vifSetVRF, routerDeleteVIF,
                instDisconnect, vifDisconnect, getElem?_updAt, hf]
            · intro hfr
              simp only [vifConnect, routerEnableNAPT, addVIFError6, addVIFError5,
                addVIFError4, addVIFError3, addVIFError2, addVIFError1, vifSetVRF,
                routerDeleteVIF, instDisconnect, vifDisconnect, Bool.false_eq_true, if_false,
                if_true, updAt_updAt]
              apply vifs_restore _ _ _ _ hf
              simp only [VIF.mk.injEq, true_and, and_true]
              rw [(rules_restore fr (Ring.instInput r) hfr).2.2,
                (rules_restore fr (Ring.instInput r) hfr).2.1]
              exact (rules_restore fr (Ring.instInput r) hfr).1

/-- The effect of an `AddVIF` whose bind succeeds and in which a later step
fails: the error of that step is returned; the registry, every VRF object and
the notifications are as before the call, the VIF is unbound, and when nothing
that the call adds was present before it, the whole state is the state before
the call. -/
theorem AddVIF_failure_effect (w : World) (v : VRFPtr) (vif : VIFPtr) (x : AddVIFExt)
    (o : VRF) (f : VIF) (r t : InstPtr) (e : Err)
    (ho : w.vrfs[v]? = some o) (hf : w.vifs[vif]? = some f)
    (hnot : mapHas o.devs f.index = false) (hr : o.router = some r) (ht : o.tap = some t)
    (hx : x.setVRF = true) (hunbound : f.vrf = none)
    (hfail : addVIFFirstFailure f x = some e) :
    ∃ w1, AddVIF w v vif x = some (w1, some e) ∧
      w1.vrfMgr = w.vrfMgr ∧ w1.vrfs = w.vrfs ∧ w1.vifIdxMgr = w.vifIdxMgr ∧ w1.noti = w.noti ∧
      (w1.vrfs[v]?).map VRF.devs = some o.devs ∧ mapHas o.devs f.index = false ∧
      (w1.vifs[vif]?).map VIF.vrf = some none ∧
      (AddVIFFresh w r t vif f → w1 = w) := by
  have hdevs : ∀ w1 : World, w1.vrfs = w.vrfs → (w1.vrfs[v]?).map VRF.devs = some o.devs := by
    intro w1 h1
    rw [h1, ho]
    rfl
  have hweq : ∀ w1 : World, w1.vrfMgr = w.vrfMgr → w1.vrfs = w.vrfs →
      w1.vifIdxMgr = w.vifIdxMgr → w1.noti = w.noti → w1.insts = w.insts →
      w1.vifs = w.vifs → w1 = w := by
    intro w1 h1 h2 h3 h4 h5 h6
    cases w1
    cases w
    simp only at h1 h2 h3 h4 h5 h6
    subst h1 h2 h3 h4 h5 h6
    rfl
  obtain ⟨x1, x2, x3, x4, x5, x6, x7⟩ := x
  simp only at hx
  subst hx
  unfold AddVIF
  rw [ho, hf]
  simp only [hnot, hr, ht, vifSetVRF, hf, hunbound, Bool.false_eq_true, if_false,
    Option.isNone_none, Bool.and_self, if_true]
  cases x2 with
  | false =>
    simp only [addVIFFirstFailure, Bool.not_false, if_true, Option.some.injEq] at hfail
    subst hfail
    simp only [routerAddVIF, Bool.false_eq_true, if_false, addVIFError1, vifSetVRF]
    refine ⟨_, rfl, rfl, rfl, rfl, rfl, hdevs _ rfl, trivial, ?_, ?_⟩
    · simp [getElem?_updAt, hf]
    · intro _
      refine hweq _ rfl rfl rfl rfl rfl ?_
      simp only [updAt_updAt]
      apply vifs_restore _ _ _ _ hf
      cases f
      simp only at hunbound
      subst hunbound
      rfl
  | true =>
    simp only [routerAddVIF, if_true]
    cases htn : f.tunnel with
    | none =>
      simp only [Option.isNone_none, if_true]
      cases x3 with
      | false =>
        simp only [addVIFFirstFailure, htn, Option.isNone_none, Bool.not_true, Bool.not_false,
          Bool.false_eq_true, Bool.and_self, if_true, if_false, Option.some.injEq] at hfail
        subst hfail
        simp only [instConnect, Bool.false_eq_true, if_false, addVIFError2, addVIFError1,
          vifSetVRF, routerDeleteVIF]
        refine ⟨_, rfl, rfl, rfl, rfl, rfl, hdevs _ rfl, trivial, ?_, ?_⟩
        · simp [getElem?_updAt, hf]
        · intro hfr
          refine hweq _ rfl rfl rfl rfl ?_ ?_
          · exact insts_restore_a w.insts r vif hfr.1
          · simp only [updAt_updAt]
            apply vifs_restore _ _ _ _ hf
            cases f
            simp only at hunbound
            subst hunbound
            rfl
      | true =>
        simp only [addVIFFirstFailure, htn, Option.isNone_none, Bool.not_true,
          Bool.false_eq_true, Bool.and_false, if_false] at hfail
        simp only [instConnect, if_true]
        obtain ⟨w1, h1, h2, h3, h4, h5, h6, h7, h8⟩ := addVIFConnects_failure w
          (updAt (updAt w.insts r (fun m => { m with vifs := m.vifs ++ [vif] })) t
            (fun m => { m with rules := m.rules ++
              [Rule.mk VswMatch.MatchOutVIF (Param.vif vif) (Ring.vifOutbound vif)] }))
          v o r t vif f ⟨true, true, true, x4, x5, x6, x7⟩ e hf hunbound ht hfail
        refine ⟨w1, h1, h2, h3, h4, h5, hdevs _ h3, trivial, h6, ?_⟩
        intro hfr
        refine hweq _ h2 h3 h4 h5 ?_ (h8 hfr.2.2)
        rw [h7]
        exact insts_restore_b w.insts r t vif _ hfr.1 hfr.2.1
    | some tn =>
      simp only [Option.isNone_some, Bool.false_eq_true, if_false]
      simp only [addVIFFirstFailure, htn, Option.isNone_some, Bool.not_true,
        Bool.false_eq_true, Bool.false_and, if_false] at hfail
      obtain ⟨w1, h1, h2, h3, h4, h5, h6, h7, h8⟩ := addVIFConnects_failure w
        (updAt w.insts r (fun m => { m with vifs := m.vifs ++ [vif] }))
        v o r t vif f ⟨true, true, x3, x4, x5, x6, x7⟩ e hf hunbound ht hfail
      refine ⟨w1, h1, h2, h3, h4, h5, hdevs _ h3, trivial, h6, ?_⟩
      intro hfr
      refine hweq _ h2 h3 h4 h5 ?_ (h8 hfr.2.2)
      rw [h7]
      exact insts_restore_c w.insts r t vif hfr.1 hfr.2.1

/-- C20: after `NewVRF("vrf0")` and `SetRD(0)` on it, the value 0 is in `rds`
although no live VRF has a non-zero route distinguisher: `rds` is not the set
of route distinguishers in use. -/
theorem SetRD_zero_enters_rds :
    run (World.empty 2 demoVIFs) zeroRDOps = some zeroRDWorld ∧
    isLive zeroRDWorld 0 = true ∧
    (zeroRDWorld.vrfs[0]?).map VRF.rd = some 0 ∧
    mapHas zeroRDWorld.vrfMgr.rds 0 = true ∧
    rdsInUse zeroRDWorld = [] ∧
    ¬ (∀ r, mapHas zeroRDWorld.vrfMgr.rds r = true ↔ r ∈ rdsInUse zeroRDWorld) := by
  refine ⟨by rfl, by rfl, by rfl, by rfl, by rfl, ?_⟩
  intro h
  have h0 := (h 0).1 (by rfl)
  have h1 : rdsInUse zeroRDWorld = [] := by rfl
  rw [h1] at h0
  exact List.not_mem_nil _ h0

/-- C17: on the first VRF of `pairWorld`, `addL2Tunnel` for an interface whose
tunnel has one remote address and an encapsulation that is neither GRE nor
VxLAN returns the error for the unsupported method, and the rule for the
first remote address that it connected on the interface before looking at the
method is still there: the rules of the interface are not those before the
call. -/
theorem addL2Tunnel_unsupported_keeps_rule :
    addL2Tunnel pairWorld 0 5 otherInterface ⟨true, []⟩ =
      some (pairWorld,
        { otherInterface with
          rules := [Rule.mk VswMatch.MatchIPv4Dst (Param.addr 20) (Ring.instInput 1)] },
        some Err.unsupportedEncaps) ∧
    otherInterface.rules = [] := by
  refine ⟨by rfl, by rfl⟩

/-- C18: `Start` on a running handler returns success and changes neither the
handler nor the sockets (no listener is bound, no file is removed); `Stop` on
a handler that is not running changes nothing; `Start` whose bind fails
returns the error, leaves `running` false and binds no listener; a `Start`
whose bind succeeds returns success with `running` true, the listener bound
and the socket file present, and a following `Stop` leaves `running` false,
the listener closed and the socket file removed. -/
theorem Start_Stop_running (h : Handler) (s : Sockets) (bind : Bool) :
    Handler.Start { h with running := true } s bind = ({ h with running := true }, s, none) ∧
    Handler.Stop { h with running := false } s = ({ h with running := false }, s) ∧
    ((Handler.Start { h with running := false } s false).2.2 = some Err.listen ∧
      (Handler.Start { h with running := false } s false).1.running = false ∧
      (Handler.Start { h with running := false } s false).1.listener = none ∧
      (Handler.Start { h with running := false } s false).2.1.listeners = s.listeners) ∧
    ((Handler.Start { h with running := false } s true).2.2 = none ∧
      (Handler.Start { h with running := false } s true).1.running = true ∧
      (Handler.Start { h with running := false } s true).1.listener = some s.listeners.length ∧
      (Handler.Start { h with running := false } s true).2.1.listeners =
        s.listeners ++ [some (SockFile h.vrfName)] ∧
      SockFile h.vrfName ∈ (Handler.Start { h with running := false } s true).2.1.files ∧
      (Handler.Stop (Handler.Start { h with running := false } s true).1
        (Handler.Start { h with running := false } s true).2.1).1.running = false ∧
      (Handler.Stop (Handler.Start { h with running := false } s true).1
        (Handler.Start { h with running := false } s true).2.1).2.listeners =
        s.listeners ++ [none] ∧
      SockFile h.vrfName ∉ (Handler.Stop (Handler.Start { h with running := false } s true).1
        (Handler.Start { h with running := false } s true).2.1).2.files) := by
  refine ⟨by simp [Handler.Start], by simp [Handler.Stop], ?_, ?_⟩
  · simp [Handler.Start, listenUnix, Handler.clean]
  · refine ⟨by simp [Handler.Start, listenUnix], by simp [Handler.Start, listenUnix],
      by simp [Handler.Start, listenUnix, Handler.clean],
      by simp [Handler.Start, listenUnix, Handler.clean],
      by simp [Handler.Start, listenUnix, Handler.clean],
      by simp [Handler.Start, Handler.Stop, listenUnix], ?_, ?_⟩
    · simp [Handler.Start, Handler.Stop, listenUnix, Handler.clean, listenerClose]
    · simp [Handler.Start, Handler.Stop, listenUnix, Handler.clean, listenerClose]

theorem registerOutputDevice_of_mem (w : World) (v : VRFPtr) (d : OutputDevice) (o : VRF)
    (idx : VIFIndex) (ok : Bool) (ho : w.vrfs[v]? = some o) (hidx : d.VIFIndex w = some idx)
    (hmem : mapHas o.devs idx = true) : registerOutputDevice w v d ok = some (w, none) := by
  unfold registerOutputDevice
  rw [ho, hidx]
  simp only [hmem, if_true]

theorem VIFIndex_after_register (w : World) (v : VRFPtr) (d : OutputDevice) (I : List Instance)
    (g : List (VIFIndex × OutputDevice) → List (VIFIndex × OutputDevice)) :
    d.VIFIndex { w with insts := I, vrfs := updAt w.vrfs v (fun o1 => { o1 with devs := g o1.devs }) }
      = d.VIFIndex w := by
  cases d with
  | vif p => rfl
  | vrf q =>
    simp only [OutputDevice.VIFIndex, getElem?_updAt]
    cases hq : w.vrfs[q]? with
    | none => simp
    | some oq => by_cases hvq : v = q <;> simp [hvq]

/-- A call of `registerOutputDevice` on a VRF with its router returns, and a
second call on the state it leaves gives the same result and leaves that
state. -/
theorem registerOutputDevice_twice (w : World) (v : VRFPtr) (d : OutputDevice) (o : VRF)
    (idx : VIFIndex) (ok : Bool) (ho : w.vrfs[v]? = some o) (hidx : d.VIFIndex w = some idx) :
    (mapHas o.devs idx = true → ∀ ok1, registerOutputDevice w v d ok1 = some (w, none)) ∧
    (∀ r, o.router = some r →
      ∃ w1 e, registerOutputDevice w v d ok = some (w1, e) ∧
        registerOutputDevice w1 v d ok = some (w1, e) ∧
        (e = none → ∀ ok2, registerOutputDevice w1 v d ok2 = some (w1, none))) := by
  refine ⟨fun hmem ok1 => registerOutputDevice_of_mem w v d o idx ok1 ho hidx hmem, ?_⟩
  intro r hr
  cases hmem : mapHas o.devs idx with
  | true =>
    have h1 := fun ok1 => registerOutputDevice_of_mem w v d o idx ok1 ho hidx hmem
    exact ⟨w, none, h1 ok, h1 ok, fun _ ok2 => h1 ok2⟩
  | false =>
    cases d with
    | vif p =>
      have h1 : registerOutputDevice w v (OutputDevice.vif p) ok = some (w, some Err.notVRF) := by
        unfold registerOutputDevice
        rw [ho, hidx]
        simp only [hmem, Bool.false_eq_true, if_false]
      exact ⟨w, some Err.notVRF, h1, h1, fun hc => by cases hc⟩
    | vrf q =>
      cases ok with
      | false =>
        have h1 : registerOutputDevice w v (OutputDevice.vrf q) false =
            some (w, some Err.addOutputDevice) := by
          unfold registerOutputDevice
          rw [ho, hidx]
          simp only [hmem, Bool.false_eq_true, if_false, hr, routerAddOutputDevice]
        exact ⟨w, some Err.addOutputDevice, h1, h1, fun hc => by cases hc⟩
      | true =>
        have h1 : registerOutputDevice w v (OutputDevice.vrf q) true =
            some ({ w with
                    insts := updAt w.insts r (fun m =>
                      { m with outDevs := m.outDevs ++ [OutputDevice.vrf q] })
                    vrfs := updAt w.vrfs v (fun o1 =>
                      { o1 with devs := mapSet o1.devs idx (OutputDevice.vrf q) }) }, none) := by
          unfold registerOutputDevice
          rw [ho, hidx]
          simp only [hmem, Bool.false_eq_true, if_false, hr, routerAddOutputDevice, if_true]
        have h2 : ∀ W : World, W = { w with
                    insts := updAt w.insts r (fun m =>
                      { m with outDevs := m.outDevs ++ [OutputDevice.vrf q] })
                    vrfs := updAt w.vrfs v (fun o1 =>
                      { o1 with devs := mapSet o1.devs idx (OutputDevice.vrf q) }) } →
                  ∀ ok2, registerOutputDevice W v (OutputDevice.vrf q) ok2 = some (W, none) := by
          intro W hW ok2
          subst hW
          apply registerOutputDevice_of_mem _ v _
            { o with devs := mapSet o.devs idx (OutputDevice.vrf q) } idx ok2
          · simp [getElem?_updAt, ho]
          · rw [VIFIndex_after_register w v (OutputDevice.vrf q) _
              (fun l => mapSet l idx (OutputDevice.vrf q))]
            exact hidx
          · exact mapHas_mapSet_self _ _ _
        exact ⟨_, none, h1, h2 _ rfl true, fun _ ok2 => h2 _ rfl ok2⟩

/-- C13: when the `VIFIndex` of the device is a key of `v.devs`,
`registerOutputDevice` returns success and the whole state (so `v.devs` and
the output devices added to the router) is unchanged, whatever
`router.addOutputDevice` would answer; and for any device, when the VRF has
its router, the call returns, and a second call on the state it leaves gives
the same result and leaves that state, after a success whatever the router
would answer. -/
theorem registerOutputDevice_idempotent (w : World) (v : VRFPtr) (d : OutputDevice) (o : VRF)
    (idx : VIFIndex) (ok : Bool) (ho : w.vrfs[v]? = some o) (hidx : d.VIFIndex w = some idx) :
    (mapHas o.devs idx = true → ∀ ok1, registerOutputDevice w v d ok1 = some (w, none)) ∧
    (∀ r, o.router = some r →
      ∃ w1 e, registerOutputDevice w v d ok = some (w1, e) ∧
        registerOutputDevice w1 v d ok = some (w1, e) ∧
        (e = none → ∀ ok2, registerOutputDevice w1 v d ok2 = some (w1, none))) :=
  registerOutputDevice_twice w v d o idx ok ho hidx

/-- The second VRF of `pairWorld` (VIF index 101) is registered as output
device of the first: in `pairRegistered`, where it is in `devs`, the call
changes nothing; in `pairWorld`, where it is not, the first call adds it and a
second call changes nothing. -/
theorem registerOutputDevice_idempotent_witness :
    (pairRegistered.vrfs[0]? = some (pairRegistered.vrfs.getD 0 (VRF.new "")) ∧
      (OutputDevice.vrf 1).VIFIndex pairRegistered = some 101 ∧
      mapHas (pairRegistered.vrfs.getD 0 (VRF.new "")).devs 101 = true ∧
      pairWorld.vrfs[0]? = some (pairWorld.vrfs.getD 0 (VRF.new "")) ∧
      (OutputDevice.vrf 1).VIFIndex pairWorld = some 101 ∧
      (pairWorld.vrfs.getD 0 (VRF.new "")).router = some 1) ∧
    (∀ ok1, registerOutputDevice pairRegistered 0 (OutputDevice.vrf 1) ok1 =
      some (pairRegistered, none)) ∧
    (∃ w1 e, registerOutputDevice pairWorld 0 (OutputDevice.vrf 1) true = some (w1, e) ∧
        registerOutputDevice w1 0 (OutputDevice.vrf 1) true = some (w1, e) ∧
        (e = none → ∀ ok2, registerOutputDevice w1 0 (OutputDevice.vrf 1) ok2 = some (w1, none))) :=
  ⟨⟨by rfl, by rfl, by rfl, by rfl, by rfl, by rfl⟩,
    (registerOutputDevice_idempotent pairRegistered 0 (OutputDevice.vrf 1)
      (pairRegistered.vrfs.getD 0 (VRF.new "")) 101 true (by rfl) (by rfl)).1 (by rfl),
    (registerOutputDevice_idempotent pairWorld 0 (OutputDevice.vrf 1)
      (pairWorld.vrfs.getD 0 (VRF.new "")) 101 true (by rfl) (by rfl)).2 1 (by rfl)⟩

theorem registerOutputDevice_noti (w : World) (v : VRFPtr) (d : OutputDevice) (ok : Bool)
    (w1 : World) (e : Option Err) (h : registerOutputDevice w v d ok = some (w1, e)) :
    w1.noti = w.noti := by
  rcases registerOutputDevice_cases w v d ok w1 e h with h1 | ⟨I, g, h1⟩ <;> rw [h1]

theorem RegReady.after_register {w : World} {v : VRFPtr} {d : OutputDevice}
    {ds : List OutputDevice} (hready : RegReady w v (d :: ds)) (ok : Bool) :
    ∃ w1 e, registerOutputDevice w v d ok = some (w1, e) ∧ RegReady w1 v ds := by
  obtain ⟨⟨o, r, ho, hr⟩, hd⟩ := hready
  have hdi := hd d (List.mem_cons_self _ _)
  obtain ⟨idx, hidx⟩ := Option.isSome_iff_exists.1 hdi
  obtain ⟨w1, e, h1, -, -⟩ := (registerOutputDevice_twice w v d o idx ok ho hidx).2 r hr
  refine ⟨w1, e, h1, ?_⟩
  rcases registerOutputDevice_cases w v d ok w1 e h1 with h2 | ⟨I, g, h2⟩
  · rw [h2]
    exact ⟨⟨o, r, ho, hr⟩, fun d1 h => hd d1 (List.mem_cons_of_mem _ h)⟩
  · rw [h2]
    refine ⟨⟨{ o with devs := g o.devs }, r, ?_, hr⟩, ?_⟩
    · simp [getElem?_updAt, ho]
    · intro d1 h
      rw [VIFIndex_after_register]
      exact hd d1 (List.mem_cons_of_mem _ h)

theorem Registered.noti_eq {v : VRFPtr} {oks : List Bool} {w w1 : World} {ds : List OutputDevice}
    (h : Registered v oks w ds w1) : w1.noti = w.noti := by
  induction h with
  | nil => rfl
  | cons oks w w1 w2 d ds h1 _ ih => rw [ih, registerOutputDevice_noti _ _ _ _ _ _ h1]

theorem Registered.unique {v : VRFPtr} {oks : List Bool} {w w1 w2 : World}
    {ds : List OutputDevice} (h1 : Registered v oks w ds w1) (h2 : Registered v oks w ds w2) :
    w1 = w2 := by
  induction h1 generalizing w2 with
  | nil => cases h2; rfl
  | cons oks w wa wb d ds ha _ ih =>
    cases h2 with
    | cons _ _ wc _ _ _ hc hd =>
      rw [ha] at hc
      simp only [Option.some.injEq, Prod.mk.injEq, and_true] at hc
      subst hc
      exact ih hd

theorem FailedAt.not_registered {v : VRFPtr} {oks : List Bool} {w w1 : World}
    {ds : List OutputDevice} (h : FailedAt v oks w ds w1) : ¬ ∃ w2, Registered v oks w ds w2 := by
  obtain ⟨pre, d, post, wa, e, hds, hpre, hfail⟩ := h
  subst hds
  rintro ⟨w2, h2⟩
  induction hpre generalizing w2 with
  | nil oks w =>
    cases h2 with
    | cons _ _ wc _ _ _ hc hd =>
      simp only [List.length_nil, List.drop_zero] at hfail
      rw [hfail] at hc
      cases hc
  | cons oks w wa wb d1 ds1 ha _ ih =>
    cases h2 with
    | cons _ _ wc _ _ _ hc hd =>
      rw [ha] at hc
      simp only [Option.some.injEq, Prod.mk.injEq, and_true] at hc
      subst hc
      apply ih _ _ hd
      simpa using hfail

theorem FailedAt.noti_kept {v : VRFPtr} {oks : List Bool} {w w1 : World}
    {ds : List OutputDevice} (h : FailedAt v oks w ds w1) : w1.noti = w.noti := by
  obtain ⟨pre, d, post, wa, e, -, hpre, hfail⟩ := h
  rw [registerOutputDevice_noti _ _ _ _ _ _ hfail, hpre.noti_eq]

theorem FailedAt.cons {v : VRFPtr} {oks : List Bool} {w wa w1 : World} {d : OutputDevice}
    {ds : List OutputDevice} (h1 : registerOutputDevice w v d (oks.headD true) = some (wa, none))
    (h : FailedAt v oks.tail wa ds w1) : FailedAt v oks w (d :: ds) w1 := by
  obtain ⟨pre, d1, post, wb, e, hds, hpre, hfail⟩ := h
  refine ⟨d :: pre, d1, post, wb, e, by rw [hds]; rfl, Registered.cons _ _ _ _ _ _ h1 hpre, ?_⟩
  simpa using hfail

/-- The loop over the next-hops returns: without error after registering every
device, or with the error of the first registration that fails, in the state
that registration leaves. -/
theorem registerNexthops_outcome (v : VRFPtr) (ds : List OutputDevice) :
    ∀ (w : World) (oks : List Bool), RegReady w v ds →
      ∃ w1 e, registerNexthops w v (ds.map (fun d => Nexthop.mk (some d))) oks = some (w1, e) ∧
        ((e = none ∧ Registered v oks w ds w1) ∨ (e ≠ none ∧ FailedAt v oks w ds w1)) := by
  induction ds with
  | nil =>
    intro w oks _
    exact ⟨w, none, rfl, Or.inl ⟨rfl, Registered.nil _ _⟩⟩
  | cons d ds ih =>
    intro w oks hready
    obtain ⟨wa, e, h1, hready1⟩ := hready.after_register (oks.headD true)
    simp only [List.map_cons, registerNexthops, h1]
    cases e with
    | some err =>
      refine ⟨wa, some err, rfl, Or.inr ⟨by simp, [], d, ds, w, err, rfl, Registered.nil _ _, ?_⟩⟩
      simpa using h1
    | none =>
      obtain ⟨w1, e1, h2, h3⟩ := ih wa oks.tail hready1
      refine ⟨w1, e1, h2, ?_⟩
      rcases h3 with ⟨h4, h5⟩ | ⟨h4, h5⟩
      · exact Or.inl ⟨h4, Registered.cons _ _ _ _ _ _ h1 h5⟩
      · exact Or.inr ⟨h4, FailedAt.cons h1 h5⟩

theorem registerPBRNexthops_eq (v : VRFPtr) (nhs : List Nexthop) :
    ∀ (w : World) (oks : List Bool), registerPBRNexthops w v nhs oks =
      registerNexthops w v ((nhs.filterMap Nexthop.Dev).map (fun d => Nexthop.mk (some d))) oks := by
  induction nhs with
  | nil => intro w oks; rfl
  | cons nh nhs ih =>
    intro w oks
    obtain ⟨dev⟩ := nh
    cases dev with
    | none =>
      simp only [registerPBRNexthops, List.filterMap_cons]
      exact ih w oks
    | some d =>
      simp only [registerPBRNexthops, List.filterMap_cons, List.map_cons, registerNexthops]
      cases registerOutputDevice w v d (oks.headD true) with
      | none => rfl
      | some p =>
        obtain ⟨wa, e⟩ := p
        cases e with
        | some err => rfl
        | none => exact ih wa oks.tail

theorem routeEntryAdded_eq (w : World) (v : VRFPtr) (entry : Route) (oks : List Bool)
    (ds : List OutputDevice) (hds : entry.devices = ds.map some) :
    routeEntryAdded w v entry oks =
      match registerNexthops w v (ds.map (fun d => Nexthop.mk (some d))) oks with
      | none => none
      | some (w1, some _) => some w1
      | some (w1, none) => some (notify w1 NotiKind.Add v (NotiDetail.route entry)) := by
  unfold routeEntryAdded
  unfold Route.devices at hds
  by_cases hlen : entry.Nexthops.length = 0
  · simp only [hlen, if_true] at hds ⊢
    cases ds with
    | nil => simp at hds
    | cons d ds =>
      simp only [List.map_cons, List.cons.injEq] at hds
      obtain ⟨hd, hnil⟩ := hds
      have hnil2 : ds = [] := by
        cases ds with
        | nil => rfl
        | cons _ _ => simp at hnil
      subst hnil2
      rw [hd]
      simp only [List.map_cons, List.map_nil, registerNexthops]
      cases registerOutputDevice w v d (oks.headD true) with
      | none => rfl
      | some p =>
        obtain ⟨wa, e⟩ := p
        cases e <;> rfl
  · simp only [hlen, if_false] at hds ⊢
    have h1 : entry.Nexthops = ds.map (fun d => Nexthop.mk (some d)) := by
      apply List.ext_getElem?
      intro i
      have h2 := congrArg (fun l => l[i]?) hds
      simp only [List.getElem?_map] at h2 ⊢
      cases hi : entry.Nexthops[i]? with
      | none =>
        rw [hi] at h2
        cases hj : ds[i]? with
        | none => rfl
        | some _ => rw [hj] at h2; simp at h2
      | some nh =>
        rw [hi] at h2
        cases hj : ds[i]? with
        | none => rw [hj] at h2; simp at h2
        | some d =>
          rw [hj] at h2
          obtain ⟨dev⟩ := nh
          simp only [Option.map_some', Option.some.injEq] at h2 ⊢
          rw [h2]
    rw [h1]

theorem notified_of_registered {v : VRFPtr} {oks : List Bool} {w w1 : World}
    {ds : List OutputDevice} (detail : NotiDetail) (h : Registered v oks w ds w1) :
    ((notify w1 NotiKind.Add v detail).noti = w.noti ++ [⟨NotiKind.Add, v, detail⟩] ↔
        ∃ w2, Registered v oks w ds w2) ∧
      ((∃ w2, Registered v oks w ds w2) →
        ∃ w2, Registered v oks w ds w2 ∧
          notify w1 NotiKind.Add v detail = notify w2 NotiKind.Add v detail) ∧
      ((¬ ∃ w2, Registered v oks w ds w2) →
        (notify w1 NotiKind.Add v detail).noti = w.noti ∧
          FailedAt v oks w ds (notify w1 NotiKind.Add v detail)) := by
  refine ⟨⟨fun _ => ⟨w1, h⟩, fun _ => ?_⟩, fun _ => ⟨w1, h, rfl⟩, fun hn => absurd ⟨w1, h⟩ hn⟩
  simp only [notify, h.noti_eq]

theorem silent_of_failed {v : VRFPtr} {oks : List Bool} {w w1 : World}
    {ds : List OutputDevice} (detail : NotiDetail) (h : FailedAt v oks w ds w1) :
    (w1.noti = w.noti ++ [⟨NotiKind.Add, v, detail⟩] ↔ ∃ w2, Registered v oks w ds w2) ∧
      ((∃ w2, Registered v oks w ds w2) →
        ∃ w2, Registered v oks w ds w2 ∧ w1 = notify w2 NotiKind.Add v detail) ∧
      ((¬ ∃ w2, Registered v oks w ds w2) → w1.noti = w.noti ∧ FailedAt v oks w ds w1) := by
  refine ⟨⟨fun hc => ?_, fun hc => absurd hc h.not_registered⟩,
    fun hc => absurd hc h.not_registered, fun _ => ⟨h.noti_kept, h⟩⟩
  rw [h.noti_kept] at hc
  have := congrArg List.length hc
  simp at this

/-- C14: for a VRF that has its router and an entry whose devices exist,
`routeEntryAdded` returns, and the state it leaves has exactly one more
notification, the "add" notification carrying the entry, if and only if
registration succeeded for every device of the entry (each next-hop's device,
or the entry's own device when it has no next-hop), in which case the state is
the one after these registrations plus the notification; otherwise the
notifications are unchanged and the state is the one left by the first
registration that failed, the devices after it not being processed. The same
holds for `pbrEntryAdded` over the devices of the next-hops that have one. -/
theorem entryAdded_notifies_iff_registered (w : World) (v : VRFPtr) (entry : Route)
    (pentry : PBREntry) (ds : List OutputDevice) (oks : List Bool)
    (hds : entry.devices = ds.map some) (hready : RegReady w v ds)
    (hpready : RegReady w v pentry.devices) :
    (∃ w1, routeEntryAdded w v entry oks = some w1 ∧
      (w1.noti = w.noti ++ [⟨NotiKind.Add, v, NotiDetail.route entry⟩] ↔
        ∃ w2, Registered v oks w ds w2) ∧
      ((∃ w2, Registered v oks w ds w2) →
        ∃ w2, Registered v oks w ds w2 ∧
          w1 = notify w2 NotiKind.Add v (NotiDetail.route entry)) ∧
      ((¬ ∃ w2, Registered v oks w ds w2) → w1.noti = w.noti ∧ FailedAt v oks w ds w1)) ∧
    (∃ w1, pbrEntryAdded w v pentry oks = some w1 ∧
      (w1.noti = w.noti ++ [⟨NotiKind.Add, v, NotiDetail.pbr pentry⟩] ↔
        ∃ w2, Registered v oks w pentry.devices w2) ∧
      ((∃ w2, Registered v oks w pentry.devices w2) →
        ∃ w2, Registered v oks w pentry.devices w2 ∧
          w1 = notify w2 NotiKind.Add v (NotiDetail.pbr pentry)) ∧
      ((¬ ∃ w2, Registered v oks w pentry.devices w2) →
        w1.noti = w.noti ∧ FailedAt v oks w pentry.devices w1)) := by
  constructor
  · rw [routeEntryAdded_eq w v entry oks ds hds]
    obtain ⟨w1, e, h1, h2⟩ := registerNexthops_outcome v ds w oks hready
    rw [h1]
    rcases h2 with ⟨he, hreg⟩ | ⟨he, hfail⟩
    · subst he
      exact ⟨_, rfl, notified_of_registered _ hreg⟩
    · cases e with
      | none => exact absurd rfl he
      | some err => exact ⟨_, rfl, silent_of_failed _ hfail⟩
  · unfold pbrEntryAdded
    rw [registerPBRNexthops_eq]
    obtain ⟨w1, e, h1, h2⟩ := registerNexthops_outcome v pentry.devices w oks hpready
    unfold PBREntry.devices at h1
    rw [h1]
    rcases h2 with ⟨he, hreg⟩ | ⟨he, hfail⟩
    · subst he
      exact ⟨_, rfl, notified_of_registered _ hreg⟩
    · cases e with
      | none => exact absurd rfl he
      | some err => exact ⟨_, rfl, silent_of_failed _ hfail⟩

/-- On the first VRF of `pairWorld`: for `demoRoute` the second VRF is
registered and the registration of the VIF fails, for `demoPBR` the only
device is registered. -/
theorem entryAdded_notifies_iff_registered_witness :
    (demoRoute.devices = [OutputDevice.vrf 1, OutputDevice.vif 0].map some ∧
      RegReady pairWorld 0 [OutputDevice.vrf 1, OutputDevice.vif 0] ∧
      RegReady pairWorld 0 demoPBR.devices ∧
      FailedAt 0 [] pairWorld [OutputDevice.vrf 1, OutputDevice.vif 0] pairRegistered ∧
      Registered 0 [] pairWorld demoPBR.devices pairRegistered) ∧
    (∃ w1, routeEntryAdded pairWorld 0 demoRoute [] = some w1 ∧
      (w1.noti = pairWorld.noti ++ [⟨NotiKind.Add, 0, NotiDetail.route demoRoute⟩] ↔
        ∃ w2, Registered 0 [] pairWorld [OutputDevice.vrf 1, OutputDevice.vif 0] w2) ∧
      ((∃ w2, Registered 0 [] pairWorld [OutputDevice.vrf 1, OutputDevice.vif 0] w2) →
        ∃ w2, Registered 0 [] pairWorld [OutputDevice.vrf 1, OutputDevice.vif 0] w2 ∧
          w1 = notify w2 NotiKind.Add 0 (NotiDetail.route demoRoute)) ∧
      ((¬ ∃ w2, Registered 0 [] pairWorld [OutputDevice.vrf 1, OutputDevice.vif 0] w2) →
        w1.noti = pairWorld.noti ∧
          FailedAt 0 [] pairWorld [OutputDevice.vrf 1, OutputDevice.vif 0] w1)) ∧
    (∃ w1, pbrEntryAdded pairWorld 0 demoPBR [] = some w1 ∧
      (w1.noti = pairWorld.noti ++ [⟨NotiKind.Add, 0, NotiDetail.pbr demoPBR⟩] ↔
        ∃ w2, Registered 0 [] pairWorld demoPBR.devices w2) ∧
      ((∃ w2, Registered 0 [] pairWorld demoPBR.devices w2) →
        ∃ w2, Registered 0 [] pairWorld demoPBR.devices w2 ∧
          w1 = notify w2 NotiKind.Add 0 (NotiDetail.pbr demoPBR)) ∧
      ((¬ ∃ w2, Registered 0 [] pairWorld demoPBR.devices w2) →
        w1.noti = pairWorld.noti ∧ FailedAt 0 [] pairWorld demoPBR.devices w1)) :=
  have hready : RegReady pairWorld 0 [OutputDevice.vrf 1, OutputDevice.vif 0] :=
    ⟨⟨_, 1, by rfl, by rfl⟩, by
      intro d hd
      simp only [List.mem_cons, List.mem_singleton, List.not_mem_nil, or_false] at hd
      rcases hd with rfl | rfl <;> rfl⟩
  have hpready : RegReady pairWorld 0 demoPBR.devices :=
    ⟨⟨_, 1, by rfl, by rfl⟩, by
      intro d hd
      have hd1 : d = OutputDevice.vrf 1 := by simpa [demoPBR, PBREntry.devices] using hd
      subst hd1
      rfl⟩
  have hreg : Registered 0 [] pairWorld [OutputDevice.vrf 1] pairRegistered :=
    Registered.cons [] pairWorld pairRegistered pairRegistered (OutputDevice.vrf 1) []
      (by rfl) (Registered.nil _ _)
  ⟨⟨by rfl, hready, hpready,
      ⟨[OutputDevice.vrf 1], OutputDevice.vif 0, [], pairRegistered, Err.notVRF, by rfl, hreg,
        by rfl⟩, hreg⟩,
    entryAdded_notifies_iff_registered pairWorld 0 demoRoute demoPBR
      [OutputDevice.vrf 1, OutputDevice.vif 0] [] (by rfl) hready hpready⟩

theorem connected_nil (w : World) (r : InstPtr) : connected w r [] = w := by
  unfold connected
  have h : updAt w.insts r (fun m => { m with rules := m.rules ++ [] }) = w.insts := by
    apply updAt_eq_self
    intro a _
    simp
  rw [h]

theorem connected_connected (w : World) (r : InstPtr) (A B : List Rule) :
    connected (connected w r A) r B = connected w r (A ++ B) := by
  unfold connected
  simp only [updAt_updAt, List.append_assoc]

theorem okAt_zero (oks : List Bool) : okAt oks 0 = oks.headD true := by
  cases oks <;> simp [okAt]

theorem okAt_tail (oks : List Bool) (k : Nat) : okAt oks.tail k = okAt oks (k + 1) := by
  cases oks <;> simp [okAt]

theorem addL3TunnelLoop_cons_ok (w : World) (r : InstPtr) (vif : VIFPtr) (t : Tunnel)
    (remote : Nat) (rest : List Nat) (ins nats : List Bool) (hin : ins.headD true = true)
    (hnat : t.security = Security.SecurityIPSec → nats.headD true = true) :
    addL3TunnelLoop w r vif t (remote :: rest) ins nats =
      addL3TunnelLoop (connected w r (l3Rules vif t remote)) r vif t rest ins.tail nats.tail := by
  rw [addL3TunnelLoop]
  simp only [instConnect, hin, if_true]
  by_cases hsec : t.security = Security.SecurityIPSec
  · simp only [hsec, hnat hsec, if_true, connected, l3Rules, updAt_updAt, l3FiveTuple,
      l3NatTuple, NewFiveTuple, List.append_assoc, List.singleton_append]
  · simp only [hsec, if_false, connected, l3Rules, l3FiveTuple, NewFiveTuple]

theorem addL3TunnelLoop_all_ok (r : InstPtr) (vif : VIFPtr) (t : Tunnel) (remotes : List Nat) :
    ∀ (w : World) (ins nats : List Bool), (∀ k, okAt ins k = true) → (∀ k, okAt nats k = true) →
      addL3TunnelLoop w r vif t remotes ins nats =
        (connected w r ((remotes.map (l3Rules vif t)).flatten), none) := by
  induction remotes with
  | nil =>
    intro w ins nats _ _
    simp only [addL3TunnelLoop, List.map_nil, List.flatten_nil, connected_nil]
  | cons remote rest ih =>
    intro w ins nats hin hnat
    rw [addL3TunnelLoop_cons_ok w r vif t remote rest ins nats
      (by rw [← okAt_zero]; exact hin 0) (fun _ => by rw [← okAt_zero]; exact hnat 0)]
    rw [ih _ ins.tail nats.tail (fun k => by rw [okAt_tail]; exact hin _)
      (fun k => by rw [okAt_tail]; exact hnat _)]
    simp only [connected_connected, List.map_cons, List.flatten_cons]

/-- C15: for a tunnel VIF with remote addresses `r1 :: rest` on a VRF that has
its router, when every connect succeeds `addL3Tunnel` returns success, and the
state it leaves is the state before with exactly these rules added: on the VIF
the rule IPv4-destination-equals `r1` leading to the router input, and on the
router, for each remote address in order, the rules of `l3Rules`. -/
theorem addL3Tunnel_adds_rules (w : World) (v : VRFPtr) (vif : VIFPtr) (x : L3Ext) (f : VIF)
    (t : Tunnel) (o : VRF) (r : InstPtr) (r1 : Nat) (rest : List Nat)
    (hf : w.vifs[vif]? = some f) (ht : f.tunnel = some t) (hra : t.remotes = r1 :: rest)
    (ho : w.vrfs[v]? = some o) (hr : o.router = some r) (hout : x.outbound = true)
    (hin : ∀ k, okAt x.inbound k = true) (hnat : ∀ k, okAt x.nat k = true) :
    addL3Tunnel w v vif x =
      some (connected
        { w with vifs := updAt w.vifs vif (fun g =>
            { g with rules := g.rules ++
                [Rule.mk VswMatch.MatchIPv4Dst (Param.addr r1) (Ring.instInput r)] }) }
        r (((r1 :: rest).map (l3Rules vif t)).flatten), none) := by
  unfold addL3Tunnel
  simp only [hf, ht, hra, ho, hr, vifConnect, hout, if_true]
  rw [← hra, addL3TunnelLoop_all_ok r vif t t.remotes _ x.inbound x.nat hin hnat]

theorem l3Rules_param_inj (vif : VIFPtr) (t : Tunnel) (a b : Nat) (rule rule1 : Rule)
    (h : rule ∈ l3Rules vif t a) (h1 : rule1 ∈ l3Rules vif t b)
    (hp : rule.param = rule1.param) : a = b := by
  unfold l3Rules at h h1
  by_cases hsec : t.security = Security.SecurityIPSec
  · simp only [hsec, if_true, List.mem_cons, List.mem_singleton, List.not_mem_nil,
      or_false] at h h1
    rcases h with h | h <;> rcases h1 with h1 | h1 <;> subst h <;> subst h1 <;>
      simp at hp <;> exact hp
  · simp only [hsec, if_false, List.mem_cons, List.not_mem_nil, or_false] at h h1
    subst h
    subst h1
    simp only [Param.fiveTuple.injEq, FiveTuple.mk.injEq, Option.some.injEq, true_and,
      and_true] at hp
    exact hp

theorem l3Rules_head (vif : VIFPtr) (t : Tunnel) (a : Nat) :
    Rule.mk VswMatch.Match5Tuple (Param.fiveTuple (l3FiveTuple t a)) (Ring.vifInbound vif) ∈
      l3Rules vif t a := by
  unfold l3Rules l3FiveTuple NewFiveTuple
  exact List.mem_cons_self _ _

/-- The loop of `addL3Tunnel` when the connects for the remote addresses `pre`
succeed and a connect for the next address `rk` fails. -/
theorem addL3TunnelLoop_failure (r : InstPtr) (vif : VIFPtr) (t : Tunnel) (rk : Nat)
    (post : List Nat) (pre : List Nat) :
    ∀ (w : World) (ins nats : List Bool),
      (∀ j, j < pre.length →
        okAt ins j = true ∧ (t.security = Security.SecurityIPSec → okAt nats j = true)) →
      (okAt ins pre.length = false ∨
        (t.security = Security.SecurityIPSec ∧ okAt nats pre.length = false)) →
      ∃ e, addL3TunnelLoop w r vif t (pre ++ rk :: post) ins nats =
        (if okAt ins pre.length = false then
          vifDisconnect (connected w r ((pre.map (l3Rules vif t)).flatten)) vif
            VswMatch.MatchIPv4Dst (Param.addr rk)
         else
          instDisconnect
            (vifDisconnect (connected w r ((pre.map (l3Rules vif t)).flatten ++
                [Rule.mk VswMatch.Match5Tuple (Param.fiveTuple (l3FiveTuple t rk))
                  (Ring.vifInbound vif)])) vif VswMatch.MatchIPv4Dst (Param.addr rk))
            r VswMatch.Match5Tuple (Param.fiveTuple (l3FiveTuple t rk)), some e) := by
  induction pre with
  | nil =>
    intro w ins nats _ hfail
    simp only [List.length_nil, okAt_zero] at hfail
    simp only [List.nil_append, List.length_nil, okAt_zero, List.map_nil, List.flatten_nil,
      connected_nil]
    rw [addL3TunnelLoop]
    cases hin : ins.headD true with
    | false =>
      simp only [instConnect, Bool.false_eq_true, if_false, if_true]
      exact ⟨_, rfl⟩
    | true =>
      rw [hin] at hfail
      simp only [Bool.true_eq_false, false_or] at hfail
      simp only [instConnect, if_true, hfail.1, hfail.2, Bool.false_eq_true, if_false,
        Bool.true_eq_false, connected]
      exact ⟨_, rfl⟩
  | cons a pre ih =>
    intro w ins nats hpre hfail
    have h0 := hpre 0 (by simp)
    rw [okAt_zero, okAt_zero] at h0
    rw [List.cons_append, addL3TunnelLoop_cons_ok w r vif t a _ ins nats h0.1 h0.2]
    obtain ⟨e, he⟩ := ih (connected w r (l3Rules vif t a)) ins.tail nats.tail
      (fun j hj => by
        rw [okAt_tail, okAt_tail]
        exact hpre (j + 1) (by simpa using hj))
      (by
        rw [okAt_tail, okAt_tail]
        simpa using hfail)
    refine ⟨e, ?_⟩
    rw [he]
    simp only [okAt_tail, List.length_cons, connected_connected, List.map_cons,
      List.flatten_cons, List.append_assoc]

/-- C16, amended: for a tunnel VIF whose remote addresses are `pre`, then `rk`,
then `post`, on a VRF whose router exists, when the connects for `pre` succeed,
adding an inbound rule for `rk` fails (the 5-tuple rule, or with IPsec the
NAT-traversal rule), the address `rk` is not among `pre`, and the router had no
rule with the match of a rule for `rk` before the call, `addL3Tunnel` returns
an error and the rules of the router after the return are those before the
call followed by the rules for the addresses of `pre`: no rule for `rk` is
installed and every rule for an address of `pre` is. -/
theorem addL3Tunnel_failure_unwinds (w : World) (v : VRFPtr) (vif : VIFPtr) (x : L3Ext)
    (f : VIF) (t : Tunnel) (o : VRF) (r : InstPtr) (m : Instance) (pre : List Nat) (rk : Nat)
    (post : List Nat)
    (hf : w.vifs[vif]? = some f) (ht : f.tunnel = some t) (hra : t.remotes = pre ++ rk :: post)
    (ho : w.vrfs[v]? = some o) (hr : o.router = some r) (hm : w.insts[r]? = some m)
    (hout : x.outbound = true)
    (hpre : ∀ j, j < pre.length →
      okAt x.inbound j = true ∧ (t.security = Security.SecurityIPSec → okAt x.nat j = true))
    (hfail : okAt x.inbound pre.length = false ∨
      (t.security = Security.SecurityIPSec ∧ okAt x.nat pre.length = false))
    (hdistinct : rk ∉ pre)
    (hfresh : ∀ rule, rule ∈ m.rules → ∀ rule1, rule1 ∈ l3Rules vif t rk →
      rule.param ≠ rule1.param) :
    ∃ w1 e, addL3Tunnel w v vif x = some (w1, some e) ∧
      (w1.insts[r]?).map Instance.rules =
        some (m.rules ++ (pre.map (l3Rules vif t)).flatten) ∧
      (∀ rule, rule ∈ l3Rules vif t rk →
        ∀ m1, w1.insts[r]? = some m1 → rule ∉ m1.rules) ∧
      (∀ rj, rj ∈ pre → ∀ rule, rule ∈ l3Rules vif t rj →
        ∀ m1, w1.insts[r]? = some m1 → rule ∈ m1.rules) := by
  have hkey : ∀ rule, rule ∈ m.rules ++ (pre.map (l3Rules vif t)).flatten →
      ∀ rule1, rule1 ∈ l3Rules vif t rk → rule.param ≠ rule1.param := by
    intro rule hrule rule1 hrule1 hp
    rcases List.mem_append.1 hrule with h | h
    · exact hfresh rule h rule1 hrule1 hp
    · obtain ⟨l, hl, hrl⟩ := List.mem_flatten.1 h
      obtain ⟨rj, hrj, hlj⟩ := List.mem_map.1 hl
      subst hlj
      have := l3Rules_param_inj vif t rj rk rule rule1 hrl hrule1 hp
      exact hdistinct (this ▸ hrj)
  have hrules : ∃ w1 e, addL3Tunnel w v vif x = some (w1, some e) ∧
      (w1.insts[r]?).map Instance.rules =
        some (m.rules ++ (pre.map (l3Rules vif t)).flatten) := by
    unfold addL3Tunnel
    cases hrem : pre ++ rk :: post with
    | nil => simp at hrem
    | cons r1 rest =>
      simp only [hf, ht, hra, hrem, ho, hr, vifConnect, hout, if_true]
      rw [← hrem]
      obtain ⟨e, he⟩ := addL3TunnelLoop_failure r vif t rk post pre
        { w with vifs := updAt w.vifs vif (fun g =>
            { g with rules := g.rules ++
                [Rule.mk VswMatch.MatchIPv4Dst (Param.addr r1) (Ring.instInput r)] }) }
        x.inbound x.nat hpre hfail
      rw [he]
      refine ⟨_, e, rfl, ?_⟩
      by_cases hin : okAt x.inbound pre.length = false
      · simp only [hin, if_true, vifDisconnect, connected, getElem?_updAt, hm, if_true,
          Option.map_some']
      · have hin1 : okAt x.inbound pre.length = true := by simpa using hin
        simp only [hin1, Bool.true_eq_false, if_false, instDisconnect, vifDisconnect, connected,
          updAt_updAt, getElem?_updAt, hm, if_true, Option.map_some', Option.some.injEq]
        rw [← List.append_assoc]
        exact filter_rules_append _ _ _ _
          (fun rule hrule hc => hkey rule hrule _ (l3Rules_head vif t rk) hc.2)
  obtain ⟨w1, e, h1, h2⟩ := hrules
  refine ⟨w1, e, h1, h2, ?_, ?_⟩
  · intro rule hrule m1 hm1 hmem
    rw [hm1] at h2
    simp only [Option.map_some', Option.some.injEq] at h2
    rw [h2] at hmem
    exact hkey rule hmem rule hrule rfl
  · intro rj hrj rule hrule m1 hm1
    rw [hm1] at h2
    simp only [Option.map_some', Option.some.injEq] at h2
    rw [h2]
    exact List.mem_append_right _
      (List.mem_flatten.2 ⟨_, List.mem_map.2 ⟨rj, hrj, rfl⟩, hrule⟩)

/-- In `tunnelWorld` every connect succeeds: the VIF gets the rule for the
address 20 and the router two rules for each of 20, 21 and 22. -/
theorem addL3Tunnel_adds_rules_witness :
    (tunnelWorld.vifs[0]? = some ⟨9, none, [], some ipsecTunnel, false⟩ ∧
      ipsecTunnel.remotes = 20 :: [21, 22] ∧
      tunnelWorld.vrfs[0]? = some (tunnelWorld.vrfs.getD 0 (VRF.new "")) ∧
      (tunnelWorld.vrfs.getD 0 (VRF.new "")).router = some 1 ∧
      (∀ k, okAt (L3Ext.mk true [] []).inbound k = true) ∧
      (∀ k, okAt (L3Ext.mk true [] []).nat k = true)) ∧
    addL3Tunnel tunnelWorld 0 0 ⟨true, [], []⟩ =
      some (connected
        { tunnelWorld with vifs := updAt tunnelWorld.vifs 0 (fun g =>
            { g with rules := g.rules ++
                [Rule.mk VswMatch.MatchIPv4Dst (Param.addr 20) (Ring.instInput 1)] }) }
        1 (((20 :: [21, 22]).map (l3Rules 0 ipsecTunnel)).flatten), none) :=
  ⟨⟨by rfl, by rfl, by rfl, by rfl, fun k => by simp [okAt], fun k => by simp [okAt]⟩,
    addL3Tunnel_adds_rules tunnelWorld 0 0 ⟨true, [], []⟩ ⟨9, none, [], some ipsecTunnel, false⟩
      ipsecTunnel (tunnelWorld.vrfs.getD 0 (VRF.new "")) 1 20 [21, 22] (by rfl) (by rfl) (by rfl)
      (by rfl) (by rfl) (by rfl) (fun k => by simp [okAt]) (fun k => by simp [okAt])⟩

/-- In `tunnelWorld` the connects for the address 20 succeed and the
NAT-traversal rule for 21 fails: the router keeps its rule and the two rules
for 20, and has no rule for 21. -/
theorem addL3Tunnel_failure_unwinds_witness :
    (tunnelWorld.vifs[0]? = some ⟨9, none, [], some ipsecTunnel, false⟩ ∧
      ipsecTunnel.remotes = [20] ++ 21 :: [22] ∧
      tunnelWorld.vrfs[0]? = some (tunnelWorld.vrfs.getD 0 (VRF.new "")) ∧
      (tunnelWorld.vrfs.getD 0 (VRF.new "")).router = some 1 ∧
      tunnelWorld.insts[1]? = some tunnelRouter ∧
      okAt (L3Ext.mk true [true, true] [true, false]).inbound 0 = true ∧
      okAt (L3Ext.mk true [true, true] [true, false]).nat 0 = true ∧
      okAt (L3Ext.mk true [true, true] [true, false]).nat 1 = false ∧
      21 ∉ [20]) ∧
    ∃ w1 e, addL3Tunnel tunnelWorld 0 0 ⟨true, [true, true], [true, false]⟩ = some (w1, some e) ∧
      (w1.insts[1]?).map Instance.rules =
        some (tunnelRouter.rules ++ ([20].map (l3Rules 0 ipsecTunnel)).flatten) ∧
      (∀ rule, rule ∈ l3Rules 0 ipsecTunnel 21 →
        ∀ m1, w1.insts[1]? = some m1 → rule ∉ m1.rules) ∧
      (∀ rj, rj ∈ [20] → ∀ rule, rule ∈ l3Rules 0 ipsecTunnel rj →
        ∀ m1, w1.insts[1]? = some m1 → rule ∈ m1.rules) :=
  ⟨⟨by rfl, by rfl, by rfl, by rfl, by rfl, by rfl, by rfl, by rfl, by decide⟩,
    addL3Tunnel_failure_unwinds tunnelWorld 0 0 ⟨true, [true, true], [true, false]⟩
      ⟨9, none, [], some ipsecTunnel, false⟩ ipsecTunnel (tunnelWorld.vrfs.getD 0 (VRF.new ""))
      1 tunnelRouter [20] 21 [22] (by rfl) (by rfl) (by rfl) (by rfl) (by rfl) (by rfl) (by rfl)
      (fun j hj => by
        have hj0 : j = 0 := by simpa using hj
        subst hj0
        exact ⟨by rfl, fun _ => by rfl⟩)
      (Or.inr ⟨by rfl, by rfl⟩) (by decide)
      (fun rule hrule rule1 hrule1 hp => by
        have h1 : rule = Rule.mk VswMatch.MatchIPv4DstSelf Param.nil (Ring.instInput 0) := by
          simpa [tunnelRouter] using hrule
        subst h1
        have h2 : rule1.param ≠ Param.nil := by
          unfold l3Rules at hrule1
          simp only [List.mem_cons] at hrule1
          rcases hrule1 with h | h
          · subst h
            simp
          · split at h
            · simp only [List.mem_singleton] at h
              subst h
              simp
            · simp at h
        exact h2 hp.symm)⟩

/-- C16, counterexample: the tunnel of the VIF has the remote addresses r_1 = 20
and r_2 = 20. The connects for r_1 succeed and the 5-tuple connect for r_2
fails. `addL3Tunnel` returns an error, and on this path it calls no
`router.disconnect`: the router holds after the return both rules that were
installed for r_1, and they are the inbound rules for the address of r_2. So
"no inbound router rule for r_k remains installed" fails for k = 2. -/
theorem addL3Tunnel_repeated_remote :
    (twinWorld.vifs[0]? = some ⟨9, none, [], some twinTunnel, false⟩ ∧
      twinTunnel.remotes = [20] ++ 20 :: [] ∧
      (twinWorld.vrfs[0]?).map VRF.router = some (some 1) ∧
      twinWorld.insts[1]? = some tunnelRouter ∧
      okAt (L3Ext.mk true [true, false] [true]).inbound 0 = true ∧
      okAt (L3Ext.mk true [true, false] [true]).nat 0 = true ∧
      okAt (L3Ext.mk true [true, false] [true]).inbound 1 = false) ∧
    ∃ w1 m1, addL3Tunnel twinWorld 0 0 ⟨true, [true, false], [true]⟩ =
        some (w1, some Err.tunnelInbound) ∧
      w1.insts[1]? = some m1 ∧
      m1.rules = tunnelRouter.rules ++ l3Rules 0 twinTunnel 20 ∧
      (∀ rule, rule ∈ l3Rules 0 twinTunnel 20 → rule ∈ m1.rules) ∧
      ¬ (∀ rule, rule ∈ l3Rules 0 twinTunnel 20 → rule ∉ m1.rules) := by
  refine ⟨⟨by rfl, by rfl, by rfl, by rfl, by rfl, by rfl, by rfl⟩, ?_⟩
  have key : ∃ w1 m1, addL3Tunnel twinWorld 0 0 ⟨true, [true, false], [true]⟩ =
        some (w1, some Err.tunnelInbound) ∧ w1.insts[1]? = some m1 ∧
      m1.rules = tunnelRouter.rules ++ l3Rules 0 twinTunnel 20 := ⟨_, _, by rfl, by rfl, by rfl⟩
  obtain ⟨w1, m1, h1, h2, h3⟩ := key
  refine ⟨w1, m1, h1, h2, h3, ?_, ?_⟩
  · intro rule h
    rw [h3]
    exact List.mem_append_right _ h
  · intro h
    refine h _ (List.mem_cons_self _ _) ?_
    rw [h3]
    exact List.mem_append_right _ (List.mem_cons_self _ _)

theorem mem_mapDelete {β : Type} (m : List (Nat × β)) (k : Nat) (e : Nat × β) :
    e ∈ mapDelete m k ↔ e ∈ m ∧ e.1 ≠ k := by
  induction m with
  | nil => simp [mapDelete]
  | cons a m ih =>
    by_cases ha : a.1 = k
    · simp only [mapDelete, ha, if_true, ih, List.mem_cons]
      constructor
      · rintro ⟨h1, h2⟩
        exact ⟨Or.inr h1, h2⟩
      · rintro ⟨h1 | h1, h2⟩
        · rw [h1] at h2
          exact absurd ha h2
        · exact ⟨h1, h2⟩
    · simp only [mapDelete, ha, if_false, List.mem_cons, ih]
      constructor
      · rintro (h1 | ⟨h1, h2⟩)
        · rw [h1]
          exact ⟨Or.inl rfl, ha⟩
        · exact ⟨Or.inr h1, h2⟩
      · rintro ⟨h1 | h1, h2⟩
        · exact Or.inl h1
        · exact Or.inr ⟨h1, h2⟩

theorem mapHas_of_mem {β : Type} (m : List (Nat × β)) (e : Nat × β) (h : e ∈ m) :
    mapHas m e.1 = true := by
  induction m with
  | nil => simp at h
  | cons a m ih =>
    by_cases ha : a.1 = e.1
    · simp [mapHas, mapGet, ha]
    · rcases List.mem_cons.1 h with h1 | h1
      · rw [h1] at ha
        exact absurd rfl ha
      · have := ih h1
        simp only [mapHas, mapGet, ha, if_false] at this ⊢
        exact this

/-- What `DeleteVIF` does to the VRF objects and to the indices of the VIFs:
the key of the VIF leaves `v.devs`, or nothing changes. -/
theorem DeleteVIF_vrfs (w : World) (v : VRFPtr) (vif : VIFPtr) (w1 : World) (e : Option Err)
    (f : VIF) (hf : w.vifs[vif]? = some f) (h : DeleteVIF w v vif = some (w1, e)) :
    (w1.vrfs = updAt w.vrfs v (fun o => { o with devs := mapDelete o.devs f.index }) ∨
      (w1.vrfs = w.vrfs ∧ ∀ o, w.vrfs[v]? = some o → mapHas o.devs f.index = false)) ∧
    ∀ q : Nat, (w1.vifs[q]?).map VIF.index = (w.vifs[q]?).map VIF.index := by
  unfold DeleteVIF at h
  rw [hf] at h
  cases ho : w.vrfs[v]? with
  | none => simp [ho] at h
  | some o =>
    simp only [ho] at h
    cases hm : mapHas o.devs f.index with
    | false =>
      simp only [hm, Bool.not_false, if_true, Option.some.injEq, Prod.mk.injEq] at h
      rw [← h.1]
      refine ⟨Or.inr ⟨rfl, ?_⟩, fun _ => rfl⟩
      intro o1 ho1
      simp only [Option.some.injEq] at ho1
      rw [← ho1]
      exact hm
    | true =>
      simp only [hm, Bool.not_true, Bool.false_eq_true, if_false] at h
      cases ht : o.tap with
      | none => simp [ht] at h
      | some t =>
        cases hr : o.router with
        | none => simp [ht, hr] at h
        | some r =>
          simp only [ht, hr, Option.some.injEq, Prod.mk.injEq] at h
          rw [← h.1]
          refine ⟨Or.inl ?_, ?_⟩
          · simp [notify, routerDeleteVIF, vifSetVRF, vifDisconnect, instDisconnect]
          · intro q
            simp only [notify, routerDeleteVIF, vifSetVRF, vifDisconnect, instDisconnect,
              getElem?_updAt]
            cases hq : w.vifs[q]? with
            | none => simp
            | some g => by_cases hvq : vif = q <;> simp [hvq]

/-- One round of the loop of `Free`: the entry `k` is not a VIF entry of
`v.devs` afterwards, and `v.devs` only shrinks. -/
theorem freeDev_devs (w : World) (v : VRFPtr) (k : VIFIndex) (dev : OutputDevice) (w1 : World)
    (o : VRF) (h : freeDev w v k dev = some w1) (ho : w.vrfs[v]? = some o)
    (hdev : ∀ q, dev = OutputDevice.vif q → ∃ f, w.vifs[q]? = some f ∧ f.index = k) :
    (∃ o1, w1.vrfs[v]? = some o1 ∧ (∀ e, e ∈ o1.devs → e ∈ o.devs) ∧
      (∀ q, dev = OutputDevice.vif q → (k, OutputDevice.vif q) ∉ o1.devs)) ∧
    ∀ q : Nat, (w1.vifs[q]?).map VIF.index = (w.vifs[q]?).map VIF.index := by
  unfold freeDev at h
  rw [ho] at h
  simp only at h
  cases hm : mapHas o.devs k with
  | false =>
    simp only [hm, Bool.false_eq_true, if_false, Option.some.injEq] at h
    rw [← h]
    refine ⟨⟨o, ho, fun _ he => he, ?_⟩, fun _ => rfl⟩
    intro q _ hmem
    have := mapHas_of_mem _ _ hmem
    rw [hm] at this
    cases this
  | true =>
    simp only [hm, if_true] at h
    cases dev with
    | vrf p =>
      simp only [Option.some.injEq] at h
      rw [← h]
      exact ⟨⟨o, ho, fun _ he => he, fun q hq => by cases hq⟩, fun _ => rfl⟩
    | vif p =>
      simp only at h
      obtain ⟨f, hf, hfk⟩ := hdev p rfl
      cases hd : DeleteVIF w v p with
      | none => simp [hd] at h
      | some res =>
        obtain ⟨w2, e⟩ := res
        simp only [hd, Option.some.injEq] at h
        subst h
        obtain ⟨h1, h2⟩ := DeleteVIF_vrfs w v p w2 e f hf hd
        refine ⟨?_, h2⟩
        rcases h1 with h1 | ⟨_, h1⟩
        · refine ⟨{ o with devs := mapDelete o.devs f.index }, ?_, ?_, ?_⟩
          · rw [h1]
            simp [getElem?_updAt, ho]
          · intro e he
            exact ((mem_mapDelete _ _ _).1 he).1
          · intro q _ hmem
            have := ((mem_mapDelete _ _ _).1 hmem).2
            exact this hfk.symm
        · have := h1 o ho
          rw [hfk, hm] at this
          cases this

/-- The loop of `Free`: afterwards none of the VIF entries that `v.devs` had at
loop entry is in `v.devs`, and `v.devs` has no entry it did not have. -/
theorem freeDevs_devs (v : VRFPtr) (devs : List (VIFIndex × OutputDevice)) :
    ∀ (w w1 : World) (o : VRF), freeDevs w v devs = some w1 → w.vrfs[v]? = some o →
      (∀ k q, (k, OutputDevice.vif q) ∈ devs → ∃ f, w.vifs[q]? = some f ∧ f.index = k) →
      ∃ o1, w1.vrfs[v]? = some o1 ∧ (∀ e, e ∈ o1.devs → e ∈ o.devs) ∧
        (∀ k q, (k, OutputDevice.vif q) ∈ devs → (k, OutputDevice.vif q) ∉ o1.devs) := by
  induction devs with
  | nil =>
    intro w w1 o h ho _
    simp only [freeDevs, Option.some.injEq] at h
    rw [← h]
    exact ⟨o, ho, fun _ he => he, fun _ _ hmem => by simp at hmem⟩
  | cons e rest ih =>
    intro w w1 o h ho hd
    simp only [freeDevs] at h
    cases hstep : freeDev w v e.1 e.2 with
    | none => simp [hstep] at h
    | some w2 =>
      simp only [hstep] at h
      obtain ⟨⟨o2, ho2, hsub2, hgone2⟩, hidx⟩ := freeDev_devs w v e.1 e.2 w2 o hstep ho (by
        intro q hq
        exact hd e.1 q (by rw [← hq]; exact List.mem_cons_self _ _))
      obtain ⟨o1, ho1, hsub1, hgone1⟩ := ih w2 w1 o2 h ho2 (by
        intro k q hkq
        obtain ⟨f, hf, hfk⟩ := hd k q (List.mem_cons_of_mem _ hkq)
        have h3 := hidx q
        rw [hf] at h3
        cases hq2 : w2.vifs[q]? with
        | none => simp [hq2] at h3
        | some g =>
          rw [hq2] at h3
          simp only [Option.map_some', Option.some.injEq] at h3
          exact ⟨g, rfl, by rw [h3]; exact hfk⟩)
      refine ⟨o1, ho1, fun e1 he1 => hsub2 e1 (hsub1 e1 he1), ?_⟩
      intro k q hkq
      rcases List.mem_cons.1 hkq with heq | hrest
      · intro hmem
        have h4 : e.2 = OutputDevice.vif q := by rw [← heq]
        have h5 : e.1 = k := by rw [← heq]
        have := hgone2 q h4
        rw [h5] at this
        exact this (hsub1 _ hmem)
      · exact hgone1 k q hrest

theorem freeRegistry_vrfs (w : World) (v : VRFPtr) (w1 : World)
    (h : freeRegistry w v = some w1) : w1.vrfs = w.vrfs := by
  unfold freeRegistry at h
  cases ho : w.vrfs[v]? with
  | none => simp [ho] at h
  | some o =>
    simp only [ho, releaseIndex] at h
    by_cases hlt : o.index < w.vrfMgr.byIndex.length
    · simp only [hlt, if_true, Option.some.injEq] at h
      rw [← h]
      by_cases hr : o.rd = 0 <;> simp [hr, notify, freeVIFIndex_vrfs]
    · simp [hlt] at h

theorem Free_vrfs (w : World) (v : VRFPtr) (w1 : World) (o : VRF) (ho : w.vrfs[v]? = some o)
    {order : List (VIFIndex × OutputDevice)} (h : Free w v order = some w1) :
    ∃ w0, freeDevs w v order = some w0 ∧ w1.vrfs = w0.vrfs := by
  unfold Free at h
  rw [ho] at h
  simp only at h
  cases hd : freeDevs w v order with
  | none => simp [hd] at h
  | some w0 =>
    simp only [hd] at h
    cases hr : o.router with
    | none => simp [hr] at h
    | some r =>
      cases ht : o.tap with
      | none => simp [hr, ht] at h
      | some t =>
        simp only [hr, ht] at h
        refine ⟨w0, rfl, ?_⟩
        rw [freeRegistry_vrfs _ _ _ h]
        rfl

/-- The effects of `Free` on a live VRF of a consistent registry that holds its
router and tap and whose VIF entries are keyed by the index of the VIF. -/
theorem Free_effects {M : Nat} (w : World) (v : VRFPtr) (o : VRF) (r t : InstPtr)
    (inv : RegInv M w) (hlive : isLive w v = true) (ho : w.vrfs[v]? = some o)
    (hr : o.router = some r) (ht : o.tap = some t)
    (hdevs : ∀ k q, (k, OutputDevice.vif q) ∈ o.devs → ∃ f, w.vifs[q]? = some f ∧ f.index = k)
    (order : List (VIFIndex × OutputDevice)) (hord : order.Perm o.devs) :
    ∃ w1 o1, Free w v order = some w1 ∧ w1.vrfs[v]? = some o1 ∧
      (∀ k q, (k, OutputDevice.vif q) ∉ o1.devs) ∧
      GetVRFByName w1 o.name = none ∧ GetVRFByIndex w1 o.index = some none ∧
      (o.rd ≠ 0 → mapHas w1.vrfMgr.rds o.rd = false) ∧
      ∀ (u : VRFPtr) (ou : VRF), u ≠ v → isLive w u = true → w.vrfs[u]? = some ou →
        (w1.vrfs[u]?).map VRF.key = some ou.key ∧
        GetVRFByName w ou.name = some u ∧ GetVRFByName w1 ou.name = some u ∧
        GetVRFByIndex w ou.index = some (some u) ∧ GetVRFByIndex w1 ou.index = some (some u) ∧
        (ou.rd ≠ 0 → mapHas w.vrfMgr.rds ou.rd = true ∧ mapHas w1.vrfMgr.rds ou.rd = true) := by
  have hkey : w.keys[v]? = some (o.name, o.index, o.rd) := by
    rw [keys_getElem?, ho]
    rfl
  have hbn : mapGet w.vrfMgr.byName o.name = some v := by
    unfold isLive at hlive
    rw [ho] at hlive
    simpa using hlive
  have hslot : w.vrfMgr.byIndex[o.index]? = some (some v) := by
    obtain ⟨i, rd, h1, h2⟩ := inv.byName_sound o.name v hbn
    rw [hkey] at h1
    simp only [Option.some.injEq, Prod.mk.injEq, true_and] at h1
    rw [h1.1]
    exact h2
  have hidx : o.index < w.vrfMgr.byIndex.length := getElem?_some_lt hslot
  obtain ⟨w1, hF⟩ := Free_total w v o r t ho hr ht hidx order (by
    intro k q hkq
    obtain ⟨f, hf, _⟩ := hdevs k q (hord.mem_iff.1 hkq)
    exact getElem?_some_lt hf)
  obtain ⟨n, i, rd, h1, _, hkeys, hm⟩ := Free_registry w v w1 hF
  rw [hkey] at h1
  simp only [Option.some.injEq, Prod.mk.injEq] at h1
  obtain ⟨hn, hi, hrd⟩ := h1
  subst hn hi hrd
  obtain ⟨w0, hw0, hvrfs⟩ := Free_vrfs w v w1 o ho hF
  obtain ⟨o1, ho1, hsub, hgone⟩ := freeDevs_devs v order w w0 o hw0 ho
    (fun k q hkq => hdevs k q (hord.mem_iff.1 hkq))
  refine ⟨w1, o1, hF, by rw [hvrfs]; exact ho1, ?_, ?_, ?_, ?_, ?_⟩
  · intro k q hmem
    exact hgone k q (hord.mem_iff.2 (hsub _ hmem)) hmem
  · simp [GetVRFByName, hm, mapGet_mapDelete]
  · simp only [GetVRFByIndex, hm]
    exact List.getElem?_set_self hidx
  · intro hne
    simp only [hm, hne, ne_eq, not_false_eq_true, if_true]
    exact mapHas_mapDelete_self _ _
  · intro u ou huv hulive hou
    have hukey : w.keys[u]? = some (ou.name, ou.index, ou.rd) := by
      rw [keys_getElem?, hou]
      rfl
    have hubn : mapGet w.vrfMgr.byName ou.name = some u := by
      unfold isLive at hulive
      rw [hou] at hulive
      simpa using hulive
    have huslot : w.vrfMgr.byIndex[ou.index]? = some (some u) := by
      obtain ⟨i, rd, h1, h2⟩ := inv.byName_sound ou.name u hubn
      rw [hukey] at h1
      simp only [Option.some.injEq, Prod.mk.injEq, true_and] at h1
      rw [h1.1]
      exact h2
    have hname : o.name ≠ ou.name := by
      intro hc
      rw [hc, hubn] at hbn
      simp only [Option.some.injEq] at hbn
      exact huv hbn
    have hindex : o.index ≠ ou.index := by
      intro hc
      rw [hc, huslot] at hslot
      simp only [Option.some.injEq] at hslot
      exact huv hslot
    refine ⟨?_, hubn, ?_, huslot, ?_, ?_⟩
    · rw [← keys_getElem?, hkeys, hukey]
      rfl
    · simp [GetVRFByName, hm, mapGet_mapDelete, hname, hubn]
    · simp only [GetVRFByIndex, hm]
      rw [List.getElem?_set_ne hindex]
      exact huslot
    · intro hune
      have hmem := inv.rd_mem ou.name u ou.index ou.rd hubn hukey hune
      refine ⟨hmem, ?_⟩
      by_cases hz : o.rd = 0
      · simp only [hm, hz, ne_eq, not_true_eq_false, if_false]
        exact hmem
      · simp only [hm, hz, ne_eq, not_false_eq_true, if_true]
        rw [mapHas_mapDelete_ne _ _ _ (by
          intro hc
          have := inv.rd_unique ou.name u ou.index ou.rd o.name v o.index hubn hukey hbn
            (by rw [hkey, hc]) hune
          exact huv this)]
        exact hmem

theorem map_updAt_comm {α γ : Type} (g : α → γ) (f : α → α) (f1 : γ → γ)
    (hf : ∀ a, g (f a) = f1 (g a)) (l : List α) (i : Nat) :
    (updAt l i f).map g = updAt (l.map g) i f1 := by
  induction l generalizing i with
  | nil => rfl
  | cons a l ih => cases i <;> simp [updAt, hf, ih]

theorem updAt_same {α : Type} (l : List α) (i : Nat) : updAt l i (fun a => a) = l :=
  updAt_eq_self l i _ (fun _ _ => rfl)

theorem quiet_refl (w : World) : Quiet w w := ⟨rfl, rfl, rfl, rfl⟩

theorem quiet_trans {w w1 w2 : World} (h1 : Quiet w w1) (h2 : Quiet w1 w2) : Quiet w w2 :=
  ⟨h2.vrfs.trans h1.vrfs, h2.vrfMgr.trans h1.vrfMgr, h2.index.trans h1.index,
    h2.routing.trans h1.routing⟩

theorem quiet_then_rerouted {r : InstPtr}
    {h : List VIFPtr × List OutputDevice → List VIFPtr × List OutputDevice} {w w1 w2 : World}
    (h1 : Quiet w w1) (h2 : Rerouted r h w1 w2) : Rerouted r h w w2 :=
  ⟨h2.vrfs.trans h1.vrfs, h2.vrfMgr.trans h1.vrfMgr, h2.index.trans h1.index,
    by rw [h2.routing, h1.routing]⟩

theorem rerouted_then_quiet {r : InstPtr}
    {h : List VIFPtr × List OutputDevice → List VIFPtr × List OutputDevice} {w w1 w2 : World}
    (h1 : Rerouted r h w w1) (h2 : Quiet w1 w2) : Rerouted r h w w2 :=
  ⟨h2.vrfs.trans h1.vrfs, h2.vrfMgr.trans h1.vrfMgr, h2.index.trans h1.index,
    by rw [h2.routing, h1.routing]⟩

theorem dropVIF_takeVIF (vif : VIFPtr) (p : List VIFPtr × List OutputDevice) :
    dropVIF vif (takeVIF vif p) = dropVIF vif p := by
  simp [dropVIF, takeVIF, List.filter_append]

/-- A route added by `addVIF` and removed again by `deleteVIF`. -/
theorem taken_then_dropped {r : InstPtr} {vif : VIFPtr} {w w1 w2 : World}
    (h1 : Rerouted r (takeVIF vif) w w1) (h2 : Rerouted r (dropVIF vif) w1 w2) :
    Rerouted r (dropVIF vif) w w2 := by
  refine ⟨h2.vrfs.trans h1.vrfs, h2.vrfMgr.trans h1.vrfMgr, h2.index.trans h1.index, ?_⟩
  rw [h2.routing, h1.routing, updAt_updAt]
  congr 1
  funext p
  exact dropVIF_takeVIF vif p

theorem vifSetVRF_quiet (w : World) (vif : VIFPtr) (vrf : Option VRFPtr) (ok : Bool) :
    Quiet w (vifSetVRF w vif vrf ok).1 := by
  unfold vifSetVRF
  cases vrf with
  | none => exact ⟨rfl, rfl, by simp [map_updAt_of_eq], rfl⟩
  | some v =>
    simp only
    cases hf : w.vifs[vif]? with
    | none => exact quiet_refl w
    | some f =>
      simp only
      split
      · exact ⟨rfl, rfl, by simp [map_updAt_of_eq], rfl⟩
      · exact quiet_refl w

theorem instConnect_quiet (w : World) (i : InstPtr) (ring : Ring) (kind : VswMatch)
    (param : Param) (ok : Bool) : Quiet w (instConnect w i ring kind param ok).1 := by
  cases ok
  · exact quiet_refl w
  · exact ⟨rfl, rfl, rfl, by simp [instConnect, World.routing, map_updAt_of_eq, Instance.routes]⟩

theorem instDisconnect_quiet (w : World) (i : InstPtr) (kind : VswMatch) (param : Param) :
    Quiet w (instDisconnect w i kind param) :=
  ⟨rfl, rfl, rfl, by simp [instDisconnect, World.routing, map_updAt_of_eq, Instance.routes]⟩

theorem instFree_quiet (w : World) (i : InstPtr) : Quiet w (instFree w i) :=
  ⟨rfl, rfl, rfl, by simp [instFree, World.routing, map_updAt_of_eq, Instance.routes]⟩

theorem vifConnect_quiet (w : World) (vif : VIFPtr) (ring : Ring) (kind : VswMatch)
    (param : Param) (ok : Bool) : Quiet w (vifConnect w vif ring kind param ok).1 := by
  cases ok
  · exact quiet_refl w
  · exact ⟨rfl, rfl, by simp [vifConnect, map_updAt_of_eq], rfl⟩

theorem vifDisconnect_quiet (w : World) (vif : VIFPtr) (kind : VswMatch) (param : Param) :
    Quiet w (vifDisconnect w vif kind param) :=
  ⟨rfl, rfl, by simp [vifDisconnect, map_updAt_of_eq], rfl⟩

theorem routerEnableNAPT_quiet (w : World) (r : InstPtr) (vif : VIFPtr) (ok : Bool) :
    Quiet w (routerEnableNAPT w r vif ok).1 := by
  cases ok
  · exact quiet_refl w
  · exact ⟨rfl, rfl, rfl,
      by simp [routerEnableNAPT, World.routing, map_updAt_of_eq, Instance.routes]⟩

theorem notify_quiet (w : World) (kind : NotiKind) (v : VRFPtr) (detail : NotiDetail) :
    Quiet w (notify w kind v detail) := ⟨rfl, rfl, rfl, rfl⟩

theorem routerAddVIF_taken (w : World) (r : InstPtr) (vif : VIFPtr) :
    Rerouted r (takeVIF vif) w (routerAddVIF w r vif true).1 :=
  ⟨rfl, rfl, rfl, by
    simp only [routerAddVIF, if_true, World.routing]
    apply map_updAt_comm
    intro a
    rfl⟩

theorem routerDeleteVIF_dropped (w : World) (r : InstPtr) (vif : VIFPtr) :
    Rerouted r (dropVIF vif) w (routerDeleteVIF w r vif) :=
  ⟨rfl, rfl, rfl, by
    simp only [routerDeleteVIF, World.routing]
    apply map_updAt_comm
    intro a
    rfl⟩

theorem routerAddOutputDevice_taken (w : World) (r : InstPtr) (dev : OutputDevice) :
    Rerouted r (takeDev dev) w (routerAddOutputDevice w r dev true).1 :=
  ⟨rfl, rfl, rfl, by
    simp only [routerAddOutputDevice, if_true, World.routing]
    apply map_updAt_comm
    intro a
    rfl⟩

theorem addVIFError1_quiet (w : World) (vif : VIFPtr) : Quiet w (addVIFError1 w vif) :=
  vifSetVRF_quiet w vif none true

theorem addVIFError2_dropped (w : World) (r : InstPtr) (vif : VIFPtr) :
    Rerouted r (dropVIF vif) w (addVIFError2 w r vif) :=
  rerouted_then_quiet (routerDeleteVIF_dropped w r vif) (addVIFError1_quiet _ vif)

theorem addVIFError3_dropped (w : World) (t r : InstPtr) (vif : VIFPtr) :
    Rerouted r (dropVIF vif) w (addVIFError3 w t r vif) :=
  quiet_then_rerouted (instDisconnect_quiet w t _ _) (addVIFError2_dropped _ r vif)

theorem addVIFError4_dropped (w : World) (t r : InstPtr) (vif : VIFPtr) :
    Rerouted r (dropVIF vif) w (addVIFError4 w t r vif) :=
  quiet_then_rerouted (vifDisconnect_quiet w vif _ _) (addVIFError3_dropped _ t r vif)

theorem addVIFError5_dropped (w : World) (t r : InstPtr) (vif : VIFPtr) :
    Rerouted r (dropVIF vif) w (addVIFError5 w t r vif) :=
  quiet_then_rerouted (vifDisconnect_quiet w vif _ _) (addVIFError4_dropped _ t r vif)

theorem addVIFError6_dropped (w : World) (t r : InstPtr) (vif : VIFPtr) :
    Rerouted r (dropVIF vif) w (addVIFError6 w t r vif) :=
  quiet_then_rerouted (vifDisconnect_quiet w vif _ _) (addVIFError5_dropped _ t r vif)

theorem quiet_then_attached {v : VRFPtr} {k : VIFIndex} {dev : OutputDevice} {r : InstPtr}
    {h : List VIFPtr × List OutputDevice → List VIFPtr × List OutputDevice} {w w1 w2 : World}
    (h1 : Quiet w w1) (h2 : Attached v k dev r h w1 w2) : Attached v k dev r h w w2 :=
  ⟨by rw [h2.vrfs, h1.vrfs], h2.vrfMgr.trans h1.vrfMgr, h2.index.trans h1.index,
    by rw [h2.routing, h1.routing]⟩

theorem rerouted_then_attached {v : VRFPtr} {k : VIFIndex} {dev : OutputDevice} {r : InstPtr}
    {h : List VIFPtr × List OutputDevice → List VIFPtr × List OutputDevice} {w w1 w2 : World}
    (h1 : Rerouted r h w w1) (h2 : Attached v k dev r (fun p => p) w1 w2) :
    Attached v k dev r h w w2 :=
  ⟨by rw [h2.vrfs, h1.vrfs], h2.vrfMgr.trans h1.vrfMgr, h2.index.trans h1.index,
    by rw [h2.routing, h1.routing, updAt_same]⟩

/-- What `addVIFConnects` leaves: after a failure the route of the VIF is
dropped from the router and `devs` is as before; after success the VIF is in
`v.devs` under its index and no route changed. -/
theorem addVIFConnects_effect (w : World) (v : VRFPtr) (o : VRF) (r : InstPtr) (vif : VIFPtr)
    (f : VIF) (x : AddVIFExt) (w1 : World) (e : Option Err)
    (h : addVIFConnects w v o r vif f x = some (w1, e)) :
    Rerouted r (dropVIF vif) w w1 ∨
      Attached v f.index (OutputDevice.vif vif) r (fun p => p) w w1 := by
  unfold addVIFConnects at h
  cases h1 : vifConnect w vif (Ring.instInput r) VswMatch.MatchEthDstSelf Param.nil x.dstSelf with
  | mk wa b1 =>
    have q1 : Quiet w wa := by
      have := vifConnect_quiet w vif (Ring.instInput r) VswMatch.MatchEthDstSelf Param.nil
        x.dstSelf
      rw [h1] at this
      exact this
    rw [h1] at h
    cases b1 with
    | false =>
      simp only at h
      cases ht : o.tap with
      | none => simp [ht] at h
      | some t =>
        simp only [ht, Option.some.injEq, Prod.mk.injEq] at h
        rw [← h.1]
        exact Or.inl (quiet_then_rerouted q1 (addVIFError3_dropped _ t r vif))
    | true =>
      simp only at h
      cases h2 : vifConnect wa vif (Ring.instInput r) VswMatch.MatchEthDstBC Param.nil x.dstBC with
      | mk wb b2 =>
        have q2 : Quiet w wb := by
          have := vifConnect_quiet wa vif (Ring.instInput r) VswMatch.MatchEthDstBC Param.nil
            x.dstBC
          rw [h2] at this
          exact quiet_trans q1 this
        rw [h2] at h
        cases b2 with
        | false =>
          simp only at h
          cases ht : o.tap with
          | none => simp [ht] at h
          | some t =>
            simp only [ht, Option.some.injEq, Prod.mk.injEq] at h
            rw [← h.1]
            exact Or.inl (quiet_then_rerouted q2 (addVIFError4_dropped _ t r vif))
        | true =>
          simp only at h
          cases h3 : vifConnect wb vif (Ring.instInput r) VswMatch.MatchEthDstMC Param.nil
              x.dstMC with
          | mk wc b3 =>
            have q3 : Quiet w wc := by
              have := vifConnect_quiet wb vif (Ring.instInput r) VswMatch.MatchEthDstMC Param.nil
                x.dstMC
              rw [h3] at this
              exact quiet_trans q2 this
            rw [h3] at h
            cases b3 with
            | false =>
              simp only at h
              cases ht : o.tap with
              | none => simp [ht] at h
              | some t =>
                simp only [ht, Option.some.injEq, Prod.mk.injEq] at h
                rw [← h.1]
                exact Or.inl (quiet_then_rerouted q3 (addVIFError5_dropped _ t r vif))
            | true =>
              simp only at h
              cases h4 : (if f.napt = true then routerEnableNAPT wc r vif x.enableNAPT
                  else (wc, true)) with
              | mk wd b4 =>
                have q4 : Quiet w wd := by
                  cases hn : f.napt with
                  | true =>
                    have := routerEnableNAPT_quiet wc r vif x.enableNAPT
                    simp only [hn, if_true] at h4
                    rw [h4] at this
                    exact quiet_trans q3 this
                  | false =>
                    simp only [hn, Bool.false_eq_true, if_false, Prod.mk.injEq] at h4
                    rw [← h4.1]
                    exact q3
                rw [h4] at h
                cases b4 with
                | false =>
                  simp only at h
                  cases ht : o.tap with
                  | none => simp [ht] at h
                  | some t =>
                    simp only [ht, Option.some.injEq, Prod.mk.injEq] at h
                    rw [← h.1]
                    exact Or.inl (quiet_then_rerouted q4 (addVIFError6_dropped _ t r vif))
                | true =>
                  simp only [Option.some.injEq, Prod.mk.injEq] at h
                  rw [← h.1]
                  exact Or.inr (quiet_then_attached q4 ⟨rfl, rfl, rfl, (updAt_same _ _).symm⟩)

theorem routerAddVIF_cases (w : World) (r : InstPtr) (vif : VIFPtr) (ok : Bool) (wb : World)
    (b : Bool) (h : routerAddVIF w r vif ok = (wb, b)) :
    (b = false ∧ wb = w) ∨ (b = true ∧ Rerouted r (takeVIF vif) w wb) := by
  cases ok with
  | false =>
    simp only [routerAddVIF, Bool.false_eq_true, if_false, Prod.mk.injEq] at h
    exact Or.inl ⟨h.2.symm, h.1.symm⟩
  | true =>
    have t := routerAddVIF_taken w r vif
    rw [h] at t
    simp only [routerAddVIF, if_true, Prod.mk.injEq] at h
    exact Or.inr ⟨h.2.symm, t⟩

/-- What `AddVIF` leaves: nothing that matters to the routes (the VIF was in
`devs`, or the bind or `router.addVIF` failed), or the route of the VIF dropped
from the router and `devs` as before (a later step failed), or the VIF routed
into the router and entered in `devs` under its index. -/
theorem AddVIF_effect (w : World) (v : VRFPtr) (vif : VIFPtr) (x : AddVIFExt) (w1 : World)
    (e : Option Err) (o : VRF) (f : VIF) (ho : w.vrfs[v]? = some o) (hf : w.vifs[vif]? = some f)
    (h : AddVIF w v vif x = some (w1, e)) :
    Quiet w w1 ∨
      (mapHas o.devs f.index = false ∧ ∃ r, o.router = some r ∧
        (Rerouted r (dropVIF vif) w w1 ∨
          Attached v f.index (OutputDevice.vif vif) r (takeVIF vif) w w1)) := by
  unfold AddVIF at h
  rw [ho, hf] at h
  simp only at h
  cases hm : mapHas o.devs f.index with
  | true =>
    simp only [hm, if_true, Option.some.injEq, Prod.mk.injEq] at h
    rw [← h.1]
    exact Or.inl (quiet_refl w)
  | false =>
    simp only [hm, Bool.false_eq_true, if_false] at h
    cases h1 : vifSetVRF w vif (some v) x.setVRF with
    | mk wa b1 =>
      have q1 : Quiet w wa := by
        have := vifSetVRF_quiet w vif (some v) x.setVRF
        rw [h1] at this
        exact this
      rw [h1] at h
      cases b1 with
      | false =>
        simp only [Option.some.injEq, Prod.mk.injEq] at h
        rw [← h.1]
        exact Or.inl q1
      | true =>
        simp only at h
        cases hr : o.router with
        | none => simp [hr] at h
        | some r =>
          simp only [hr] at h
          cases h2 : routerAddVIF wa r vif x.addVIF with
          | mk wb b2 =>
            rw [h2] at h
            rcases routerAddVIF_cases wa r vif x.addVIF wb b2 h2 with ⟨hb, hw⟩ | ⟨hb, t2⟩
            · subst hb
              subst hw
              simp only [Option.some.injEq, Prod.mk.injEq] at h
              rw [← h.1]
              exact Or.inl (quiet_trans q1 (addVIFError1_quiet _ _))
            · subst hb
              simp only at h
              have t3 := quiet_then_rerouted q1 t2
              refine Or.inr ⟨rfl, r, rfl, ?_⟩
              have hc : ∀ (wc : World), Rerouted r (takeVIF vif) w wc →
                  addVIFConnects wc v o r vif f x = some (w1, e) →
                  (Rerouted r (dropVIF vif) w w1 ∨
                    Attached v f.index (OutputDevice.vif vif) r (takeVIF vif) w w1) := by
                intro wc tc hcon
                rcases addVIFConnects_effect wc v o r vif f x w1 e hcon with hd | ha
                · exact Or.inl (taken_then_dropped tc hd)
                · exact Or.inr (rerouted_then_attached tc ha)
              cases hT : f.tunnel.isNone with
              | false =>
                simp only [hT, Bool.false_eq_true, if_false] at h
                exact hc wb t3 h
              | true =>
                simp only [hT, if_true] at h
                cases ht : o.tap with
                | none => simp [ht] at h
                | some t =>
                  simp only [ht] at h
                  cases h3 : instConnect wb t (Ring.vifOutbound vif) VswMatch.MatchOutVIF
                      (Param.vif vif) x.tapConnect with
                  | mk wc b3 =>
                    have q3 : Quiet wb wc := by
                      have := instConnect_quiet wb t (Ring.vifOutbound vif) VswMatch.MatchOutVIF
                        (Param.vif vif) x.tapConnect
                      rw [h3] at this
                      exact this
                    rw [h3] at h
                    cases b3 with
                    | false =>
                      simp only [Option.some.injEq, Prod.mk.injEq] at h
                      rw [← h.1]
                      exact Or.inl (taken_then_dropped (rerouted_then_quiet t3 q3)
                        (addVIFError2_dropped wc r vif))
                    | true =>
                      simp only at h
                      exact hc wc (rerouted_then_quiet t3 q3) h

/-- What `DeleteVIF` leaves: nothing changed (the index of the VIF is not a key
of `devs`), or the key is deleted from `devs` and the route of the VIF is
dropped from the router. -/
theorem DeleteVIF_effect (w : World) (v : VRFPtr) (vif : VIFPtr) (w1 : World) (e : Option Err)
    (o : VRF) (f : VIF) (ho : w.vrfs[v]? = some o) (hf : w.vifs[vif]? = some f)
    (h : DeleteVIF w v vif = some (w1, e)) :
    w1 = w ∨
      (mapHas o.devs f.index = true ∧ ∃ r, o.router = some r ∧
        Detached v f.index r (dropVIF vif) w w1) := by
  unfold DeleteVIF at h
  rw [ho, hf] at h
  simp only at h
  cases hm : mapHas o.devs f.index with
  | false =>
    simp only [hm, Bool.not_false, if_true, Option.some.injEq, Prod.mk.injEq] at h
    exact Or.inl h.1.symm
  | true =>
    simp only [hm, Bool.not_true, Bool.false_eq_true, if_false] at h
    cases ht : o.tap with
    | none => simp [ht] at h
    | some t =>
      cases hr : o.router with
      | none => simp [ht, hr] at h
      | some r =>
        simp only [ht, hr, Option.some.injEq, Prod.mk.injEq] at h
        have q : Rerouted r (dropVIF vif) w
            (routerDeleteVIF (vifSetVRF (vifDisconnect (vifDisconnect (vifDisconnect
              (instDisconnect w t VswMatch.MatchOutVIF (Param.vif vif)) vif
                VswMatch.MatchEthDstSelf Param.nil) vif VswMatch.MatchEthDstBC Param.nil) vif
                VswMatch.MatchEthDstMC Param.nil) vif none true).1 r vif) :=
          quiet_then_rerouted
            (quiet_trans (instDisconnect_quiet w t _ _)
              (quiet_trans (vifDisconnect_quiet _ vif _ _)
                (quiet_trans (vifDisconnect_quiet _ vif _ _)
                  (quiet_trans (vifDisconnect_quiet _ vif _ _) (vifSetVRF_quiet _ vif none true)))))
            (routerDeleteVIF_dropped _ r vif)
        refine Or.inr ⟨rfl, r, rfl, ?_⟩
        rw [← h.1]
        exact ⟨congrArg (fun l => updAt l v _) q.vrfs, q.vrfMgr, q.index, q.routing⟩

/-- What `registerOutputDevice` leaves: nothing changed, or the device, a VRF
whose `VIFIndex` was not a key of `devs`, is added to the router and entered in
`devs`. -/
theorem registerOutputDevice_effect (w : World) (v : VRFPtr) (dev : OutputDevice) (ok : Bool)
    (w1 : World) (e : Option Err) (o : VRF) (ho : w.vrfs[v]? = some o)
    (h : registerOutputDevice w v dev ok = some (w1, e)) :
    w1 = w ∨ ∃ r idx u, dev = OutputDevice.vrf u ∧ mapHas o.devs idx = false ∧
      o.router = some r ∧ Attached v idx dev r (takeDev dev) w w1 := by
  unfold registerOutputDevice at h
  cases hi : dev.VIFIndex w with
  | none => simp [ho, hi] at h
  | some idx =>
    simp only [ho, hi] at h
    cases hm : mapHas o.devs idx with
    | true =>
      simp only [hm, if_true, Option.some.injEq, Prod.mk.injEq] at h
      exact Or.inl h.1.symm
    | false =>
      simp only [hm, Bool.false_eq_true, if_false] at h
      cases dev with
      | vif p =>
        simp only [Option.some.injEq, Prod.mk.injEq] at h
        exact Or.inl h.1.symm
      | vrf u =>
        simp only at h
        cases hr : o.router with
        | none => simp [hr] at h
        | some r =>
          simp only [hr] at h
          cases ok with
          | false =>
            simp only [routerAddOutputDevice, Bool.false_eq_true, if_false, Option.some.injEq,
              Prod.mk.injEq] at h
            exact Or.inl h.1.symm
          | true =>
            have t := routerAddOutputDevice_taken w r (OutputDevice.vrf u)
            cases h2 : routerAddOutputDevice w r (OutputDevice.vrf u) true with
            | mk wa b =>
              rw [h2] at h t
              have hb : b = true := by
                simp only [routerAddOutputDevice, if_true, Prod.mk.injEq] at h2
                exact h2.2.symm
              subst hb
              simp only [Option.some.injEq, Prod.mk.injEq] at h
              refine Or.inr ⟨r, idx, u, rfl, hm, rfl, ?_⟩
              rw [← h.1]
              exact ⟨congrArg (fun l => updAt l v _) t.vrfs, t.vrfMgr, t.index, t.routing⟩

theorem mapDelete_sublist {β : Type} (m : List (Nat × β)) (k : Nat) :
    (mapDelete m k).Sublist m := by
  induction m with
  | nil => exact List.Sublist.refl _
  | cons a m ih =>
    by_cases ha : a.1 = k
    · simp only [mapDelete, ha, if_true]
      exact List.Sublist.cons _ ih
    · simp only [mapDelete, ha, if_false]
      exact List.Sublist.cons₂ _ ih

theorem nodup_mapDelete {β : Type} (m : List (Nat × β)) (k : Nat)
    (h : (m.map Prod.fst).Nodup) : ((mapDelete m k).map Prod.fst).Nodup :=
  List.Nodup.sublist (List.Sublist.map _ (mapDelete_sublist m k)) h

theorem nodup_mapSet {β : Type} (m : List (Nat × β)) (k : Nat) (b : β)
    (h : (m.map Prod.fst).Nodup) : ((mapSet m k b).map Prod.fst).Nodup := by
  simp only [mapSet, List.map_cons, List.nodup_cons]
  refine ⟨?_, nodup_mapDelete m k h⟩
  intro hc
  obtain ⟨e, he, hk⟩ := List.mem_map.1 hc
  exact ((mem_mapDelete _ _ _).1 he).2 hk

theorem index_kept {V V1 : List VIF} (h : V1.map VIF.index = V.map VIF.index) (q : Nat)
    (f : VIF) (hf : V[q]? = some f) : ∃ f1, V1[q]? = some f1 ∧ f1.index = f.index := by
  have h1 : (V1.map VIF.index)[q]? = some f.index := by
    rw [h, List.getElem?_map, hf]
    rfl
  rw [List.getElem?_map] at h1
  cases h2 : V1[q]? with
  | none => simp [h2] at h1
  | some f1 =>
    simp only [h2, Option.map_some', Option.some.injEq] at h1
    exact ⟨f1, rfl, h1⟩

/-- The invariant carries over to a state with the same VRF objects, VIF
indices and routes, and a name map that holds nothing new. -/
theorem devInv_of_kept {w w1 : World} (inv : DevInv w) (hvrfs : w1.vrfs = w.vrfs)
    (hidx : w1.vifs.map VIF.index = w.vifs.map VIF.index) (hrout : w1.routing = w.routing)
    (hbn : ∀ n p, mapGet w1.vrfMgr.byName n = some p → mapGet w.vrfMgr.byName n = some p) :
    DevInv w1 := by
  refine ⟨?_, ?_, ?_, ?_, ?_, ?_⟩
  · intro n v hn
    rw [hvrfs]
    exact inv.handles n v (hbn n v hn)
  · intro v o k q ho hmem
    rw [hvrfs] at ho
    obtain ⟨f, hf, hk⟩ := inv.keyed v o k q ho hmem
    obtain ⟨f1, hf1, hk1⟩ := index_kept hidx q f hf
    exact ⟨f1, hf1, hk1.trans hk⟩
  · intro v o k d ho hmem
    rw [hvrfs] at ho
    rw [hrout]
    exact inv.routed v o k d ho hmem
  · intro v o r ho hr
    rw [hvrfs] at ho
    rw [hrout]
    exact inv.valid v o r ho hr
  · intro u v ou ov r hu hv
    rw [hvrfs] at hu hv
    exact inv.own u v ou ov r hu hv
  · intro v o ho
    rw [hvrfs] at ho
    exact inv.nodup v o ho

theorem devInv_of_quiet {w w1 : World} (inv : DevInv w) (q : Quiet w w1) : DevInv w1 :=
  devInv_of_kept inv q.vrfs q.index q.routing (by rw [q.vrfMgr]; exact fun _ _ h => h)

/-- The invariant carries over when one VRF object `v` keeps its router and
its tap and has in `devs` only devices that are keyed and routed after the
change `h` of the routes of its router, and nothing else changes. -/
theorem devInv_of_change {w w1 : World} (inv : DevInv w) (v : VRFPtr) (o o1 : VRF) (r : InstPtr)
    (h : List VIFPtr × List OutputDevice → List VIFPtr × List OutputDevice)
    (ho : w.vrfs[v]? = some o) (hr : o.router = some r)
    (hv : w1.vrfs[v]? = some o1) (hrr : o1.router = o.router) (htt : o1.tap = o.tap)
    (hu : ∀ u, u ≠ v → w1.vrfs[u]? = w.vrfs[u]?)
    (hidx : w1.vifs.map VIF.index = w.vifs.map VIF.index)
    (hrout : w1.routing = updAt w.routing r h)
    (hbn : ∀ n p, mapGet w1.vrfMgr.byName n = some p → mapGet w.vrfMgr.byName n = some p)
    (hg : ∀ k d, (k, d) ∈ o1.devs → ∀ p, w.routing[r]? = some p →
      (∀ q, d = OutputDevice.vif q → ∃ f, w.vifs[q]? = some f ∧ f.index = k) ∧
        InRouter (h p) d)
    (hnd : (o1.devs.map Prod.fst).Nodup) :
    DevInv w1 := by
  have hlt : r < w.routing.length := inv.valid v o r ho hr
  obtain ⟨p0, hp0⟩ : ∃ p, w.routing[r]? = some p := ⟨_, List.getElem?_eq_getElem hlt⟩
  have hback : ∀ u ou, w1.vrfs[u]? = some ou →
      ∃ ou0, w.vrfs[u]? = some ou0 ∧ ou.router = ou0.router ∧ (u ≠ v → ou = ou0) := by
    intro u ou hou
    by_cases huv : u = v
    · subst huv
      rw [hv] at hou
      simp only [Option.some.injEq] at hou
      subst hou
      exact ⟨o, ho, hrr, fun hc => absurd rfl hc⟩
    · rw [hu u huv] at hou
      exact ⟨ou, hou, rfl, fun _ => rfl⟩
  refine ⟨?_, ?_, ?_, ?_, ?_, ?_⟩
  · intro n p hn
    obtain ⟨o2, r2, t2, h1, h2, h3⟩ := inv.handles n p (hbn n p hn)
    by_cases hpv : p = v
    · subst hpv
      rw [ho] at h1
      simp only [Option.some.injEq] at h1
      subst h1
      exact ⟨o1, r2, t2, hv, hrr.trans h2, htt.trans h3⟩
    · exact ⟨o2, r2, t2, by rw [hu p hpv]; exact h1, h2, h3⟩
  · intro u ou k q hou hmem
    by_cases huv : u = v
    · subst huv
      rw [hv] at hou
      simp only [Option.some.injEq] at hou
      subst hou
      obtain ⟨f, hf, hk⟩ := (hg k _ hmem p0 hp0).1 q rfl
      obtain ⟨f1, hf1, hk1⟩ := index_kept hidx q f hf
      exact ⟨f1, hf1, hk1.trans hk⟩
    · rw [hu u huv] at hou
      obtain ⟨f, hf, hk⟩ := inv.keyed u ou k q hou hmem
      obtain ⟨f1, hf1, hk1⟩ := index_kept hidx q f hf
      exact ⟨f1, hf1, hk1.trans hk⟩
  · intro u ou k d hou hmem
    by_cases huv : u = v
    · subst huv
      rw [hv] at hou
      simp only [Option.some.injEq] at hou
      subst hou
      refine ⟨r, h p0, hrr.trans hr, ?_, (hg k d hmem p0 hp0).2⟩
      rw [hrout, getElem?_updAt, hp0]
      simp
    · rw [hu u huv] at hou
      obtain ⟨r2, p2, h1, h2, h3⟩ := inv.routed u ou k d hou hmem
      refine ⟨r2, p2, h1, ?_, h3⟩
      have hne : r ≠ r2 := by
        intro hc
        subst hc
        exact huv (inv.own u v ou o r hou ho h1 hr)
      rw [hrout, getElem?_updAt, if_neg hne]
      exact h2
  · intro u ou r2 hou hr2
    obtain ⟨ou0, h1, h2, _⟩ := hback u ou hou
    have := inv.valid u ou0 r2 h1 (h2 ▸ hr2)
    rw [hrout, length_updAt]
    exact this
  · intro u u2 ou ou2 r2 hou hou2 h1 h2
    obtain ⟨a, ha1, ha2, _⟩ := hback u ou hou
    obtain ⟨b, hb1, hb2, _⟩ := hback u2 ou2 hou2
    exact inv.own u u2 a b r2 ha1 hb1 (ha2 ▸ h1) (hb2 ▸ h2)
  · intro u ou hou
    by_cases huv : u = v
    · subst huv
      rw [hv] at hou
      simp only [Option.some.injEq] at hou
      subst hou
      exact hnd
    · rw [hu u huv] at hou
      exact inv.nodup u ou hou

theorem inRouter_takeVIF (vif : VIFPtr) (p : List VIFPtr × List OutputDevice) (d : OutputDevice)
    (h : InRouter p d) : InRouter (takeVIF vif p) d := by
  cases d with
  | vif q => exact List.mem_append_left _ h
  | vrf u => exact h

theorem inRouter_takeDev (dev : OutputDevice) (p : List VIFPtr × List OutputDevice)
    (d : OutputDevice) (h : InRouter p d) : InRouter (takeDev dev p) d := by
  cases d with
  | vif q => exact h
  | vrf u => exact List.mem_append_left _ h

theorem inRouter_dropVIF (vif : VIFPtr) (p : List VIFPtr × List OutputDevice) (d : OutputDevice)
    (h : InRouter p d) (hne : d ≠ OutputDevice.vif vif) : InRouter (dropVIF vif p) d := by
  cases d with
  | vif q =>
    have hq : q ≠ vif := fun hc => hne (by rw [hc])
    simp only [InRouter, dropVIF, List.mem_filter]
    exact ⟨h, by simpa using hq⟩
  | vrf u => exact h

theorem updAt_getElem?_self {α : Type} (l : List α) (i : Nat) (f : α → α) (a : α)
    (h : l[i]? = some a) : (updAt l i f)[i]? = some (f a) := by
  rw [getElem?_updAt, h]
  simp

theorem updAt_getElem?_ne {α : Type} (l : List α) (i j : Nat) (f : α → α) (h : j ≠ i) :
    (updAt l i f)[j]? = l[j]? := by
  rw [getElem?_updAt, if_neg (Ne.symm h)]

/-- The entries of `devs` of a VRF object of a consistent state, seen from the
router `r` of the object. -/
theorem devInv_entry {w : World} (inv : DevInv w) (v : VRFPtr) (o : VRF) (r : InstPtr)
    (ho : w.vrfs[v]? = some o) (hr : o.router = some r) (k : VIFIndex) (d : OutputDevice)
    (hmem : (k, d) ∈ o.devs) (p : List VIFPtr × List OutputDevice)
    (hp : w.routing[r]? = some p) :
    (∀ q, d = OutputDevice.vif q → ∃ f, w.vifs[q]? = some f ∧ f.index = k) ∧ InRouter p d := by
  constructor
  · intro q hq
    subst hq
    exact inv.keyed v o k q ho hmem
  · obtain ⟨r2, p2, h1, h2, h3⟩ := inv.routed v o k d ho hmem
    rw [hr] at h1
    simp only [Option.some.injEq] at h1
    subst h1
    rw [hp] at h2
    simp only [Option.some.injEq] at h2
    subst h2
    exact h3

theorem devInv_after_AddVIF {w w1 : World} (inv : DevInv w) (v : VRFPtr) (vif : VIFPtr)
    (x : AddVIFExt) (e : Option Err) (h : AddVIF w v vif x = some (w1, e)) : DevInv w1 := by
  cases ho : w.vrfs[v]? with
  | none => simp [AddVIF, ho] at h
  | some o =>
    cases hf : w.vifs[vif]? with
    | none => simp [AddVIF, ho, hf] at h
    | some f =>
      rcases AddVIF_effect w v vif x w1 e o f ho hf h with hq | ⟨hm, r, hr, hd | ha⟩
      · exact devInv_of_quiet inv hq
      · refine devInv_of_change inv v o o r (dropVIF vif) ho hr (by rw [hd.vrfs]; exact ho) rfl rfl
          (fun u _ => by rw [hd.vrfs]) hd.index hd.routing
          (by rw [hd.vrfMgr]; exact fun _ _ h => h) ?_ (inv.nodup v o ho)
        intro k d hmem p hp
        obtain ⟨h1, h2⟩ := devInv_entry inv v o r ho hr k d hmem p hp
        refine ⟨h1, inRouter_dropVIF vif p d h2 ?_⟩
        intro hc
        obtain ⟨f1, hf1, hk1⟩ := h1 vif hc
        rw [hf] at hf1
        simp only [Option.some.injEq] at hf1
        subst hf1
        have := mapHas_of_mem _ _ hmem
        simp only at this
        rw [← hk1, hm] at this
        cases this
      · refine devInv_of_change inv v o
          { o with devs := mapSet o.devs f.index (OutputDevice.vif vif) } r (takeVIF vif) ho hr
          (by rw [ha.vrfs]; exact updAt_getElem?_self _ _ _ _ ho) rfl rfl
          (fun u hu => by rw [ha.vrfs]; exact updAt_getElem?_ne _ _ _ _ hu) ha.index ha.routing
          (by rw [ha.vrfMgr]; exact fun _ _ h => h) ?_ (nodup_mapSet _ _ _ (inv.nodup v o ho))
        intro k d hmem p hp
        rcases List.mem_cons.1 hmem with heq | hold
        · simp only [Prod.mk.injEq] at heq
          obtain ⟨hk, hd⟩ := heq
          subst hk hd
          refine ⟨?_, ?_⟩
          · intro q hq
            simp only [OutputDevice.vif.injEq] at hq
            subst hq
            exact ⟨f, hf, rfl⟩
          · exact List.mem_append_right _ (List.mem_singleton.2 rfl)
        · have hin := ((mem_mapDelete _ _ _).1 hold).1
          obtain ⟨h1, h2⟩ := devInv_entry inv v o r ho hr k d hin p hp
          exact ⟨h1, inRouter_takeVIF vif p d h2⟩

theorem devInv_after_DeleteVIF {w w1 : World} (inv : DevInv w) (v : VRFPtr) (vif : VIFPtr)
    (e : Option Err) (h : DeleteVIF w v vif = some (w1, e)) : DevInv w1 := by
  cases ho : w.vrfs[v]? with
  | none => simp [DeleteVIF, ho] at h
  | some o =>
    cases hf : w.vifs[vif]? with
    | none => simp [DeleteVIF, ho, hf] at h
    | some f =>
      rcases DeleteVIF_effect w v vif w1 e o f ho hf h with hw | ⟨hm, r, hr, hd⟩
      · rw [hw]
        exact inv
      · refine devInv_of_change inv v o { o with devs := mapDelete o.devs f.index } r
          (dropVIF vif) ho hr
          (by rw [hd.vrfs]; exact updAt_getElem?_self _ _ _ _ ho) rfl rfl
          (fun u hu => by rw [hd.vrfs]; exact updAt_getElem?_ne _ _ _ _ hu) hd.index hd.routing
          (by rw [hd.vrfMgr]; exact fun _ _ h => h) ?_ (nodup_mapDelete _ _ (inv.nodup v o ho))
        intro k d hmem p hp
        obtain ⟨hin, hne⟩ := (mem_mapDelete _ _ _).1 hmem
        obtain ⟨h1, h2⟩ := devInv_entry inv v o r ho hr k d hin p hp
        refine ⟨h1, inRouter_dropVIF vif p d h2 ?_⟩
        intro hc
        obtain ⟨f1, hf1, hk1⟩ := h1 vif hc
        rw [hf] at hf1
        simp only [Option.some.injEq] at hf1
        subst hf1
        exact hne hk1.symm

theorem devInv_after_register {w w1 : World} (inv : DevInv w) (v : VRFPtr) (dev : OutputDevice)
    (ok : Bool) (e : Option Err) (h : registerOutputDevice w v dev ok = some (w1, e)) :
    DevInv w1 := by
  cases ho : w.vrfs[v]? with
  | none => simp [registerOutputDevice, ho] at h
  | some o =>
    rcases registerOutputDevice_effect w v dev ok w1 e o ho h with hw | ⟨r, idx, u, hd, hm, hr, ha⟩
    · rw [hw]
      exact inv
    · refine devInv_of_change inv v o { o with devs := mapSet o.devs idx dev } r (takeDev dev)
        ho hr (by rw [ha.vrfs]; exact updAt_getElem?_self _ _ _ _ ho) rfl rfl
        (fun u hu => by rw [ha.vrfs]; exact updAt_getElem?_ne _ _ _ _ hu) ha.index ha.routing
        (by rw [ha.vrfMgr]; exact fun _ _ h => h) ?_ (nodup_mapSet _ _ _ (inv.nodup v o ho))
      intro k d hmem p hp
      rcases List.mem_cons.1 hmem with heq | hold
      · simp only [Prod.mk.injEq] at heq
        obtain ⟨hk, hdd⟩ := heq
        subst hk hdd hd
        refine ⟨fun q hq => (by cases hq), ?_⟩
        exact List.mem_append_right _ (List.mem_singleton.2 rfl)
      · have hin := ((mem_mapDelete _ _ _).1 hold).1
        obtain ⟨h1, h2⟩ := devInv_entry inv v o r ho hr k d hin p hp
        exact ⟨h1, inRouter_takeDev dev p d h2⟩

theorem wiring_back {V V1 : List VRF} (h : V1.map VRF.wiring = V.map VRF.wiring) (u : Nat)
    (o1 : VRF) (h1 : V1[u]? = some o1) :
    ∃ o, V[u]? = some o ∧ o.devs = o1.devs ∧ o.router = o1.router ∧ o.tap = o1.tap := by
  have h2 : (V.map VRF.wiring)[u]? = some o1.wiring := by
    rw [← h, List.getElem?_map, h1]
    rfl
  rw [List.getElem?_map] at h2
  cases h3 : V[u]? with
  | none => simp [h3] at h2
  | some o =>
    simp only [h3, Option.map_some', Option.some.injEq, VRF.wiring, Prod.mk.injEq] at h2
    exact ⟨o, rfl, h2.1, h2.2.1, h2.2.2⟩

/-- The invariant carries over to a state in which every VRF object has the
same `devs`, router and tap, with the same VIF indices and routes and a name
map that holds nothing new. -/
theorem devInv_of_wiring {w w1 : World} (inv : DevInv w)
    (hvrfs : w1.vrfs.map VRF.wiring = w.vrfs.map VRF.wiring)
    (hidx : w1.vifs.map VIF.index = w.vifs.map VIF.index) (hrout : w1.routing = w.routing)
    (hbn : ∀ n p, mapGet w1.vrfMgr.byName n = some p → mapGet w.vrfMgr.byName n = some p) :
    DevInv w1 := by
  refine ⟨?_, ?_, ?_, ?_, ?_, ?_⟩
  · intro n v hn
    obtain ⟨o, r, t, h1, h2, h3⟩ := inv.handles n v (hbn n v hn)
    obtain ⟨o1, h4, _, h6, h7⟩ := wiring_back hvrfs.symm v o h1
    exact ⟨o1, r, t, h4, h6.trans h2, h7.trans h3⟩
  · intro v o1 k q ho hmem
    obtain ⟨o, h1, h2, _, _⟩ := wiring_back hvrfs v o1 ho
    obtain ⟨f, hf, hk⟩ := inv.keyed v o k q h1 (h2 ▸ hmem)
    obtain ⟨f1, hf1, hk1⟩ := index_kept hidx q f hf
    exact ⟨f1, hf1, hk1.trans hk⟩
  · intro v o1 k d ho hmem
    obtain ⟨o, h1, h2, h3, _⟩ := wiring_back hvrfs v o1 ho
    obtain ⟨r, p, h4, h5, h6⟩ := inv.routed v o k d h1 (h2 ▸ hmem)
    exact ⟨r, p, h3 ▸ h4, hrout ▸ h5, h6⟩
  · intro v o1 r ho hr
    obtain ⟨o, h1, _, h3, _⟩ := wiring_back hvrfs v o1 ho
    rw [hrout]
    exact inv.valid v o r h1 (h3 ▸ hr)
  · intro u v ou ov r hu hv h1 h2
    obtain ⟨a, ha, _, ha3, _⟩ := wiring_back hvrfs u ou hu
    obtain ⟨b, hb, _, hb3, _⟩ := wiring_back hvrfs v ov hv
    exact inv.own u v a b r ha hb (ha3 ▸ h1) (hb3 ▸ h2)
  · intro v o1 ho
    obtain ⟨o, h1, h2, _, _⟩ := wiring_back hvrfs v o1 ho
    rw [← h2]
    exact inv.nodup v o h1

theorem devInv_after_SetRD {w w1 : World} (inv : DevInv w) (v : VRFPtr) (rd : Nat)
    (e : Option Err) (h : SetRD w v rd = some (w1, e)) : DevInv w1 := by
  unfold SetRD at h
  cases ho : w.vrfs[v]? with
  | none => simp [ho] at h
  | some o =>
    simp only [ho] at h
    by_cases hm : mapHas w.vrfMgr.rds rd = true
    · simp only [hm, if_true, Option.some.injEq, Prod.mk.injEq] at h
      rw [← h.1]
      exact inv
    · simp only [hm, Bool.false_eq_true, if_false, Option.some.injEq, Prod.mk.injEq] at h
      rw [← h.1]
      by_cases hz : o.rd = 0
      · simp only [hz, ne_eq, not_true_eq_false, if_false]
        refine devInv_of_wiring inv ?_ rfl rfl (fun _ _ h => h)
        apply map_updAt_of_eq
        intro a
        rfl
      · simp only [hz, ne_eq, not_false_eq_true, if_true]
        refine devInv_of_wiring inv ?_ rfl rfl (fun _ _ h => h)
        apply map_updAt_of_eq
        intro a
        rfl

theorem devInv_after_freeDev {w w1 : World} (inv : DevInv w) (v : VRFPtr) (k : VIFIndex)
    (dev : OutputDevice) (h : freeDev w v k dev = some w1) : DevInv w1 := by
  unfold freeDev at h
  cases ho : w.vrfs[v]? with
  | none => simp [ho] at h
  | some o =>
    simp only [ho] at h
    cases hm : mapHas o.devs k with
    | false =>
      simp only [hm, Bool.false_eq_true, if_false, Option.some.injEq] at h
      rw [← h]
      exact inv
    | true =>
      simp only [hm, if_true] at h
      cases dev with
      | vrf p =>
        simp only [Option.some.injEq] at h
        rw [← h]
        exact inv
      | vif p =>
        simp only at h
        cases hd : DeleteVIF w v p with
        | none => simp [hd] at h
        | some res =>
          obtain ⟨w2, e⟩ := res
          simp only [hd, Option.some.injEq] at h
          subst h
          exact devInv_after_DeleteVIF inv v p e hd

theorem devInv_after_freeDevs (v : VRFPtr) (devs : List (VIFIndex × OutputDevice)) :
    ∀ (w w1 : World), DevInv w → freeDevs w v devs = some w1 → DevInv w1 := by
  induction devs with
  | nil =>
    intro w w1 inv h
    simp only [freeDevs, Option.some.injEq] at h
    rw [← h]
    exact inv
  | cons e rest ih =>
    intro w w1 inv h
    simp only [freeDevs] at h
    cases hstep : freeDev w v e.1 e.2 with
    | none => simp [hstep] at h
    | some w2 =>
      simp only [hstep] at h
      exact ih w2 w1 (devInv_after_freeDev inv v e.1 e.2 hstep) h

theorem freeRegistry_rest (w : World) (v : VRFPtr) (w1 : World)
    (h : freeRegistry w v = some w1) : w1.vifs = w.vifs ∧ w1.insts = w.insts := by
  unfold freeRegistry at h
  cases ho : w.vrfs[v]? with
  | none => simp [ho] at h
  | some o =>
    simp only [ho, releaseIndex] at h
    by_cases hlt : o.index < w.vrfMgr.byIndex.length
    · simp only [hlt, if_true, Option.some.injEq] at h
      rw [← h]
      by_cases hr : o.rd = 0 <;> by_cases hx : mapHas w.vifIdxMgr o.vifIndex = true <;>
        simp [hr, hx, notify, freeVIFIndex]
    · simp [hlt] at h

theorem devInv_after_Free {w w1 : World} (inv : DevInv w) (v : VRFPtr)
    {order : List (VIFIndex × OutputDevice)} (h : Free w v order = some w1) : DevInv w1 := by
  have hreg := Free_registry w v w1 h
  unfold Free at h
  cases ho : w.vrfs[v]? with
  | none => simp [ho] at h
  | some o =>
    simp only [ho] at h
    cases hd : freeDevs w v order with
    | none => simp [hd] at h
    | some w0 =>
      simp only [hd] at h
      cases hr : o.router with
      | none => simp [hr] at h
      | some r =>
        cases ht : o.tap with
        | none => simp [hr, ht] at h
        | some t =>
          simp only [hr, ht] at h
          have inv0 := devInv_after_freeDevs v order w w0 inv hd
          have q : Quiet w0 (instFree (instFree (instDisconnect w0 r VswMatch.MatchIPv4DstSelf
              Param.nil) t) r) :=
            quiet_trans (instDisconnect_quiet w0 r _ _)
              (quiet_trans (instFree_quiet _ t) (instFree_quiet _ r))
          have inv1 := devInv_of_quiet inv0 q
          obtain ⟨h1, h2⟩ := freeRegistry_rest _ _ _ h
          obtain ⟨n, i, rd, _, _, _, h3⟩ := freeRegistry_registry _ _ _ h
          refine devInv_of_kept inv1 (freeRegistry_vrfs _ _ _ h) (by rw [h1])
            (by simp only [World.routing, h2]) ?_
          intro n1 p hn
          rw [h3] at hn
          simp only [mapGet_mapDelete] at hn
          split at hn
          · cases hn
          · exact hn

theorem findSlotLoop_cases (w : World) (vrf : VRFPtr) : ∀ (n i : Nat) (w1 : World) (b : Bool),
    findSlotLoop w vrf n i = some (w1, b) →
      (w1 = w ∧ b = false) ∨ (∃ k, w1 = takeSlot w vrf k ∧ b = true) := by
  intro n
  induction n with
  | zero =>
    intro i w1 b h
    simp only [findSlotLoop, Option.some.injEq, Prod.mk.injEq] at h
    exact Or.inl ⟨h.1.symm, h.2.symm⟩
  | succ n ih =>
    intro i w1 b h
    unfold findSlotLoop at h
    cases hb : w.vrfMgr.byIndex[i]? with
    | none => simp [hb] at h
    | some s =>
      cases s with
      | some p =>
        simp only [hb] at h
        exact ih _ _ _ h
      | none =>
        simp only [hb] at h
        cases hv : w.vrfs[vrf]? with
        | none => simp [hv] at h
        | some o =>
          simp only [hv, Option.some.injEq, Prod.mk.injEq] at h
          exact Or.inr ⟨i, h.1.symm, h.2.symm⟩

theorem assignIndex_cases (w : World) (vrf : VRFPtr) (w1 : World) (b : Bool)
    (h : assignIndex w vrf = some (w1, b)) :
    (w1 = w ∧ b = false) ∨ (∃ k, w1 = takeSlot w vrf k ∧ b = true) := by
  unfold assignIndex findSlot at h
  cases h1 : findSlotLoop w vrf (w.vrfMgr.byIndex.length - w.vrfMgr.nextIndex)
      w.vrfMgr.nextIndex with
  | none => simp [h1] at h
  | some res =>
    obtain ⟨wa, ba⟩ := res
    rcases findSlotLoop_cases w vrf _ _ wa ba h1 with ⟨hw, hb⟩ | ⟨k, hw, hb⟩
    · subst hw hb
      simp only [h1] at h
      exact findSlotLoop_cases _ vrf _ _ w1 b h
    · subst hb
      simp only [h1, Option.some.injEq, Prod.mk.injEq] at h
      exact Or.inr ⟨k, by rw [← h.1, hw], h.2.symm⟩

theorem newVRFBuild_effect (W : World) (vrf : VRFPtr) (name : String) (x : NewVRFExt)
    (w1 : World) (res : Result) (oW : VRF) (hW : W.vrfs[vrf]? = some oW)
    (h : newVRFBuild W vrf name x = some (w1, res)) :
    w1.vifs = W.vifs ∧ w1.vrfs.length = W.vrfs.length ∧
    (∀ u : Nat, u ≠ vrf → w1.vrfs[u]? = W.vrfs[u]?) ∧
    (∃ ext, w1.routing = W.routing ++ ext) ∧
    ∃ o1, w1.vrfs[vrf]? = some o1 ∧ (o1.devs = oW.devs ∨ o1.devs = []) ∧
      (o1.router = oW.router ∨
        ∃ r, o1.router = some r ∧ W.routing.length ≤ r ∧ r < w1.routing.length) ∧
      (w1.vrfMgr.byName = W.vrfMgr.byName ∨
        (w1.vrfMgr.byName = mapSet W.vrfMgr.byName name vrf ∧
          ∃ r t, o1.router = some r ∧ o1.tap = some t)) := by
  obtain ⟨xv, xt, xr, xc⟩ := x
  unfold newVRFBuild at h
  have hrel : ∀ (W1 W2 : World) (e : Err), newVRFError1 W1 vrf e = some (W2, res) →
      ∃ B, W2 = { W1 with vrfMgr := { W1.vrfMgr with byIndex := B } } := by
    intro W1 W2 e he
    obtain ⟨o, _, _, h3⟩ := releaseIndex_some _ _ _ (newVRFError1_some _ _ _ _ _ he).2
    exact ⟨_, h3⟩
  cases hal : allocVIFIndex W (OutputDevice.vrf vrf) xv with
  | mk w2 ov =>
    have hw2 : ∃ X, w2 = { W with vifIdxMgr := X } := by
      unfold allocVIFIndex at hal
      cases xv with
      | none =>
        simp only [Prod.mk.injEq] at hal
        exact ⟨W.vifIdxMgr, hal.1.symm⟩
      | some vi =>
        simp only at hal
        split at hal
        · simp only [Prod.mk.injEq] at hal
          exact ⟨W.vifIdxMgr, hal.1.symm⟩
        · simp only [Prod.mk.injEq] at hal
          exact ⟨_, hal.1.symm⟩
    obtain ⟨X, hX⟩ := hw2
    subst hX
    simp only [hal] at h
    cases ov with
    | none =>
      simp only at h
      obtain ⟨B, hB⟩ := hrel _ w1 Err.vifIndex (by unfold newVRFError1; exact h)
      subst hB
      refine ⟨rfl, rfl, fun _ _ => rfl, ⟨[], by simp [World.routing]⟩, oW, hW, Or.inl rfl,
        Or.inl rfl, Or.inl rfl⟩
    | some vi =>
      simp only at h
      cases xt <;> cases xr <;> cases xc <;>
        simp only [newInstance, instConnect, newVRFError2, newVRFError3, if_true, if_false,
          Bool.false_eq_true] at h
      all_goals first
        | (obtain ⟨B, hB⟩ := hrel _ _ _ h
           subst hB)
        | (simp only [Option.some.injEq, Prod.mk.injEq] at h
           obtain ⟨hw, _⟩ := h
           subst hw)
      all_goals refine ⟨rfl, by simp [length_updAt, instFree, notify],
        fun u hu => by simp only [instFree, notify, getElem?_updAt, if_neg (Ne.symm hu)], ?_, ?_⟩
      all_goals first
        | (refine ⟨[], ?_⟩
           simp [World.routing, instFree, notify, map_updAt_of_eq, Instance.routes]
           done)
        | (refine ⟨[([], [])], ?_⟩
           simp [World.routing, instFree, notify, map_updAt_of_eq, Instance.routes]
           done)
        | (refine ⟨[([], []), ([], [])], ?_⟩
           simp [World.routing, instFree, notify, map_updAt_of_eq, Instance.routes])
        | skip
      all_goals simp [getElem?_updAt, hW, instFree, notify, World.routing, length_updAt]

theorem grown_refl (w : World) : Grown w w := by
  refine ⟨rfl, fun _ _ => rfl, ?_, ⟨[], by simp⟩, fun _ _ h => Or.inl h⟩
  intro u o1 hu ho
  have := getElem?_some_lt ho
  omega

theorem NewVRF_grown (w : World) (name : String) (x : NewVRFExt) (w1 : World) (res : Result)
    (h : NewVRF w name x = some (w1, res)) : Grown w w1 := by
  unfold NewVRF at h
  by_cases hre : reMatchString name = true
  · by_cases hfresh : mapHas w.vrfMgr.byName name = true
    · simp only [hre, hfresh, Bool.not_true, Bool.false_eq_true, if_false, if_true,
        Option.some.injEq, Prod.mk.injEq] at h
      rw [← h.1]
      exact grown_refl w
    · simp only [hre, hfresh, Bool.not_true, Bool.false_eq_true, if_false] at h
      have hold : ∀ (g : VRF → VRF) (u : Nat), u < w.vrfs.length →
          (updAt (w.vrfs ++ [VRF.new name]) w.vrfs.length g)[u]? = w.vrfs[u]? := by
        intro g u hu
        rw [getElem?_updAt, if_neg (by omega), List.getElem?_append_left hu]
      cases ha : assignIndex { w with vrfs := w.vrfs ++ [VRF.new name] } w.vrfs.length with
      | none => simp [ha] at h
      | some res1 =>
        obtain ⟨wa, b⟩ := res1
        simp only [ha] at h
        rcases assignIndex_cases _ _ wa b ha with ⟨hw, hb⟩ | ⟨k, hw, hb⟩
        · subst hw hb
          simp only [Option.some.injEq, Prod.mk.injEq] at h
          rw [← h.1]
          refine ⟨rfl, fun u hu => List.getElem?_append_left hu, ?_,
            ⟨[], by simp [World.routing]⟩, fun _ _ h => Or.inl h⟩
          intro u o1 hu ho
          have hlt := getElem?_some_lt ho
          simp only [List.length_append, List.length_singleton] at hlt
          have hul : u = w.vrfs.length := by omega
          subst hul
          simp only [List.getElem?_concat_length, Option.some.injEq] at ho
          subst ho
          exact ⟨rfl, rfl, fun r hr => by simp [VRF.new] at hr⟩
        · subst hw hb
          simp only at h
          have hW : (takeSlot { w with vrfs := w.vrfs ++ [VRF.new name] } w.vrfs.length k).vrfs[
              w.vrfs.length]? = some { VRF.new name with index := k } := by
            simp [takeSlot, getElem?_updAt]
          obtain ⟨e1, e2, e3, e4, o1, e5, e6, e7, e8⟩ := newVRFBuild_effect _ _ name x w1 res _ hW h
          have hlen : w1.vrfs.length = w.vrfs.length + 1 := by
            rw [e2]
            simp [takeSlot, length_updAt]
          refine ⟨e1, ?_, ?_, e4, ?_⟩
          · intro u hu
            rw [e3 u (by omega)]
            exact hold _ u hu
          · intro u o2 hu ho
            have hlt := getElem?_some_lt ho
            have hul : u = w.vrfs.length := by omega
            subst hul
            rw [e5] at ho
            simp only [Option.some.injEq] at ho
            subst ho
            refine ⟨rfl, ?_, ?_⟩
            · rcases e6 with h6 | h6
              · rw [h6]
                rfl
              · exact h6
            · intro r hr
              rcases e7 with h7 | ⟨r1, h7, h8, h9⟩
              · rw [h7] at hr
                simp [VRF.new] at hr
              · rw [h7] at hr
                simp only [Option.some.injEq] at hr
                subst hr
                exact ⟨h8, h9⟩
          · intro n p hn
            rcases e8 with h8 | ⟨h8, r, t, h9, h10⟩
            · rw [h8] at hn
              exact Or.inl hn
            · rw [h8, mapGet_mapSet] at hn
              by_cases hnn : name = n
              · simp only [hnn, if_true, Option.some.injEq] at hn
                subst hn
                exact Or.inr ⟨o1, r, t, e5, h9, h10⟩
              · simp only [hnn, if_false] at hn
                exact Or.inl hn
  · simp only [hre, Bool.not_false, if_true, Option.some.injEq, Prod.mk.injEq] at h
    rw [← h.1]
    exact grown_refl w

theorem devInv_of_grown {w w1 : World} (inv : DevInv w) (g : Grown w w1) : DevInv w1 := by
  obtain ⟨ext, hext⟩ := g.routing
  have hrout : ∀ (r : Nat) (p : List VIFPtr × List OutputDevice), w.routing[r]? = some p →
      w1.routing[r]? = some p := by
    intro r p hp
    rw [hext, List.getElem?_append_left (getElem?_some_lt hp)]
    exact hp
  have hle : w.routing.length ≤ w1.routing.length := by
    rw [hext]
    simp
  have hcase : ∀ (u : Nat) (o1 : VRF), w1.vrfs[u]? = some o1 →
      w.vrfs[u]? = some o1 ∨ (u = w.vrfs.length ∧ o1.devs = [] ∧
        ∀ r, o1.router = some r → w.routing.length ≤ r ∧ r < w1.routing.length) := by
    intro u o1 ho
    by_cases hu : u < w.vrfs.length
    · rw [g.old u hu] at ho
      exact Or.inl ho
    · exact Or.inr (g.fresh u o1 (by omega) ho)
  refine ⟨?_, ?_, ?_, ?_, ?_, ?_⟩
  · intro n p hn
    rcases g.byName n p hn with h1 | h1
    · obtain ⟨o, r, t, h2, h3, h4⟩ := inv.handles n p h1
      exact ⟨o, r, t, by rw [g.old p (getElem?_some_lt h2)]; exact h2, h3, h4⟩
    · exact h1
  · intro u o1 k q ho hmem
    rcases hcase u o1 ho with h1 | ⟨_, h1, _⟩
    · rw [g.vifs]
      exact inv.keyed u o1 k q h1 hmem
    · rw [h1] at hmem
      cases hmem
  · intro u o1 k d ho hmem
    rcases hcase u o1 ho with h1 | ⟨_, h1, _⟩
    · obtain ⟨r, p, h2, h3, h4⟩ := inv.routed u o1 k d h1 hmem
      exact ⟨r, p, h2, hrout r p h3, h4⟩
    · rw [h1] at hmem
      cases hmem
  · intro u o1 r ho hr
    rcases hcase u o1 ho with h1 | ⟨_, _, h1⟩
    · exact Nat.lt_of_lt_of_le (inv.valid u o1 r h1 hr) hle
    · exact (h1 r hr).2
  · intro u v ou ov r hu hv h1 h2
    rcases hcase u ou hu with a | ⟨a1, _, a3⟩
    · rcases hcase v ov hv with b | ⟨b1, _, b3⟩
      · exact inv.own u v ou ov r a b h1 h2
      · exact absurd (inv.valid u ou r a h1) (Nat.not_lt.2 (b3 r h2).1)
    · rcases hcase v ov hv with b | ⟨b1, _, b3⟩
      · exact absurd (inv.valid v ov r b h2) (Nat.not_lt.2 (a3 r h1).1)
      · rw [a1, b1]
  · intro u o1 ho
    rcases hcase u o1 ho with h1 | ⟨_, h1, _⟩
    · exact inv.nodup u o1 h1
    · rw [h1]
      exact List.nodup_nil

theorem devInv_at_empty (M : Nat) (vifs : List VIF) : DevInv (World.empty M vifs) := by
  refine ⟨?_, ?_, ?_, ?_, ?_, ?_⟩
  · intro n v h
    simp [World.empty, vrfMgrInit, mapGet] at h
  · intro v o k q h
    simp [World.empty] at h
  · intro v o k d h
    simp [World.empty] at h
  · intro v o r h
    simp [World.empty] at h
  · intro u v ou ov r h
    simp [World.empty] at h
  · intro v o h
    simp [World.empty] at h

theorem devInv_after_registerNexthops (v : VRFPtr) (nhs : List Nexthop) :
    ∀ (w : World) (oks : List Bool) (w1 : World) (e : Option Err), DevInv w →
      registerNexthops w v nhs oks = some (w1, e) → DevInv w1 := by
  induction nhs with
  | nil =>
    intro w oks w1 e inv h
    simp only [registerNexthops, Option.some.injEq, Prod.mk.injEq] at h
    rw [← h.1]
    exact inv
  | cons nh nhs ih =>
    intro w oks w1 e inv h
    simp only [registerNexthops] at h
    cases hd : nh.Dev with
    | none => simp [hd] at h
    | some dev =>
      simp only [hd] at h
      cases hr : registerOutputDevice w v dev (oks.headD true) with
      | none => rw [hr] at h; simp at h
      | some res =>
        obtain ⟨w2, e2⟩ := res
        have hf := devInv_after_register inv v dev _ e2 hr
        cases e2 with
        | some e3 =>
          simp only [hr, Option.some.injEq, Prod.mk.injEq] at h
          rw [← h.1]
          exact hf
        | none =>
          simp only [hr] at h
          exact ih w2 _ w1 e hf h

theorem devInv_after_registerPBRNexthops (v : VRFPtr) (nhs : List Nexthop) :
    ∀ (w : World) (oks : List Bool) (w1 : World) (e : Option Err), DevInv w →
      registerPBRNexthops w v nhs oks = some (w1, e) → DevInv w1 := by
  induction nhs with
  | nil =>
    intro w oks w1 e inv h
    simp only [registerPBRNexthops, Option.some.injEq, Prod.mk.injEq] at h
    rw [← h.1]
    exact inv
  | cons nh nhs ih =>
    intro w oks w1 e inv h
    simp only [registerPBRNexthops] at h
    cases hd : nh.Dev with
    | none =>
      simp only [hd] at h
      exact ih w oks w1 e inv h
    | some dev =>
      simp only [hd] at h
      cases hr : registerOutputDevice w v dev (oks.headD true) with
      | none => rw [hr] at h; simp at h
      | some res =>
        obtain ⟨w2, e2⟩ := res
        have hf := devInv_after_register inv v dev _ e2 hr
        cases e2 with
        | some e3 =>
          simp only [hr, Option.some.injEq, Prod.mk.injEq] at h
          rw [← h.1]
          exact hf
        | none =>
          simp only [hr] at h
          exact ih w2 _ w1 e hf h

theorem devInv_after_routeEntryAdded {w w1 : World} (inv : DevInv w) (v : VRFPtr)
    (entry : Route) (oks : List Bool) (h : routeEntryAdded w v entry oks = some w1) :
    DevInv w1 := by
  unfold routeEntryAdded at h
  split at h
  · cases hd : entry.Dev with
    | none => simp [hd] at h
    | some dev =>
      simp only [hd] at h
      cases hr : registerOutputDevice w v dev (oks.headD true) with
      | none => rw [hr] at h; simp at h
      | some res =>
        obtain ⟨w2, e2⟩ := res
        have hf := devInv_after_register inv v dev _ e2 hr
        cases e2 with
        | some e3 =>
          simp only [hr, Option.some.injEq] at h
          rw [← h]
          exact hf
        | none =>
          simp only [hr, Option.some.injEq] at h
          rw [← h]
          exact devInv_of_quiet hf (notify_quiet _ _ _ _)
  · cases hr : registerNexthops w v entry.Nexthops oks with
    | none => rw [hr] at h; simp at h
    | some res =>
      obtain ⟨w2, e2⟩ := res
      have hf := devInv_after_registerNexthops v _ w oks w2 e2 inv hr
      cases e2 with
      | some e3 =>
        simp only [hr, Option.some.injEq] at h
        rw [← h]
        exact hf
      | none =>
        simp only [hr, Option.some.injEq] at h
        rw [← h]
        exact devInv_of_quiet hf (notify_quiet _ _ _ _)

theorem devInv_after_pbrEntryAdded {w w1 : World} (inv : DevInv w) (v : VRFPtr)
    (entry : PBREntry) (oks : List Bool) (h : pbrEntryAdded w v entry oks = some w1) :
    DevInv w1 := by
  unfold pbrEntryAdded at h
  cases hr : registerPBRNexthops w v entry.NextHops oks with
  | none => rw [hr] at h; simp at h
  | some res =>
    obtain ⟨w2, e2⟩ := res
    have hf := devInv_after_registerPBRNexthops v _ w oks w2 e2 inv hr
    cases e2 with
    | some e3 =>
      simp only [hr, Option.some.injEq] at h
      rw [← h]
      exact hf
    | none =>
      simp only [hr, Option.some.injEq] at h
      rw [← h]
      exact devInv_of_quiet hf (notify_quiet _ _ _ _)

theorem devInv_after_step {w w1 : World} (inv : DevInv w) (op : Op)
    (h : step w op = some w1) : DevInv w1 := by
  cases op with
  | newVRF name x =>
    simp only [Vsw.step, Option.map_eq_some'] at h
    obtain ⟨⟨w2, res⟩, h1, h2⟩ := h
    simp only at h2
    subst h2
    exact devInv_of_grown inv (NewVRF_grown w name x w2 res h1)
  | free v order =>
    simp only [Vsw.step] at h
    split at h
    · split at h
      · exact devInv_after_Free inv v h
      · simp at h
    · simp at h
  | setRD v rd =>
    simp only [Vsw.step] at h
    split at h
    · simp only [Option.map_eq_some'] at h
      obtain ⟨⟨w2, e⟩, h1, h2⟩ := h
      simp only at h2
      subst h2
      exact devInv_after_SetRD inv v rd e h1
    · simp at h
  | addVIF v vif x =>
    simp only [Vsw.step] at h
    split at h
    · simp only [Option.map_eq_some'] at h
      obtain ⟨⟨w2, e⟩, h1, h2⟩ := h
      simp only at h2
      subst h2
      exact devInv_after_AddVIF inv v vif x e h1
    · simp at h
  | deleteVIF v vif =>
    simp only [Vsw.step] at h
    split at h
    · simp only [Option.map_eq_some'] at h
      obtain ⟨⟨w2, e⟩, h1, h2⟩ := h
      simp only at h2
      subst h2
      exact devInv_after_DeleteVIF inv v vif e h1
    · simp at h
  | registerOutputDevice v dev ok =>
    simp only [Vsw.step] at h
    split at h
    · simp only [Option.map_eq_some'] at h
      obtain ⟨⟨w2, e⟩, h1, h2⟩ := h
      simp only at h2
      subst h2
      exact devInv_after_register inv v dev ok e h1
    · simp at h
  | routeEntryAdded v entry oks =>
    simp only [Vsw.step] at h
    split at h
    · exact devInv_after_routeEntryAdded inv v entry oks h
    · simp at h
  | routeEntryDeleted v entry =>
    simp only [Vsw.step] at h
    split at h
    · simp only [Option.some.injEq] at h
      rw [← h]
      exact devInv_of_quiet inv (notify_quiet _ _ _ _)
    · simp at h
  | pbrEntryAdded v entry oks =>
    simp only [Vsw.step] at h
    split at h
    · exact devInv_after_pbrEntryAdded inv v entry oks h
    · simp at h
  | pbrEntryDeleted v entry =>
    simp only [Vsw.step] at h
    split at h
    · simp only [Option.some.injEq] at h
      rw [← h]
      exact devInv_of_quiet inv (notify_quiet _ _ _ _)
    · simp at h

theorem devInv_after_run (ops : List Op) :
    ∀ {w w1 : World}, DevInv w → run w ops = some w1 → DevInv w1 := by
  induction ops with
  | nil =>
    intro w w1 inv h
    simp only [Vsw.run, Option.some.injEq] at h
    rw [← h]
    exact inv
  | cons op ops ih =>
    intro w w1 inv h
    simp only [Vsw.run] at h
    split at h
    · simp at h
    · rename_i w2 hs
      exact ih (devInv_after_step inv op hs) h

theorem devInv_of_reachable {M : Nat} {vifs : List VIF} {w : World}
    (h : Reachable M vifs w) : DevInv w := by
  obtain ⟨ops, hr⟩ := h
  exact devInv_after_run ops (devInv_at_empty M vifs) hr

theorem DeleteVIF_noti (w : World) (v : VRFPtr) (vif : VIFPtr) (w1 : World) (e : Option Err)
    (o : VRF) (f : VIF) (ho : w.vrfs[v]? = some o) (hf : w.vifs[vif]? = some f)
    (hm : mapHas o.devs f.index = true) (h : DeleteVIF w v vif = some (w1, e)) :
    w1.noti = w.noti ++ [⟨NotiKind.Delete, v, NotiDetail.vif vif⟩] := by
  unfold DeleteVIF at h
  rw [ho, hf] at h
  simp only [hm, Bool.not_true, Bool.false_eq_true, if_false] at h
  cases ht : o.tap with
  | none => simp [ht] at h
  | some t =>
    cases hr : o.router with
    | none => simp [ht, hr] at h
    | some r =>
      simp only [ht, hr, Option.some.injEq, Prod.mk.injEq] at h
      rw [← h.1]
      rfl

/-- The loop of `Free` calls `DeleteVIF` for every VIF entry of `devs`: each
call runs to its notification. -/
theorem freeDevs_noti (v : VRFPtr) (devs : List (VIFIndex × OutputDevice)) :
    ∀ (w w1 : World) (o : VRF), DevInv w → w.vrfs[v]? = some o → (devs.map Prod.fst).Nodup →
      (∀ e, e ∈ devs → e ∈ o.devs) → freeDevs w v devs = some w1 →
      w1.noti = w.noti ++ detachNotes v devs := by
  induction devs with
  | nil =>
    intro w w1 o _ _ _ _ h
    simp only [freeDevs, Option.some.injEq] at h
    rw [← h]
    simp [detachNotes]
  | cons e rest ih =>
    intro w w1 o inv ho hnd hsub h
    simp only [freeDevs] at h
    have he : e ∈ o.devs := hsub e (List.mem_cons_self _ _)
    have hm : mapHas o.devs e.1 = true := mapHas_of_mem _ _ he
    simp only [List.map_cons, List.nodup_cons] at hnd
    cases hstep : freeDev w v e.1 e.2 with
    | none => simp [hstep] at h
    | some w2 =>
      simp only [hstep] at h
      unfold freeDev at hstep
      rw [ho] at hstep
      simp only [hm, if_true] at hstep
      obtain ⟨k, d⟩ := e
      cases d with
      | vrf u =>
        simp only [Option.some.injEq] at hstep
        subst hstep
        rw [ih w w1 o inv ho hnd.2 (fun e1 h1 => hsub e1 (List.mem_cons_of_mem _ h1)) h]
        simp [detachNotes]
      | vif q =>
        simp only at hstep
        cases hd : DeleteVIF w v q with
        | none => simp [hd] at hstep
        | some res =>
          obtain ⟨w3, e3⟩ := res
          simp only [hd, Option.some.injEq] at hstep
          subst hstep
          obtain ⟨f, hf, hfk⟩ := inv.keyed v o k q ho he
          have hk : k = f.index := hfk.symm
          subst hk
          have hn := DeleteVIF_noti w v q w3 e3 o f ho hf hm hd
          obtain ⟨hv, _⟩ := DeleteVIF_vrfs w v q w3 e3 f hf hd
          have hv1 : w3.vrfs = updAt w.vrfs v
              (fun o1 => { o1 with devs := mapDelete o1.devs f.index }) := by
            rcases hv with hv | ⟨_, hv⟩
            · exact hv
            · have := hv o ho
              rw [hm] at this
              cases this
          have ho3 : w3.vrfs[v]? = some { o with devs := mapDelete o.devs f.index } := by
            rw [hv1]
            exact updAt_getElem?_self _ _ _ _ ho
          rw [ih w3 w1 _ (devInv_after_DeleteVIF inv v q e3 hd) ho3 hnd.2 ?_ h, hn]
          · simp [detachNotes]
          · intro e1 h1
            refine (mem_mapDelete _ _ _).2 ⟨hsub e1 (List.mem_cons_of_mem _ h1), ?_⟩
            intro hc
            exact hnd.1 (List.mem_map.2 ⟨e1, h1, hc⟩)

theorem freeRegistry_noti (w : World) (v : VRFPtr) (w1 : World)
    (h : freeRegistry w v = some w1) :
    w1.noti = w.noti ++ [⟨NotiKind.Delete, v, NotiDetail.nil⟩] := by
  unfold freeRegistry at h
  cases ho : w.vrfs[v]? with
  | none => simp [ho] at h
  | some o =>
    simp only [ho, releaseIndex] at h
    by_cases hlt : o.index < w.vrfMgr.byIndex.length
    · simp only [hlt, if_true, Option.some.injEq] at h
      rw [← h]
      by_cases hr : o.rd = 0 <;> by_cases hx : mapHas w.vifIdxMgr o.vifIndex = true <;>
        simp [hr, hx, notify, freeVIFIndex]
    · simp [hlt] at h

/-- The notifications of `Free`: one "delete" for each VIF entry of `devs`, sent
by the `DeleteVIF` call for that VIF in the order in which the range loop
visits the entries, and then the "delete" of the VRF. -/
theorem Free_noti {w w1 : World} (inv : DevInv w) (v : VRFPtr) (o : VRF)
    (order : List (VIFIndex × OutputDevice)) (hord : order.Perm o.devs)
    (ho : w.vrfs[v]? = some o) (h : Free w v order = some w1) :
    w1.noti = w.noti ++ detachNotes v order ++ [⟨NotiKind.Delete, v, NotiDetail.nil⟩] := by
  unfold Free at h
  rw [ho] at h
  simp only at h
  cases hd : freeDevs w v order with
  | none => simp [hd] at h
  | some w0 =>
    simp only [hd] at h
    cases hr : o.router with
    | none => simp [hr] at h
    | some r =>
      cases ht : o.tap with
      | none => simp [hr, ht] at h
      | some t =>
        simp only [hr, ht] at h
        rw [freeRegistry_noti _ _ _ h, ← freeDevs_noti v order w w0 o inv ho
          ((hord.map Prod.fst).nodup_iff.2 (inv.nodup v o ho)) (fun _ h => hord.mem_iff.1 h) hd]
        rfl

/-- C12: in every state reached from the empty registry, `Free` on a live VRF
`v` returns, whatever the order `order` in which its range loop visits the
entries of `v.devs`, and afterwards: no VIF is left in `v.devs`, and
`DeleteVIF` ran for every VIF that was in it (the notifications of `Free` are
the "delete" of each of these VIFs, in the order of the loop, and then the
"delete" of the VRF, so the "delete" of every VIF of `v.devs` is among them);
`GetVRFByName(v.name)` finds no VRF, the slot `v.index` of the index array is
free (so `GetVRFByIndex(v.index)` finds no VRF), and a non-zero `v.rd` is not
in `rds`; every other live VRF keeps its name, index and rd, is found under its
name and at its index as before, and its non-zero rd is in `rds` as before. -/
theorem Free_unregisters (M : Nat) (vifs : List VIF) (w : World) (v : VRFPtr)
    (hreach : Reachable M vifs w) (hlive : isLive w v = true) :
    ∃ o, w.vrfs[v]? = some o ∧
      ∀ (order : List (VIFIndex × OutputDevice)), order.Perm o.devs →
      ∃ w1 o1, Free w v order = some w1 ∧ w1.vrfs[v]? = some o1 ∧
      (∀ k q, (k, OutputDevice.vif q) ∉ o1.devs) ∧
      w1.noti = w.noti ++ detachNotes v order ++ [⟨NotiKind.Delete, v, NotiDetail.nil⟩] ∧
      (∀ k q, (k, OutputDevice.vif q) ∈ o.devs →
        (⟨NotiKind.Delete, v, NotiDetail.vif q⟩ : Notification) ∈ detachNotes v order) ∧
      GetVRFByName w1 o.name = none ∧ GetVRFByIndex w1 o.index = some none ∧
      (o.rd ≠ 0 → mapHas w1.vrfMgr.rds o.rd = false) ∧
      ∀ (u : VRFPtr) (ou : VRF), u ≠ v → isLive w u = true → w.vrfs[u]? = some ou →
        (w1.vrfs[u]?).map VRF.key = some ou.key ∧
        GetVRFByName w ou.name = some u ∧ GetVRFByName w1 ou.name = some u ∧
        GetVRFByIndex w ou.index = some (some u) ∧ GetVRFByIndex w1 ou.index = some (some u) ∧
        (ou.rd ≠ 0 → mapHas w.vrfMgr.rds ou.rd = true ∧ mapHas w1.vrfMgr.rds ou.rd = true) := by
  have inv := RegInv.of_reachable hreach
  have dinv := devInv_of_reachable hreach
  cases ho : w.vrfs[v]? with
  | none => simp [isLive, ho] at hlive
  | some o =>
    have hbn : mapGet w.vrfMgr.byName o.name = some v := by
      simpa [isLive, ho] using hlive
    obtain ⟨o2, r, t, h1, hr, ht⟩ := dinv.handles o.name v hbn
    rw [ho] at h1
    simp only [Option.some.injEq] at h1
    subst h1
    refine ⟨o, rfl, ?_⟩
    intro order hord
    obtain ⟨w1, o1, hF, ho1, hgone, hname, hidx, hrd, hothers⟩ :=
      Free_effects w v o r t inv hlive ho hr ht (fun k q hkq => dinv.keyed v o k q ho hkq)
        order hord
    refine ⟨w1, o1, hF, ho1, hgone, Free_noti dinv v o order hord ho hF, ?_, hname, hidx, hrd,
      hothers⟩
    intro k q hkq
    simp only [detachNotes, List.mem_filterMap]
    exact ⟨(k, OutputDevice.vif q), hord.mem_iff.2 hkq, rfl⟩

/-- In `freeWorld` the second VRF holds the first VRF and both VIFs in `devs` and
the route distinguisher 9, and the first VRF the route distinguisher 7; `Free`
on the second VRF, in any order of its loop, detaches both VIFs and
unregisters the VRF, and the first VRF stays as it was. -/
theorem Free_unregisters_witness :
    (Reachable 2 demoVIFs freeWorld ∧ isLive freeWorld 1 = true ∧
      (freeWorld.vrfs[1]?).map VRF.devs = some [(100, OutputDevice.vrf 0),
        (8, OutputDevice.vif 1), (7, OutputDevice.vif 0)]) ∧
    ∃ o, freeWorld.vrfs[1]? = some o ∧
      ∀ (order : List (VIFIndex × OutputDevice)), order.Perm o.devs →
      ∃ w1 o1, Free freeWorld 1 order = some w1 ∧ w1.vrfs[1]? = some o1 ∧
      (∀ k q, (k, OutputDevice.vif q) ∉ o1.devs) ∧
      w1.noti = freeWorld.noti ++ detachNotes 1 order ++
        [⟨NotiKind.Delete, 1, NotiDetail.nil⟩] ∧
      (∀ k q, (k, OutputDevice.vif q) ∈ o.devs →
        (⟨NotiKind.Delete, 1, NotiDetail.vif q⟩ : Notification) ∈ detachNotes 1 order) ∧
      GetVRFByName w1 o.name = none ∧ GetVRFByIndex w1 o.index = some none ∧
      (o.rd ≠ 0 → mapHas w1.vrfMgr.rds o.rd = false) ∧
      ∀ (u : VRFPtr) (ou : VRF), u ≠ 1 → isLive freeWorld u = true →
        freeWorld.vrfs[u]? = some ou →
        (w1.vrfs[u]?).map VRF.key = some ou.key ∧
        GetVRFByName freeWorld ou.name = some u ∧ GetVRFByName w1 ou.name = some u ∧
        GetVRFByIndex freeWorld ou.index = some (some u) ∧
        GetVRFByIndex w1 ou.index = some (some u) ∧
        (ou.rd ≠ 0 → mapHas freeWorld.vrfMgr.rds ou.rd = true ∧
          mapHas w1.vrfMgr.rds ou.rd = true) :=
  have h : Reachable 2 demoVIFs freeWorld := ⟨freeOps, by rfl⟩
  ⟨⟨h, by rfl, by rfl⟩, Free_unregisters 2 demoVIFs freeWorld 1 h (by rfl)⟩

theorem devInv_after_devStep {w w1 : World} (inv : DevInv w) (c : DevOp)
    (h : devStep w c = some w1) : DevInv w1 := by
  cases c with
  | AddVIF v vif x =>
    simp only [devStep, Option.map_eq_some'] at h
    obtain ⟨⟨w2, e⟩, h1, h2⟩ := h
    simp only at h2
    subst h2
    exact devInv_after_AddVIF inv v vif x e h1
  | DeleteVIF v vif =>
    simp only [devStep, Option.map_eq_some'] at h
    obtain ⟨⟨w2, e⟩, h1, h2⟩ := h
    simp only at h2
    subst h2
    exact devInv_after_DeleteVIF inv v vif e h1
  | registerOutputDevice v dev ok =>
    simp only [devStep, Option.map_eq_some'] at h
    obtain ⟨⟨w2, e⟩, h1, h2⟩ := h
    simp only at h2
    subst h2
    exact devInv_after_register inv v dev ok e h1

theorem devInv_after_devRun (cs : List DevOp) :
    ∀ {w w1 : World}, DevInv w → devRun w cs = some w1 → DevInv w1 := by
  induction cs with
  | nil =>
    intro w w1 inv h
    simp only [devRun, Option.some.injEq] at h
    rw [← h]
    exact inv
  | cons c cs ih =>
    intro w w1 inv h
    simp only [devRun] at h
    cases hs : devStep w c with
    | none => simp [hs] at h
    | some w2 =>
      simp only [hs] at h
      exact ih (devInv_after_devStep inv c hs) h

/-- C21: take any state reached from the empty registry and then any sequence
of `AddVIF`, `DeleteVIF` and `registerOutputDevice` calls on any VRF objects,
each with any outcome of its collaborator calls. In the state it leaves, every
device in `devs` of a VRF object is routed into the router of that object: the
object has its router, the router exists, a VIF is among the VIFs routed into
it (`router.addVIF` succeeded for it and `router.deleteVIF` was not called for
it since), and a VRF is among the output devices that a successful
`router.addOutputDevice` added. -/
theorem devs_routed_into_router (M : Nat) (vifs : List VIF) (w0 w : World) (calls : List DevOp)
    (v : VRFPtr) (o : VRF) (k : VIFIndex) (d : OutputDevice)
    (hreach : Reachable M vifs w0) (hrun : devRun w0 calls = some w)
    (ho : w.vrfs[v]? = some o) (hmem : (k, d) ∈ o.devs) :
    ∃ r m, o.router = some r ∧ w.insts[r]? = some m ∧
      (∀ q, d = OutputDevice.vif q → q ∈ m.vifs) ∧
      (∀ u, d = OutputDevice.vrf u → OutputDevice.vrf u ∈ m.outDevs) := by
  have inv := devInv_after_devRun calls (devInv_of_reachable hreach) hrun
  obtain ⟨r, p, h1, h2, h3⟩ := inv.routed v o k d ho hmem
  simp only [World.routing, List.getElem?_map] at h2
  cases hm : w.insts[r]? with
  | none => simp [hm] at h2
  | some m =>
    simp only [hm, Option.map_some', Option.some.injEq] at h2
    subst h2
    refine ⟨r, m, h1, hm, ?_, ?_⟩
    · intro q hq
      subst hq
      exact h3
    · intro u hu
      subst hu
      exact h3

/-- After `devCalls` on `pairWorld` the first VRF holds the first VIF and the
second VRF in `devs`; both are routed into its router, the module 1. -/
theorem devs_routed_into_router_witness :
    (Reachable 2 demoVIFs pairWorld ∧ devRun pairWorld devCalls = some devWorld ∧
      devWorld.vrfs[0]? = some (devWorld.vrfs.getD 0 (VRF.new "")) ∧
      (7, OutputDevice.vif 0) ∈ (devWorld.vrfs.getD 0 (VRF.new "")).devs) ∧
    ∃ r m, (devWorld.vrfs.getD 0 (VRF.new "")).router = some r ∧ devWorld.insts[r]? = some m ∧
      (∀ q, OutputDevice.vif 0 = OutputDevice.vif q → q ∈ m.vifs) ∧
      (∀ u, OutputDevice.vif 0 = OutputDevice.vrf u → OutputDevice.vrf u ∈ m.outDevs) :=
  have h : Reachable 2 demoVIFs pairWorld := ⟨pairOps, by rfl⟩
  ⟨⟨h, by rfl, by rfl, by decide⟩,
    devs_routed_into_router 2 demoVIFs pairWorld devWorld devCalls 0
      (devWorld.vrfs.getD 0 (VRF.new "")) 7 (OutputDevice.vif 0) h (by rfl) (by rfl) (by decide)⟩

theorem wires_getElem? (w : World) (i : Nat) :
    w.wires[i]? = (w.insts[i]?).map Instance.wires := by
  simp [World.wires]

/-- In a consistent state nothing that `AddVIF` is about to add for an unbound
VIF outside `v.devs` is present yet. -/
theorem fresh_of_wireInv {w : World} (inv : WireInv w) (v : VRFPtr) (vif : VIFPtr) (o : VRF)
    (f : VIF) (r t : InstPtr) (ho : w.vrfs[v]? = some o) (hf : w.vifs[vif]? = some f)
    (hnot : mapHas o.devs f.index = false) (hr : o.router = some r) (ht : o.tap = some t)
    (hunbound : f.vrf = none) : AddVIFFresh w r t vif f := by
  refine ⟨?_, ?_, inv.unbound vif f hf hunbound⟩
  · intro m hm hmem
    obtain ⟨f1, hf1, hd⟩ := inv.routedIn v o r m.wires vif ho hr
      (by rw [wires_getElem?, hm]; rfl) hmem
    rw [hf] at hf1
    simp only [Option.some.injEq] at hf1
    subst hf1
    have := mapHas_of_mem _ _ hd
    simp only at this
    rw [hnot] at this
    cases this
  · intro m hm rule hrule hk
    obtain ⟨f1, hf1, hd⟩ := inv.tapped v o t m.wires rule vif ho ht
      (by rw [wires_getElem?, hm]; rfl)
      (by simp only [Instance.wires, List.mem_filter]; exact ⟨hrule, by simp [hk.1]⟩) hk.2
    rw [hf] at hf1
    simp only [Option.some.injEq] at hf1
    subst hf1
    have := mapHas_of_mem _ _ hd
    simp only at this
    rw [hnot] at this
    cases this

/-- The consistency carries over when every VRF object keeps its router, its
tap and the VIF entries of `devs`, and the VIFs and the wires are kept. -/
theorem wireInv_of_kept {w w1 : World} (inv : WireInv w)
    (hobj : ∀ (u : VRFPtr) (o1 : VRF), w1.vrfs[u]? = some o1 → ∃ o, w.vrfs[u]? = some o ∧
      o1.router = o.router ∧ o1.tap = o.tap ∧
      ∀ k q, (k, OutputDevice.vif q) ∈ o.devs → (k, OutputDevice.vif q) ∈ o1.devs)
    (hvifs : w1.vifs = w.vifs) (hwires : w1.wires = w.wires) : WireInv w1 := by
  refine ⟨?_, ?_, ?_, ?_, ?_, ?_⟩
  · intro u o1 r p q ho hr hp hq
    obtain ⟨o, h1, h2, _, h4⟩ := hobj u o1 ho
    rw [hwires] at hp
    rw [h2] at hr
    obtain ⟨f, hf, hd⟩ := inv.routedIn u o r p q h1 hr hp hq
    exact ⟨f, by rw [hvifs]; exact hf, h4 _ _ hd⟩
  · intro u o1 t p rule q ho ht hp hrule hq
    obtain ⟨o, h1, _, h3, h4⟩ := hobj u o1 ho
    rw [hwires] at hp
    rw [h3] at ht
    obtain ⟨f, hf, hd⟩ := inv.tapped u o t p rule q h1 ht hp hrule hq
    exact ⟨f, by rw [hvifs]; exact hf, h4 _ _ hd⟩
  · intro q f hf
    rw [hvifs] at hf
    exact inv.unbound q f hf
  · intro u v ou ov t hu hv htu htv
    obtain ⟨o, h1, _, h3, _⟩ := hobj u ou hu
    obtain ⟨o', h1', _, h3', _⟩ := hobj v ov hv
    rw [h3] at htu
    rw [h3'] at htv
    exact inv.tapOwn u v o o' t h1 h1' htu htv
  · intro v o1 t ho ht
    obtain ⟨o, h1, _, h3, _⟩ := hobj v o1 ho
    rw [h3] at ht
    rw [hwires]
    exact inv.tapValid v o t h1 ht
  · intro p q f g hp hq
    rw [hvifs] at hp hq
    exact inv.distinct p q f g hp hq

/-- The consistency carries over when the VRF objects keep `devs`, router and
tap, and the VIFs and the wires are kept. -/
theorem wireInv_of_wiring {w w1 : World} (inv : WireInv w)
    (hvrfs : w1.vrfs.map VRF.wiring = w.vrfs.map VRF.wiring)
    (hvifs : w1.vifs = w.vifs) (hwires : w1.wires = w.wires) : WireInv w1 := by
  refine wireInv_of_kept inv ?_ hvifs hwires
  intro u o1 ho
  obtain ⟨o, h1, h2, h3, h4⟩ := wiring_back hvrfs u o1 ho
  exact ⟨o, h1, h3.symm, h4.symm, fun k q hm => by rw [← h2]; exact hm⟩

theorem wires_kind {w : World} {i : Nat} {p : List VIFPtr × List Rule} {rule : Rule}
    (hp : w.wires[i]? = some p) (hrule : rule ∈ p.2) : rule.kind = VswMatch.MatchOutVIF := by
  rw [wires_getElem?] at hp
  cases hm : w.insts[i]? with
  | none => simp [hm] at hp
  | some m =>
    simp only [hm, Option.map_some', Option.some.injEq] at hp
    subst hp
    simp only [Instance.wires, List.mem_filter, decide_eq_true_eq] at hrule
    exact hrule.2

theorem wires_length (w : World) : w.wires.length = w.insts.length := by
  simp [World.wires]

theorem wires_addVIF (l : List Instance) (r : InstPtr) (vif : VIFPtr) :
    (updAt l r (fun m => { m with vifs := m.vifs ++ [vif] })).map Instance.wires =
      updAt (l.map Instance.wires) r (fun p => (p.1 ++ [vif], p.2)) := by
  apply map_updAt_comm
  intro a
  rfl

theorem wires_deleteVIF (l : List Instance) (r : InstPtr) (vif : VIFPtr) :
    (updAt l r (fun m => { m with vifs := m.vifs.filter (fun p => p ≠ vif) })).map
        Instance.wires =
      updAt (l.map Instance.wires) r (fun p => (p.1.filter (fun p => p ≠ vif), p.2)) := by
  apply map_updAt_comm
  intro a
  rfl

theorem wires_connect (l : List Instance) (t : InstPtr) (prm : Param) (ring : Ring) :
    (updAt l t (fun m => { m with rules := m.rules ++
        [Rule.mk VswMatch.MatchOutVIF prm ring] })).map Instance.wires =
      updAt (l.map Instance.wires) t
        (fun p => (p.1, p.2 ++ [Rule.mk VswMatch.MatchOutVIF prm ring])) := by
  apply map_updAt_comm
  intro a
  simp [Instance.wires, List.filter_append]

theorem wires_disconnect (l : List Instance) (t : InstPtr) (k : VswMatch) (prm : Param) :
    (updAt l t (fun m =>
      { m with rules := m.rules.filter (fun x => !(x.kind = k ∧ x.param = prm)) })).map
        Instance.wires =
      updAt (l.map Instance.wires) t
        (fun p => (p.1, p.2.filter (fun x => !(x.kind = k ∧ x.param = prm)))) := by
  apply map_updAt_comm
  intro a
  simp only [Instance.wires, List.filter_filter, Prod.mk.injEq, true_and]
  congr 1
  funext x
  exact Bool.and_comm _ _

theorem wires_napt (l : List Instance) (r : InstPtr) (vif : VIFPtr) :
    (updAt l r (fun m => { m with napt := m.napt ++ [vif] })).map Instance.wires =
      l.map Instance.wires := by
  apply map_updAt_of_eq
  intro a
  rfl

theorem wires_free (l : List Instance) (r : InstPtr) :
    (updAt l r (fun m => { m with freed := true })).map Instance.wires =
      l.map Instance.wires := by
  apply map_updAt_of_eq
  intro a
  rfl

theorem wires_outDev (l : List Instance) (r : InstPtr) (dev : OutputDevice) :
    (updAt l r (fun m => { m with outDevs := m.outDevs ++ [dev] })).map Instance.wires =
      l.map Instance.wires := by
  apply map_updAt_of_eq
  intro a
  rfl

/-- A disconnect of a match kind other than output-VIF leaves the wires. -/
theorem wires_disconnect_other (l : List Instance) (t : InstPtr) (k : VswMatch) (prm : Param)
    (hk : k ≠ VswMatch.MatchOutVIF) :
    (updAt l t (fun m =>
      { m with rules := m.rules.filter (fun x => !(x.kind = k ∧ x.param = prm)) })).map
        Instance.wires =
      l.map Instance.wires := by
  apply map_updAt_of_eq
  intro a
  simp only [Instance.wires, List.filter_filter, Prod.mk.injEq, true_and]
  apply List.filter_congr
  intro x _
  by_cases hx : x.kind = VswMatch.MatchOutVIF
  · have : ¬ VswMatch.MatchOutVIF = k := fun h => hk h.symm
    simp [hx, this]
  · simp [hx]

/-- What a `DeleteVIF` that finds the index of the VIF in `devs` leaves. -/
theorem DeleteVIF_wires (w : World) (v : VRFPtr) (vif : VIFPtr) (w1 : World) (e : Option Err)
    (o : VRF) (f : VIF) (ho : w.vrfs[v]? = some o) (hf : w.vifs[vif]? = some f)
    (hm : mapHas o.devs f.index = true) (h : DeleteVIF w v vif = some (w1, e)) :
    ∃ r t, o.router = some r ∧ o.tap = some t ∧
      w1.vrfs = updAt w.vrfs v (fun o1 => { o1 with devs := mapDelete o1.devs f.index }) ∧
      w1.wires = updAt (updAt w.wires t (fun p => (p.1, p.2.filter
        (fun x => !(x.kind = VswMatch.MatchOutVIF ∧ x.param = Param.vif vif)))))
        r (fun p => (p.1.filter (fun p => p ≠ vif), p.2)) ∧
      w1.vifs = updAt w.vifs vif (fun g => { g with vrf := none, rules := dropEth g.rules }) := by
  unfold DeleteVIF at h
  rw [ho, hf] at h
  simp only [hm, Bool.not_true, Bool.false_eq_true, if_false] at h
  cases ht : o.tap with
  | none => simp [ht] at h
  | some t =>
    cases hr : o.router with
    | none => simp [ht, hr] at h
    | some r =>
      simp only [ht, hr, Option.some.injEq, Prod.mk.injEq] at h
      obtain ⟨h1, _⟩ := h
      subst h1
      refine ⟨r, t, rfl, rfl, rfl, ?_, ?_⟩
      · simp only [World.wires, notify, routerDeleteVIF, vifSetVRF, vifDisconnect,
          instDisconnect]
        rw [wires_deleteVIF, wires_disconnect]
      · simp only [notify, routerDeleteVIF, vifSetVRF, vifDisconnect, instDisconnect,
          updAt_updAt, dropEth]

theorem dropEth_clean (rules : List Rule) (rule : Rule) (h : rule ∈ dropEth rules)
    (hp : rule.param = Param.nil) :
    rule.kind ≠ VswMatch.MatchEthDstSelf ∧ rule.kind ≠ VswMatch.MatchEthDstBC ∧
      rule.kind ≠ VswMatch.MatchEthDstMC := by
  simp only [dropEth, List.mem_filter, Bool.not_eq_true', decide_eq_false_iff_not, not_and] at h
  obtain ⟨⟨⟨_, h1⟩, h2⟩, h3⟩ := h
  exact ⟨fun hk => h1 hk hp, fun hk => h2 hk hp, fun hk => h3 hk hp⟩

theorem wireInv_after_DeleteVIF {w w1 : World} (inv : WireInv w) (v : VRFPtr) (vif : VIFPtr)
    (e : Option Err) (h : DeleteVIF w v vif = some (w1, e)) : WireInv w1 := by
  cases ho : w.vrfs[v]? with
  | none => simp [DeleteVIF, ho] at h
  | some o =>
    cases hf : w.vifs[vif]? with
    | none => simp [DeleteVIF, ho, hf] at h
    | some f =>
      cases hm : mapHas o.devs f.index with
      | false =>
        have hw : w1 = w := by
          unfold DeleteVIF at h
          rw [ho, hf] at h
          simp only [hm, Bool.not_false, if_true, Option.some.injEq, Prod.mk.injEq] at h
          exact h.1.symm
        rw [hw]
        exact inv
      | true =>
        obtain ⟨r, t, hr, ht, hV, hW, hF⟩ := DeleteVIF_wires w v vif w1 e o f ho hf hm h
        have hobj : ∀ (u : Nat) (o1 : VRF), w1.vrfs[u]? = some o1 → ∃ ou, w.vrfs[u]? = some ou ∧
            o1.router = ou.router ∧ o1.tap = ou.tap ∧ (u ≠ v → o1.devs = ou.devs) ∧
            (u = v → o1.devs = mapDelete ou.devs f.index) := by
          intro u o1 h1
          rw [hV, getElem?_updAt] at h1
          cases hu : w.vrfs[u]? with
          | none => simp [hu] at h1
          | some ou =>
            by_cases hvu : v = u
            · simp only [hvu, hu, if_true, Option.map_some', Option.some.injEq] at h1
              subst h1
              exact ⟨ou, rfl, rfl, rfl, fun hne => absurd hvu.symm hne, fun _ => rfl⟩
            · simp only [hvu, hu, if_false, Option.some.injEq] at h1
              subst h1
              exact ⟨ou, rfl, rfl, rfl, fun _ => rfl, fun he => absurd he.symm hvu⟩
        have hw : ∀ (i : Nat) (p1 : List VIFPtr × List Rule), w1.wires[i]? = some p1 →
            ∃ p, w.wires[i]? = some p ∧ (∀ q, q ∈ p1.1 → q ∈ p.1 ∧ (i = r → q ≠ vif)) ∧
              (∀ rule, rule ∈ p1.2 → rule ∈ p.2 ∧
                (i = t → ¬ (rule.kind = VswMatch.MatchOutVIF ∧ rule.param = Param.vif vif))) := by
          intro i p1 hp
          rw [hW] at hp
          simp only [getElem?_updAt] at hp
          cases hpi : w.wires[i]? with
          | none => by_cases h1 : r = i <;> by_cases h2 : t = i <;> simp [hpi, h1, h2] at hp
          | some p =>
            refine ⟨p, rfl, ?_, ?_⟩
            · by_cases h1 : r = i <;> by_cases h2 : t = i <;>
                simp only [hpi, h1, h2, if_true, if_false, Option.map_some',
                  Option.some.injEq] at hp <;> subst hp <;> intro q hq
              · simp only [List.mem_filter, decide_eq_true_eq] at hq
                exact ⟨hq.1, fun _ => hq.2⟩
              · simp only [List.mem_filter, decide_eq_true_eq] at hq
                exact ⟨hq.1, fun _ => hq.2⟩
              · exact ⟨hq, fun hc => absurd hc.symm h1⟩
              · exact ⟨hq, fun hc => absurd hc.symm h1⟩
            · by_cases h1 : r = i <;> by_cases h2 : t = i <;>
                simp only [hpi, h1, h2, if_true, if_false, Option.map_some',
                  Option.some.injEq] at hp <;> subst hp <;> intro rule hq
              · simp only [List.mem_filter, Bool.not_eq_true', decide_eq_false_iff_not] at hq
                exact ⟨hq.1, fun _ => hq.2⟩
              · exact ⟨hq, fun hc => absurd hc.symm h2⟩
              · simp only [List.mem_filter, Bool.not_eq_true', decide_eq_false_iff_not] at hq
                exact ⟨hq.1, fun _ => hq.2⟩
              · exact ⟨hq, fun hc => absurd hc.symm h2⟩
        have hvf : ∀ (q : Nat) (f1 : VIF), w1.vifs[q]? = some f1 → ∃ g, w.vifs[q]? = some g ∧
            f1.index = g.index ∧ (q ≠ vif → f1 = g) ∧ (q = vif → f1.rules = dropEth g.rules) := by
          intro q f1 h1
          rw [hF, getElem?_updAt] at h1
          cases hq : w.vifs[q]? with
          | none => simp [hq] at h1
          | some g =>
            by_cases hvq : vif = q
            · simp only [hvq, hq, if_true, Option.map_some', Option.some.injEq] at h1
              subst h1
              exact ⟨g, rfl, rfl, fun hne => absurd hvq.symm hne, fun _ => rfl⟩
            · simp only [hvq, hq, if_false, Option.some.injEq] at h1
              subst h1
              exact ⟨g, rfl, rfl, fun _ => rfl, fun he => absurd he.symm hvq⟩
        have hvb : ∀ (q : Nat) (g : VIF), w.vifs[q]? = some g → ∃ f1, w1.vifs[q]? = some f1 ∧
            f1.index = g.index := by
          intro q g hq
          rw [hF, getElem?_updAt, hq]
          by_cases hvq : vif = q
          · simp only [hvq, if_true, Option.map_some']
            exact ⟨_, rfl, rfl⟩
          · simp only [hvq, if_false]
            exact ⟨_, rfl, rfl⟩
        have hkeep : ∀ (u : Nat) (o1 ou : VRF) (q : Nat) (g : VIF), w1.vrfs[u]? = some o1 →
            w.vrfs[u]? = some ou → w.vifs[q]? = some g → (u = v → q ≠ vif) →
            (g.index, OutputDevice.vif q) ∈ ou.devs →
            ∃ f1, w1.vifs[q]? = some f1 ∧ (f1.index, OutputDevice.vif q) ∈ o1.devs := by
          intro u o1 ou q g h1 h2 hq hne hmem
          obtain ⟨f1, hf1, hidx⟩ := hvb q g hq
          refine ⟨f1, hf1, ?_⟩
          obtain ⟨ou1, h3, _, _, h5, h6⟩ := hobj u o1 h1
          rw [h2] at h3
          simp only [Option.some.injEq] at h3
          subst h3
          rw [hidx]
          by_cases huv : u = v
          · rw [h6 huv]
            refine (mem_mapDelete _ _ _).2 ⟨hmem, ?_⟩
            intro hc
            exact hne huv (inv.distinct q vif g f hq hf hc)
          · rw [h5 huv]
            exact hmem
        refine ⟨?_, ?_, ?_, ?_, ?_, ?_⟩
        · intro u o1 r1 p1 q h1 hr1 hp hq
          obtain ⟨ou, h2, h3, _, _, _⟩ := hobj u o1 h1
          obtain ⟨p, hp0, hp1, _⟩ := hw r1 p1 hp
          rw [h3] at hr1
          obtain ⟨g, hg, hmem⟩ := inv.routedIn u ou r1 p q h2 hr1 hp0 (hp1 q hq).1
          refine hkeep u o1 ou q g h1 h2 hg ?_ hmem
          intro huv
          subst huv
          rw [ho] at h2
          simp only [Option.some.injEq] at h2
          subst h2
          rw [hr] at hr1
          simp only [Option.some.injEq] at hr1
          exact (hp1 q hq).2 hr1.symm
        · intro u o1 t1 p1 rule q h1 ht1 hp hrule hprm
          obtain ⟨ou, h2, _, h3, _, _⟩ := hobj u o1 h1
          obtain ⟨p, hp0, _, hp2⟩ := hw t1 p1 hp
          rw [h3] at ht1
          obtain ⟨g, hg, hmem⟩ := inv.tapped u ou t1 p rule q h2 ht1 hp0 (hp2 rule hrule).1 hprm
          refine hkeep u o1 ou q g h1 h2 hg ?_ hmem
          intro huv hqv
          subst huv
          rw [ho] at h2
          simp only [Option.some.injEq] at h2
          subst h2
          rw [ht] at ht1
          simp only [Option.some.injEq] at ht1
          exact (hp2 rule hrule).2 ht1.symm ⟨wires_kind hp0 (hp2 rule hrule).1, by rw [hprm, hqv]⟩
        · intro q f1 h1 hub rule hrule hprm
          obtain ⟨g, hg, _, h3, h4⟩ := hvf q f1 h1
          by_cases hq : q = vif
          · rw [h4 hq] at hrule
            exact dropEth_clean _ _ hrule hprm
          · rw [h3 hq] at hrule hub
            exact inv.unbound q g hg hub rule hrule hprm
        · intro u1 u2 o1 o2 t1 h1 h2 ht1 ht2
          obtain ⟨ou1, h3, _, h4, _, _⟩ := hobj u1 o1 h1
          obtain ⟨ou2, h5, _, h6, _, _⟩ := hobj u2 o2 h2
          rw [h4] at ht1
          rw [h6] at ht2
          exact inv.tapOwn u1 u2 ou1 ou2 t1 h3 h5 ht1 ht2
        · intro u o1 t1 h1 ht1
          obtain ⟨ou, h2, _, h3, _, _⟩ := hobj u o1 h1
          rw [h3] at ht1
          rw [hW, length_updAt, length_updAt]
          exact inv.tapValid u ou t1 h2 ht1
        · intro p q f1 g1 hp hq hidx
          obtain ⟨g, hg, h3, _, _⟩ := hvf p f1 hp
          obtain ⟨g', hg', h3', _, _⟩ := hvf q g1 hq
          exact inv.distinct p q g g' hg hg' (by rw [← h3, ← h3', hidx])

theorem wireInv_after_SetRD {w w1 : World} (inv : WireInv w) (v : VRFPtr) (rd : Nat)
    (e : Option Err) (h : SetRD w v rd = some (w1, e)) : WireInv w1 := by
  unfold SetRD at h
  cases ho : w.vrfs[v]? with
  | none => simp [ho] at h
  | some o =>
    simp only [ho] at h
    by_cases hm : mapHas w.vrfMgr.rds rd = true
    · simp only [hm, if_true, Option.some.injEq, Prod.mk.injEq] at h
      rw [← h.1]
      exact inv
    · simp only [hm, Bool.false_eq_true, if_false, Option.some.injEq, Prod.mk.injEq] at h
      rw [← h.1]
      by_cases hz : o.rd = 0
      · simp only [hz, ne_eq, not_true_eq_false, if_false]
        refine wireInv_of_wiring inv ?_ rfl rfl
        apply map_updAt_of_eq
        intro a
        rfl
      · simp only [hz, ne_eq, not_false_eq_true, if_true]
        refine wireInv_of_wiring inv ?_ rfl rfl
        apply map_updAt_of_eq
        intro a
        rfl

theorem wireInv_after_notify {w : World} (inv : WireInv w) (kind : NotiKind) (v : VRFPtr)
    (detail : NotiDetail) : WireInv (notify w kind v detail) :=
  wireInv_of_wiring inv rfl rfl rfl

theorem wireInv_after_freeDev {w w1 : World} (inv : WireInv w) (v : VRFPtr) (k : VIFIndex)
    (dev : OutputDevice) (h : freeDev w v k dev = some w1) : WireInv w1 := by
  unfold freeDev at h
  cases ho : w.vrfs[v]? with
  | none => simp [ho] at h
  | some o =>
    simp only [ho] at h
    cases hm : mapHas o.devs k with
    | false =>
      simp only [hm, Bool.false_eq_true, if_false, Option.some.injEq] at h
      rw [← h]
      exact inv
    | true =>
      simp only [hm, if_true] at h
      cases dev with
      | vrf p =>
        simp only [Option.some.injEq] at h
        rw [← h]
        exact inv
      | vif p =>
        simp only at h
        cases hd : DeleteVIF w v p with
        | none => simp [hd] at h
        | some res =>
          obtain ⟨w2, e⟩ := res
          simp only [hd, Option.some.injEq] at h
          subst h
          exact wireInv_after_DeleteVIF inv v p e hd

theorem wireInv_after_freeDevs (v : VRFPtr) (devs : List (VIFIndex × OutputDevice)) :
    ∀ (w w1 : World), WireInv w → freeDevs w v devs = some w1 → WireInv w1 := by
  induction devs with
  | nil =>
    intro w w1 inv h
    simp only [freeDevs, Option.some.injEq] at h
    rw [← h]
    exact inv
  | cons e rest ih =>
    intro w w1 inv h
    simp only [freeDevs] at h
    cases hstep : freeDev w v e.1 e.2 with
    | none => simp [hstep] at h
    | some w2 =>
      simp only [hstep] at h
      exact ih w2 w1 (wireInv_after_freeDev inv v e.1 e.2 hstep) h

theorem wireInv_after_Free {w w1 : World} (inv : WireInv w) (v : VRFPtr)
    {order : List (VIFIndex × OutputDevice)} (h : Free w v order = some w1) : WireInv w1 := by
  unfold Free at h
  cases ho : w.vrfs[v]? with
  | none => simp [ho] at h
  | some o =>
    simp only [ho] at h
    cases hd : freeDevs w v order with
    | none => simp [hd] at h
    | some w0 =>
      simp only [hd] at h
      cases hr : o.router with
      | none => simp [hr] at h
      | some r =>
        cases ht : o.tap with
        | none => simp [hr, ht] at h
        | some t =>
          simp only [hr, ht] at h
          have inv0 := wireInv_after_freeDevs v order w w0 inv hd
          obtain ⟨h1, h2⟩ := freeRegistry_rest _ _ _ h
          refine wireInv_of_wiring inv0 ?_ (by rw [h1]; rfl) ?_
          · rw [freeRegistry_vrfs _ _ _ h]
            rfl
          · simp only [World.wires, h2, instFree, instDisconnect]
            rw [wires_free, wires_free, wires_disconnect_other _ _ _ _ (by decide)]

/-- What a call of `registerOutputDevice` leaves. -/
theorem registerOutputDevice_wires (w : World) (v : VRFPtr) (dev : OutputDevice) (ok : Bool)
    (w1 : World) (e : Option Err) (o : VRF) (ho : w.vrfs[v]? = some o)
    (h : registerOutputDevice w v dev ok = some (w1, e)) :
    w1 = w ∨ ∃ idx, mapHas o.devs idx = false ∧ w1.vifs = w.vifs ∧ w1.wires = w.wires ∧
      w1.vrfs = updAt w.vrfs v (fun o1 => { o1 with devs := mapSet o1.devs idx dev }) := by
  unfold registerOutputDevice at h
  cases hi : dev.VIFIndex w with
  | none => simp [ho, hi] at h
  | some idx =>
    simp only [ho, hi] at h
    cases hm : mapHas o.devs idx with
    | true =>
      simp only [hm, if_true, Option.some.injEq, Prod.mk.injEq] at h
      exact Or.inl h.1.symm
    | false =>
      simp only [hm, Bool.false_eq_true, if_false] at h
      cases dev with
      | vif p =>
        simp only [Option.some.injEq, Prod.mk.injEq] at h
        exact Or.inl h.1.symm
      | vrf q =>
        simp only at h
        cases hr : o.router with
        | none => simp [hr] at h
        | some r =>
          simp only [hr] at h
          cases ok with
          | false =>
            simp only [routerAddOutputDevice, Bool.false_eq_true, if_false, Option.some.injEq,
              Prod.mk.injEq] at h
            exact Or.inl h.1.symm
          | true =>
            simp only [routerAddOutputDevice, if_true, Option.some.injEq, Prod.mk.injEq] at h
            obtain ⟨h1, _⟩ := h
            subst h1
            refine Or.inr ⟨idx, hm, rfl, ?_, rfl⟩
            simp only [World.wires]
            rw [wires_outDev]

theorem wireInv_after_register {w w1 : World} (inv : WireInv w) (v : VRFPtr)
    (dev : OutputDevice) (ok : Bool) (e : Option Err)
    (h : registerOutputDevice w v dev ok = some (w1, e)) : WireInv w1 := by
  cases ho : w.vrfs[v]? with
  | none => simp [registerOutputDevice, ho] at h
  | some o =>
    rcases registerOutputDevice_wires w v dev ok w1 e o ho h with h1 | ⟨idx, hm, h2, h3, h4⟩
    · rw [h1]
      exact inv
    · refine wireInv_of_kept inv ?_ h2 h3
      intro u o1 h1
      rw [h4, getElem?_updAt] at h1
      cases hu : w.vrfs[u]? with
      | none => simp [hu] at h1
      | some ou =>
        by_cases hvu : v = u
        · simp only [hvu, hu, if_true, Option.map_some', Option.some.injEq] at h1
          subst h1
          refine ⟨ou, rfl, rfl, rfl, ?_⟩
          intro k q hmem
          subst hvu
          rw [ho] at hu
          simp only [Option.some.injEq] at hu
          subst hu
          simp only [mapSet, List.mem_cons]
          refine Or.inr ((mem_mapDelete _ _ _).2 ⟨hmem, ?_⟩)
          intro hc
          have := mapHas_of_mem _ _ hmem
          simp only at hc this
          rw [hc, hm] at this
          cases this
        · simp only [hvu, hu, if_false, Option.some.injEq] at h1
          subst h1
          exact ⟨ou, rfl, rfl, rfl, fun _ _ hmem => hmem⟩

theorem wireInv_after_registerNexthops (v : VRFPtr) (nhs : List Nexthop) :
    ∀ (w : World) (oks : List Bool) (w1 : World) (e : Option Err), WireInv w →
      registerNexthops w v nhs oks = some (w1, e) → WireInv w1 := by
  induction nhs with
  | nil =>
    intro w oks w1 e inv h
    simp only [registerNexthops, Option.some.injEq, Prod.mk.injEq] at h
    rw [← h.1]
    exact inv
  | cons nh nhs ih =>
    intro w oks w1 e inv h
    simp only [registerNexthops] at h
    cases hd : nh.Dev with
    | none => simp [hd] at h
    | some dev =>
      simp only [hd] at h
      cases hr : registerOutputDevice w v dev (oks.headD true) with
      | none => rw [hr] at h; simp at h
      | some res =>
        obtain ⟨w2, e2⟩ := res
        have hf := wireInv_after_register inv v dev _ e2 hr
        cases e2 with
        | some e3 =>
          simp only [hr, Option.some.injEq, Prod.mk.injEq] at h
          rw [← h.1]
          exact hf
        | none =>
          simp only [hr] at h
          exact ih w2 _ w1 e hf h

theorem wireInv_after_registerPBRNexthops (v : VRFPtr) (nhs : List Nexthop) :
    ∀ (w : World) (oks : List Bool) (w1 : World) (e : Option Err), WireInv w →
      registerPBRNexthops w v nhs oks = some (w1, e) → WireInv w1 := by
  induction nhs with
  | nil =>
    intro w oks w1 e inv h
    simp only [registerPBRNexthops, Option.some.injEq, Prod.mk.injEq] at h
    rw [← h.1]
    exact inv
  | cons nh nhs ih =>
    intro w oks w1 e inv h
    simp only [registerPBRNexthops] at h
    cases hd : nh.Dev with
    | none =>
      simp only [hd] at h
      exact ih w oks w1 e inv h
    | some dev =>
      simp only [hd] at h
      cases hr : registerOutputDevice w v dev (oks.headD true) with
      | none => rw [hr] at h; simp at h
      | some res =>
        obtain ⟨w2, e2⟩ := res
        have hf := wireInv_after_register inv v dev _ e2 hr
        cases e2 with
        | some e3 =>
          simp only [hr, Option.some.injEq, Prod.mk.injEq] at h
          rw [← h.1]
          exact hf
        | none =>
          simp only [hr] at h
          exact ih w2 _ w1 e hf h

theorem wireInv_after_routeEntryAdded {w w1 : World} (inv : WireInv w) (v : VRFPtr)
    (entry : Route) (oks : List Bool) (h : routeEntryAdded w v entry oks = some w1) :
    WireInv w1 := by
  unfold routeEntryAdded at h
  split at h
  · cases hd : entry.Dev with
    | none => simp [hd] at h
    | some dev =>
      simp only [hd] at h
      cases hr : registerOutputDevice w v dev (oks.headD true) with
      | none => rw [hr] at h; simp at h
      | some res =>
        obtain ⟨w2, e2⟩ := res
        have hf := wireInv_after_register inv v dev _ e2 hr
        cases e2 with
        | some e3 =>
          simp only [hr, Option.some.injEq] at h
          rw [← h]
          exact hf
        | none =>
          simp only [hr, Option.some.injEq] at h
          rw [← h]
          exact wireInv_after_notify hf _ _ _
  · cases hr : registerNexthops w v entry.Nexthops oks with
    | none => rw [hr] at h; simp at h
    | some res =>
      obtain ⟨w2, e2⟩ := res
      have hf := wireInv_after_registerNexthops v _ w oks w2 e2 inv hr
      cases e2 with
      | some e3 =>
        simp only [hr, Option.some.injEq] at h
        rw [← h]
        exact hf
      | none =>
        simp only [hr, Option.some.injEq] at h
        rw [← h]
        exact wireInv_after_notify hf _ _ _

theorem wireInv_after_pbrEntryAdded {w w1 : World} (inv : WireInv w) (v : VRFPtr)
    (entry : PBREntry) (oks : List Bool) (h : pbrEntryAdded w v entry oks = some w1) :
    WireInv w1 := by
  unfold pbrEntryAdded at h
  cases hr : registerPBRNexthops w v entry.NextHops oks with
  | none => rw [hr] at h; simp at h
  | some res =>
    obtain ⟨w2, e2⟩ := res
    have hf := wireInv_after_registerPBRNexthops v _ w oks w2 e2 inv hr
    cases e2 with
    | some e3 =>
      simp only [hr, Option.some.injEq] at h
      rw [← h]
      exact hf
    | none =>
      simp only [hr, Option.some.injEq] at h
      rw [← h]
      exact wireInv_after_notify hf _ _ _

/-- What a successful `addVIFConnects` leaves. -/
theorem addVIFConnects_attached (w : World) (v : VRFPtr) (o : VRF) (r : InstPtr) (vif : VIFPtr)
    (f : VIF) (x : AddVIFExt) (w1 : World)
    (h : addVIFConnects w v o r vif f x = some (w1, none)) :
    w1.vrfs = updAt w.vrfs v (fun o1 =>
        { o1 with devs := mapSet o1.devs f.index (OutputDevice.vif vif) }) ∧
      w1.wires = w.wires ∧
      ∃ G : VIF → VIF, w1.vifs = updAt w.vifs vif G ∧
        ∀ g, (G g).index = g.index ∧ (G g).vrf = g.vrf := by
  obtain ⟨x1, x2, x3, x4, x5, x6, x7⟩ := x
  unfold addVIFConnects at h
  cases x4 with
  | false =>
    simp only [vifConnect, Bool.false_eq_true, if_false] at h
    cases ht : o.tap <;> simp [ht] at h
  | true =>
    cases x5 with
    | false =>
      simp only [vifConnect, Bool.false_eq_true, if_false, if_true] at h
      cases ht : o.tap <;> simp [ht] at h
    | true =>
      cases x6 with
      | false =>
        simp only [vifConnect, Bool.false_eq_true, if_false, if_true] at h
        cases ht : o.tap <;> simp [ht] at h
      | true =>
        simp only [vifConnect, if_true] at h
        cases hn : f.napt with
        | false =>
          simp only [hn, Bool.false_eq_true, if_false, Option.some.injEq, Prod.mk.injEq,
            and_true] at h
          subst h
          refine ⟨rfl, rfl, (fun g => { g with rules := ((g.rules ++
            [Rule.mk VswMatch.MatchEthDstSelf Param.nil (Ring.instInput r)]) ++
            [Rule.mk VswMatch.MatchEthDstBC Param.nil (Ring.instInput r)]) ++
            [Rule.mk VswMatch.MatchEthDstMC Param.nil (Ring.instInput r)] }), ?_, ?_⟩
          · simp only [notify, updAt_updAt]
          · intro g
            exact ⟨rfl, rfl⟩
        | true =>
          cases x7 with
          | false =>
            simp only [hn, routerEnableNAPT, Bool.false_eq_true, if_false, if_true] at h
            cases ht : o.tap <;> simp [ht] at h
          | true =>
            simp only [hn, routerEnableNAPT, if_true, Option.some.injEq, Prod.mk.injEq,
              and_true] at h
            subst h
            refine ⟨rfl, ?_, (fun g => { g with rules := ((g.rules ++
            [Rule.mk VswMatch.MatchEthDstSelf Param.nil (Ring.instInput r)]) ++
            [Rule.mk VswMatch.MatchEthDstBC Param.nil (Ring.instInput r)]) ++
            [Rule.mk VswMatch.MatchEthDstMC Param.nil (Ring.instInput r)] }), ?_, ?_⟩
            · simp only [World.wires, notify]
              rw [wires_napt]
            · simp only [notify, updAt_updAt]
            · intro g
              exact ⟨rfl, rfl⟩

/-- What a successful `AddVIF` of a VIF outside `v.devs` leaves. -/
theorem AddVIF_attached (w : World) (v : VRFPtr) (vif : VIFPtr) (x : AddVIFExt) (w1 : World)
    (o : VRF) (f : VIF) (ho : w.vrfs[v]? = some o) (hf : w.vifs[vif]? = some f)
    (hnot : mapHas o.devs f.index = false) (h : AddVIF w v vif x = some (w1, none)) :
    ∃ r, o.router = some r ∧
      w1.vrfs = updAt w.vrfs v (fun o1 =>
        { o1 with devs := mapSet o1.devs f.index (OutputDevice.vif vif) }) ∧
      (∃ G : VIF → VIF, w1.vifs = updAt w.vifs vif G ∧
        ∀ g, (G g).index = g.index ∧ (G g).vrf = some v) ∧
      (w1.wires = updAt w.wires r (fun p => (p.1 ++ [vif], p.2)) ∨
        ∃ t, o.tap = some t ∧
          w1.wires = updAt (updAt w.wires r (fun p => (p.1 ++ [vif], p.2))) t (fun p =>
            (p.1, p.2 ++ [Rule.mk VswMatch.MatchOutVIF (Param.vif vif)
              (Ring.vifOutbound vif)]))) := by
  obtain ⟨x1, x2, x3, x4, x5, x6, x7⟩ := x
  unfold AddVIF at h
  rw [ho, hf] at h
  simp only [hnot, Bool.false_eq_true, if_false, vifSetVRF, hf] at h
  by_cases hb : (x1 && f.vrf.isNone) = true
  · simp only [hb, if_true] at h
    cases hr : o.router with
    | none => simp [hr] at h
    | some r =>
      simp only [hr] at h
      cases x2 with
      | false => simp [routerAddVIF] at h
      | true =>
        simp only [routerAddVIF, if_true] at h
        cases htn : f.tunnel with
        | none =>
          simp only [htn, Option.isNone_none, if_true] at h
          cases ht : o.tap with
          | none => simp [ht] at h
          | some t =>
            simp only [ht] at h
            cases x3 with
            | false => simp [instConnect] at h
            | true =>
              simp only [instConnect, if_true] at h
              obtain ⟨h1, h2, G, h3, h4⟩ := addVIFConnects_attached _ v o r vif f _ w1 h
              refine ⟨r, rfl, h1, ⟨fun g => G { g with vrf := some v }, ?_, ?_⟩, Or.inr ⟨t, rfl, ?_⟩⟩
              · rw [h3]
                simp only [updAt_updAt]
              · intro g
                exact ⟨(h4 _).1, (h4 _).2⟩
              · rw [h2]
                simp only [World.wires]
                rw [wires_connect, wires_addVIF]
        | some tn =>
          simp only [htn, Option.isNone_some, Bool.false_eq_true, if_false] at h
          obtain ⟨h1, h2, G, h3, h4⟩ := addVIFConnects_attached _ v o r vif f _ w1 h
          refine ⟨r, rfl, h1, ⟨fun g => G { g with vrf := some v }, ?_, ?_⟩, Or.inl ?_⟩
          · rw [h3]
            simp only [updAt_updAt]
          · intro g
            exact ⟨(h4 _).1, (h4 _).2⟩
          · rw [h2]
            simp only [World.wires]
            rw [wires_addVIF]
  · simp only [hb, Bool.false_eq_true, if_false, Option.some.injEq, Prod.mk.injEq] at h
    cases h.2

/-- An `AddVIF` whose bind succeeds and in which no later step fails returns
no error. -/
theorem AddVIF_succeeds (w : World) (v : VRFPtr) (vif : VIFPtr) (x : AddVIFExt) (o : VRF)
    (f : VIF) (r t : InstPtr) (ho : w.vrfs[v]? = some o) (hf : w.vifs[vif]? = some f)
    (hnot : mapHas o.devs f.index = false) (hr : o.router = some r) (ht : o.tap = some t)
    (hx : x.setVRF = true) (hunbound : f.vrf = none) (hok : addVIFFirstFailure f x = none) :
    ∃ w1, AddVIF w v vif x = some (w1, none) := by
  obtain ⟨x1, x2, x3, x4, x5, x6, x7⟩ := x
  obtain ⟨fi, fv, fr, ft, fn⟩ := f
  simp only at hx hunbound
  subst hx hunbound
  unfold AddVIF
  rw [ho, hf]
  simp only [hnot, hr, ht, vifSetVRF, hf, Bool.false_eq_true, if_false, Option.isNone_none,
    Bool.and_self, if_true]
  cases x2 <;> cases x4 <;> cases x5 <;> cases x6 <;> cases ft <;> cases x3 <;> cases fn <;>
    cases x7 <;> simp [addVIFFirstFailure, addVIFConnectsFailure] at hok <;>
    simp [routerAddVIF, instConnect, addVIFConnects, vifConnect, routerEnableNAPT]

theorem wireInv_after_AddVIF {w w1 : World} (dinv : DevInv w) (inv : WireInv w) (v : VRFPtr)
    (vif : VIFPtr) (x : AddVIFExt) (e : Option Err) (o : VRF) (r t : InstPtr)
    (ho : w.vrfs[v]? = some o) (hr : o.router = some r) (ht : o.tap = some t)
    (h : AddVIF w v vif x = some (w1, e)) : WireInv w1 := by
  cases hf : w.vifs[vif]? with
  | none => simp [AddVIF, ho, hf] at h
  | some f =>
    cases hm : mapHas o.devs f.index with
    | true =>
      have hw : w1 = w := by
        unfold AddVIF at h
        rw [ho, hf] at h
        simp only [hm, if_true, Option.some.injEq, Prod.mk.injEq] at h
        exact h.1.symm
      rw [hw]
      exact inv
    | false =>
      by_cases hb : x.setVRF = true ∧ f.vrf = none
      · cases hfail : addVIFFirstFailure f x with
        | some err =>
          obtain ⟨w2, h1, _, _, _, _, _, _, _, h2⟩ := AddVIF_failure_effect w v vif x o f r t err
            ho hf hm hr ht hb.1 hb.2 hfail
          rw [h] at h1
          simp only [Option.some.injEq, Prod.mk.injEq] at h1
          rw [h1.1, h2 (fresh_of_wireInv inv v vif o f r t ho hf hm hr ht hb.2)]
          exact inv
        | none =>
          obtain ⟨w2, h1⟩ := AddVIF_succeeds w v vif x o f r t ho hf hm hr ht hb.1 hb.2 hfail
          rw [h] at h1
          simp only [Option.some.injEq, Prod.mk.injEq] at h1
          obtain ⟨_, he⟩ := h1
          subst he
          obtain ⟨r1, hr1, hV, ⟨G, hF, hG⟩, hW⟩ := AddVIF_attached w v vif x w1 o f ho hf hm h
          rw [hr] at hr1
          simp only [Option.some.injEq] at hr1
          subst hr1
          have hobj : ∀ (u : Nat) (o1 : VRF), w1.vrfs[u]? = some o1 → ∃ ou, w.vrfs[u]? = some ou ∧
              o1.router = ou.router ∧ o1.tap = ou.tap ∧ (u ≠ v → o1.devs = ou.devs) ∧
              (u = v → o1.devs = mapSet ou.devs f.index (OutputDevice.vif vif)) := by
            intro u o1 h1
            rw [hV, getElem?_updAt] at h1
            cases hu : w.vrfs[u]? with
            | none => simp [hu] at h1
            | some ou =>
              by_cases hvu : v = u
              · simp only [hvu, hu, if_true, Option.map_some', Option.some.injEq] at h1
                subst h1
                exact ⟨ou, rfl, rfl, rfl, fun hne => absurd hvu.symm hne, fun _ => rfl⟩
              · simp only [hvu, hu, if_false, Option.some.injEq] at h1
                subst h1
                exact ⟨ou, rfl, rfl, rfl, fun _ => rfl, fun he => absurd he.symm hvu⟩
          have hw : ∀ (i : Nat) (p1 : List VIFPtr × List Rule), w1.wires[i]? = some p1 →
              ∃ p, w.wires[i]? = some p ∧
                (∀ q, q ∈ p1.1 → q ∈ p.1 ∨ (i = r ∧ q = vif)) ∧
                (∀ rule, rule ∈ p1.2 → rule ∈ p.2 ∨ (i = t ∧ rule.param = Param.vif vif)) := by
            intro i p1 hp
            cases hpi : w.wires[i]? with
            | none =>
              rcases hW with hW | ⟨t1, _, hW⟩ <;> rw [hW] at hp <;>
                simp only [getElem?_updAt] at hp
              · by_cases h1 : r = i <;> simp [hpi, h1] at hp
              · by_cases h1 : r = i <;> by_cases h2 : t1 = i <;> simp [hpi, h1, h2] at hp
            | some p =>
              refine ⟨p, rfl, ?_, ?_⟩
              · rcases hW with hW | ⟨t1, ht1, hW⟩ <;> rw [hW] at hp <;>
                  simp only [getElem?_updAt] at hp
                · by_cases h1 : r = i <;>
                    simp only [hpi, h1, if_true, if_false, Option.map_some',
                      Option.some.injEq] at hp <;> subst hp <;> intro q hq
                  · simp only [List.mem_append, List.mem_singleton] at hq
                    exact hq.imp id (fun hc => ⟨h1.symm, hc⟩)
                  · exact Or.inl hq
                · by_cases h1 : r = i <;> by_cases h2 : t1 = i <;>
                    simp only [hpi, h1, h2, if_true, if_false, Option.map_some',
                      Option.some.injEq] at hp <;> subst hp <;> intro q hq
                  · simp only [List.mem_append, List.mem_singleton] at hq
                    exact hq.imp id (fun hc => ⟨h1.symm, hc⟩)
                  · simp only [List.mem_append, List.mem_singleton] at hq
                    exact hq.imp id (fun hc => ⟨h1.symm, hc⟩)
                  · exact Or.inl hq
                  · exact Or.inl hq
              · rcases hW with hW | ⟨t1, ht1, hW⟩ <;> rw [hW] at hp <;>
                  simp only [getElem?_updAt] at hp
                · by_cases h1 : r = i <;>
                    simp only [hpi, h1, if_true, if_false, Option.map_some',
                      Option.some.injEq] at hp <;> subst hp <;> intro rule hq
                  · exact Or.inl hq
                  · exact Or.inl hq
                · rw [ht] at ht1
                  simp only [Option.some.injEq] at ht1
                  subst ht1
                  by_cases h1 : r = i <;> by_cases h2 : t = i <;>
                    simp only [hpi, h1, h2, if_true, if_false, Option.map_some',
                      Option.some.injEq] at hp <;> subst hp <;> intro rule hq
                  · simp only [List.mem_append, List.mem_singleton] at hq
                    exact hq.imp id (fun hc => ⟨h2.symm, by rw [hc]⟩)
                  · exact Or.inl hq
                  · simp only [List.mem_append, List.mem_singleton] at hq
                    exact hq.imp id (fun hc => ⟨h2.symm, by rw [hc]⟩)
                  · exact Or.inl hq
          have hvf : ∀ (q : Nat) (f1 : VIF), w1.vifs[q]? = some f1 → ∃ g, w.vifs[q]? = some g ∧
              f1.index = g.index ∧ (q ≠ vif → f1 = g) ∧ (q = vif → f1.vrf = some v) := by
            intro q f1 h1
            rw [hF, getElem?_updAt] at h1
            cases hq : w.vifs[q]? with
            | none => simp [hq] at h1
            | some g =>
              by_cases hvq : vif = q
              · simp only [hvq, hq, if_true, Option.map_some', Option.some.injEq] at h1
                subst h1
                exact ⟨g, rfl, (hG g).1, fun hne => absurd hvq.symm hne, fun _ => (hG g).2⟩
              · simp only [hvq, hq, if_false, Option.some.injEq] at h1
                subst h1
                exact ⟨g, rfl, rfl, fun _ => rfl, fun he => absurd he.symm hvq⟩
          have hvb : ∀ (q : Nat) (g : VIF), w.vifs[q]? = some g → ∃ f1, w1.vifs[q]? = some f1 ∧
              f1.index = g.index := by
            intro q g hq
            rw [hF, getElem?_updAt, hq]
            by_cases hvq : vif = q
            · simp only [hvq, if_true, Option.map_some']
              exact ⟨_, rfl, (hG g).1⟩
            · simp only [hvq, if_false]
              exact ⟨_, rfl, rfl⟩
          have hkeep : ∀ (u : Nat) (o1 ou : VRF) (q : Nat) (g : VIF), w1.vrfs[u]? = some o1 →
              w.vrfs[u]? = some ou → w.vifs[q]? = some g →
              (g.index, OutputDevice.vif q) ∈ ou.devs →
              ∃ f1, w1.vifs[q]? = some f1 ∧ (f1.index, OutputDevice.vif q) ∈ o1.devs := by
            intro u o1 ou q g h1 h2 hq hmem
            obtain ⟨f1, hf1, hidx⟩ := hvb q g hq
            refine ⟨f1, hf1, ?_⟩
            obtain ⟨ou1, h3, _, _, h5, h6⟩ := hobj u o1 h1
            rw [h2] at h3
            simp only [Option.some.injEq] at h3
            subst h3
            rw [hidx]
            by_cases huv : u = v
            · rw [h6 huv]
              subst huv
              rw [ho] at h2
              simp only [Option.some.injEq] at h2
              subst h2
              simp only [mapSet, List.mem_cons]
              refine Or.inr ((mem_mapDelete _ _ _).2 ⟨hmem, ?_⟩)
              intro hc
              have := mapHas_of_mem _ _ hmem
              simp only at hc this
              rw [hc, hm] at this
              cases this
            · rw [h5 huv]
              exact hmem
          have hnew : ∀ (o1 : VRF), w1.vrfs[v]? = some o1 →
              ∃ f1, w1.vifs[vif]? = some f1 ∧ (f1.index, OutputDevice.vif vif) ∈ o1.devs := by
            intro o1 h1
            obtain ⟨f1, hf1, hidx⟩ := hvb vif f hf
            refine ⟨f1, hf1, ?_⟩
            obtain ⟨ou1, h3, _, _, _, h6⟩ := hobj v o1 h1
            rw [h6 rfl, hidx]
            rw [ho] at h3
            simp only [Option.some.injEq] at h3
            subst h3
            simp [mapSet]
          refine ⟨?_, ?_, ?_, ?_, ?_, ?_⟩
          · intro u o1 r1 p1 q h1 hr1 hp hq
            obtain ⟨ou, h2, h3, _, _, _⟩ := hobj u o1 h1
            obtain ⟨p, hp0, hp1, _⟩ := hw r1 p1 hp
            rw [h3] at hr1
            rcases hp1 q hq with hold | ⟨hi, hqv⟩
            · obtain ⟨g, hg, hmem⟩ := inv.routedIn u ou r1 p q h2 hr1 hp0 hold
              exact hkeep u o1 ou q g h1 h2 hg hmem
            · subst hi hqv
              have huv : u = v := dinv.own u v ou o r1 h2 ho hr1 hr
              subst huv
              exact hnew o1 h1
          · intro u o1 t1 p1 rule q h1 ht1 hp hrule hprm
            obtain ⟨ou, h2, _, h3, _, _⟩ := hobj u o1 h1
            obtain ⟨p, hp0, _, hp2⟩ := hw t1 p1 hp
            rw [h3] at ht1
            rcases hp2 rule hrule with hold | ⟨hi, hqv⟩
            · obtain ⟨g, hg, hmem⟩ := inv.tapped u ou t1 p rule q h2 ht1 hp0 hold hprm
              exact hkeep u o1 ou q g h1 h2 hg hmem
            · subst hi
              rw [hprm] at hqv
              simp only [Param.vif.injEq] at hqv
              subst hqv
              have huv : u = v := inv.tapOwn u v ou o t1 h2 ho ht1 ht
              subst huv
              exact hnew o1 h1
          · intro q f1 h1 hub rule hrule hprm
            obtain ⟨g, hg, _, h3, h4⟩ := hvf q f1 h1
            by_cases hq : q = vif
            · rw [h4 hq] at hub
              cases hub
            · rw [h3 hq] at hrule hub
              exact inv.unbound q g hg hub rule hrule hprm
          · intro u1 u2 o1 o2 t1 h1 h2 ht1 ht2
            obtain ⟨ou1, h3, _, h4, _, _⟩ := hobj u1 o1 h1
            obtain ⟨ou2, h5, _, h6, _, _⟩ := hobj u2 o2 h2
            rw [h4] at ht1
            rw [h6] at ht2
            exact inv.tapOwn u1 u2 ou1 ou2 t1 h3 h5 ht1 ht2
          · intro u o1 t1 h1 ht1
            obtain ⟨ou, h2, _, h3, _, _⟩ := hobj u o1 h1
            rw [h3] at ht1
            have := inv.tapValid u ou t1 h2 ht1
            rcases hW with hW | ⟨_, _, hW⟩ <;> rw [hW] <;> simp only [length_updAt] <;>
              exact this
          · intro p q f1 g1 hp hq hidx
            obtain ⟨g, hg, h3, _, _⟩ := hvf p f1 hp
            obtain ⟨g', hg', h3', _, _⟩ := hvf q g1 hq
            exact inv.distinct p q g g' hg hg' (by rw [← h3, ← h3', hidx])
      · have hw : w1 = w := by
          unfold AddVIF at h
          rw [ho, hf] at h
          simp only [hm, Bool.false_eq_true, if_false, vifSetVRF, hf] at h
          have hb1 : (x.setVRF && f.vrf.isNone) = false := by
            cases hx : x.setVRF <;> cases hv : f.vrf <;> simp_all
          simp only [hb1, Bool.false_eq_true, if_false, Option.some.injEq, Prod.mk.injEq] at h
          exact h.1.symm
        rw [hw]
        exact inv

theorem wires_connect_self (l : List Instance) (t : InstPtr) (prm : Param) (ring : Ring) :
    (updAt l t (fun m => { m with rules := m.rules ++
        [Rule.mk VswMatch.MatchIPv4DstSelf prm ring] })).map Instance.wires =
      l.map Instance.wires := by
  apply map_updAt_of_eq
  intro a
  simp [Instance.wires, List.filter_append]

/-- What `newVRFBuild` leaves of the wires: the modules it creates have no
wire, and the tap of the VRF object is as before or one of the new modules. -/
theorem newVRFBuild_wires (W : World) (vrf : VRFPtr) (name : String) (x : NewVRFExt)
    (w1 : World) (res : Result) (oW : VRF) (hW : W.vrfs[vrf]? = some oW)
    (h : newVRFBuild W vrf name x = some (w1, res)) :
    (∃ ext, w1.wires = W.wires ++ ext ∧ ∀ p, p ∈ ext → p = ([], [])) ∧
    ∃ o1, w1.vrfs[vrf]? = some o1 ∧
      (o1.tap = oW.tap ∨ ∃ t, o1.tap = some t ∧ W.wires.length ≤ t ∧ t < w1.wires.length) := by
  obtain ⟨xv, xt, xr, xc⟩ := x
  unfold newVRFBuild at h
  have hrel : ∀ (W1 W2 : World) (e : Err), newVRFError1 W1 vrf e = some (W2, res) →
      ∃ B, W2 = { W1 with vrfMgr := { W1.vrfMgr with byIndex := B } } := by
    intro W1 W2 e he
    obtain ⟨o, _, _, h3⟩ := releaseIndex_some _ _ _ (newVRFError1_some _ _ _ _ _ he).2
    exact ⟨_, h3⟩
  cases hal : allocVIFIndex W (OutputDevice.vrf vrf) xv with
  | mk w2 ov =>
    have hw2 : ∃ X, w2 = { W with vifIdxMgr := X } := by
      unfold allocVIFIndex at hal
      cases xv with
      | none =>
        simp only [Prod.mk.injEq] at hal
        exact ⟨W.vifIdxMgr, hal.1.symm⟩
      | some vi =>
        simp only at hal
        split at hal
        · simp only [Prod.mk.injEq] at hal
          exact ⟨W.vifIdxMgr, hal.1.symm⟩
        · simp only [Prod.mk.injEq] at hal
          exact ⟨_, hal.1.symm⟩
    obtain ⟨X, hX⟩ := hw2
    subst hX
    simp only [hal] at h
    cases ov with
    | none =>
      simp only at h
      obtain ⟨B, hB⟩ := hrel _ w1 Err.vifIndex (by unfold newVRFError1; exact h)
      subst hB
      exact ⟨⟨[], by simp [World.wires], fun _ hp => by cases hp⟩, oW, hW, Or.inl rfl⟩
    | some vi =>
      simp only at h
      cases xt <;> cases xr <;> cases xc <;>
        simp only [newInstance, instConnect, newVRFError2, newVRFError3, if_true, if_false,
          Bool.false_eq_true] at h
      all_goals first
        | (obtain ⟨B, hB⟩ := hrel _ _ _ h
           subst hB)
        | (simp only [Option.some.injEq, Prod.mk.injEq] at h
           obtain ⟨hw, _⟩ := h
           subst hw)
      all_goals refine ⟨?_, ?_⟩
      all_goals first
        | (refine ⟨[], ?_, fun _ hp => by cases hp⟩
           simp [World.wires, instFree, notify, map_updAt_of_eq, Instance.wires]
           done)
        | (refine ⟨[([], [])], ?_, fun _ hp => by simpa using hp⟩
           simp [World.wires, instFree, notify, map_updAt_of_eq, Instance.wires]
           done)
        | (refine ⟨[([], []), ([], [])], ?_, fun _ hp => by simpa using hp⟩
           simp [World.wires, instFree, notify, map_updAt_of_eq, Instance.wires,
             wires_connect_self])
        | skip
      all_goals simp [getElem?_updAt, hW, instFree, notify, World.wires, length_updAt]

theorem NewVRF_wires (w : World) (name : String) (x : NewVRFExt) (w1 : World) (res : Result)
    (h : NewVRF w name x = some (w1, res)) :
    (∃ ext, w1.wires = w.wires ++ ext ∧ ∀ p, p ∈ ext → p = ([], [])) ∧
    ∀ (u : Nat) (o1 : VRF), w.vrfs.length ≤ u → w1.vrfs[u]? = some o1 →
      ∀ t, o1.tap = some t → w.wires.length ≤ t ∧ t < w1.wires.length := by
  have hsame : ∀ w2 : World, w2.insts = w.insts → w2.vrfs = w.vrfs ++ [VRF.new name] →
      (∃ ext, w2.wires = w.wires ++ ext ∧ ∀ p, p ∈ ext → p = ([], [])) ∧
      ∀ (u : Nat) (o1 : VRF), w.vrfs.length ≤ u → w2.vrfs[u]? = some o1 →
        ∀ t, o1.tap = some t → w.wires.length ≤ t ∧ t < w2.wires.length := by
    intro w2 hi hv
    refine ⟨⟨[], by simp [World.wires, hi], fun _ hp => by cases hp⟩, ?_⟩
    intro u o1 hu ho t ht
    rw [hv] at ho
    have hlt := getElem?_some_lt ho
    simp only [List.length_append, List.length_singleton] at hlt
    have hul : u = w.vrfs.length := by omega
    subst hul
    simp only [List.getElem?_concat_length, Option.some.injEq] at ho
    subst ho
    simp [VRF.new] at ht
  unfold NewVRF at h
  by_cases hre : reMatchString name = true
  · by_cases hfresh : mapHas w.vrfMgr.byName name = true
    · simp only [hre, hfresh, Bool.not_true, Bool.false_eq_true, if_false, if_true,
        Option.some.injEq, Prod.mk.injEq] at h
      rw [← h.1]
      refine ⟨⟨[], by simp, fun _ hp => by cases hp⟩, ?_⟩
      intro u o1 hu ho
      have := getElem?_some_lt ho
      omega
    · simp only [hre, hfresh, Bool.not_true, Bool.false_eq_true, if_false] at h
      cases ha : assignIndex { w with vrfs := w.vrfs ++ [VRF.new name] } w.vrfs.length with
      | none => simp [ha] at h
      | some res1 =>
        obtain ⟨wa, b⟩ := res1
        simp only [ha] at h
        rcases assignIndex_cases _ _ wa b ha with ⟨hw, hb⟩ | ⟨k, hw, hb⟩
        · subst hw hb
          simp only [Option.some.injEq, Prod.mk.injEq] at h
          rw [← h.1]
          exact hsame _ rfl rfl
        · subst hw hb
          simp only at h
          have hW : (takeSlot { w with vrfs := w.vrfs ++ [VRF.new name] } w.vrfs.length k).vrfs[
              w.vrfs.length]? = some { VRF.new name with index := k } := by
            simp [takeSlot, getElem?_updAt]
          obtain ⟨e1, o1, e2, e3⟩ := newVRFBuild_wires _ _ name x w1 res _ hW h
          obtain ⟨_, e4, _, _, _⟩ := newVRFBuild_effect _ _ name x w1 res _ hW h
          have hlen : w1.vrfs.length = w.vrfs.length + 1 := by
            rw [e4]
            simp [takeSlot, length_updAt]
          have hwi : (takeSlot { w with vrfs := w.vrfs ++ [VRF.new name] } w.vrfs.length k).wires =
              w.wires := by
            simp [takeSlot, World.wires]
          rw [hwi] at e1 e3
          refine ⟨e1, ?_⟩
          intro u o2 hu ho t ht
          have hlt := getElem?_some_lt ho
          have hul : u = w.vrfs.length := by omega
          subst hul
          rw [e2] at ho
          simp only [Option.some.injEq] at ho
          subst ho
          rcases e3 with h3 | ⟨t1, h3, h4, h5⟩
          · rw [h3] at ht
            simp [VRF.new] at ht
          · rw [h3] at ht
            simp only [Option.some.injEq] at ht
            subst ht
            exact ⟨h4, h5⟩
  · simp only [hre, Bool.not_false, if_true, Option.some.injEq, Prod.mk.injEq] at h
    rw [← h.1]
    refine ⟨⟨[], by simp, fun _ hp => by cases hp⟩, ?_⟩
    intro u o1 hu ho
    have := getElem?_some_lt ho
    omega

theorem wireInv_after_NewVRF {w w1 : World} (dinv : DevInv w) (inv : WireInv w)
    (name : String) (x : NewVRFExt) (res : Result) (h : NewVRF w name x = some (w1, res)) :
    WireInv w1 := by
  have g := NewVRF_grown w name x w1 res h
  obtain ⟨⟨ext, hext, hempty⟩, htap⟩ := NewVRF_wires w name x w1 res h
  have hrl : w.routing.length = w.wires.length := by simp [World.routing, World.wires]
  have hwold : ∀ (i : Nat), i < w.wires.length → w1.wires[i]? = w.wires[i]? := by
    intro i hi
    rw [hext, List.getElem?_append_left hi]
  have hwnew : ∀ (i : Nat) (p : List VIFPtr × List Rule), w.wires.length ≤ i →
      w1.wires[i]? = some p → p = ([], []) := by
    intro i p hi hp
    rw [hext, List.getElem?_append_right hi] at hp
    exact hempty p (List.getElem?_mem hp)
  have hle : w.wires.length ≤ w1.wires.length := by
    rw [hext]
    simp
  have hcase : ∀ (u : Nat) (o1 : VRF), w1.vrfs[u]? = some o1 →
      w.vrfs[u]? = some o1 ∨ (w.vrfs.length ≤ u ∧ u = w.vrfs.length ∧
        (∀ r, o1.router = some r → w.wires.length ≤ r) ∧
        (∀ t, o1.tap = some t → w.wires.length ≤ t ∧ t < w1.wires.length)) := by
    intro u o1 ho
    by_cases hu : u < w.vrfs.length
    · rw [g.old u hu] at ho
      exact Or.inl ho
    · obtain ⟨h1, _, h3⟩ := g.fresh u o1 (by omega) ho
      refine Or.inr ⟨by omega, h1, ?_, htap u o1 (by omega) ho⟩
      intro r hr
      rw [← hrl]
      exact (h3 r hr).1
  refine ⟨?_, ?_, ?_, ?_, ?_, ?_⟩
  · intro u o1 r p q ho hr hp hq
    rcases hcase u o1 ho with h1 | ⟨_, _, h2, _⟩
    · have hv := dinv.valid u o1 r h1 hr
      rw [hrl] at hv
      rw [hwold r hv] at hp
      rw [g.vifs]
      exact inv.routedIn u o1 r p q h1 hr hp hq
    · have := hwnew r p (h2 r hr) hp
      rw [this] at hq
      cases hq
  · intro u o1 t p rule q ho ht hp hrule hprm
    rcases hcase u o1 ho with h1 | ⟨_, _, _, h2⟩
    · have hv := inv.tapValid u o1 t h1 ht
      rw [hwold t hv] at hp
      rw [g.vifs]
      exact inv.tapped u o1 t p rule q h1 ht hp hrule hprm
    · have := hwnew t p (h2 t ht).1 hp
      rw [this] at hrule
      cases hrule
  · intro q f hf
    rw [g.vifs] at hf
    exact inv.unbound q f hf
  · intro u v ou ov t hu hv htu htv
    rcases hcase u ou hu with h1 | ⟨_, h1, _, h2⟩ <;>
      rcases hcase v ov hv with h3 | ⟨_, h3, _, h4⟩
    · exact inv.tapOwn u v ou ov t h1 h3 htu htv
    · exact absurd (Nat.lt_of_lt_of_le (inv.tapValid u ou t h1 htu) (h4 t htv).1)
        (Nat.lt_irrefl _)
    · exact absurd (Nat.lt_of_lt_of_le (inv.tapValid v ov t h3 htv) (h2 t htu).1)
        (Nat.lt_irrefl _)
    · rw [h1, h3]
  · intro v o t ho ht
    rcases hcase v o ho with h1 | ⟨_, _, _, h2⟩
    · exact Nat.lt_of_lt_of_le (inv.tapValid v o t h1 ht) hle
    · exact (h2 t ht).2
  · intro p q f g1 hp hq
    rw [g.vifs] at hp hq
    exact inv.distinct p q f g1 hp hq

theorem wireInv_at_empty (M : Nat) (vifs : List VIF) (hclean : CleanVIFs vifs) :
    WireInv (World.empty M vifs) := by
  refine ⟨?_, ?_, ?_, ?_, ?_, ?_⟩
  · intro u o r p q ho
    simp [World.empty] at ho
  · intro u o t p rule q ho
    simp [World.empty] at ho
  · intro q f hf
    exact hclean.2 f (List.getElem?_mem hf)
  · intro u v ou ov t ho
    simp [World.empty] at ho
  · intro v o t ho
    simp [World.empty] at ho
  · intro p q f g hp hq hidx
    have hp1 : (vifs.map VIF.index)[p]? = some f.index := by
      rw [List.getElem?_map]
      simp only [World.empty] at hp
      rw [hp]
      rfl
    have hq1 : (vifs.map VIF.index)[q]? = some f.index := by
      rw [List.getElem?_map]
      simp only [World.empty] at hq
      rw [hq, hidx]
      rfl
    have hpl := getElem?_some_lt hp1
    have hql := getElem?_some_lt hq1
    rw [List.getElem?_eq_getElem hpl] at hp1
    rw [List.getElem?_eq_getElem hql] at hq1
    simp only [Option.some.injEq] at hp1 hq1
    exact (List.Nodup.getElem_inj_iff hclean.1).1 (hp1.trans hq1.symm)

theorem live_handles {w : World} (dinv : DevInv w) (v : VRFPtr) (hl : isLive w v = true) :
    ∃ o r t, w.vrfs[v]? = some o ∧ o.router = some r ∧ o.tap = some t := by
  cases ho : w.vrfs[v]? with
  | none => simp [isLive, ho] at hl
  | some o =>
    have hbn : mapGet w.vrfMgr.byName o.name = some v := by
      simpa [isLive, ho] using hl
    obtain ⟨o2, r, t, h3, hr, ht⟩ := dinv.handles o.name v hbn
    rw [ho] at h3
    simp only [Option.some.injEq] at h3
    subst h3
    exact ⟨o, r, t, rfl, hr, ht⟩

theorem wireInv_after_step {w w1 : World} (dinv : DevInv w) (inv : WireInv w) (op : Op)
    (h : step w op = some w1) : WireInv w1 := by
  cases op with
  | newVRF name x =>
    simp only [Vsw.step, Option.map_eq_some'] at h
    obtain ⟨⟨w2, res⟩, h1, h2⟩ := h
    simp only at h2
    subst h2
    exact wireInv_after_NewVRF dinv inv name x res h1
  | free v order =>
    simp only [Vsw.step] at h
    split at h
    · split at h
      · exact wireInv_after_Free inv v h
      · simp at h
    · simp at h
  | setRD v rd =>
    simp only [Vsw.step] at h
    split at h
    · simp only [Option.map_eq_some'] at h
      obtain ⟨⟨w2, e⟩, h1, h2⟩ := h
      simp only at h2
      subst h2
      exact wireInv_after_SetRD inv v rd e h1
    · simp at h
  | addVIF v vif x =>
    simp only [Vsw.step] at h
    split at h
    · rename_i hl
      simp only [Option.map_eq_some'] at h
      obtain ⟨⟨w2, e⟩, h1, h2⟩ := h
      simp only at h2
      subst h2
      obtain ⟨o, r, t, ho, hr, ht⟩ := live_handles dinv v hl
      exact wireInv_after_AddVIF dinv inv v vif x e o r t ho hr ht h1
    · simp at h
  | deleteVIF v vif =>
    simp only [Vsw.step] at h
    split at h
    · simp only [Option.map_eq_some'] at h
      obtain ⟨⟨w2, e⟩, h1, h2⟩ := h
      simp only at h2
      subst h2
      exact wireInv_after_DeleteVIF inv v vif e h1
    · simp at h
  | registerOutputDevice v dev ok =>
    simp only [Vsw.step] at h
    split at h
    · simp only [Option.map_eq_some'] at h
      obtain ⟨⟨w2, e⟩, h1, h2⟩ := h
      simp only at h2
      subst h2
      exact wireInv_after_register inv v dev ok e h1
    · simp at h
  | routeEntryAdded v entry oks =>
    simp only [Vsw.step] at h
    split at h
    · exact wireInv_after_routeEntryAdded inv v entry oks h
    · simp at h
  | routeEntryDeleted v entry =>
    simp only [Vsw.step] at h
    split at h
    · simp only [Option.some.injEq] at h
      rw [← h]
      exact wireInv_after_notify inv _ _ _
    · simp at h
  | pbrEntryAdded v entry oks =>
    simp only [Vsw.step] at h
    split at h
    · exact wireInv_after_pbrEntryAdded inv v entry oks h
    · simp at h
  | pbrEntryDeleted v entry =>
    simp only [Vsw.step] at h
    split at h
    · simp only [Option.some.injEq] at h
      rw [← h]
      exact wireInv_after_notify inv _ _ _
    · simp at h

theorem wireInv_after_run (ops : List Op) :
    ∀ {w w1 : World}, DevInv w → WireInv w → run w ops = some w1 → WireInv w1 := by
  induction ops with
  | nil =>
    intro w w1 _ inv h
    simp only [Vsw.run, Option.some.injEq] at h
    rw [← h]
    exact inv
  | cons op ops ih =>
    intro w w1 dinv inv h
    simp only [Vsw.run] at h
    split at h
    · simp at h
    · rename_i w2 hs
      exact ih (devInv_after_step dinv op hs) (wireInv_after_step dinv inv op hs) h

/-- Every state reached from the empty registry over VIFs that start clean is
consistent in its connections. -/
theorem wireInv_of_reachable {M : Nat} {vifs : List VIF} {w : World} (hclean : CleanVIFs vifs)
    (h : Reachable M vifs w) : WireInv w := by
  obtain ⟨ops, hr⟩ := h
  exact wireInv_after_run ops (devInv_at_empty M vifs) (wireInv_at_empty M vifs hclean) hr

/-- C10: for a VIF that is not in `v.devs`, if the bind succeeds and a later
step of `AddVIF` fails (`router.addVIF`, the tap connect, one of the three VIF
connects, `enableNAPT`), `AddVIF` returns the error of that step; the registry,
every VRF object (so `v.devs`, which does not contain the VIF) and the
notifications are as before the call, and the VIF is unbound. In every state
reached from the empty registry by calls of the package, over VIFs that
started with pairwise different indices and, where unbound, without rule for
destination-is-self, broadcast or multicast, nothing that the call adds was
present before it (the router did not route the VIF, the tap had no outbound
rule for it, the VIF had none of the three rules) and the whole state after
the call is the state before it: modules, VIFs and their connections
included. The same holds in any other state in which nothing that the call
adds was present before it. -/
theorem AddVIF_failure_rolls_back (w : World) (v : VRFPtr) (vif : VIFPtr) (x : AddVIFExt)
    (o : VRF) (f : VIF) (r t : InstPtr) (e : Err)
    (ho : w.vrfs[v]? = some o) (hf : w.vifs[vif]? = some f)
    (hnot : mapHas o.devs f.index = false) (hr : o.router = some r) (ht : o.tap = some t)
    (hx : x.setVRF = true) (hunbound : f.vrf = none)
    (hfail : addVIFFirstFailure f x = some e) :
    ∃ w1, AddVIF w v vif x = some (w1, some e) ∧
      w1.vrfMgr = w.vrfMgr ∧ w1.vrfs = w.vrfs ∧ w1.vifIdxMgr = w.vifIdxMgr ∧ w1.noti = w.noti ∧
      (w1.vrfs[v]?).map VRF.devs = some o.devs ∧ mapHas o.devs f.index = false ∧
      (w1.vifs[vif]?).map VIF.vrf = some none ∧
      (AddVIFFresh w r t vif f → w1 = w) ∧
      (∀ (M : Nat) (vifs : List VIF), CleanVIFs vifs → Reachable M vifs w →
        AddVIFFresh w r t vif f ∧ w1 = w ∧ w1.insts = w.insts ∧ w1.vifs = w.vifs) := by
  obtain ⟨w1, h1, h2, h3, h4, h5, h6, h7, h8, h9⟩ :=
    AddVIF_failure_effect w v vif x o f r t e ho hf hnot hr ht hx hunbound hfail
  refine ⟨w1, h1, h2, h3, h4, h5, h6, h7, h8, h9, ?_⟩
  intro M vifs hclean hreach
  have hfresh := fresh_of_wireInv (wireInv_of_reachable hclean hreach) v vif o f r t ho hf hnot
    hr ht hunbound
  have hw := h9 hfresh
  exact ⟨hfresh, hw, by rw [hw], by rw [hw]⟩

/-- In `roundTripWorld`, reached from the empty registry over the two clean
VIFs of `demoVIFs`, the first VRF holds the first VIF, and the VIF with NAPT was
attached to it and detached again. Attaching it once more with `enableNAPT`,
the last step, failing returns that error and leaves the state as it was. -/
theorem AddVIF_failure_rolls_back_witness :
    (roundTripWorld.vrfs[0]? = some (roundTripWorld.vrfs.getD 0 (VRF.new "")) ∧
      roundTripWorld.vifs[1]? = some naptVIF ∧
      mapHas (roundTripWorld.vrfs.getD 0 (VRF.new "")).devs naptVIF.index = false ∧
      (roundTripWorld.vrfs.getD 0 (VRF.new "")).router = some 1 ∧
      (roundTripWorld.vrfs.getD 0 (VRF.new "")).tap = some 0 ∧
      (AddVIFExt.mk true true true true true true false).setVRF = true ∧
      naptVIF.vrf = none ∧
      addVIFFirstFailure naptVIF ⟨true, true, true, true, true, true, false⟩ =
        some Err.enableNAPT ∧
      CleanVIFs demoVIFs ∧ Reachable 2 demoVIFs roundTripWorld) ∧
    ∃ w1, AddVIF roundTripWorld 0 1 ⟨true, true, true, true, true, true, false⟩ =
        some (w1, some Err.enableNAPT) ∧
      w1.vrfMgr = roundTripWorld.vrfMgr ∧ w1.vrfs = roundTripWorld.vrfs ∧
      w1.vifIdxMgr = roundTripWorld.vifIdxMgr ∧ w1.noti = roundTripWorld.noti ∧
      (w1.vrfs[0]?).map VRF.devs = some (roundTripWorld.vrfs.getD 0 (VRF.new "")).devs ∧
      mapHas (roundTripWorld.vrfs.getD 0 (VRF.new "")).devs naptVIF.index = false ∧
      (w1.vifs[1]?).map VIF.vrf = some none ∧
      (AddVIFFresh roundTripWorld 1 0 1 naptVIF → w1 = roundTripWorld) ∧
      (∀ (M : Nat) (vifs : List VIF), CleanVIFs vifs → Reachable M vifs roundTripWorld →
        AddVIFFresh roundTripWorld 1 0 1 naptVIF ∧ w1 = roundTripWorld ∧
        w1.insts = roundTripWorld.insts ∧ w1.vifs = roundTripWorld.vifs) :=
  have hclean : CleanVIFs demoVIFs := by
    refine ⟨by decide, ?_⟩
    intro f hf _ rule hrule
    simp only [demoVIFs, List.mem_cons, List.mem_singleton, List.not_mem_nil, or_false] at hf
    rcases hf with hf | hf <;> rw [hf] at hrule <;> cases hrule
  have hreach : Reachable 2 demoVIFs roundTripWorld := ⟨pairOps ++ roundTripOps, by rfl⟩
  ⟨⟨by rfl, by rfl, by rfl, by rfl, by rfl, rfl, rfl, by rfl, hclean, hreach⟩,
    AddVIF_failure_rolls_back roundTripWorld 0 1 ⟨true, true, true, true, true, true, false⟩
      (roundTripWorld.vrfs.getD 0 (VRF.new "")) naptVIF 1 0 Err.enableNAPT (by rfl) (by rfl)
      (by rfl) (by rfl) (by rfl) rfl rfl (by rfl)⟩

end Vsw
